import Mathlib

/-!
# Profile files (`files/profile.c`): a shallow embedding

C strings are lists of character codes (`List Nat`, the terminating NUL left
out), byte buffers are lists of byte values.  `size_t`, `UINT` and `DWORD`
are 32 bits wide, as everywhere in this code base (the file itself casts
pointers to `int`), and `BYTE` is 8 bits wide; arithmetic that can wrap is
written with an explicit `%`.
-/

set_option autoImplicit false

namespace Profile

/-! ## libc character classes (C locale) -/

/-- The libc `isxdigit`: `0-9`, `A-F`, `a-f`. -/
def isxdigit (c : Nat) : Bool :=
  (48 ≤ c && c ≤ 57) || (65 ≤ c && c ≤ 70) || (97 ≤ c && c ≤ 102)

/-- The libc `toupper`: `a-z` go to `A-Z`. -/
def toupper (c : Nat) : Nat := if 97 ≤ c ∧ c ≤ 122 then c - 32 else c

/-- The libc `tolower`: `A-Z` go to `a-z`. -/
def tolower (c : Nat) : Nat := if 65 ≤ c ∧ c ≤ 90 then c + 32 else c

/-- The libc `isspace`: space, `\t`, `\n`, `\v`, `\f`, `\r`. -/
def isspace (c : Nat) : Bool := c == 32 || (9 ≤ c && c ≤ 13)

/-! ## Strings and memory -/

/-- A C string literal as a list of character codes. -/
def cs (s : String) : List Nat := s.toList.map Char.toNat

/-- The libc `strlen` on memory: the number of bytes before the first NUL. -/
def strlen (s : List Nat) : Nat := (s.takeWhile (· ≠ 0)).length

/-- The libc `strchr(p, c)` as an index into `p`, `none` for `NULL`. -/
def strchr (p : List Nat) (c : Nat) : Option Nat :=
  if c ∈ p then some (p.indexOf c) else none

/-- The libc `strrchr(p, c)` as an index into `p`, `none` for `NULL`. -/
def strrchr (p : List Nat) (c : Nat) : Option Nat :=
  if c ∈ p then some (p.length - 1 - p.reverse.indexOf c) else none

/-- The libc `strncasecmp(s1, s2, n)`; a read at the end of a list yields the
terminating NUL. -/
def strncasecmp : List Nat → List Nat → Nat → Int
  | _, _, 0 => 0
  | s1, s2, n + 1 =>
    if tolower (s1.headD 0) ≠ tolower (s2.headD 0) then
      (tolower (s1.headD 0) : Int) - (tolower (s2.headD 0) : Int)
    else if s1.headD 0 = 0 then 0
    else strncasecmp s1.tail s2.tail n

/-- The libc `strcasecmp(s1, s2)`. -/
def strcasecmp : List Nat → List Nat → Int
  | [], s2 => (tolower 0 : Int) - (tolower (s2.headD 0) : Int)
  | c :: s1, s2 =>
    if tolower c ≠ tolower (s2.headD 0) then (tolower c : Int) - (tolower (s2.headD 0) : Int)
    else if c = 0 then 0
    else strcasecmp s1 s2.tail

/-- Modelled from the spec: `lstrcpynA(dst, src, n)` is not under `src/`; it
copies at most `n - 1` characters of `src`, NUL-terminates the copy, and
writes nothing when `n` is 0.  `dst` is the memory from the destination
pointer on; the result is that memory after the call. -/
def lstrcpynA (dst src : List Nat) (n : Nat) : List Nat :=
  if n = 0 then dst else src.take (n - 1) ++ [0] ++ dst.drop ((src.take (n - 1)).length + 1)

/-- The write `buffer[i] = c` into memory. -/
def poke (buffer : List Nat) (i c : Nat) : List Nat := buffer.set i c

/-! ## The profile tree -/

/-- A key of a section, `struct tagPROFILEKEY`: `value` is `none` for `NULL`. -/
structure PROFILEKEY where
  name : List Nat
  value : Option (List Nat)
deriving DecidableEq

/-- A section, `struct tagPROFILESECTION`, with its chain of keys. -/
structure PROFILESECTION where
  name : List Nat
  key : List PROFILEKEY
deriving DecidableEq

/-- A cached profile, `PROFILE`; `section` is the chain of sections. -/
structure PROFILE where
  changed : Bool
  «section» : List PROFILESECTION
  dos_name : Option (List Nat)
  unix_name : Option (List Nat)
  filename : Option (List Nat)
  mtime : Nat
deriving DecidableEq

/-- The function `PROFILE_isspace`: `isspace`, or CR, or `^Z` (0x1a). -/
def PROFILE_isspace (c : Nat) : Bool := isspace c || c == 13 || c == 26

/-! ## PROFILE_CopyEntry -/

/-- The quote test at the head of `PROFILE_CopyEntry`: the value of `quote`
(0 when unset) and the value pointer after `quote = *value++`. -/
def PROFILE_CopyEntry_quote (value : List Nat) : Nat × List Nat :=
  if (value.headD 0 = 39 ∨ value.headD 0 = 34) ∧
      value.getD 1 0 ≠ 0 ∧ value.getD (value.length - 1) 0 = value.headD 0 then
    (value.headD 0, value.tail)
  else (0, value)

/-- The `for` loop of `PROFILE_CopyEntry` under `handle_env`.  `done` holds
the bytes before the `buffer` pointer, `buffer` the memory from the pointer
on; `p` is the rest of the value.  The result is `done`, `buffer` and `len`
at the end of the loop, and a flag: after a reference that ends the value,
`p = p2 + 1` points at the terminating NUL, the increment `*buffer++ = *p++`
copies that NUL and steps over it, and the loop test then reads the byte
after the string; the flag records this, and the loop is taken to stop
there.  The loop body runs at most `len` times, which bounds the fuel. -/
def PROFILE_CopyEntry_loop (getenv : List Nat → Option (List Nat)) :
    Nat → List Nat → Nat → List Nat → List Nat → List Nat × List Nat × Nat × Bool
  | 0, _, len, done, buffer => (done, buffer, len, false)
  | fuel + 1, p, len, done, buffer =>
    if p.headD 0 ≠ 0 ∧ len > 1 then
      let st : List Nat × Nat × List Nat × List Nat :=
        if p.headD 0 = 36 ∧ p.getD 1 0 = 123 then
          match strchr p 125 with
          | none => (p, len, done, buffer)
          | some i =>
            match getenv ((p.drop 2).take (min 1024 (i - 1) - 1)) with
            | some env_p =>
              let b := lstrcpynA buffer env_p len
              (p.drop (i + 1), len - strlen b, done ++ b.take (strlen b), b.drop (strlen b))
            | none => (p.drop (i + 1), len, done, buffer)
        else (p, len, done, buffer)
      if st.1 = [] then (st.2.2.1 ++ [0], st.2.2.2.tail, st.2.1 - 1, true)
      else
        PROFILE_CopyEntry_loop getenv fuel st.1.tail (st.2.1 - 1)
          (st.2.2.1 ++ [st.1.headD 0]) st.2.2.2.tail
    else (done, buffer, len, false)

/-- The function `PROFILE_CopyEntry(buffer, value, len, handle_env)`: `buffer` is the
memory from the destination pointer on (not `NULL`), the result is that
memory after the call; `getenv` is the environment.  The write
`buffer[strlen(buffer)-1]` with an empty buffer falls before the buffer and
is left out. -/
def PROFILE_CopyEntry (getenv : List Nat → Option (List Nat)) (buffer value : List Nat)
    (len : Nat) (handle_env : Bool) : List Nat :=
  let quote := (PROFILE_CopyEntry_quote value).1
  let value := (PROFILE_CopyEntry_quote value).2
  if !handle_env then
    let b := lstrcpynA buffer value len
    if quote ≠ 0 ∧ len ≥ value.length ∧ strlen b ≠ 0 then poke b (strlen b - 1) 0 else b
  else
    let r := PROFILE_CopyEntry_loop getenv len value len [] buffer
    if quote ≠ 0 ∧ r.2.2.1 > 1 then r.1.dropLast ++ [0] ++ r.2.1
    else r.1 ++ [0] ++ r.2.1.tail

/-- Whether `PROFILE_CopyEntry` under `handle_env` reads the byte after the
terminating NUL of `value` (the flag of `PROFILE_CopyEntry_loop`). -/
def PROFILE_CopyEntry_over (getenv : List Nat → Option (List Nat)) (buffer value : List Nat)
    (len : Nat) : Bool :=
  (PROFILE_CopyEntry_loop getenv len (PROFILE_CopyEntry_quote value).2 len [] buffer).2.2.2

/-! ## PROFILE_Save and PROFILE_Load -/

/-- The inner loop of `PROFILE_Save` over the keys of a section. -/
def PROFILE_Save_keys : List PROFILEKEY → List Nat
  | [] => []
  | key :: rest =>
    key.name ++ (match key.value with | some v => 61 :: v | none => []) ++ [13, 10]
      ++ PROFILE_Save_keys rest

/-- The function `PROFILE_Save`: the bytes printed to the file. -/
def PROFILE_Save : List PROFILESECTION → List Nat
  | [] => []
  | sec :: rest =>
    (if sec.name.headD 0 ≠ 0 then [13, 10, 91] ++ sec.name ++ [93, 13, 10] else [])
      ++ PROFILE_Save_keys sec.key ++ PROFILE_Save rest

/-- The characters `fgets` stores when `k` more fit: up to and including the
first newline; the second component is the rest of the file. -/
def fgets_read : Nat → List Nat → List Nat × List Nat
  | 0, file => ([], file)
  | _, [] => ([], [])
  | k + 1, c :: rest =>
    if c = 10 then ([c], rest) else ((fgets_read k rest).1.cons c, (fgets_read k rest).2)

/-- The libc `fgets(buffer, n, file)`: `none` at end of file, else the
characters read and the rest of the file. -/
def fgets (n : Nat) (file : List Nat) : Option (List Nat × List Nat) :=
  if file = [] then none else some (fgets_read (n - 1) file)

/-- Remove from the end of `s` the characters satisfying `f`, keeping the
first character of `s`: the loops `while ((p2 > p) && f(*p2)) *p2-- = 0`. -/
def trimTail (f : Nat → Bool) : List Nat → List Nat
  | [] => []
  | c :: rest => c :: rest.rdropWhile f

/-- The state of the loop of `PROFILE_Load`: the sections before the current
one, the current section (the one `next_key` points into), and `prev_key`. -/
structure LoadState where
  done : List PROFILESECTION
  cur : PROFILESECTION
  prev_key : Option PROFILEKEY
deriving DecidableEq

/-- The test `*p || !prev_key || *prev_key->name` of `PROFILE_Load`. -/
def PROFILE_Load_keep (name : List Nat) (prev_key : Option PROFILEKEY) : Bool :=
  name.headD 0 != 0 ||
    (match prev_key with
     | none => true
     | some k => k.name.headD 0 != 0)

/-- The key that `PROFILE_Load` reads from a line `p` (leading whitespace
already skipped) that is no section header: the end of the line is trimmed,
the name is what precedes the first `=` with its end trimmed, the value what
follows it with leading whitespace skipped; without a `=` the value is
`NULL`. -/
def PROFILE_Load_key (p : List Nat) : PROFILEKEY :=
  match strchr (trimTail (fun c => c == 10 || PROFILE_isspace c) p) 61 with
  | some i =>
    { name := trimTail PROFILE_isspace
        ((trimTail (fun c => c == 10 || PROFILE_isspace c) p).take i),
      value := some (((trimTail (fun c => c == 10 || PROFILE_isspace c) p).drop (i + 1)).dropWhile
        PROFILE_isspace) }
  | none => { name := trimTail (fun c => c == 10 || PROFILE_isspace c) p, value := none }

/-- One iteration of the loop of `PROFILE_Load` on the line `buffer`
(allocation is taken to succeed). -/
def PROFILE_Load_line (st : LoadState) (buffer : List Nat) : LoadState :=
  match (if (buffer.dropWhile PROFILE_isspace).headD 0 = 91 then
           strrchr (buffer.dropWhile PROFILE_isspace) 93 else none) with
  | some i =>
    { done := st.done ++ [st.cur],
      cur := { name := ((buffer.dropWhile PROFILE_isspace).take i).drop 1, key := [] },
      prev_key := none }
  | none =>
    if PROFILE_Load_keep (PROFILE_Load_key (buffer.dropWhile PROFILE_isspace)).name
        st.prev_key then
      { done := st.done,
        cur := { name := st.cur.name,
                 key := st.cur.key ++ [PROFILE_Load_key (buffer.dropWhile PROFILE_isspace)] },
        prev_key := some (PROFILE_Load_key (buffer.dropWhile PROFILE_isspace)) }
    else st

/-- The `while (fgets(...))` loop of `PROFILE_Load`; every `fgets` consumes
at least one character, so the length of the file bounds the fuel.  The line
buffer is read as a C string, up to its first NUL. -/
def PROFILE_Load_loop : Nat → List Nat → LoadState → LoadState
  | 0, _, st => st
  | fuel + 1, file, st =>
    match fgets 1024 file with
    | none => st
    | some r => PROFILE_Load_loop fuel r.2 (PROFILE_Load_line st (r.1.takeWhile (· ≠ 0)))

/-- The function `PROFILE_Load`: the chain of sections read from the file. -/
def PROFILE_Load (file : List Nat) : List PROFILESECTION :=
  let st := PROFILE_Load_loop file.length file
    { done := [], cur := { name := [], key := [] }, prev_key := none }
  st.done ++ [st.cur]

/-! ## PROFILE_Find and the deletions -/

/-- The match test of `PROFILE_Find` on a stored name:
`!strncasecmp(name, query, n) && name[n] == '\0'`. -/
def PROFILE_Find_match (name query : List Nat) (n : Nat) : Bool :=
  strncasecmp name query n == 0 && name.getD n 0 == 0

/-- The key scan of `PROFILE_Find` inside the matching section: the key chain
afterwards and the index of the key returned (`none` for `NULL`). -/
def PROFILE_Find_key (key : List PROFILEKEY) (key_name : List Nat) (keylen : Nat)
    (create create_always : Bool) : List PROFILEKEY × Option Nat :=
  match (if create_always then none
         else key.findIdx? (fun k => PROFILE_Find_match k.name key_name keylen)) with
  | some j => (key, some j)
  | none =>
    if !create then (key, none)
    else (key ++ [{ name := key_name, value := none }], some key.length)

/-- The section loop of `PROFILE_Find`, on the names already stripped of
leading spaces and the lengths `seclen`, `keylen`: the chain afterwards and
the position (section index, key index) of the key returned. -/
def PROFILE_Find_loop (section_name : List Nat) (seclen : Nat) (key_name : List Nat)
    (keylen : Nat) (create create_always : Bool) :
    List PROFILESECTION → List PROFILESECTION × Option (Nat × Nat)
  | [] =>
    if !create then ([], none)
    else ([{ name := section_name, key := [{ name := key_name, value := none }] }], some (0, 0))
  | sec :: rest =>
    if sec.name.headD 0 ≠ 0 ∧ PROFILE_Find_match sec.name section_name seclen = true then
      let r := PROFILE_Find_key sec.key key_name keylen create create_always
      ({ name := sec.name, key := r.1 } :: rest, r.2.map (fun j => (0, j)))
    else
      let r := PROFILE_Find_loop section_name seclen key_name keylen create create_always rest
      (sec :: r.1, r.2.map (fun ij => (ij.1 + 1, ij.2)))

/-- The function `PROFILE_Find(section, section_name, key_name, create, create_always)`
(allocation is taken to succeed): the chain of sections afterwards and the
position of the key returned, `none` for `NULL`. -/
def PROFILE_Find («section» : List PROFILESECTION) (section_name key_name : List Nat)
    (create create_always : Bool) : List PROFILESECTION × Option (Nat × Nat) :=
  let section_name := section_name.dropWhile PROFILE_isspace
  let seclen := (trimTail PROFILE_isspace section_name).length
  let key_name := key_name.dropWhile PROFILE_isspace
  let keylen := (trimTail PROFILE_isspace key_name).length
  PROFILE_Find_loop section_name seclen key_name keylen create create_always «section»

/-- The key at a position returned by `PROFILE_Find`. -/
def keyAt («section» : List PROFILESECTION) (pos : Nat × Nat) : Option PROFILEKEY :=
  match «section».get? pos.1 with
  | none => none
  | some sec => sec.key.get? pos.2

/-- The assignment `key->value = value` at a position. -/
def setValueAt («section» : List PROFILESECTION) (pos : Nat × Nat) (value : List Nat) :
    List PROFILESECTION :=
  «section».modify
    (fun sec => { name := sec.name,
                  key := sec.key.modify (fun k => { name := k.name, value := some value }) pos.2 })
    pos.1

/-- The function `PROFILE_DeleteSection`: the chain afterwards and the result. -/
def PROFILE_DeleteSection : List PROFILESECTION → List Nat → List PROFILESECTION × Bool
  | [], _ => ([], false)
  | sec :: rest, name =>
    if sec.name.headD 0 ≠ 0 ∧ strcasecmp sec.name name = 0 then (rest, true)
    else ((PROFILE_DeleteSection rest name).1.cons sec, (PROFILE_DeleteSection rest name).2)

/-- The key loop of `PROFILE_DeleteKey` in one section: the chain without the
first key named `key_name`, `none` when no key matches. -/
def PROFILE_DeleteKey_key : List PROFILEKEY → List Nat → Option (List PROFILEKEY)
  | [], _ => none
  | key :: rest, key_name =>
    if strcasecmp key.name key_name = 0 then some rest
    else (PROFILE_DeleteKey_key rest key_name).map (fun r => key :: r)

/-- The function `PROFILE_DeleteKey`: the chain afterwards and the result. -/
def PROFILE_DeleteKey : List PROFILESECTION → List Nat → List Nat → List PROFILESECTION × Bool
  | [], _, _ => ([], false)
  | sec :: rest, section_name, key_name =>
    match (if sec.name.headD 0 ≠ 0 ∧ strcasecmp sec.name section_name = 0 then
             PROFILE_DeleteKey_key sec.key key_name else none) with
    | some key => ({ name := sec.name, key := key } :: rest, true)
    | none =>
      ((PROFILE_DeleteKey rest section_name key_name).1.cons sec,
        (PROFILE_DeleteKey rest section_name key_name).2)

/-! ## PROFILE_GetSection, PROFILE_GetString, PROFILE_SetString -/

/-- The subtraction `a - b` on a 32-bit `UINT`. -/
def usub (a b : Nat) : Nat := (a + 4294967296 - b % 4294967296) % 4294967296

/-- The write `buffer[-1] = c`, on the bytes before the `buffer` pointer. -/
def pokeBack (done : List Nat) (c : Nat) : List Nat :=
  if done = [] then [] else done.dropLast ++ [c]

/-- Whether the write `buffer[strlen(buffer)-1] = '\0'` of `PROFILE_CopyEntry`
happens with an empty copy and so falls on `buffer[-1]`. -/
def PROFILE_CopyEntry_under (buffer value : List Nat) (len : Nat) (handle_env : Bool) : Bool :=
  let quote := (PROFILE_CopyEntry_quote value).1
  let value := (PROFILE_CopyEntry_quote value).2
  !handle_env &&
    decide (quote ≠ 0 ∧ len ≥ value.length ∧ strlen (lstrcpynA buffer value len) = 0)

/-- The key loop of `PROFILE_GetSection`: state `len`, the bytes before the
`buffer` pointer, and the memory from the pointer on.  A write of
`PROFILE_CopyEntry` to `buffer[-1]` lands on the last byte before the
pointer. -/
def PROFILE_GetSection_loop (getenv : List Nat → Option (List Nat))
    (handle_env return_values : Bool) :
    List PROFILEKEY → Nat → List Nat → List Nat → Nat × List Nat × List Nat
  | [], len, done, buffer => (len, done, buffer)
  | key :: rest, len, done, buffer =>
    if len ≤ 2 then (len, done, buffer)
    else if key.name.headD 0 = 0 then
      PROFILE_GetSection_loop getenv handle_env return_values rest len done buffer
    else if key.name.headD 0 = 59 then
      PROFILE_GetSection_loop getenv handle_env return_values rest len done buffer
    else
      let b := PROFILE_CopyEntry getenv buffer key.name (len - 1) handle_env
      let done0 :=
        if PROFILE_CopyEntry_under buffer key.name (len - 1) handle_env then pokeBack done 0
        else done
      let len1 := usub len (strlen b + 1)
      let done1 := done0 ++ b.take (strlen b + 1)
      let buffer1 := b.drop (strlen b + 1)
      if len1 < 2 then (len1, done1, buffer1)
      else
        match (if return_values then key.value else none) with
        | some value =>
          let b2 := PROFILE_CopyEntry getenv buffer1 value (len1 - 1) handle_env
          let done2 :=
            if PROFILE_CopyEntry_under buffer1 value (len1 - 1) handle_env then
              pokeBack (pokeBack done1 61) 0
            else pokeBack done1 61
          PROFILE_GetSection_loop getenv handle_env return_values rest
            (usub len1 (strlen b2 + 1)) (done2 ++ b2.take (strlen b2 + 1))
            (b2.drop (strlen b2 + 1))
        | none =>
          PROFILE_GetSection_loop getenv handle_env return_values rest len1 done1 buffer1

/-- The function `PROFILE_GetSection(section, section_name, buffer, len, handle_env,
return_values)` with `buffer` not `NULL`: the result and the memory of the
buffer afterwards.  `oldlen - 2` is computed on a `UINT` and returned as an
`INT`. -/
def PROFILE_GetSection (getenv : List Nat → Option (List Nat)) :
    List PROFILESECTION → List Nat → List Nat → Nat → Bool → Bool → Int × List Nat
  | [], _, buffer, _, _, _ => (0, (poke (poke buffer 1 0) 0 0))
  | sec :: rest, section_name, buffer, len, handle_env, return_values =>
    if sec.name.headD 0 ≠ 0 ∧ strcasecmp sec.name section_name = 0 then
      let r := PROFILE_GetSection_loop getenv handle_env return_values sec.key len [] buffer
      if r.1 ≤ 1 then ((len : Int) - 2, pokeBack r.2.1 0 ++ poke r.2.2 0 0)
      else ((len : Int) - (r.1 : Int), r.2.1 ++ poke r.2.2 0 0)
    else PROFILE_GetSection getenv rest section_name buffer len handle_env return_values

/-- The function `PROFILE_GetString(section, key_name, def_val, buffer, len)` on the
current profile, with `buffer` not `NULL`: the result and the memory of the
buffer afterwards; `none` stands for the dereference of a `NULL` section in
`PROFILE_Find`. -/
def PROFILE_GetString (getenv : List Nat → Option (List Nat)) (cur : PROFILE)
    («section» key_name def_val : Option (List Nat)) (buffer : List Nat) (len : Nat) :
    Option (Nat × List Nat) :=
  let def_val := def_val.getD []
  match key_name with
  | some key_name =>
    if key_name.headD 0 = 0 then some (0, buffer)
    else
      match «section» with
      | none => none
      | some section_name =>
        let key := (PROFILE_Find cur.«section» section_name key_name false false).2
        let value :=
          match key.bind (keyAt cur.«section») with
          | some k => k.value.getD def_val
          | none => def_val
        let b := PROFILE_CopyEntry getenv buffer value len false
        some (strlen b, b)
  | none =>
    if («section».getD []).headD 0 ≠ 0 then
      let b := (PROFILE_GetSection getenv cur.«section» («section».getD []) buffer len
        false false).2
      let b := if b.headD 0 = 0 then PROFILE_CopyEntry getenv b def_val len false else b
      some (strlen b, b)
    else some (0, poke buffer 0 0)

/-- The function `PROFILE_SetString(section_name, key_name, value, create_always)` on the
current profile: the profile afterwards and the result. -/
def PROFILE_SetString (cur : PROFILE) (section_name : List Nat)
    (key_name value : Option (List Nat)) (create_always : Bool) : PROFILE × Bool :=
  match key_name with
  | none =>
    let r := PROFILE_DeleteSection cur.«section» section_name
    ({ cur with changed := cur.changed || r.2, «section» := r.1 }, true)
  | some key_name =>
    match value with
    | none =>
      let r := PROFILE_DeleteKey cur.«section» section_name key_name
      ({ cur with changed := cur.changed || r.2, «section» := r.1 }, true)
    | some value =>
      let r := PROFILE_Find cur.«section» section_name key_name true create_always
      match r.2 with
      | none => ({ cur with «section» := r.1 }, false)
      | some pos =>
        match (keyAt r.1 pos).bind (fun k => k.value) with
        | some old =>
          let value := value.dropWhile PROFILE_isspace
          if old = value then ({ cur with «section» := r.1 }, true)
          else ({ cur with changed := true, «section» := setValueAt r.1 pos value }, true)
        | none => ({ cur with changed := true, «section» := setValueAt r.1 pos value }, true)

/-! ## Struct codec -/

/-- The table `hex[16] = "0123456789ABCDEF"`. -/
def hex : List Nat := [48, 49, 50, 51, 52, 53, 54, 55, 56, 57, 65, 66, 67, 68, 69, 70]

/-- The loop of `WritePrivateProfileStructA` over the bytes of `buf`:
`*p++ = hex[*binbuf >> 4]; *p++ = hex[*binbuf & 0xf]; sum += *binbuf;`.
Returns the characters written and the final `sum` (a `DWORD`). -/
def WritePrivateProfileStructA_loop : List Nat → Nat → List Nat × Nat
  | [], sum => ([], sum)
  | x :: rest, sum =>
    let r := WritePrivateProfileStructA_loop rest ((sum + x) % 2 ^ 32)
    (hex.getD (x / 16) 0 :: hex.getD (x % 16) 0 :: r.1, r.2)

/-- The text `outstring` that `WritePrivateProfileStructA` hands to
`PROFILE_SetString`: the hex digits of the bytes, then
`hex[(sum & 0xf0) >> 4]` and `hex[sum & 0xf]`. -/
def WritePrivateProfileStructA_outstring (buf : List Nat) : List Nat :=
  let r := WritePrivateProfileStructA_loop buf 0
  r.1 ++ [hex.getD (r.2 % 256 / 16) 0, hex.getD (r.2 % 16) 0]

/-- The expression `(c > '9') ? (c - 'A' + 10) : (c - '0')` of
`GetPrivateProfileStructA` as it lands in a `BYTE` (reduced modulo 256). -/
def nibble (c : Nat) : Nat := if c > 57 then (c - 55) % 256 else (c + 208) % 256

/-- The translation loop of `GetPrivateProfileStructA` over the characters
before `end`: state `highnibble`, `b`, the bytes fed to `binbuf` so far, and
`chksum` (a `DWORD`).  Returns the bytes written and the checksum. -/
def GetPrivateProfileStructA_loop : List Nat → Bool → Nat → List Nat → Nat → List Nat × Nat
  | [], _, _, out, chksum => (out, chksum)
  | p :: rest, highnibble, b, out, chksum =>
    let val := nibble (toupper p)
    if highnibble then
      GetPrivateProfileStructA_loop rest false (val * 16 % 256) out chksum
    else
      let b1 := (b + val) % 256
      GetPrivateProfileStructA_loop rest true b1 (out ++ [b1]) ((chksum + b1) % 2 ^ 32)

/-- The body of `GetPrivateProfileStructA` once the key `k` is found, on the
stored text `value = k->value` and the expected length `len`: the result
`ret` and the bytes written to `buf`.  `strlen(k->value) - 2` is a `size_t`
and wraps; a read at index `strlen` yields the terminating NUL. -/
def GetPrivateProfileStructA_decode (value : List Nat) (len : Nat) : Bool × List Nat :=
  if (value.length + 2 ^ 32 - 2) % 2 ^ 32 / 2 = len then
    if value.all isxdigit then
      let e := value.length - 2
      let r := GetPrivateProfileStructA_loop (value.take e) true 0 [] 0
      let b1 := nibble (toupper (value.getD e 0)) * 16 % 256
      let b2 := (b1 + nibble (toupper (value.getD (e + 1) 0))) % 256
      (b2 == r.2 % 256, r.1)
    else (false, [])
  else (false, [])

/-- The bytes spelled by consecutive pairs of hex digits, as the decoder
computes them. -/
def pairs : List Nat → List Nat
  | c1 :: c2 :: rest =>
    (nibble (toupper c1) * 16 % 256 + nibble (toupper c2)) % 256 :: pairs rest
  | _ => []

/-- The hex digits of a byte buffer, two per byte, high nibble first. -/
def hexDigits : List Nat → List Nat
  | [] => []
  | x :: rest => hex.getD (x / 16) 0 :: hex.getD (x % 16) 0 :: hexDigits rest

/-! ## Specification-side definitions -/

/-- Surrounding whitespace removed, in the words of the specification. -/
def trim (s : List Nat) : List Nat :=
  (s.dropWhile PROFILE_isspace).rdropWhile PROFILE_isspace

/-- Equality of two names ignoring ASCII letter case. -/
def eqIgnoreCase (a b : List Nat) : Bool := a.map tolower == b.map tolower

/-- The lookup in the words of the specification: the first key whose name
equals `trim K` ignoring case, searched only inside the first section whose
name is non-empty and equals `trim S` ignoring case. -/
def findSpec (sections : List PROFILESECTION) (S K : List Nat) : Option (Nat × Nat) :=
  match sections.findIdx? (fun sec => sec.name != [] && eqIgnoreCase sec.name (trim S)) with
  | none => none
  | some i =>
    match sections.get? i with
    | none => none
    | some sec =>
      (sec.key.findIdx? (fun k => eqIgnoreCase k.name (trim K))).map (fun j => (i, j))

/-- A chain of sections whose names are C strings (no NUL inside). -/
def namesAreCStrings (sections : List PROFILESECTION) : Prop :=
  ∀ sec ∈ sections, 0 ∉ sec.name ∧ ∀ k ∈ sec.key, 0 ∉ k.name

/-- The names of a chain: what `PROFILE_Find` looks at. -/
def skeleton (d : List PROFILESECTION) : List (List Nat × List (List Nat)) :=
  d.map (fun sec => (sec.name, sec.key.map (fun k => k.name)))

/-- The string does not end in whitespace. -/
def noTrailingSpace (s : List Nat) : Bool :=
  match s.getLast? with
  | none => true
  | some c => !PROFILE_isspace c

/-- The string does not start with whitespace. -/
def noLeadingSpace (s : List Nat) : Bool :=
  match s.head? with
  | none => true
  | some c => !PROFILE_isspace c

/-- The empty, clean profile. -/
def emptyProfile : PROFILE :=
  { changed := false, «section» := [], dos_name := none, unix_name := none, filename := none,
    mtime := 0 }

/-- The profile after `PROFILE_SetString(S, K, V, FALSE)` on the empty
profile, with the dirty flag cleared (as after a flush). -/
def afterSetFlushed (S K V : List Nat) : PROFILE :=
  { (PROFILE_SetString emptyProfile S (some K) (some V) false).1 with changed := false }

/-! ## Save and load: auxiliary definitions -/

/-- The line `PROFILE_Save` prints for a key. -/
def keyLine (k : PROFILEKEY) : List Nat :=
  k.name ++ (match k.value with | some v => 61 :: v | none => []) ++ [13, 10]

/-- The lines `PROFILE_Save` prints for a section. -/
def sectionLines (sec : PROFILESECTION) : List (List Nat) :=
  (if sec.name.headD 0 ≠ 0 then [[13, 10], [91] ++ sec.name ++ [93, 13, 10]] else [])
    ++ sec.key.map keyLine

/-- The lines `PROFILE_Save` prints for a chain of sections. -/
def saveLines : List PROFILESECTION → List (List Nat)
  | [] => []
  | sec :: rest => sectionLines sec ++ saveLines rest

/-- A line as `fgets` sees it: ends in a newline, has no other newline, fits the buffer,
and holds no NUL. -/
def IsLine (l : List Nat) : Prop :=
  ∃ body, l = body ++ [10] ∧ 10 ∉ body ∧ 0 ∉ body ∧ l.length ≤ 1023

/-- What `PROFILE_Load` guarantees of a key it stores. -/
def KeyOK (k : PROFILEKEY) : Prop :=
  0 ∉ k.name ∧ 10 ∉ k.name ∧ 61 ∉ k.name ∧
  noLeadingSpace k.name = true ∧ noTrailingSpace k.name = true ∧
  (∀ v, k.value = some v →
    0 ∉ v ∧ 10 ∉ v ∧ noLeadingSpace v = true ∧ noTrailingSpace v = true) ∧
  (k.name.headD 0 = 91 → 93 ∉ k.name ∧ ∀ v, k.value = some v → 93 ∉ v)

/-- The text of a key line before its line end. -/
def keyText (k : PROFILEKEY) : List Nat :=
  k.name ++ (match k.value with | some v => 61 :: v | none => [])

/-- A key stored with an empty name and no value: a blank line. -/
def blankKey : PROFILEKEY := { name := [], value := none }

/-- The last key of the section has an empty name. -/
def endsWithEmptyName (sec : PROFILESECTION) : Bool :=
  match sec.key.getLast? with
  | none => false
  | some k => k.name.headD 0 == 0

/-- The section with a blank key appended unless it already ends in a key with an
empty name. -/
def padSection (sec : PROFILESECTION) : PROFILESECTION :=
  if endsWithEmptyName sec then sec else { name := sec.name, key := sec.key ++ [blankKey] }

/-- Every section that is followed by another one padded with `padSection`. -/
def padBlank : List PROFILESECTION → List PROFILESECTION
  | [] => []
  | [sec] => [sec]
  | sec :: next :: rest => padSection sec :: padBlank (next :: rest)

/-- No two neighbouring keys both have an empty name. -/
def NoDoubleBlank (ks : List PROFILEKEY) : Prop :=
  List.Chain' (fun a b => ¬ (a.name.headD 0 = 0 ∧ b.name.headD 0 = 0)) ks

/-- What `PROFILE_Load` guarantees of a section it builds. -/
def SecOK (sec : PROFILESECTION) : Prop :=
  0 ∉ sec.name ∧ 10 ∉ sec.name ∧ (∀ k ∈ sec.key, KeyOK k) ∧ NoDoubleBlank sec.key

/-- The invariant of the loop of `PROFILE_Load`. -/
def LoadInv (st : LoadState) : Prop :=
  (∀ s ∈ st.done, SecOK s) ∧ SecOK st.cur ∧ st.prev_key = st.cur.key.getLast? ∧
  ((st.done ++ [st.cur]).head?.map (fun s => s.name)) = some []

/-- What `PROFILE_Load` guarantees of its result. -/
def DocOK (d : List PROFILESECTION) : Prop :=
  ∃ s0 rest, d = s0 :: rest ∧ s0.name = [] ∧ SecOK s0 ∧ ∀ s ∈ rest, SecOK s

/-- Every line that `PROFILE_Save` prints for the chain fits the line buffer of
`PROFILE_Load` (1023 characters with its line end). -/
def fitsLineBuffer (d : List PROFILESECTION) : Bool :=
  d.all (fun sec => decide (sec.name.length + 4 ≤ 1023) &&
    sec.key.all (fun k => decide ((keyLine k).length ≤ 1023)))

/-- Every section after the first has a name with a first character. -/
def laterNamesNonEmpty (d : List PROFILESECTION) : Bool :=
  d.tail.all (fun sec => sec.name.headD 0 != 0)

/-! ## Section listings: specification-side definitions -/

/-- Whether `PROFILE_GetSection` lists a key: its name is neither empty nor a
comment. -/
def isListed (k : PROFILEKEY) : Bool := k.name.headD 0 != 0 && k.name.headD 0 != 59

/-- The text of an entry with its surrounding quotes removed. -/
def unquote (value : List Nat) : List Nat :=
  if (PROFILE_CopyEntry_quote value).1 ≠ 0 then (PROFILE_CopyEntry_quote value).2.dropLast
  else value

/-- The text listed for a key: the name, and with `return_values` and a value
present, `=` and the value. -/
def entryText (return_values : Bool) (k : PROFILEKEY) : List Nat :=
  match (if return_values then k.value else none) with
  | some v => unquote k.name ++ [61] ++ unquote v
  | none => unquote k.name

/-- The complete listing of a chain of keys without its final NUL: each
listed entry followed by a NUL. -/
def listing (return_values : Bool) : List PROFILEKEY → List Nat
  | [] => []
  | k :: rest =>
    if isListed k then entryText return_values k ++ [0] ++ listing return_values rest
    else listing return_values rest

/-- The names and values of a chain of keys are C strings (no NUL inside). -/
def keysAreCStrings (key : List PROFILEKEY) : Prop :=
  ∀ k ∈ key, 0 ∉ k.name ∧ ∀ v, k.value = some v → 0 ∉ v

/-- The section `PROFILE_GetSection` and `PROFILE_DeleteSection` select:
the first one with a non-empty name equal to `section_name` under
`strcasecmp`. -/
def firstSection (d : List PROFILESECTION) (section_name : List Nat) : Option PROFILESECTION :=
  d.find? (fun sec => decide (sec.name.headD 0 ≠ 0 ∧ strcasecmp sec.name section_name = 0))

/-- What the key loop of `PROFILE_GetSection` guarantees without environment
handling, from the state (`len`, `done`, `buffer`) to the state `r`: `len` only
shrinks and stays positive, the bytes appended to `done` are as many as `len`
lost and end in a NUL, they are the complete listing when that fits with two
bytes to spare, the memory beyond them is untouched, and `len` ends at most 2
when the listing does not fit. -/
def LoopOK (rv : Bool) (key : List PROFILEKEY) (len : Nat) (done buffer : List Nat)
    (r : Nat × List Nat × List Nat) : Prop :=
  r.1 ≤ len ∧ (1 ≤ len → 1 ≤ r.1) ∧
  (∃ s, r.2.1 = done ++ s ∧ s.length + r.1 = len ∧ (s = [] ∨ s.getLast? = some 0) ∧
    ((listing rv key).length + 2 ≤ len → s = listing rv key)) ∧
  r.2.2.drop 1 = buffer.drop (len - r.1 + 1) ∧
  (len ≤ buffer.length → r.1 ≤ r.2.2.length) ∧
  (len ≤ (listing rv key).length → r.1 ≤ 2)

/-! ## PROFILE_GetSectionNames -/

/-- The libc `strncpy(dst, src, n)` on memory: the characters of `src` before
its NUL, cut or padded with NULs to `n` bytes. -/
def strncpy (dst src : List Nat) (n : Nat) : List Nat :=
  (src.takeWhile (· ≠ 0)).take n ++ List.replicate (n - strlen src) 0 ++ dst.drop n

/-- The libc `strcpy(dst, src)` on memory. -/
def strcpy (dst src : List Nat) : List Nat :=
  src.takeWhile (· ≠ 0) ++ [0] ++ dst.drop (strlen src + 1)

/-- The section loop of `PROFILE_GetSectionNames`: state `f`, the bytes before
the `buf` pointer, and the memory from the pointer on; the result and the
memory of the buffer afterwards. -/
def PROFILE_GetSectionNames_loop (len : Nat) :
    List PROFILESECTION → Nat → List Nat → List Nat → Int × List Nat
  | [], _, done, buf => ((done.length : Int), done ++ poke buf 0 0)
  | sec :: rest, f, done, buf =>
    if sec.name.headD 0 ≠ 0 then
      if strlen sec.name + 1 > f then
        if f > 0 then
          ((len : Int) - 2, done ++ poke (poke (strncpy buf sec.name (f - 1)) (f - 1) 0) f 0)
        else ((len : Int) - 2, done ++ poke buf 0 0)
      else
        PROFILE_GetSectionNames_loop len rest (f - (strlen sec.name + 1))
          (done ++ (strcpy buf sec.name).take (strlen sec.name + 1))
          ((strcpy buf sec.name).drop (strlen sec.name + 1))
    else PROFILE_GetSectionNames_loop len rest f done buf

/-- The function `PROFILE_GetSectionNames(buffer, len)` on the current profile, with
`buffer` not `NULL`: the result and the memory of the buffer afterwards. -/
def PROFILE_GetSectionNames (cur : PROFILE) (buffer : List Nat) (len : Nat) :
    Int × List Nat :=
  if len = 0 then (0, buffer)
  else if len = 1 then (0, poke buffer 0 0)
  else PROFILE_GetSectionNames_loop len cur.«section» (len - 1) [] buffer

/-- The complete list of section names without its final NUL: every non-empty
name in document order, each followed by a NUL. -/
def sectionNames : List PROFILESECTION → List Nat
  | [] => []
  | sec :: rest =>
    if sec.name ≠ [] then sec.name ++ [0] ++ sectionNames rest else sectionNames rest

/-- The bytes `PROFILE_GetSectionNames` writes from the `buf` pointer on when
the names do not fit in the `f` bytes left. -/
def cutNames (d : List PROFILESECTION) (f : Nat) : List Nat :=
  if f = 0 then [0] else (sectionNames d).take (f - 1) ++ [0, 0]

/-! ## The cache of profiles -/

/-- The constant `N_CACHED_PROFILES`. -/
def N_CACHED_PROFILES : Nat := 10

/-- The libc `strcmp(s1, s2)`; a read at the end of a list yields the
terminating NUL. -/
def strcmp : List Nat → List Nat → Int
  | [], s2 => (0 : Int) - (s2.headD 0 : Int)
  | c :: s1, s2 =>
    if c ≠ s2.headD 0 then (c : Int) - (s2.headD 0 : Int)
    else if c = 0 then 0
    else strcmp s1 s2.tail

/-- The file system as `fopen`, `fclose` and `stat` see it: `content path` is
what `fopen(path, "r")` gives to read (`none` when it fails), `writable path`
tells whether `fopen(path, "w")` succeeds, `mtime path` is the `st_mtime` of
`stat(path)` (`none` when it fails), and `now` is the modification time a
file written at this moment receives. -/
structure FileSystem where
  content : List Nat → Option (List Nat)
  writable : List Nat → Bool
  mtime : List Nat → Option Nat
  now : Nat

/-- The file system after `fopen(path, "w")`, the writing of `bytes` and
`fclose`. -/
def FileSystem.store (fs : FileSystem) (path bytes : List Nat) : FileSystem :=
  { fs with
    content := fun p => if p = path then some bytes else fs.content p
    mtime := fun p => if p = path then some fs.now else fs.mtime p }

/-- Modelled from the spec: the type `DOS_FULL_NAME` is not under `src/`;
`PROFILE_Open` reads its `long_name`, the resolved path of the file, and its
`short_name`, the identity of the resolved path. -/
structure DOS_FULL_NAME where
  long_name : List Nat
  short_name : List Nat
deriving DecidableEq

/-- The collaborators of the cache outside `profile.c`, taken as parameters:
the name resolution `DOSFS_GetFullName(name, FALSE, &full_name)` (`none` when
it fails), the directory `GetWindowsDirectoryA` yields, the directory
`wine_get_config_dir()` returns (the static `config_dir` of `config.c` once
set), and the in-place lower-casing `_strlwr`. -/
structure Host where
  DOSFS_GetFullName : List Nat → Option DOS_FULL_NAME
  GetWindowsDirectoryA : List Nat
  wine_get_config_dir : List Nat
  _strlwr : List Nat → List Nat

/-- The state the cache functions work on: the array `MRUProfile` (the empty
list while its pointers are still `NULL`; `CurProfile` is its head) and the
file system. -/
structure State where
  MRUProfile : List PROFILE
  fs : FileSystem

/-- The state before the first call: `MRUProfile` not yet allocated. -/
def State.init (fs : FileSystem) : State := { MRUProfile := [], fs := fs }

/-- The path `PROFILE_FlushFile` and `PROFILE_Open` build in `buffer`: the
configuration directory, `/`, and the lower-cased part of `dos_name` after
its last backslash; `none` when `dos_name` has no backslash (`strrchr` yields
`NULL`). -/
def configPath (h : Host) (dos_name : List Nat) : Option (List Nat) :=
  (strrchr dos_name 92).map
    (fun i => h.wine_get_config_dir ++ [47] ++ h._strlwr (dos_name.drop (i + 1)))

/-- The function `PROFILE_FlushFile`: the state afterwards and the result; `none`
stands for the use of a `NULL` from `strrchr`. -/
def PROFILE_FlushFile (h : Host) (st : State) : Option (State × Bool) :=
  match st.MRUProfile with
  | [] => some (st, false)
  | cur :: rest =>
    match cur.dos_name with
    | none => some (st, true)
    | some dos_name =>
      if !cur.changed then some (st, true)
      else
        let file : Option (Option (List Nat)) :=
          match (match cur.unix_name with
                 | some unix_name => if st.fs.writable unix_name then some unix_name else none
                 | none => none) with
          | some unix_name => some (some unix_name)
          | none =>
            (configPath h dos_name).map
              (fun buffer => if st.fs.writable buffer then some buffer else none)
        match file with
        | none => none
        | some none => some (st, false)
        | some (some unix_name) =>
          let fs := st.fs.store unix_name (PROFILE_Save cur.«section»)
          some ({ MRUProfile :=
                    { cur with changed := false, mtime := (fs.mtime unix_name).getD cur.mtime }
                      :: rest,
                  fs := fs }, true)

/-- The function `PROFILE_ReleaseFile`: the state afterwards; `none` stands for a
`NULL` dereference. -/
def PROFILE_ReleaseFile (h : Host) (st : State) : Option State :=
  match PROFILE_FlushFile h st with
  | none => none
  | some (st1, _) =>
    match st1.MRUProfile with
    | [] => none
    | _ :: rest => some { st1 with MRUProfile := emptyProfile :: rest }

/-- The rotation `tempProfile=MRUProfile[i]; for(j=i;j>0;j--) MRUProfile[j]=MRUProfile[j-1];
CurProfile=tempProfile;`. -/
def promote (MRUProfile : List PROFILE) (i : Nat) : List PROFILE :=
  match MRUProfile.get? i with
  | some tempProfile => tempProfile :: (MRUProfile.take i ++ MRUProfile.drop (i + 1))
  | none => MRUProfile

/-- The match test of `PROFILE_Open` on a cached profile. -/
def PROFILE_Open_match (filename short_name : List Nat) (p : PROFILE) : Bool :=
  (match p.filename with
   | some name => strcmp filename name == 0
   | none => false) ||
  (match p.dos_name with
   | some name => strcmp short_name name == 0
   | none => false)

/-- The name resolution at the head of `PROFILE_Open`: a `filename` without `/`,
`\` and `:` is looked up in the Windows directory; `none` when
`DOSFS_GetFullName` fails. -/
def PROFILE_Open_full_name (h : Host) (filename : List Nat) : Option DOS_FULL_NAME :=
  if strchr filename 47 ≠ none ∨ strchr filename 92 ≠ none ∨ strchr filename 58 ≠ none then
    h.DOSFS_GetFullName filename
  else h.DOSFS_GetFullName (h.GetWindowsDirectoryA ++ [92] ++ filename)

/-- The assignment of the new file to the free `CurProfile` in `PROFILE_Open`:
the names, and the tree and the modification time when the file can be read,
at `buffer` (the path in the configuration directory) or else at
`long_name`. -/
def PROFILE_Open_assign (filename : List Nat) (full_name : DOS_FULL_NAME) (buffer : List Nat)
    (fs : FileSystem) (cur : PROFILE) : PROFILE :=
  let unix_name :=
    match fs.content buffer with
    | some _ => buffer
    | none => full_name.long_name
  let cur1 : PROFILE :=
    { cur with dos_name := some full_name.short_name, filename := some filename,
               unix_name := some unix_name }
  match fs.content unix_name with
  | some file =>
    { cur1 with «section» := PROFILE_Load file, mtime := (fs.mtime unix_name).getD cur1.mtime }
  | none => cur1

/-- The part of `PROFILE_Open` after the search found no match. -/
def PROFILE_Open_miss (h : Host) (filename : List Nat) (full_name : DOS_FULL_NAME)
    (st : State) : Option (State × Bool) :=
  match PROFILE_FlushFile h st with
  | none => none
  | some (st1, _) =>
    -- the search loop ended with `i == N_CACHED_PROFILES`
    let st2 : State :=
      { st1 with MRUProfile := promote st1.MRUProfile (N_CACHED_PROFILES - 1) }
    match (match st2.MRUProfile with
           | [] => none
           | cur :: _ => if cur.filename ≠ none then PROFILE_ReleaseFile h st2 else some st2) with
    | none => none
    | some st3 =>
      match st3.MRUProfile with
      | [] => none
      | cur :: rest =>
        match configPath h full_name.short_name with
        | none => none
        | some buffer =>
          some ({ st3 with
                  MRUProfile := PROFILE_Open_assign filename full_name buffer st3.fs cur :: rest },
                true)

/-- The function `PROFILE_Open(filename)` (allocation is taken to succeed): the
state afterwards and the result; `none` stands for the use of a `NULL`. -/
def PROFILE_Open (h : Host) (filename : List Nat) (st : State) : Option (State × Bool) :=
  let st : State :=
    if st.MRUProfile = [] then
      { st with MRUProfile := List.replicate N_CACHED_PROFILES emptyProfile }
    else st
  match PROFILE_Open_full_name h filename with
  | none => some (st, false)
  | some full_name =>
    match (st.MRUProfile.take N_CACHED_PROFILES).findIdx?
        (PROFILE_Open_match filename full_name.short_name) with
    | some i =>
      if i ≠ 0 then
        match PROFILE_FlushFile h st with
        | none => none
        | some (st1, _) => some ({ st1 with MRUProfile := promote st1.MRUProfile i }, true)
      else some (st, true)
    | none => PROFILE_Open_miss h filename full_name st

/-- The section loop of `PROFILE_DeleteAllKeys`: the chain afterwards and whether a
key was deleted. -/
def PROFILE_DeleteAllKeys_loop : List PROFILESECTION → List Nat → List PROFILESECTION × Bool
  | [], _ => ([], false)
  | sec :: rest, section_name =>
    let r := PROFILE_DeleteAllKeys_loop rest section_name
    if sec.name.headD 0 ≠ 0 ∧ strcasecmp sec.name section_name = 0 then
      ({ name := sec.name, key := [] } :: r.1, !sec.key.isEmpty || r.2)
    else (sec :: r.1, r.2)

/-- The function `PROFILE_DeleteAllKeys(section_name)` on the current profile. -/
def PROFILE_DeleteAllKeys (cur : PROFILE) (section_name : List Nat) : PROFILE :=
  let r := PROFILE_DeleteAllKeys_loop cur.«section» section_name
  { cur with changed := cur.changed || r.2, «section» := r.1 }

/-- The function `WritePrivateProfileStringA(section, entry, string, filename)` with
`filename` not `NULL`: the state afterwards and the result. -/
def WritePrivateProfileStringA (h : Host) («section» entry string : Option (List Nat))
    (filename : List Nat) (st : State) : Option (State × Bool) :=
  match PROFILE_Open h filename st with
  | none => none
  | some (st1, false) => some (st1, false)
  | some (st1, true) =>
    if «section» = none ∧ entry = none ∧ string = none then
      (PROFILE_ReleaseFile h st1).map (fun st2 => (st2, false))
    else
      match «section» with
      | none => some (st1, false)
      | some section_name =>
        match st1.MRUProfile with
        | [] => none
        | cur :: rest =>
          let r := PROFILE_SetString cur section_name entry string false
          some ({ st1 with MRUProfile := r.1 :: rest }, r.2)

/-- A call of one of the functions that work on the cache. -/
inductive Call where
  | Open (filename : List Nat)
  | SetString (section_name : List Nat) (key_name value : Option (List Nat))
      (create_always : Bool)
  | DeleteAllKeys (section_name : List Nat)
  | FlushFile
  | ReleaseFile

/-- The state after a call; `none` stands for the use of a `NULL` pointer
(among them `CurProfile` before the first `PROFILE_Open`). -/
def exec (h : Host) : Call → State → Option State
  | Call.Open filename, st => (PROFILE_Open h filename st).map (fun r => r.1)
  | Call.SetString section_name key_name value create_always, st =>
    match st.MRUProfile with
    | [] => none
    | cur :: rest =>
      some { st with
        MRUProfile := (PROFILE_SetString cur section_name key_name value create_always).1 :: rest }
  | Call.DeleteAllKeys section_name, st =>
    match st.MRUProfile with
    | [] => none
    | cur :: rest => some { st with MRUProfile := PROFILE_DeleteAllKeys cur section_name :: rest }
  | Call.FlushFile, st => (PROFILE_FlushFile h st).map (fun r => r.1)
  | Call.ReleaseFile, st => PROFILE_ReleaseFile h st

/-- The state after a sequence of calls. -/
def run (h : Host) : List Call → State → Option State
  | [], st => some st
  | c :: rest, st =>
    match exec h c st with
    | none => none
    | some st1 => run h rest st1

/-- A host for the examples: names resolve to upper-case short names and to
long names under `/dos/`. -/
def exampleHost : Host :=
  { DOSFS_GetFullName := fun name =>
      some { long_name := cs "/dos/" ++ name.map (fun c => if c = 92 then 47 else tolower c),
             short_name := name.map toupper }
    GetWindowsDirectoryA := cs "C:\\WINDOWS"
    wine_get_config_dir := cs "/home/u/.wine"
    _strlwr := fun s => s.map tolower }

/-- A file system for the examples: no file yet, every path writable. -/
def exampleFs : FileSystem :=
  { content := fun _ => none, writable := fun _ => true, mtime := fun _ => none, now := 7 }

/-- The names a profile holds: `filename` and `dos_name`. -/
def identity (p : PROFILE) : Option (List Nat) × Option (List Nat) := (p.filename, p.dos_name)

/-- Two cached profiles do not share a name: a `filename` that is set differs
from the other `filename`, and a `dos_name` that is set differs from the other
`dos_name`. -/
def distinctNames (p q : PROFILE) : Prop :=
  (p.filename ≠ none → p.filename ≠ q.filename) ∧ (p.dos_name ≠ none → p.dos_name ≠ q.dos_name)

/-- The invariant of the cache: `MRUProfile` is unallocated or has
`N_CACHED_PROFILES` slots, and no two slots share a name. -/
def CacheOK (st : State) : Prop :=
  (st.MRUProfile = [] ∨ st.MRUProfile.length = N_CACHED_PROFILES) ∧
    st.MRUProfile.Pairwise distinctNames

/-- The calls `PROFILE_Open` on ten names, `a.ini` to `j.ini`. -/
def exampleOpens : List Call :=
  (List.range 10).map (fun i => Call.Open ((97 + i) :: cs ".ini"))

/-- A resident profile for the examples, named by one letter `c`: the file
`c.ini` of the Windows directory with one section and one key. -/
def exampleDoc (c : Nat) (changed : Bool) : PROFILE :=
  { changed := changed
    «section» := [{ name := [], key := [] }, { name := [c], key := [⟨cs "k", some (cs "v")⟩] }]
    dos_name := some (cs "C:\\WINDOWS\\" ++ toupper c :: cs ".INI")
    unix_name := some (cs "/dos/c:/windows/" ++ c :: cs ".ini")
    filename := some (c :: cs ".ini")
    mtime := 3 }

/-- A cache for the examples: `c.ini` (dirty), `b.ini` and `a.ini` resident, seven
slots empty. -/
def exampleCache : List PROFILE :=
  [exampleDoc 99 true, exampleDoc 98 false, exampleDoc 97 false] ++
    List.replicate 7 emptyProfile

/-- Every `dos_name` of the cache holds a backslash, so that `strrchr` finds
one. -/
def dosNamesOK (MRUProfile : List PROFILE) : Bool :=
  MRUProfile.all (fun p =>
    match p.dos_name with
    | some d => decide (92 ∈ d)
    | none => true)

/-- Whether a call edits the current profile. -/
def isEdit : Call → Bool
  | Call.SetString _ _ _ _ => true
  | Call.DeleteAllKeys _ => true
  | _ => false

/-- The calls of a sequence of sessions, each a `PROFILE_Open` on a file name
followed by calls on the current profile. -/
def sessionCalls : List (List Nat × List Call) → List Call
  | [] => []
  | s :: rest => Call.Open s.1 :: (s.2 ++ sessionCalls rest)

/-- The name resolves, to a `short_name` with a backslash, and the name and
the `short_name` are C strings. -/
def resolvesOK (h : Host) (filename : List Nat) : Bool :=
  match PROFILE_Open_full_name h filename with
  | some full_name =>
    decide (92 ∈ full_name.short_name ∧ 0 ∉ full_name.short_name ∧ 0 ∉ filename)
  | none => false

/-- Eight sessions for the examples: `c.ini` to `j.ini`, opened and not
edited. -/
def exampleMiddle : List (List Nat × List Call) :=
  (List.range 8).map (fun i => ((99 + i) :: cs ".ini", []))

/-- A slot holds a file: it has a `filename` or a `dos_name`. -/
def resident (p : PROFILE) : Bool := p.filename.isSome || p.dos_name.isSome

/-- The resident slots come first: no resident slot follows an Empty one. -/
def residentFirst (MRUProfile : List PROFILE) : Prop :=
  MRUProfile.Pairwise (fun p q => resident q = true → resident p = true)

/-- Whether a call is `PROFILE_ReleaseFile`. -/
def isRelease : Call → Bool
  | Call.ReleaseFile => true
  | _ => false

/-! ## PROFILE_CopyEntry: specification-side definitions -/

/-- The C string at the start of a memory: the bytes before the first NUL. -/
def cstr (buffer : List Nat) : List Nat := buffer.takeWhile (· ≠ 0)

/-- A value wrapped in quotes, in the words of the specification: it has at
least two characters, and its first and last characters are the same quote
character (`'` or `"`). -/
def isQuoteWrapped (raw : List Nat) : Bool :=
  decide (2 ≤ raw.length) && (raw.head? == some 39 || raw.head? == some 34) &&
    raw.getLast? == raw.head?

/-- The value after quote stripping: without its first and last character
when it is wrapped in quotes, unchanged otherwise. -/
def stripQuotes (raw : List Nat) : List Nat :=
  if isQuoteWrapped raw then raw.tail.dropLast else raw

/-- An environment for the examples: `A` is set to `hello`, nothing else is
set. -/
def exampleEnv (name : List Nat) : Option (List Nat) :=
  if name = cs "A" then some (cs "hello") else none

/-- A variable name of 1024 characters, one more than the buffer `env_val` of
`PROFILE_CopyEntry` holds. -/
def longName : List Nat := List.replicate 1024 65

/-- An environment in which only `longName` is set, to `v`. -/
def longEnv (name : List Nat) : Option (List Nat) :=
  if name = longName then some (cs "v") else none

/-! ## PROFILE_Load: specification-side definitions -/

/-- A line recognised as a section header, in the words of the
specification: its first non-blank character is `[` and it holds a `]`. -/
def isHeaderLine (line : List Nat) : Bool :=
  (line.dropWhile PROFILE_isspace).head? == some 91 && decide (93 ∈ line)

/-- The key of a line that is no section header, in the words of the
specification: with `c` the line without its surrounding whitespace, the
name is the text before the first `=` of `c` without trailing whitespace and
the value the text after it without leading whitespace; without a `=` the
name is `c` and the value is absent. -/
def parseKeyLine (line : List Nat) : PROFILEKEY :=
  if 61 ∈ trim line then
    { name := ((trim line).take ((trim line).indexOf 61)).rdropWhile PROFILE_isspace,
      value := some (((trim line).drop ((trim line).indexOf 61 + 1)).dropWhile PROFILE_isspace) }
  else { name := trim line, value := none }

/-- Blank-run collapsing, in the words of the specification: the keys that
are stored, in input order, `prev` being the key stored last; a key is
discarded when its name is empty and the key stored last has an empty
name. -/
def collapseFrom (prev : Option PROFILEKEY) : List PROFILEKEY → List PROFILEKEY
  | [] => []
  | k :: rest =>
    if k.name = [] ∧ ∃ p, prev = some p ∧ p.name = [] then collapseFrom prev rest
    else k :: collapseFrom (some k) rest

/-- The state of the loop of `PROFILE_Load` before the first line. -/
def loadInit : LoadState := { done := [], cur := { name := [], key := [] }, prev_key := none }

/-- The state of the loop of `PROFILE_Load` after the given lines. -/
def loadedState (lines : List (List Nat)) : LoadState := lines.foldl PROFILE_Load_line loadInit

/-! ## PROFILE_Save and PROFILE_Find: specification-side definitions -/

/-- The bytes saved for a key, in the words of the specification: the name,
then `=` and the value when the value is present, then CR LF. -/
def keyPiece (k : PROFILEKEY) : List Nat :=
  k.name ++ (match k.value with | some v => cs "=" ++ v | none => []) ++ cs "\r\n"

/-- The bytes saved for a section, in the words of the specification: CR LF
`[` name `]` CR LF when the name is not empty, then the bytes of its keys in
order. -/
def sectionPiece (sec : PROFILESECTION) : List Nat :=
  (if sec.name = [] then [] else cs "\r\n[" ++ sec.name ++ cs "]\r\n") ++
    (sec.key.map keyPiece).flatten

/-- Whether a section matches the name `S`: its name is not empty and equals
`S` without surrounding whitespace, ignoring case. -/
def sectionMatches (S : List Nat) (sec : PROFILESECTION) : Bool :=
  sec.name != [] && eqIgnoreCase sec.name (trim S)

/-- Whether a key matches the name `K`: its name equals `K` without
surrounding whitespace, ignoring case. -/
def keyMatches (K : List Nat) (k : PROFILEKEY) : Bool := eqIgnoreCase k.name (trim K)

/-- The key `PROFILE_Find` creates for `K`: named `K` from its first
non-blank character on, without a value. -/
def newKey (K : List Nat) : PROFILEKEY :=
  { name := K.dropWhile PROFILE_isspace, value := none }

/-! ## Deletions: specification-side definitions -/

/-- Whether a section is the one a deletion names: its name is not empty and
equals `name` ignoring case. -/
def sectionIs (name : List Nat) (sec : PROFILESECTION) : Bool :=
  sec.name != [] && eqIgnoreCase sec.name name

/-- Whether a key is the one a deletion names: its name equals `K` ignoring
case. -/
def keyIs (K : List Nat) (k : PROFILEKEY) : Bool := eqIgnoreCase k.name K

/-! ## PROFILE_GetPrivateProfileString -/

/-- The loop `while (p > def_val) { p--; if ((*p) != ' ') break; }` of
`PROFILE_GetPrivateProfileString`: the index `p` after the loop, from the
index before it. -/
def PROFILE_GetPrivateProfileString_loop (def_val : List Nat) : Nat → Nat
  | 0 => 0
  | p + 1 =>
    if def_val.getD p 0 ≠ 32 then p else PROFILE_GetPrivateProfileString_loop def_val p

/-- The default `pDefVal` that `PROFILE_GetPrivateProfileString` passes on, `none` for
`NULL`: the copy of the first `p` characters of `def_val` when `*p` is a
space after the loop, else `def_val` itself. -/
def PROFILE_GetPrivateProfileString_pDefVal (def_val : Option (List Nat)) :
    Option (List Nat) :=
  match def_val with
  | none => none
  | some def_val =>
    let p := PROFILE_GetPrivateProfileString_loop def_val def_val.length
    if def_val.getD p 0 = 32 then some (def_val.take p) else some def_val

/-- The function `PROFILE_GetPrivateProfileString(section, entry, def_val, buffer, len,
filename, allow_section_name_copy)` with `buffer` not `NULL`: the state
afterwards, the result and the memory of the buffer; `none` stands for the use
of a `NULL` pointer. -/
def PROFILE_GetPrivateProfileString (h : Host) (getenv : List Nat → Option (List Nat))
    («section» entry def_val : Option (List Nat)) (buffer : List Nat) (len : Nat)
    (filename : Option (List Nat)) (allow_section_name_copy : Bool) (st : State) :
    Option (State × Int × List Nat) :=
  let filename := filename.getD (cs "win.ini")
  let pDefVal := PROFILE_GetPrivateProfileString_pDefVal def_val
  match PROFILE_Open h filename st with
  | none => none
  | some (st1, true) =>
    match st1.MRUProfile with
    | [] => none
    | cur :: _ =>
      if allow_section_name_copy = true ∧ «section» = none then
        some (st1, PROFILE_GetSectionNames cur buffer len)
      else
        (PROFILE_GetString getenv cur «section» entry pDefVal buffer len).map
          (fun r => (st1, (r.1 : Int), r.2))
  | some (st1, false) =>
    match pDefVal with
    | none => none
    | some d => some (st1, (strlen (lstrcpynA buffer d len) : Int), lstrcpynA buffer d len)

/-! ## Dirty slots of the cache: specification-side definitions -/

/-- Whether every edit among the calls, run from `st`, finds a current
profile that holds a file (its `dos_name` is set). -/
def editsNamed (h : Host) : List Call → State → Bool
  | [], _ => true
  | c :: rest, st =>
    (!isEdit c ||
      (match st.MRUProfile with
       | cur :: _ => cur.dos_name.isSome
       | [] => false)) &&
    (match exec h c st with
     | some st1 => editsNamed h rest st1
     | none => true)

/-- The calls that leave a dirty profile behind slot 0: `a.ini` is opened and
released, the released slot is edited, and `b.ini` is opened. -/
def exampleStray : List Call :=
  [Call.Open (cs "a.ini"), Call.ReleaseFile,
   Call.SetString (cs "s") (some (cs "k")) (some (cs "v")) false, Call.Open (cs "b.ini")]

/-- Two sessions for the examples: `a.ini` is opened and edited, then `b.ini`
is opened. -/
def exampleEdits : List Call :=
  [Call.Open (cs "a.ini"), Call.SetString (cs "s") (some (cs "k")) (some (cs "v")) false,
   Call.Open (cs "b.ini")]

/-! ## Save and load, item by item: auxiliary definitions -/

/-- An item of a saved file: the header of a section, or a key. -/
inductive Item where
  | hdr (name : List Nat)
  | key (k : PROFILEKEY)
deriving DecidableEq

/-- The items `PROFILE_Save` prints for a chain: for every section a header
when its name has a first character, and its keys. -/
def items : List PROFILESECTION → List Item
  | [] => []
  | sec :: rest =>
    (if sec.name.headD 0 ≠ 0 then [Item.hdr sec.name] else []) ++ sec.key.map Item.key
      ++ items rest

/-- The text `PROFILE_Save` prints for an item. -/
def itemText : Item → List Nat
  | Item.hdr name => [13, 10, 91] ++ name ++ [93, 13, 10]
  | Item.key k => keyLine k

/-- The step of `PROFILE_Load` on a line that holds the key `k`. -/
def keyStep (st : LoadState) (k : PROFILEKEY) : LoadState :=
  if PROFILE_Load_keep k.name st.prev_key then
    { done := st.done, cur := { name := st.cur.name, key := st.cur.key ++ [k] },
      prev_key := some k }
  else st

/-- The step of `PROFILE_Load` on a header line with the name `name`. -/
def hdrStep (st : LoadState) (name : List Nat) : LoadState :=
  { done := st.done ++ [st.cur], cur := { name := name, key := [] }, prev_key := none }

/-- The steps of `PROFILE_Load` on the saved text of an item: a header is
preceded by a blank line, and a line of more than 1023 characters is read in
two pieces, the second of which holds the line end alone. -/
def itemStep (st : LoadState) : Item → LoadState
  | Item.key k =>
    if 1022 ≤ (keyText k).length then keyStep (keyStep st k) blankKey else keyStep st k
  | Item.hdr name =>
    if 1020 ≤ name.length then keyStep (hdrStep (keyStep st blankKey) name) blankKey
    else hdrStep (keyStep st blankKey) name

/-- What `PROFILE_Load` guarantees of an item of the chain it builds. -/
def ItemOK : Item → Prop
  | Item.hdr name => 0 ∉ name ∧ 10 ∉ name ∧ name.length ≤ 1021
  | Item.key k => KeyOK k ∧ (keyText k).length ≤ 1023

/-- The bounds the line buffer puts on a section that `PROFILE_Load` builds. -/
def SecBounded (sec : PROFILESECTION) : Prop :=
  sec.name.length ≤ 1021 ∧ ∀ k ∈ sec.key, (keyText k).length ≤ 1023

/-- Whether the name of a key has no first character. -/
def emptyNamed (k : PROFILEKEY) : Bool := k.name.headD 0 == 0

/-- Whether `PROFILE_Load` drops a key with an empty name: `prev_key` is set
and has an empty name. -/
def blocked (prev_key : Option PROFILEKEY) : Bool :=
  match prev_key with
  | none => false
  | some k => emptyNamed k

/-- The step of `PROFILE_Load` that stores an item without a test. -/
def place (st : LoadState) : Item → LoadState
  | Item.key k =>
    { done := st.done, cur := { name := st.cur.name, key := st.cur.key ++ [k] },
      prev_key := some k }
  | Item.hdr name => hdrStep st name

/-- The items `PROFILE_Load` stores from the saved text of one item; `e`
tells whether a key with an empty name is dropped at its start. -/
def storedOf (e : Bool) : Item → List Item
  | Item.key k =>
    (if emptyNamed k && e then [] else [Item.key k]) ++
      (if decide (1022 ≤ (keyText k).length) && !emptyNamed k then [Item.key blankKey] else [])
  | Item.hdr name =>
    (if e then [] else [Item.key blankKey]) ++ [Item.hdr name] ++
      (if 1020 ≤ name.length then [Item.key blankKey] else [])

/-- Whether a key with an empty name is dropped after the saved text of an
item. -/
def blockedAfter : Item → Bool
  | Item.key k => emptyNamed k || decide (1022 ≤ (keyText k).length)
  | Item.hdr name => decide (1020 ≤ name.length)

/-- The items `PROFILE_Load` stores from the saved text of the items `J`. -/
def stored : Bool → List Item → List Item
  | _, [] => []
  | e, x :: J => storedOf e x ++ stored (blockedAfter x) J

/-- A header item has a name with a first character. -/
def hdrNamed : Item → Prop
  | Item.hdr name => name.headD 0 ≠ 0
  | Item.key _ => True

/-! # Theorems -/

/-! ### Struct codec: lemmas -/

theorem hex_facts : ∀ k, k < 16 →
    isxdigit (hex.getD k 0) = true ∧ toupper (hex.getD k 0) = hex.getD k 0 ∧
      nibble (hex.getD k 0) = k ∧ (48 ≤ hex.getD k 0 ∧ hex.getD k 0 ≤ 57 ∨
        65 ≤ hex.getD k 0 ∧ hex.getD k 0 ≤ 70) := by decide

theorem isxdigit_lt (c : Nat) (h : isxdigit c = true) : c < 103 := by
  simp only [isxdigit, Bool.or_eq_true, Bool.and_eq_true, decide_eq_true_eq] at h
  omega

theorem isxdigit_facts : ∀ c, c < 103 → isxdigit c = true →
    nibble (toupper c) < 16 ∧ toupper c = hex.getD (nibble (toupper c)) 0 := by decide

theorem decode_loop_eq (d : List Nat) : ∀ (b : Nat) (out : List Nat) (chk : Nat),
    (GetPrivateProfileStructA_loop d true b out chk).1 = out ++ pairs d ∧
    (GetPrivateProfileStructA_loop d true b out chk).2 % 256 = (chk + (pairs d).sum) % 256 := by
  induction d using pairs.induct with
  | case1 c1 c2 rest ih =>
    intro b out chk
    have h := ih ((nibble (toupper c1) * 16 % 256 + nibble (toupper c2)) % 256)
      (out ++ [(nibble (toupper c1) * 16 % 256 + nibble (toupper c2)) % 256])
      ((chk + (nibble (toupper c1) * 16 % 256 + nibble (toupper c2)) % 256) % 2 ^ 32)
    simp only [GetPrivateProfileStructA_loop, pairs, if_true, Bool.false_eq_true, if_false,
      List.sum_cons]
    refine ⟨by rw [h.1]; simp, ?_⟩
    rw [h.2]
    omega
  | case2 d hd =>
    intro b out chk
    match d, hd with
    | [], _ => simp [GetPrivateProfileStructA_loop, pairs]
    | [c], _ => simp [GetPrivateProfileStructA_loop, pairs]
    | c1 :: c2 :: rest, hd => exact absurd rfl (hd c1 c2 rest)

theorem encode_loop_eq (buf : List Nat) : ∀ s : Nat,
    (WritePrivateProfileStructA_loop buf s).1 = hexDigits buf ∧
    (WritePrivateProfileStructA_loop buf s).2 % 256 = (s + buf.sum) % 256 := by
  induction buf with
  | nil => intro s; simp [WritePrivateProfileStructA_loop, hexDigits]
  | cons x rest ih =>
    intro s
    have h := ih ((s + x) % 2 ^ 32)
    simp only [WritePrivateProfileStructA_loop, hexDigits, List.sum_cons]
    refine ⟨by rw [h.1], ?_⟩
    rw [h.2]
    omega

theorem outstring_eq (buf : List Nat) :
    WritePrivateProfileStructA_outstring buf =
      hexDigits buf ++ [hex.getD (buf.sum % 256 / 16) 0, hex.getD (buf.sum % 16) 0] := by
  have h := encode_loop_eq buf 0
  have h2 : (WritePrivateProfileStructA_loop buf 0).2 % 16 = buf.sum % 16 := by
    have := h.2
    omega
  simp only [WritePrivateProfileStructA_outstring]
  rw [h.1, h2, h.2]
  simp

theorem hexDigits_length (buf : List Nat) : (hexDigits buf).length = 2 * buf.length := by
  induction buf with
  | nil => rfl
  | cons x rest ih => simp only [hexDigits, List.length_cons, ih]; omega

theorem hexDigits_isxdigit (buf : List Nat) (hb : ∀ x ∈ buf, x < 256) :
    ∀ c ∈ hexDigits buf, isxdigit c = true ∧ (48 ≤ c ∧ c ≤ 57 ∨ 65 ≤ c ∧ c ≤ 70) := by
  induction buf with
  | nil => intro c hc; simp [hexDigits] at hc
  | cons x rest ih =>
    intro c hc
    have hx : x < 256 := hb x (List.mem_cons_self _ _)
    simp only [hexDigits, List.mem_cons] at hc
    rcases hc with rfl | rfl | hc
    · have := hex_facts (x / 16) (by omega); exact ⟨this.1, this.2.2.2⟩
    · have := hex_facts (x % 16) (by omega); exact ⟨this.1, this.2.2.2⟩
    · exact ih (fun y hy => hb y (List.mem_cons_of_mem _ hy)) c hc

theorem pairs_hexDigits (buf : List Nat) (hb : ∀ x ∈ buf, x < 256) :
    pairs (hexDigits buf) = buf := by
  induction buf with
  | nil => rfl
  | cons x rest ih =>
    have hx : x < 256 := hb x (List.mem_cons_self _ _)
    have h1 := hex_facts (x / 16) (by omega)
    have h2 := hex_facts (x % 16) (by omega)
    simp only [hexDigits, pairs, h1.2.1, h2.2.1, h1.2.2.1, h2.2.2.1,
      ih (fun y hy => hb y (List.mem_cons_of_mem _ hy))]
    congr 1
    omega

theorem getD_append_add (l r : List Nat) (k : Nat) :
    (l ++ r).getD (l.length + k) 0 = r.getD k 0 := by
  induction l with
  | nil => simp
  | cons x l ih =>
    rw [List.cons_append, List.length_cons, Nat.add_right_comm, List.getD_cons_succ]
    exact ih

theorem decode_outstring (buf : List Nat) (hb : ∀ x ∈ buf, x < 256)
    (hlen : 2 * buf.length + 3 ≤ 2 ^ 32) :
    GetPrivateProfileStructA_decode (WritePrivateProfileStructA_outstring buf) buf.length
      = (true, buf) := by
  have hl := hexDigits_length buf
  have hx := hexDigits_isxdigit buf hb
  have hs1 := hex_facts (buf.sum % 256 / 16) (by omega)
  have hs2 := hex_facts (buf.sum % 16) (by omega)
  have hall : (hexDigits buf ++ [hex.getD (buf.sum % 256 / 16) 0,
      hex.getD (buf.sum % 16) 0]).all isxdigit = true := by
    simp only [List.all_eq_true, List.mem_append, List.mem_cons, List.mem_singleton,
      List.not_mem_nil, or_false]
    rintro c (hc | rfl | rfl)
    · exact (hx c hc).1
    · exact hs1.1
    · exact hs2.1
  have hlen2 : (hexDigits buf ++ [hex.getD (buf.sum % 256 / 16) 0,
      hex.getD (buf.sum % 16) 0]).length = 2 * buf.length + 2 := by
    simp [hl]
  have hloop := decode_loop_eq (hexDigits buf) 0 [] 0
  rw [pairs_hexDigits buf hb] at hloop
  rw [outstring_eq]
  unfold GetPrivateProfileStructA_decode
  rw [if_pos (by rw [hlen2]; omega), if_pos hall]
  simp only [hlen2, Nat.add_sub_cancel]
  have ht : List.take (2 * buf.length) (hexDigits buf ++ [hex.getD (buf.sum % 256 / 16) 0,
      hex.getD (buf.sum % 16) 0]) = hexDigits buf := by
    rw [← hl]; simp
  have hg1 : (hexDigits buf ++ [hex.getD (buf.sum % 256 / 16) 0,
      hex.getD (buf.sum % 16) 0]).getD (2 * buf.length) 0 = hex.getD (buf.sum % 256 / 16) 0 := by
    have := getD_append_add (hexDigits buf) [hex.getD (buf.sum % 256 / 16) 0,
      hex.getD (buf.sum % 16) 0] 0
    rw [hl] at this
    exact this
  have hg2 : (hexDigits buf ++ [hex.getD (buf.sum % 256 / 16) 0,
      hex.getD (buf.sum % 16) 0]).getD (2 * buf.length + 1) 0 = hex.getD (buf.sum % 16) 0 := by
    have := getD_append_add (hexDigits buf) [hex.getD (buf.sum % 256 / 16) 0,
      hex.getD (buf.sum % 16) 0] 1
    rw [hl] at this
    exact this
  rw [ht, hg1, hg2, hs1.2.1, hs2.2.1, hs1.2.2.1, hs2.2.2.1]
  have h1 := hloop.1
  have h2 := hloop.2
  simp only [List.nil_append, Nat.zero_add] at h1 h2
  rw [h1, h2]
  simp only [Prod.mk.injEq, beq_iff_eq, and_true]
  omega

theorem nibble_ne_of_toupper_ne (c k : Nat) (hc : isxdigit c = true)
    (hne : toupper c ≠ hex.getD k 0) : nibble (toupper c) < 16 ∧ nibble (toupper c) ≠ k := by
  have h := isxdigit_facts c (isxdigit_lt c hc) hc
  refine ⟨h.1, fun heq => hne ?_⟩
  rw [← heq]
  exact h.2

theorem pairs_set_sum (buf : List Nat) (hb : ∀ x ∈ buf, x < 256) (c : Nat)
    (hc : isxdigit c = true) : ∀ i, i < 2 * buf.length →
      toupper c ≠ (hexDigits buf).getD i 0 →
      (pairs ((hexDigits buf).set i c)).sum % 256 ≠ buf.sum % 256 := by
  induction buf with
  | nil => intro i hi; simp at hi
  | cons x rest ih =>
    have hx : x < 256 := hb x (List.mem_cons_self _ _)
    have hrest : ∀ y ∈ rest, y < 256 := fun y hy => hb y (List.mem_cons_of_mem _ hy)
    have h1 := hex_facts (x / 16) (by omega)
    have h2 := hex_facts (x % 16) (by omega)
    intro i hi hne
    match i with
    | 0 =>
      simp only [hexDigits, List.getD_cons_zero] at hne
      have hn := nibble_ne_of_toupper_ne c (x / 16) hc hne
      simp only [hexDigits, List.set_cons_zero, pairs, h2.2.1, h2.2.2.1,
        pairs_hexDigits rest hrest, List.sum_cons]
      omega
    | 1 =>
      simp only [hexDigits, List.getD_cons_succ, List.getD_cons_zero] at hne
      have hn := nibble_ne_of_toupper_ne c (x % 16) hc hne
      simp only [hexDigits, List.set_cons_succ, List.set_cons_zero, pairs, h1.2.1, h1.2.2.1,
        pairs_hexDigits rest hrest, List.sum_cons]
      omega
    | j + 2 =>
      simp only [hexDigits, List.getD_cons_succ] at hne
      have hj : j < 2 * rest.length := by simp only [List.length_cons] at hi; omega
      have := ih hrest j hj hne
      simp only [hexDigits, List.set_cons_succ, pairs, h1.2.1, h1.2.2.1, h2.2.1, h2.2.2.1,
        List.sum_cons]
      omega

theorem decode_corrupted (buf : List Nat) (hb : ∀ x ∈ buf, x < 256) (i c : Nat)
    (hi : i < (WritePrivateProfileStructA_outstring buf).length)
    (hne : toupper c ≠ (WritePrivateProfileStructA_outstring buf).getD i 0) :
    (GetPrivateProfileStructA_decode ((WritePrivateProfileStructA_outstring buf).set i c)
      buf.length).1 = false := by
  have hl := hexDigits_length buf
  rw [outstring_eq] at hi hne ⊢
  have hlen2 : (hexDigits buf ++ [hex.getD (buf.sum % 256 / 16) 0,
      hex.getD (buf.sum % 16) 0]).length = 2 * buf.length + 2 := by
    simp [hl]
  rw [hlen2] at hi
  unfold GetPrivateProfileStructA_decode
  split
  · split
    · rename_i hall
      have hcx : isxdigit c = true := by
        rw [List.all_eq_true] at hall
        exact hall c (List.mem_set _ _ (by rw [hlen2]; exact hi) _)
      have hs1 := hex_facts (buf.sum % 256 / 16) (by omega)
      have hs2 := hex_facts (buf.sum % 16) (by omega)
      simp only [List.length_set, hlen2, Nat.add_sub_cancel, beq_eq_false_iff_ne, ne_eq]
      by_cases hlt : i < 2 * buf.length
      · have hset : (hexDigits buf ++ [hex.getD (buf.sum % 256 / 16) 0,
            hex.getD (buf.sum % 16) 0]).set i c = (hexDigits buf).set i c ++
            [hex.getD (buf.sum % 256 / 16) 0, hex.getD (buf.sum % 16) 0] :=
          List.set_append_left i c (by rw [hl]; exact hlt)
        have hl' : ((hexDigits buf).set i c).length = 2 * buf.length := by
          rw [List.length_set, hl]
        have hne' : toupper c ≠ (hexDigits buf).getD i 0 := by
          intro h
          apply hne
          rw [h, List.getD_append _ _ _ _ (by rw [hl]; exact hlt)]
        have hsum := pairs_set_sum buf hb c hcx i hlt hne'
        have hg1 := getD_append_add ((hexDigits buf).set i c)
          [hex.getD (buf.sum % 256 / 16) 0, hex.getD (buf.sum % 16) 0] 0
        have hg2 := getD_append_add ((hexDigits buf).set i c)
          [hex.getD (buf.sum % 256 / 16) 0, hex.getD (buf.sum % 16) 0] 1
        have ht : List.take (2 * buf.length) ((hexDigits buf).set i c ++
            [hex.getD (buf.sum % 256 / 16) 0, hex.getD (buf.sum % 16) 0]) =
            (hexDigits buf).set i c := by
          rw [← hl']; simp
        rw [hl'] at hg1 hg2
        rw [Nat.add_zero] at hg1
        have hloop := decode_loop_eq ((hexDigits buf).set i c) 0 [] 0
        rw [hset, ht, hg1, hg2, hloop.2]
        simp only [List.getD_cons_zero, List.getD_cons_succ, hs1.2.1, hs2.2.1, hs1.2.2.1,
          hs2.2.2.1]
        omega
      · have hset : (hexDigits buf ++ [hex.getD (buf.sum % 256 / 16) 0,
            hex.getD (buf.sum % 16) 0]).set i c = hexDigits buf ++
            [hex.getD (buf.sum % 256 / 16) 0, hex.getD (buf.sum % 16) 0].set
              (i - (hexDigits buf).length) c :=
          List.set_append_right i c (by rw [hl]; omega)
        have ht : ∀ r : List Nat, List.take (2 * buf.length) (hexDigits buf ++ r) =
            hexDigits buf := by
          intro r; rw [← hl]; simp
        have hloop := decode_loop_eq (hexDigits buf) 0 [] 0
        rw [pairs_hexDigits buf hb] at hloop
        have hgi := getD_append_add (hexDigits buf)
          [hex.getD (buf.sum % 256 / 16) 0, hex.getD (buf.sum % 16) 0] (i - 2 * buf.length)
        rw [hl, Nat.add_sub_cancel' (by omega)] at hgi
        rw [hgi] at hne
        rw [hset, ht, hloop.2]
        have hcases : i - (hexDigits buf).length = 0 ∨ i - (hexDigits buf).length = 1 := by
          rw [hl]; omega
        rcases hcases with h0 | h1
        · rw [h0]
          have h0' : i - 2 * buf.length = 0 := by rw [← hl]; exact h0
          rw [h0'] at hne
          simp only [List.getD_cons_zero] at hne
          have hn := nibble_ne_of_toupper_ne c _ hcx hne
          have hg1 := getD_append_add (hexDigits buf) [c, hex.getD (buf.sum % 16) 0] 0
          have hg2 := getD_append_add (hexDigits buf) [c, hex.getD (buf.sum % 16) 0] 1
          rw [hl] at hg1 hg2
          rw [Nat.add_zero] at hg1
          simp only [List.set_cons_zero]
          rw [hg1, hg2]
          simp only [List.getD_cons_zero, List.getD_cons_succ, hs2.2.1, hs2.2.2.1]
          omega
        · rw [h1]
          have h1' : i - 2 * buf.length = 1 := by rw [← hl]; exact h1
          rw [h1'] at hne
          simp only [List.getD_cons_zero, List.getD_cons_succ] at hne
          have hn := nibble_ne_of_toupper_ne c _ hcx hne
          have hg1 := getD_append_add (hexDigits buf) [hex.getD (buf.sum % 256 / 16) 0, c] 0
          have hg2 := getD_append_add (hexDigits buf) [hex.getD (buf.sum % 256 / 16) 0, c] 1
          rw [hl] at hg1 hg2
          rw [Nat.add_zero] at hg1
          simp only [List.set_cons_succ, List.set_cons_zero]
          rw [hg1, hg2]
          simp only [List.getD_cons_zero, List.getD_cons_succ, hs1.2.1, hs1.2.2.1]
          omega
    · rfl
  · rfl

theorem hexDigits_getD (buf : List Nat) : ∀ i, i < buf.length →
    (hexDigits buf).getD (2 * i) 0 = hex.getD (buf.getD i 0 / 16) 0 ∧
    (hexDigits buf).getD (2 * i + 1) 0 = hex.getD (buf.getD i 0 % 16) 0 := by
  induction buf with
  | nil => intro i hi; simp at hi
  | cons x rest ih =>
    intro i hi
    match i with
    | 0 => simp [hexDigits]
    | j + 1 =>
      have hj : j < rest.length := by simp only [List.length_cons] at hi; omega
      have := ih j hj
      have e1 : 2 * (j + 1) = 2 * j + 1 + 1 := by omega
      simp only [hexDigits, e1, List.getD_cons_succ]
      exact this

/-- For a stored text of at least two characters the decoder fails under each of the
three conditions of the specification: the length does not give the expected byte count,
some character is no hex digit, or the byte spelled by the last two digits differs from
the low byte of the sum of the decoded bytes. -/
theorem decode_fails (h : List Nat) (n : Nat) (hlen : 2 ≤ h.length) (hfit : h.length < 2 ^ 32)
    (hc : (h.length - 2) / 2 ≠ n ∨ (∃ c ∈ h, isxdigit c = false) ∨
      (nibble (toupper (h.getD (h.length - 2) 0)) * 16 +
          nibble (toupper (h.getD (h.length - 1) 0))) % 256 ≠
        (pairs (h.take (h.length - 2))).sum % 256) :
    (GetPrivateProfileStructA_decode h n).1 = false := by
  unfold GetPrivateProfileStructA_decode
  split
  · rename_i hl
    split
    · rename_i hall
      rcases hc with hc | ⟨c, hcm, hcx⟩ | hc
      · exact absurd (by omega) hc
      · rw [List.all_eq_true] at hall
        rw [hall c hcm] at hcx
        exact absurd hcx (by decide)
      · have hloop := (decode_loop_eq (h.take (h.length - 2)) 0 [] 0).2
        have e : h.length - 2 + 1 = h.length - 1 := by omega
        simp only [beq_eq_false_iff_ne, ne_eq, hloop, Nat.zero_add, e]
        omega
    · rfl
  · rfl

/-! ### Lookup: lemmas -/

theorem tolower_isspace (c d : Nat) (h : tolower c = tolower d) :
    PROFILE_isspace c = PROFILE_isspace d := by
  by_cases hcd : c = d
  · rw [hcd]
  · have hc : PROFILE_isspace c = false := by
      simp only [PROFILE_isspace, isspace, Bool.or_eq_false_iff, Bool.and_eq_false_iff,
        beq_eq_false_iff_ne, decide_eq_false_iff_not]
      simp only [tolower] at h
      split at h <;> split at h <;> omega
    have hd : PROFILE_isspace d = false := by
      simp only [PROFILE_isspace, isspace, Bool.or_eq_false_iff, Bool.and_eq_false_iff,
        beq_eq_false_iff_ne, decide_eq_false_iff_not]
      simp only [tolower] at h
      split at h <;> split at h <;> omega
    rw [hc, hd]

theorem dropWhile_map_tolower (s t : List Nat) (h : s.map tolower = t.map tolower) :
    (s.dropWhile PROFILE_isspace).map tolower = (t.dropWhile PROFILE_isspace).map tolower := by
  induction s generalizing t with
  | nil =>
    cases t with
    | nil => rfl
    | cons d t => simp at h
  | cons c s ih =>
    cases t with
    | nil => simp at h
    | cons d t =>
      simp only [List.map_cons, List.cons.injEq] at h
      have hsp := tolower_isspace c d h.1
      simp only [List.dropWhile_cons, hsp]
      split
      · exact ih t h.2
      · simp only [List.map_cons, h.1, h.2]

theorem rdropWhile_length_map_tolower (s t : List Nat) (h : s.map tolower = t.map tolower) :
    (s.rdropWhile PROFILE_isspace).length = (t.rdropWhile PROFILE_isspace).length := by
  have hr : s.reverse.map tolower = t.reverse.map tolower := by
    rw [List.map_reverse, List.map_reverse, h]
  have := congrArg List.length (dropWhile_map_tolower _ _ hr)
  simpa [List.rdropWhile] using this

theorem trimTail_length_map_tolower (s t : List Nat) (h : s.map tolower = t.map tolower) :
    (trimTail PROFILE_isspace s).length = (trimTail PROFILE_isspace t).length := by
  cases s with
  | nil =>
    cases t with
    | nil => rfl
    | cons d t => simp at h
  | cons c s =>
    cases t with
    | nil => simp at h
    | cons d t =>
      simp only [List.map_cons, List.cons.injEq] at h
      simp only [trimTail, List.length_cons, rdropWhile_length_map_tolower s t h.2]

theorem strncasecmp_map_tolower (n : Nat) : ∀ (name s t : List Nat),
    s.map tolower = t.map tolower → strncasecmp name s n = strncasecmp name t n := by
  induction n with
  | zero => intro name s t _; simp [strncasecmp]
  | succ n ih =>
    intro name s t h
    have hh : tolower (s.headD 0) = tolower (t.headD 0) := by
      cases s with
      | nil =>
        cases t with
        | nil => rfl
        | cons d t => simp at h
      | cons c s =>
        cases t with
        | nil => simp at h
        | cons d t =>
          simp only [List.map_cons, List.cons.injEq] at h
          exact h.1
    have ht : s.tail.map tolower = t.tail.map tolower := by
      rw [List.map_tail, List.map_tail, h]
    simp only [strncasecmp, hh, ih name.tail s.tail t.tail ht]

theorem Find_loop_congr (s1 s2 : List Nat) (n1 : Nat) (k1 k2 : List Nat) (n2 : Nat)
    (hs : ∀ name, strncasecmp name s1 n1 = strncasecmp name s2 n1)
    (hk : ∀ name, strncasecmp name k1 n2 = strncasecmp name k2 n2)
    (sections : List PROFILESECTION) :
    PROFILE_Find_loop s1 n1 k1 n2 false false sections =
      PROFILE_Find_loop s2 n1 k2 n2 false false sections := by
  induction sections with
  | nil => simp [PROFILE_Find_loop]
  | cons sec rest ih =>
    simp [PROFILE_Find_loop, PROFILE_Find_match, PROFILE_Find_key, hs, hk, ih]

theorem tolower_ne_zero (c : Nat) (h : c ≠ 0) : tolower c ≠ 0 := by
  simp only [tolower]; split <;> omega

theorem Find_match_iff (n : Nat) : ∀ (name q : List Nat), 0 ∉ name → n ≤ q.length →
    0 ∉ q.take n →
    (PROFILE_Find_match name q n = true ↔ name.map tolower = (q.take n).map tolower) := by
  induction n with
  | zero =>
    intro name q hn _ _
    cases name with
    | nil => simp [PROFILE_Find_match, strncasecmp]
    | cons a name =>
      have ha : a ≠ 0 := fun h => hn (by rw [h]; exact List.mem_cons_self _ _)
      simp [PROFILE_Find_match, strncasecmp, ha]
  | succ n ih =>
    intro name q hn hq hq0
    cases q with
    | nil => simp at hq
    | cons c q =>
      have hc : c ≠ 0 := fun h => hq0 (by rw [h]; simp)
      have hq0' : 0 ∉ q.take n := fun h => hq0 (by simp [h])
      have hq' : n ≤ q.length := by simpa using hq
      cases name with
      | nil =>
        have := tolower_ne_zero c hc
        have h0 : tolower 0 = 0 := by decide
        simp [PROFILE_Find_match, strncasecmp, h0, this]
        omega
      | cons a name =>
        have ha : a ≠ 0 := fun h => hn (by rw [h]; exact List.mem_cons_self _ _)
        have hn' : 0 ∉ name := fun h => hn (List.mem_cons_of_mem _ h)
        have := ih name q hn' hq' hq0'
        simp only [PROFILE_Find_match] at this
        by_cases hac : tolower a = tolower c
        · simp only [Bool.and_eq_true, beq_iff_eq] at this
          simp only [PROFILE_Find_match, strncasecmp, List.headD_cons, hac, ne_eq,
            not_true_eq_false, if_false, ha, List.tail_cons, List.getD_cons_succ,
            Bool.and_eq_true, beq_iff_eq, this, List.take_succ_cons, List.map_cons,
            List.cons.injEq, true_and]
        · have hne : (tolower a : Int) - (tolower c : Int) ≠ 0 := by omega
          simp [PROFILE_Find_match, strncasecmp, hac, hne]

theorem dropWhile_append_singleton_neg (f : Nat → Bool) (l : List Nat) (c : Nat)
    (hc : f c = false) : (l ++ [c]).dropWhile f = l.dropWhile f ++ [c] := by
  induction l with
  | nil => simp [List.dropWhile, hc]
  | cons x l ih =>
    simp only [List.cons_append, List.dropWhile_cons]
    split
    · exact ih
    · rfl

theorem rdropWhile_cons_neg (f : Nat → Bool) (c : Nat) (r : List Nat) (hc : f c = false) :
    (c :: r).rdropWhile f = c :: r.rdropWhile f := by
  simp [List.rdropWhile, dropWhile_append_singleton_neg f _ c hc]

theorem head_dropWhile_isspace (s : List Nat) (c : Nat) (r : List Nat)
    (h : s.dropWhile PROFILE_isspace = c :: r) : PROFILE_isspace c = false := by
  induction s with
  | nil => simp at h
  | cons x s ih =>
    simp only [List.dropWhile_cons] at h
    split at h
    · exact ih h
    · rename_i hx
      simp only [List.cons.injEq] at h
      rw [← h.1]
      simpa using hx

theorem trimTail_dropWhile (s : List Nat) :
    trimTail PROFILE_isspace (s.dropWhile PROFILE_isspace) = trim s := by
  unfold trim
  cases h : s.dropWhile PROFILE_isspace with
  | nil => simp [trimTail, List.rdropWhile]
  | cons c r =>
    rw [rdropWhile_cons_neg _ c r (head_dropWhile_isspace s c r h)]
    rfl

theorem take_trim (s : List Nat) :
    (s.dropWhile PROFILE_isspace).take (trim s).length = trim s ∧
    (trim s).length ≤ (s.dropWhile PROFILE_isspace).length := by
  have hp : trim s <+: s.dropWhile PROFILE_isspace := List.rdropWhile_prefix _ _
  exact ⟨(List.prefix_iff_eq_take.mp hp).symm, hp.length_le⟩

theorem not_mem_dropWhile (s : List Nat) (h : 0 ∉ s) (f : Nat → Bool) : 0 ∉ s.dropWhile f :=
  fun h0 => h ((List.dropWhile_sublist f).subset h0)

theorem not_mem_trim (s : List Nat) (h : 0 ∉ s) : 0 ∉ trim s :=
  fun h0 => not_mem_dropWhile s h _ ((List.rdropWhile_prefix _ _).subset h0)

theorem Find_match_trim (name s : List Nat) (hn : 0 ∉ name) (hs : 0 ∉ s) :
    PROFILE_Find_match name (s.dropWhile PROFILE_isspace) (trim s).length =
      eqIgnoreCase name (trim s) := by
  have h := Find_match_iff (trim s).length name (s.dropWhile PROFILE_isspace) hn
    (take_trim s).2 (by rw [(take_trim s).1]; exact not_mem_trim s hs)
  rw [(take_trim s).1] at h
  rw [Bool.eq_iff_iff, h]
  simp [eqIgnoreCase]

theorem findIdx?_cons_zero {α : Type} (p : α → Bool) (x : α) (xs : List α) :
    (x :: xs).findIdx? p = if p x then some 0 else (xs.findIdx? p).map (fun i => i + 1) := by
  rw [List.findIdx?_cons, Nat.zero_add, List.findIdx?_succ]

theorem findIdx?_congr_mem {α : Type} (p q : α → Bool) (l : List α)
    (h : ∀ x ∈ l, p x = q x) : l.findIdx? p = l.findIdx? q := by
  induction l with
  | nil => rfl
  | cons x l ih =>
    simp only [findIdx?_cons_zero, h x (List.mem_cons_self _ _),
      ih (fun y hy => h y (List.mem_cons_of_mem _ hy))]

theorem Find_key_eq (key : List PROFILEKEY) (s : List Nat) (hk : ∀ k ∈ key, 0 ∉ k.name)
    (hs : 0 ∉ s) :
    PROFILE_Find_key key (s.dropWhile PROFILE_isspace) (trim s).length false false =
      (key, key.findIdx? (fun k => eqIgnoreCase k.name (trim s))) := by
  have hcongr := findIdx?_congr_mem
    (fun k : PROFILEKEY => PROFILE_Find_match k.name (s.dropWhile PROFILE_isspace)
      (trim s).length) (fun k => eqIgnoreCase k.name (trim s)) key
    (fun k hkm => Find_match_trim k.name s (hk k hkm) hs)
  simp only [PROFILE_Find_key, Bool.false_eq_true, if_false, hcongr]
  cases key.findIdx? (fun k => eqIgnoreCase k.name (trim s)) <;> simp

theorem Find_loop_eq (S K : List Nat) (hS : 0 ∉ S) (hK : 0 ∉ K) :
    ∀ sections : List PROFILESECTION, namesAreCStrings sections →
    PROFILE_Find_loop (S.dropWhile PROFILE_isspace) (trim S).length
      (K.dropWhile PROFILE_isspace) (trim K).length false false sections =
      (sections, findSpec sections S K) := by
  intro sections
  induction sections with
  | nil => intro _; simp [PROFILE_Find_loop, findSpec]
  | cons sec rest ih =>
    intro hc
    have hsec := hc sec (List.mem_cons_self _ _)
    have hrest : namesAreCStrings rest := fun x hx => hc x (List.mem_cons_of_mem _ hx)
    have hne : (sec.name.headD 0 ≠ 0) ↔ (sec.name != []) = true := by
      cases hnm : sec.name with
      | nil => simp
      | cons a t =>
        have ha : a ≠ 0 := fun h => hsec.1 (by rw [hnm, h]; exact List.mem_cons_self _ _)
        simp [ha]
    simp only [PROFILE_Find_loop, Find_match_trim sec.name S hsec.1 hS, hne,
      Find_key_eq sec.key K hsec.2 hK, ih hrest, findSpec, findIdx?_cons_zero,
      Bool.and_eq_true]
    by_cases hm : (sec.name != []) = true ∧ eqIgnoreCase sec.name (trim S) = true
    · rw [if_pos hm, if_pos hm]
      simp only [List.get?_cons_zero]
    · rw [if_neg hm, if_neg hm]
      cases hf : rest.findIdx? (fun sec => sec.name != [] && eqIgnoreCase sec.name (trim S)) with
      | none => simp
      | some i =>
        simp only [Option.map_some', List.get?_cons_succ]
        cases rest.get? i with
        | none => simp
        | some sec' =>
          simp only
          cases sec'.key.findIdx? (fun k => eqIgnoreCase k.name (trim K)) <;> simp

theorem Find_eq_findSpec (sections : List PROFILESECTION) (S K : List Nat)
    (hc : namesAreCStrings sections) (hS : 0 ∉ S) (hK : 0 ∉ K) :
    PROFILE_Find sections S K false false = (sections, findSpec sections S K) := by
  simp only [PROFILE_Find, trimTail_dropWhile]
  exact Find_loop_eq S K hS hK sections hc

theorem dropWhile_append_pos (f : Nat → Bool) (pre x : List Nat)
    (hpre : ∀ c ∈ pre, f c = true) : (pre ++ x).dropWhile f = x.dropWhile f := by
  induction pre with
  | nil => rfl
  | cons c pre ih =>
    simp only [List.cons_append, List.dropWhile_cons, hpre c (List.mem_cons_self _ _), if_true]
    exact ih (fun y hy => hpre y (List.mem_cons_of_mem _ hy))

theorem rdropWhile_append_pos (f : Nat → Bool) (y post : List Nat)
    (hpost : ∀ c ∈ post, f c = true) : (y ++ post).rdropWhile f = y.rdropWhile f := by
  simp only [List.rdropWhile, List.reverse_append]
  rw [dropWhile_append_pos f _ _ (fun c hc => hpost c (List.mem_reverse.mp hc))]

theorem trim_append_pos (s post : List Nat) (hpost : ∀ c ∈ post, PROFILE_isspace c = true) :
    trim (s ++ post) = trim s := by
  unfold trim
  induction s with
  | nil =>
    have : post.dropWhile PROFILE_isspace = [] := by
      have := dropWhile_append_pos PROFILE_isspace post [] hpost
      simpa using this
    simp [this]
  | cons x s ih =>
    simp only [List.cons_append, List.dropWhile_cons]
    split
    · exact ih
    · rw [← List.cons_append]
      exact rdropWhile_append_pos _ _ _ hpost

theorem trim_pad (pre s post : List Nat) (hpre : ∀ c ∈ pre, PROFILE_isspace c = true)
    (hpost : ∀ c ∈ post, PROFILE_isspace c = true) : trim (pre ++ s ++ post) = trim s := by
  rw [trim_append_pos _ _ hpost]
  unfold trim
  rw [dropWhile_append_pos _ _ _ hpre]

theorem findSpec_congr (sections : List PROFILESECTION) (S S' K K' : List Nat)
    (hS : trim S = trim S') (hK : trim K = trim K') :
    findSpec sections S K = findSpec sections S' K' := by
  simp only [findSpec, hS, hK]

theorem not_mem_pad (pre s post : List Nat) (hpre : ∀ c ∈ pre, PROFILE_isspace c = true)
    (hpost : ∀ c ∈ post, PROFILE_isspace c = true) (hs : 0 ∉ s) : 0 ∉ pre ++ s ++ post := by
  intro h
  simp only [List.mem_append] at h
  rcases h with (h | h) | h
  · exact absurd (hpre 0 h) (by decide)
  · exact hs h
  · exact absurd (hpost 0 h) (by decide)

theorem findSpec_some (sections : List PROFILESECTION) (S K : List Nat) (pos : Nat × Nat)
    (h : findSpec sections S K = some pos) :
    ∃ sec k, sections.get? pos.1 = some sec ∧ sec.key.get? pos.2 = some k ∧
      sec.name ≠ [] ∧ sec.name.map tolower = (trim S).map tolower ∧
      k.name.map tolower = (trim K).map tolower := by
  unfold findSpec at h
  split at h
  · simp at h
  · rename_i i hi
    split at h
    · simp at h
    · rename_i sec hsec
      cases hj : sec.key.findIdx? (fun k => eqIgnoreCase k.name (trim K)) with
      | none => rw [hj] at h; simp at h
      | some j =>
        rw [hj] at h
        simp only [Option.map_some', Option.some.injEq] at h
        subst h
        rw [List.findIdx?_eq_some_iff_getElem] at hi hj
        obtain ⟨hil, hip, _⟩ := hi
        obtain ⟨hjl, hjp, _⟩ := hj
        have hsec' : sections[i] = sec := by
          rw [List.get?_eq_getElem?, List.getElem?_eq_getElem hil] at hsec
          exact Option.some.inj hsec
        rw [hsec'] at hip
        simp only [Bool.and_eq_true, bne_iff_ne, ne_eq, eqIgnoreCase, beq_iff_eq] at hip hjp
        refine ⟨sec, sec.key[j], hsec, ?_, hip.1, hip.2, hjp⟩
        rw [List.get?_eq_getElem?, List.getElem?_eq_getElem hjl]

/-! ### PROFILE_SetString: lemmas -/

theorem strncasecmp_self (n : Nat) : ∀ q : List Nat, strncasecmp q q n = 0 := by
  induction n with
  | zero => intro q; simp [strncasecmp]
  | succ n ih =>
    intro q
    simp only [strncasecmp, ne_eq, not_true_eq_false, if_false, ih q.tail]
    split <;> rfl

theorem Find_match_self (q : List Nat) : PROFILE_Find_match q q q.length = true := by
  simp [PROFILE_Find_match, strncasecmp_self]

/-- The key scan of PROFILE_Find with creation, run again on its own result, finds the
same key and creates nothing. -/
theorem Find_key_idem (key : List PROFILEKEY) (qK : List Nat) (nK : Nat)
    (hself : PROFILE_Find_match qK qK nK = true) :
    PROFILE_Find_key (PROFILE_Find_key key qK nK true false).1 qK nK true false =
      PROFILE_Find_key key qK nK true false := by
  simp only [PROFILE_Find_key, Bool.false_eq_true, if_false]
  cases h : key.findIdx? (fun k => PROFILE_Find_match k.name qK nK) with
  | some j => simp [h]
  | none =>
    have hnone := h
    rw [List.findIdx?_eq_none_iff] at hnone
    have : (key ++ [({ name := qK, value := none } : PROFILEKEY)]).findIdx?
        (fun k => PROFILE_Find_match k.name qK nK) = some key.length := by
      rw [List.findIdx?_append, h]
      simp [hself]
    simp [this]

theorem Find_loop_idem (qS : List Nat) (nS : Nat) (qK : List Nat) (nK : Nat)
    (hS0 : qS.headD 0 ≠ 0) (hSself : PROFILE_Find_match qS qS nS = true)
    (hKself : PROFILE_Find_match qK qK nK = true) :
    ∀ d : List PROFILESECTION,
    PROFILE_Find_loop qS nS qK nK true false (PROFILE_Find_loop qS nS qK nK true false d).1 =
      PROFILE_Find_loop qS nS qK nK true false d := by
  intro d
  induction d with
  | nil =>
    have hS0' : ¬ qS.head?.getD 0 = 0 := by simpa using hS0
    simp [PROFILE_Find_loop, hS0', hSself, PROFILE_Find_key, hKself]
  | cons sec rest ih =>
    by_cases hm : sec.name.headD 0 ≠ 0 ∧ PROFILE_Find_match sec.name qS nS = true
    · simp only [PROFILE_Find_loop, if_pos hm, Find_key_idem sec.key qK nK hKself]
    · simp only [PROFILE_Find_loop, if_neg hm, ih]


theorem findIdx?_map_name (f : List Nat → Bool) (key : List PROFILEKEY) :
    key.findIdx? (fun k => f k.name) = (key.map (fun k => k.name)).findIdx? f := by
  induction key with
  | nil => rfl
  | cons k key ih => simp only [List.map_cons, findIdx?_cons_zero, ih]

theorem Find_key_found_congr (key key' : List PROFILEKEY) (qK : List Nat) (nK j : Nat)
    (hn : key.map (fun k => k.name) = key'.map (fun k => k.name))
    (h : PROFILE_Find_key key qK nK true false = (key, some j)) :
    PROFILE_Find_key key' qK nK true false = (key', some j) := by
  simp only [PROFILE_Find_key, Bool.false_eq_true, if_false] at h ⊢
  rw [findIdx?_map_name (fun n => PROFILE_Find_match n qK nK)] at h ⊢
  rw [← hn]
  cases hf : (key.map (fun k => k.name)).findIdx? (fun n => PROFILE_Find_match n qK nK) with
  | some i =>
    rw [hf] at h
    simp only [Prod.mk.injEq, Option.some.injEq, true_and] at h
    simp [h]
  | none =>
    rw [hf] at h
    simp at h

theorem Find_loop_found_congr (qS : List Nat) (nS : Nat) (qK : List Nat) (nK : Nat) :
    ∀ (d d' : List PROFILESECTION) (pos : Nat × Nat), skeleton d = skeleton d' →
    PROFILE_Find_loop qS nS qK nK true false d = (d, some pos) →
    PROFILE_Find_loop qS nS qK nK true false d' = (d', some pos) := by
  intro d
  induction d with
  | nil =>
    intro d' pos _ h
    simp [PROFILE_Find_loop] at h
  | cons sec rest ih =>
    intro d' pos hsk h
    cases d' with
    | nil => simp [skeleton] at hsk
    | cons sec' rest' =>
      simp only [skeleton, List.map_cons, List.cons.injEq, Prod.mk.injEq] at hsk
      obtain ⟨⟨hname, hkeys⟩, hrest⟩ := hsk
      by_cases hm : sec.name.headD 0 ≠ 0 ∧ PROFILE_Find_match sec.name qS nS = true
      · have hm' : sec'.name.headD 0 ≠ 0 ∧ PROFILE_Find_match sec'.name qS nS = true := by
          rw [← hname]; exact hm
        simp only [PROFILE_Find_loop, if_pos hm, Prod.mk.injEq, List.cons.injEq,
          and_true] at h
        simp only [PROFILE_Find_loop, if_pos hm']
        cases hr : (PROFILE_Find_key sec.key qK nK true false).2 with
        | none => rw [hr] at h; simp at h
        | some j =>
          rw [hr] at h
          have hk1 : (PROFILE_Find_key sec.key qK nK true false).1 = sec.key := by
            have := h.1
            cases sec
            simp only [PROFILESECTION.mk.injEq, true_and] at this
            exact this
          have hfk : PROFILE_Find_key sec.key qK nK true false = (sec.key, some j) :=
            Prod.ext hk1 hr
          have := Find_key_found_congr sec.key sec'.key qK nK j hkeys hfk
          rw [this]
          simp only [Option.map_some'] at h ⊢
          rw [← h.2]
      · have hm' : ¬ (sec'.name.headD 0 ≠ 0 ∧ PROFILE_Find_match sec'.name qS nS = true) := by
          rw [← hname]; exact hm
        simp only [PROFILE_Find_loop, if_neg hm, Prod.mk.injEq, List.cons.injEq,
          true_and] at h
        simp only [PROFILE_Find_loop, if_neg hm']
        cases hr : (PROFILE_Find_loop qS nS qK nK true false rest).2 with
        | none => rw [hr] at h; simp at h
        | some p =>
          rw [hr] at h
          have hfl : PROFILE_Find_loop qS nS qK nK true false rest = (rest, some p) :=
            Prod.ext h.1 hr
          have := ih rest' p hrest hfl
          rw [this]
          simp only [Option.map_some'] at h ⊢
          rw [← h.2]

theorem Find_key_valid (key : List PROFILEKEY) (qK : List Nat) (nK : Nat) :
    ∃ j k, (PROFILE_Find_key key qK nK true false).2 = some j ∧
      (PROFILE_Find_key key qK nK true false).1.get? j = some k := by
  simp only [PROFILE_Find_key, Bool.false_eq_true, if_false]
  cases h : key.findIdx? (fun k => PROFILE_Find_match k.name qK nK) with
  | some j =>
    rw [List.findIdx?_eq_some_iff_getElem] at h
    obtain ⟨hj, _, _⟩ := h
    exact ⟨j, key[j], rfl, by simp [List.getElem?_eq_getElem hj]⟩
  | none =>
    exact ⟨key.length, { name := qK, value := none }, rfl, by simp⟩

theorem Find_loop_valid (qS : List Nat) (nS : Nat) (qK : List Nat) (nK : Nat) :
    ∀ d : List PROFILESECTION, ∃ pos k,
      (PROFILE_Find_loop qS nS qK nK true false d).2 = some pos ∧
      keyAt (PROFILE_Find_loop qS nS qK nK true false d).1 pos = some k := by
  intro d
  induction d with
  | nil => exact ⟨(0, 0), { name := qK, value := none }, by simp [PROFILE_Find_loop], by
      simp [PROFILE_Find_loop, keyAt]⟩
  | cons sec rest ih =>
    by_cases hm : sec.name.headD 0 ≠ 0 ∧ PROFILE_Find_match sec.name qS nS = true
    · obtain ⟨j, k, hj, hk⟩ := Find_key_valid sec.key qK nK
      refine ⟨(0, j), k, ?_, ?_⟩
      · simp only [PROFILE_Find_loop, if_pos hm, hj, Option.map_some']
      · simp only [PROFILE_Find_loop, if_pos hm, keyAt, List.get?_cons_zero, hk]
    · obtain ⟨pos, k, hp, hk⟩ := ih
      refine ⟨(pos.1 + 1, pos.2), k, ?_, ?_⟩
      · simp only [PROFILE_Find_loop, if_neg hm, hp, Option.map_some']
      · simp only [PROFILE_Find_loop, if_neg hm, keyAt, List.get?_cons_succ] at hk ⊢
        exact hk

theorem map_name_modify (key : List PROFILEKEY) (j : Nat) (v : List Nat) :
    (key.modify (fun k => { name := k.name, value := some v }) j).map (fun k => k.name) =
      key.map (fun k => k.name) := by
  induction key generalizing j with
  | nil => simp
  | cons k key ihk =>
    cases j with
    | zero => simp
    | succ j => simp [ihk j]

theorem skeleton_setValueAt (d : List PROFILESECTION) (pos : Nat × Nat) (v : List Nat) :
    skeleton (setValueAt d pos v) = skeleton d := by
  obtain ⟨i, j⟩ := pos
  simp only [skeleton, setValueAt]
  induction d generalizing i with
  | nil => simp
  | cons sec rest ih =>
    cases i with
    | zero =>
      simp only [List.modify_zero_cons, List.map_cons, List.cons.injEq, Prod.mk.injEq,
        true_and, and_true]
      exact map_name_modify sec.key j v
    | succ i =>
      simp only [List.modify_succ_cons, List.map_cons, List.cons.injEq, true_and]
      exact ih i

theorem keyAt_setValueAt (d : List PROFILESECTION) (pos : Nat × Nat) (v : List Nat)
    (k : PROFILEKEY) (h : keyAt d pos = some k) :
    keyAt (setValueAt d pos v) pos = some { name := k.name, value := some v } := by
  obtain ⟨i, j⟩ := pos
  simp only [keyAt, setValueAt, List.get?_eq_getElem?, List.getElem?_modify_eq] at h ⊢
  cases hs : d[i]? with
  | none => rw [hs] at h; simp at h
  | some sec =>
    rw [hs] at h
    simp only [Option.map_eq_map, Option.map_some', List.getElem?_modify_eq] at h ⊢
    rw [h]
    rfl

theorem dropWhile_of_noLeadingSpace (v : List Nat) (h : noLeadingSpace v = true) :
    v.dropWhile PROFILE_isspace = v := by
  cases v with
  | nil => rfl
  | cons c v =>
    simp only [noLeadingSpace, List.head?_cons, Bool.not_eq_true'] at h
    simp [List.dropWhile_cons, h]

theorem getLast?_dropWhile (f : Nat → Bool) (s : List Nat) (c : Nat)
    (h : (s.dropWhile f).getLast? = some c) : s.getLast? = some c := by
  induction s with
  | nil => simp at h
  | cons x s ih =>
    simp only [List.dropWhile_cons] at h
    split at h
    · have := ih h
      cases s with
      | nil => simp at this
      | cons y s => simpa [List.getLast?_cons_cons] using this
    · exact h

theorem trimTail_of_noTrailingSpace (s : List Nat) (h : noTrailingSpace s = true) :
    trimTail PROFILE_isspace (s.dropWhile PROFILE_isspace) = s.dropWhile PROFILE_isspace := by
  rw [trimTail_dropWhile]
  unfold trim
  rw [List.rdropWhile_eq_self_iff]
  intro hl hsp
  have hlast : (s.dropWhile PROFILE_isspace).getLast? =
      some ((s.dropWhile PROFILE_isspace).getLast hl) := List.getLast?_eq_getLast _ hl
  have hl2 := getLast?_dropWhile _ s _ hlast
  simp only [noTrailingSpace, hl2, Bool.not_eq_true'] at h
  rw [h] at hsp
  exact absurd hsp (by decide)

theorem Find_idem (d : List PROFILESECTION) (S K : List Nat)
    (hS0 : (S.dropWhile PROFILE_isspace).headD 0 ≠ 0) (hS : noTrailingSpace S = true)
    (hK : noTrailingSpace K = true) :
    ∃ pos k, PROFILE_Find d S K true false = ((PROFILE_Find d S K true false).1, some pos) ∧
      keyAt (PROFILE_Find d S K true false).1 pos = some k ∧
      PROFILE_Find (PROFILE_Find d S K true false).1 S K true false =
        ((PROFILE_Find d S K true false).1, some pos) ∧
      ∀ v, PROFILE_Find (setValueAt (PROFILE_Find d S K true false).1 pos v) S K true false =
        (setValueAt (PROFILE_Find d S K true false).1 pos v, some pos) := by
  simp only [PROFILE_Find, trimTail_of_noTrailingSpace S hS, trimTail_of_noTrailingSpace K hK]
  obtain ⟨pos, k, hpos, hk⟩ := Find_loop_valid (S.dropWhile PROFILE_isspace)
    (S.dropWhile PROFILE_isspace).length (K.dropWhile PROFILE_isspace)
    (K.dropWhile PROFILE_isspace).length d
  have hid := Find_loop_idem (S.dropWhile PROFILE_isspace)
    (S.dropWhile PROFILE_isspace).length (K.dropWhile PROFILE_isspace)
    (K.dropWhile PROFILE_isspace).length hS0 (Find_match_self _) (Find_match_self _) d
  have h1 : PROFILE_Find_loop (S.dropWhile PROFILE_isspace)
      (S.dropWhile PROFILE_isspace).length (K.dropWhile PROFILE_isspace)
      (K.dropWhile PROFILE_isspace).length true false d = (_, some pos) := Prod.ext rfl hpos
  refine ⟨pos, k, h1, hk, ?_, ?_⟩
  · rw [hid]; exact h1
  · intro v
    apply Find_loop_found_congr _ _ _ _ _ _ pos (skeleton_setValueAt _ pos v).symm
    rw [hid]; exact h1

theorem SetString_first (cur : PROFILE) (S K V : List Nat)
    (hS0 : (S.dropWhile PROFILE_isspace).headD 0 ≠ 0) (hS : noTrailingSpace S = true)
    (hK : noTrailingSpace K = true) (hV : noLeadingSpace V = true) :
    ∃ pos k, PROFILE_Find (PROFILE_SetString cur S (some K) (some V) false).1.«section» S K
        true false = ((PROFILE_SetString cur S (some K) (some V) false).1.«section», some pos) ∧
      keyAt (PROFILE_SetString cur S (some K) (some V) false).1.«section» pos = some k ∧
      k.value = some V := by
  obtain ⟨pos, k, hpos, hk, hF1, hF2⟩ := Find_idem cur.«section» S K hS0 hS hK
  have hV' := dropWhile_of_noLeadingSpace V hV
  have hpos2 : (PROFILE_Find cur.«section» S K true false).2 = some pos := by rw [hpos]
  have hset : (PROFILE_SetString cur S (some K) (some V) false).1.«section» =
      setValueAt (PROFILE_Find cur.«section» S K true false).1 pos V →
      ∃ pos k, PROFILE_Find (PROFILE_SetString cur S (some K) (some V) false).1.«section» S K
        true false = ((PROFILE_SetString cur S (some K) (some V) false).1.«section», some pos) ∧
      keyAt (PROFILE_SetString cur S (some K) (some V) false).1.«section» pos = some k ∧
      k.value = some V := by
    intro h
    rw [h]
    exact ⟨pos, _, hF2 V, keyAt_setValueAt _ pos V k hk, rfl⟩
  cases hv : k.value with
  | none =>
    apply hset
    simp only [PROFILE_SetString, hpos2, hk, Option.some_bind, hv]
  | some old =>
    by_cases hold : old = V
    · have hfirst : (PROFILE_SetString cur S (some K) (some V) false).1.«section» =
          (PROFILE_Find cur.«section» S K true false).1 := by
        simp only [PROFILE_SetString, hpos2, hk, Option.some_bind, hv, hV', hold, if_true]
      rw [hfirst]
      exact ⟨pos, k, hF1, hk, by rw [hv, hold]⟩
    · apply hset
      simp only [PROFILE_SetString, hpos2, hk, Option.some_bind, hv, hV', hold, if_false]

theorem SetString_idem (cur : PROFILE) (S K V : List Nat)
    (hS0 : (S.dropWhile PROFILE_isspace).headD 0 ≠ 0) (hS : noTrailingSpace S = true)
    (hK : noTrailingSpace K = true) (hV : noLeadingSpace V = true) (c : PROFILE)
    (hc : c.«section» = (PROFILE_SetString cur S (some K) (some V) false).1.«section») :
    PROFILE_SetString c S (some K) (some V) false = (c, true) := by
  obtain ⟨pos, k, hF, hk, hv⟩ := SetString_first cur S K V hS0 hS hK hV
  have hV' := dropWhile_of_noLeadingSpace V hV
  rw [← hc] at hF hk
  simp only [PROFILE_SetString, hF, hk, Option.some_bind, hv, hV', if_true]

/-! ### Save and load: lemmas -/

theorem Save_keys_eq (key : List PROFILEKEY) :
    PROFILE_Save_keys key = (key.map keyLine).flatten := by
  induction key with
  | nil => rfl
  | cons k key ih =>
    rw [PROFILE_Save_keys, ih]
    cases hv : k.value <;> simp [keyLine, hv]

theorem Save_eq (d : List PROFILESECTION) : PROFILE_Save d = (saveLines d).flatten := by
  induction d with
  | nil => rfl
  | cons sec rest ih =>
    simp only [PROFILE_Save, saveLines, sectionLines, List.flatten_append, ih, Save_keys_eq]
    split <;> simp

theorem fgets_read_line (body rest : List Nat) (h10 : 10 ∉ body) :
    ∀ k, body.length < k → fgets_read k (body ++ 10 :: rest) = (body ++ [10], rest) := by
  induction body with
  | nil =>
    intro k hk
    cases k with
    | zero => simp at hk
    | succ k => simp [fgets_read]
  | cons c body ih =>
    intro k hk
    cases k with
    | zero => simp at hk
    | succ k =>
      have hc : c ≠ 10 := fun h => h10 (by rw [h]; exact List.mem_cons_self _ _)
      have hb : 10 ∉ body := fun h => h10 (List.mem_cons_of_mem _ h)
      have hk' : body.length < k := by simpa using hk
      rw [List.cons_append, fgets_read, if_neg hc, ih hb k hk']
      rfl

theorem fgets_line (l rest : List Nat) (hl : IsLine l) :
    fgets 1024 (l ++ rest) = some (l, rest) ∧ l.takeWhile (· ≠ 0) = l := by
  obtain ⟨body, rfl, h10, h0, hlen⟩ := hl
  constructor
  · have hne : body ++ [10] ++ rest ≠ [] := by simp
    simp only [fgets, hne, if_false]
    rw [List.append_assoc, List.singleton_append,
      fgets_read_line body rest h10 1023 (by simp at hlen; omega)]
  · rw [List.takeWhile_eq_self_iff]
    intro x hx
    simp only [List.mem_append, List.mem_singleton] at hx
    rcases hx with hx | rfl
    · simp only [ne_eq, decide_not, Bool.not_eq_true', decide_eq_false_iff_not]
      intro h; exact h0 (h ▸ hx)
    · decide

theorem Load_loop_lines (ls : List (List Nat)) (hl : ∀ l ∈ ls, IsLine l) :
    ∀ (fuel : Nat) (st : LoadState), ls.length ≤ fuel →
      PROFILE_Load_loop fuel ls.flatten st = ls.foldl PROFILE_Load_line st := by
  induction ls with
  | nil =>
    intro fuel st _
    cases fuel with
    | zero => rfl
    | succ fuel => simp [PROFILE_Load_loop, fgets]
  | cons l ls ih =>
    intro fuel st hf
    cases fuel with
    | zero => simp at hf
    | succ fuel =>
      have h1 := fgets_line l ls.flatten (hl l (List.mem_cons_self _ _))
      simp only [List.flatten_cons, PROFILE_Load_loop, h1.1, h1.2, List.foldl_cons]
      exact ih (fun x hx => hl x (List.mem_cons_of_mem _ hx)) fuel _ (by simpa using hf)

theorem length_le_flatten (ls : List (List Nat)) (hl : ∀ l ∈ ls, IsLine l) :
    ls.length ≤ ls.flatten.length := by
  induction ls with
  | nil => simp
  | cons l ls ih =>
    obtain ⟨body, hb, _⟩ := hl l (List.mem_cons_self _ _)
    have := ih (fun x hx => hl x (List.mem_cons_of_mem _ hx))
    simp only [List.flatten_cons, List.length_append, List.length_cons, hb]
    omega

theorem Load_lines (ls : List (List Nat)) (hl : ∀ l ∈ ls, IsLine l) :
    PROFILE_Load ls.flatten =
      (ls.foldl PROFILE_Load_line
          { done := [], cur := { name := [], key := [] }, prev_key := none }).done ++
        [(ls.foldl PROFILE_Load_line
          { done := [], cur := { name := [], key := [] }, prev_key := none }).cur] := by
  simp only [PROFILE_Load]
  rw [Load_loop_lines ls hl _ _ (length_le_flatten ls hl)]

theorem keyLine_eq (k : PROFILEKEY) : keyLine k = keyText k ++ [13, 10] := by
  cases hv : k.value <;> simp [keyLine, keyText, hv]

theorem isspace_line_eq : (fun c => c == 10 || PROFILE_isspace c) = PROFILE_isspace := by
  funext c
  by_cases h : c = 10
  · subst h; decide
  · simp [h]

theorem strchr_none (p : List Nat) (c : Nat) (h : c ∉ p) : strchr p c = none := by
  simp [strchr, h]

theorem strrchr_none (p : List Nat) (c : Nat) (h : c ∉ p) : strrchr p c = none := by
  simp [strrchr, h]

theorem strchr_append (name v : List Nat) (c : Nat) (h : c ∉ name) :
    strchr (name ++ c :: v) c = some name.length := by
  have hm : c ∈ name ++ c :: v := by simp
  simp only [strchr, hm, if_true]
  rw [List.indexOf_append_of_not_mem h, List.indexOf_cons_self, Nat.add_zero]

theorem dropWhile_of_head (x : List Nat) (h : noLeadingSpace x = true) (post : List Nat)
    (hx : x ≠ []) : (x ++ post).dropWhile PROFILE_isspace = x ++ post := by
  cases x with
  | nil => exact absurd rfl hx
  | cons c r =>
    simp only [noLeadingSpace, List.head?_cons, Bool.not_eq_true'] at h
    simp [List.dropWhile_cons, h]

theorem trimTail_self (x : List Nat) (h1 : noLeadingSpace x = true)
    (h2 : noTrailingSpace x = true) : trimTail PROFILE_isspace x = x := by
  have := trimTail_of_noTrailingSpace x h2
  rw [dropWhile_of_noLeadingSpace x h1] at this
  exact this

theorem trimTail_append_pos (x post : List Nat) (hx : x ≠ [])
    (hpost : ∀ c ∈ post, PROFILE_isspace c = true) :
    trimTail PROFILE_isspace (x ++ post) = trimTail PROFILE_isspace x := by
  cases x with
  | nil => exact absurd rfl hx
  | cons c r =>
    simp only [List.cons_append, trimTail, rdropWhile_append_pos _ r post hpost]

theorem noTrailingSpace_append (x y : List Nat) (hy : y ≠ []) :
    noTrailingSpace (x ++ y) = noTrailingSpace y := by
  simp only [noTrailingSpace, List.getLast?_append_of_ne_nil x hy]

theorem keyText_props (k : PROFILEKEY) (hk : KeyOK k) :
    noLeadingSpace (keyText k) = true ∧ noTrailingSpace (keyText k) = true := by
  obtain ⟨_, _, _, hl, ht, hv, _⟩ := hk
  cases hval : k.value with
  | none =>
    simp only [keyText, hval, List.append_nil]
    exact ⟨hl, ht⟩
  | some v =>
    obtain ⟨_, _, hvl, hvt⟩ := hv v hval
    simp only [keyText, hval]
    constructor
    · cases hn : k.name with
      | nil => simp [noLeadingSpace]; decide
      | cons c r =>
        rw [hn] at hl
        simpa [noLeadingSpace] using hl
    · rw [noTrailingSpace_append _ _ (by simp)]
      cases v with
      | nil => decide
      | cons c r =>
        rw [show (61 :: c :: r) = [61] ++ (c :: r) from rfl,
          noTrailingSpace_append _ _ (by simp)]
        exact hvt

theorem Load_key_keyText (k : PROFILEKEY) (hk : KeyOK k) (hne : keyText k ≠ []) :
    PROFILE_Load_key (keyText k ++ [13, 10]) = k := by
  have hp := keyText_props k hk
  have htrim : trimTail PROFILE_isspace (keyText k ++ [13, 10]) = keyText k := by
    rw [trimTail_append_pos _ _ hne (by decide), trimTail_self _ hp.1 hp.2]
  obtain ⟨_, _, h61, hl, ht, hv, _⟩ := hk
  simp only [PROFILE_Load_key, isspace_line_eq, htrim]
  cases hval : k.value with
  | none =>
    have : keyText k = k.name := by simp [keyText, hval]
    rw [this, strchr_none _ _ h61]
    cases k
    simp only at hval
    simp [hval]
  | some v =>
    obtain ⟨_, _, hvl, hvt⟩ := hv v hval
    have : keyText k = k.name ++ 61 :: v := by simp [keyText, hval]
    rw [this, strchr_append _ _ _ h61]
    simp only [List.take_left', List.drop_left', trimTail_self _ hl ht]
    have hd : (k.name ++ 61 :: v).drop (k.name.length + 1) = v := by
      rw [List.drop_append]
      rfl
    rw [hd, dropWhile_of_noLeadingSpace v hvl]
    cases k
    simp only at hval
    simp [hval]

theorem header_test_keyText (k : PROFILEKEY) (hk : KeyOK k) :
    (if (keyText k ++ [13, 10]).headD 0 = 91 then strrchr (keyText k ++ [13, 10]) 93 else none)
      = none := by
  split
  · rename_i h
    obtain ⟨_, _, _, _, _, _, h93⟩ := hk
    cases hn : k.name with
    | nil =>
      cases hval : k.value <;> simp [keyText, hn, hval] at h
    | cons c r =>
      have hc : k.name.headD 0 = 91 := by
        simp only [keyText, hn, List.cons_append, List.headD_cons] at h
        rw [hn]; exact h
      obtain ⟨hn93, hv93⟩ := h93 hc
      apply strrchr_none
      intro hm
      simp only [keyText, List.mem_append, List.mem_cons, List.mem_singleton,
        List.not_mem_nil, or_false] at hm
      rcases hm with (hm | hm) | hm | hm
      · exact hn93 hm
      · cases hval : k.value with
        | none => rw [hval] at hm; simp at hm
        | some v =>
          rw [hval] at hm
          simp only [List.mem_cons] at hm
          rcases hm with hm | hm
          · omega
          · exact hv93 v hval hm
      · omega
      · omega
  · rfl

theorem Load_line_keyLine (st : LoadState) (k : PROFILEKEY) (hk : KeyOK k) :
    PROFILE_Load_line st (keyLine k) =
      if PROFILE_Load_keep k.name st.prev_key then
        { done := st.done, cur := { name := st.cur.name, key := st.cur.key ++ [k] },
          prev_key := some k }
      else st := by
  by_cases hne : keyText k = []
  · have hk' : k = { name := [], value := none } := by
      cases k with
      | mk name value =>
        cases value with
        | none => simp [keyText] at hne; simp [hne]
        | some v => simp [keyText] at hne
    subst hk'
    rfl
  · have hp := keyText_props k hk
    have hd := dropWhile_of_head (keyText k) hp.1 [13, 10] hne
    simp only [PROFILE_Load_line, keyLine_eq, hd, header_test_keyText k hk,
      Load_key_keyText k hk hne]

theorem KeyOK_blankKey : KeyOK blankKey := by
  refine ⟨by simp [blankKey], by simp [blankKey], by simp [blankKey], rfl, rfl, ?_, ?_⟩
  · intro v hv; simp [blankKey] at hv
  · intro h; simp [blankKey] at h

theorem Load_line_blank (st : LoadState) :
    PROFILE_Load_line st [13, 10] =
      if PROFILE_Load_keep [] st.prev_key then
        { done := st.done, cur := { name := st.cur.name, key := st.cur.key ++ [blankKey] },
          prev_key := some blankKey }
      else st :=
  Load_line_keyLine st blankKey KeyOK_blankKey

theorem Load_line_header (st : LoadState) (name : List Nat) :
    PROFILE_Load_line st (91 :: (name ++ [93, 13, 10])) =
      { done := st.done ++ [st.cur], cur := { name := name, key := [] }, prev_key := none } := by
  have hd : (91 :: (name ++ [93, 13, 10])).dropWhile PROFILE_isspace =
      91 :: (name ++ [93, 13, 10]) := by
    have h91 : PROFILE_isspace 91 = false := by decide
    simp [List.dropWhile_cons, h91]
  have hr : strrchr (91 :: (name ++ [93, 13, 10])) 93 = some (name.length + 1) := by
    have hm : 93 ∈ 91 :: (name ++ [93, 13, 10]) := by simp
    simp only [strrchr, hm, if_true, List.reverse_cons, List.reverse_append,
      List.reverse_nil, List.nil_append, List.singleton_append, List.cons_append,
      List.length_cons, List.length_append, List.length_nil]
    rw [List.indexOf_cons_ne _ (by decide), List.indexOf_cons_ne _ (by decide),
      List.indexOf_cons_self]
    congr 1
  simp only [PROFILE_Load_line, hd, List.headD_cons, if_true, hr]
  congr 2
  simp [List.take_succ_cons, List.take_left']

theorem Load_keep_of_chain (ks0 : List PROFILEKEY) (k : PROFILEKEY) (rest : List PROFILEKEY)
    (h : NoDoubleBlank (ks0 ++ k :: rest)) : PROFILE_Load_keep k.name ks0.getLast? = true := by
  unfold NoDoubleBlank at h
  rw [List.chain'_append] at h
  obtain ⟨_, _, hadj⟩ := h
  cases hl : ks0.getLast? with
  | none => simp [PROFILE_Load_keep]
  | some a =>
    have := hadj a (by rw [hl]; rfl) k (by simp)
    simp only [PROFILE_Load_keep, Bool.or_eq_true, bne_iff_ne, ne_eq]
    by_cases hk : k.name.headD 0 = 0
    · right; intro ha; exact this ⟨ha, hk⟩
    · left; exact hk

theorem fold_keys (done : List PROFILESECTION) (nm : List Nat) :
    ∀ (ks ks0 : List PROFILEKEY), (∀ k ∈ ks, KeyOK k) → NoDoubleBlank (ks0 ++ ks) →
      (ks.map keyLine).foldl PROFILE_Load_line
          { done := done, cur := { name := nm, key := ks0 }, prev_key := ks0.getLast? } =
        { done := done, cur := { name := nm, key := ks0 ++ ks },
          prev_key := (ks0 ++ ks).getLast? } := by
  intro ks
  induction ks with
  | nil => intro ks0 _ _; simp
  | cons k ks ih =>
    intro ks0 hok hch
    have hkeep := Load_keep_of_chain ks0 k ks hch
    simp only [List.map_cons, List.foldl_cons,
      Load_line_keyLine _ k (hok k (List.mem_cons_self _ _)), hkeep, if_true]
    have e : (ks0 ++ [k]).getLast? = some k := by simp
    have := ih (ks0 ++ [k]) (fun x hx => hok x (List.mem_cons_of_mem _ hx))
      (by simpa using hch)
    rw [e] at this
    rw [this]
    simp

theorem fold_section (done : List PROFILESECTION) (cur sec : PROFILESECTION)
    (hname : sec.name.headD 0 ≠ 0) (hok : SecOK sec) :
    (sectionLines sec).foldl PROFILE_Load_line
        { done := done, cur := cur, prev_key := cur.key.getLast? } =
      { done := done ++ [padSection cur], cur := sec, prev_key := sec.key.getLast? } := by
  have h1 : PROFILE_Load_line { done := done, cur := cur, prev_key := cur.key.getLast? }
      [13, 10] = { done := done, cur := padSection cur,
                   prev_key := (padSection cur).key.getLast? } := by
    rw [Load_line_blank]
    obtain hl | ⟨a, hl⟩ := Option.eq_none_or_eq_some cur.key.getLast?
    · simp [PROFILE_Load_keep, padSection, endsWithEmptyName, hl]
    · by_cases ha : a.name.head?.getD 0 = 0
      · simp [PROFILE_Load_keep, padSection, endsWithEmptyName, hl, ha]
      · simp [PROFILE_Load_keep, padSection, endsWithEmptyName, hl, ha]
  simp only [sectionLines, hname, ne_eq, not_false_eq_true, if_true, List.cons_append,
    List.nil_append, List.foldl_cons, h1, Load_line_header]
  have := fold_keys (done ++ [padSection cur]) sec.name sec.key [] hok.2.2.1
    (by simpa using hok.2.2.2)
  simpa using this

theorem fold_sections : ∀ (ss : List PROFILESECTION) (done : List PROFILESECTION)
    (cur : PROFILESECTION), (∀ s ∈ ss, s.name.headD 0 ≠ 0 ∧ SecOK s) →
    ((saveLines ss).foldl PROFILE_Load_line
        { done := done, cur := cur, prev_key := cur.key.getLast? }).done ++
      [((saveLines ss).foldl PROFILE_Load_line
        { done := done, cur := cur, prev_key := cur.key.getLast? }).cur] =
      done ++ padBlank (cur :: ss) := by
  intro ss
  induction ss with
  | nil => intro done cur _; simp [saveLines, padBlank]
  | cons s ss ih =>
    intro done cur h
    have hs := h s (List.mem_cons_self _ _)
    simp only [saveLines, List.foldl_append, fold_section done cur s hs.1 hs.2]
    rw [ih (done ++ [padSection cur]) s (fun x hx => h x (List.mem_cons_of_mem _ hx))]
    simp [padBlank]

theorem isspace_10 : PROFILE_isspace 10 = true := by decide

theorem noLeadingSpace_dropWhile (s : List Nat) :
    noLeadingSpace (s.dropWhile PROFILE_isspace) = true := by
  cases h : s.dropWhile PROFILE_isspace with
  | nil => rfl
  | cons c r =>
    have := head_dropWhile_isspace s c r h
    simp [noLeadingSpace, this]

theorem trimTail_sublist (f : Nat → Bool) (s : List Nat) : (trimTail f s).Sublist s := by
  cases s with
  | nil => exact List.Sublist.refl _
  | cons c r => exact (List.rdropWhile_prefix f r).sublist.cons₂ c

theorem trimTail_noLeading (s : List Nat) (h : noLeadingSpace s = true) :
    noLeadingSpace (trimTail PROFILE_isspace s) = true := by
  cases s with
  | nil => rfl
  | cons c r => simpa [noLeadingSpace, trimTail] using h

theorem trimTail_noTrailing (s : List Nat) (h : noLeadingSpace s = true) :
    noTrailingSpace (trimTail PROFILE_isspace s) = true := by
  cases s with
  | nil => rfl
  | cons c r =>
    simp only [noLeadingSpace, List.head?_cons, Bool.not_eq_true'] at h
    simp only [trimTail]
    by_cases hr : r.rdropWhile PROFILE_isspace = []
    · simp [hr, noTrailingSpace, h]
    · have hlast := List.rdropWhile_last_not PROFILE_isspace r hr
      have e : (c :: r.rdropWhile PROFILE_isspace).getLast? =
          some ((r.rdropWhile PROFILE_isspace).getLast hr) := by
        rw [show c :: r.rdropWhile PROFILE_isspace = [c] ++ r.rdropWhile PROFILE_isspace from rfl,
          List.getLast?_append_of_ne_nil _ hr, List.getLast?_eq_getLast _ hr]
      simp only [noTrailingSpace, e, Bool.not_eq_true']
      simpa using hlast

theorem not_mem_rdropWhile_of_dropLast (l : List Nat)
    (h : 10 ∉ l.dropLast) : 10 ∉ l.rdropWhile PROFILE_isspace := by
  rcases List.eq_nil_or_concat l with rfl | ⟨l', x, rfl⟩
  · simp [List.rdropWhile]
  · rw [List.concat_eq_append] at h ⊢
    rw [List.dropLast_concat] at h
    by_cases hx : PROFILE_isspace x = true
    · rw [List.rdropWhile_concat_pos _ _ _ hx]
      exact fun hm => h ((List.rdropWhile_prefix _ _).subset hm)
    · rw [List.rdropWhile_concat_neg _ _ _ hx]
      intro hm
      simp only [List.mem_append, List.mem_singleton] at hm
      rcases hm with hm | hm
      · exact h hm
      · rw [← hm] at hx; exact hx isspace_10

theorem trimTail_no_newline (p : List Nat) (hl : noLeadingSpace p = true)
    (h : 10 ∉ p.dropLast) : 10 ∉ trimTail PROFILE_isspace p := by
  cases p with
  | nil => simp [trimTail]
  | cons c r =>
    simp only [noLeadingSpace, List.head?_cons, Bool.not_eq_true'] at hl
    have hc : c ≠ 10 := by
      intro hc; rw [hc] at hl; exact absurd hl (by decide)
    have hr : 10 ∉ r.dropLast := by
      intro hm
      apply h
      cases r with
      | nil => simp at hm
      | cons d r' => simp only [List.dropLast_cons₂]; exact List.mem_cons_of_mem _ hm
    simp only [trimTail, List.mem_cons, not_or]
    exact ⟨fun e => hc e.symm, not_mem_rdropWhile_of_dropLast r hr⟩

theorem getLast?_suffix (s t : List Nat) (hs : s <:+ t) (hne : s ≠ []) :
    s.getLast? = t.getLast? := by
  obtain ⟨pre, rfl⟩ := hs
  rw [List.getLast?_append_of_ne_nil _ hne]

theorem noTrailingSpace_suffix (s t : List Nat) (hs : s <:+ t)
    (ht : noTrailingSpace t = true) : noTrailingSpace s = true := by
  by_cases hne : s = []
  · subst hne; rfl
  · simp only [noTrailingSpace, getLast?_suffix s t hs hne]
    exact ht

theorem not_mem_take_indexOf (l : List Nat) (c : Nat) : c ∉ l.take (l.indexOf c) := by
  induction l with
  | nil => simp
  | cons x l ih =>
    by_cases hx : x = c
    · subst hx; simp
    · rw [List.indexOf_cons_ne _ hx]
      simp only [List.take_succ_cons, List.mem_cons, not_or]
      exact ⟨fun e => hx e.symm, ih⟩

theorem headD_trimTail (f : Nat → Bool) (s : List Nat) :
    (trimTail f s).headD 0 = s.headD 0 := by
  cases s <;> rfl

theorem headD_take (s : List Nat) (i : Nat) (h : (s.take i).headD 0 = 91) : s.headD 0 = 91 := by
  cases s with
  | nil => simp at h
  | cons c r =>
    cases i with
    | zero => simp at h
    | succ i => simpa using h

theorem noLeadingSpace_take (s : List Nat) (i : Nat) (h : noLeadingSpace s = true) :
    noLeadingSpace (s.take i) = true := by
  cases s with
  | nil => simp [noLeadingSpace]
  | cons c r =>
    cases i with
    | zero => rfl
    | succ i => simpa [noLeadingSpace] using h

theorem strchr_some (p : List Nat) (c i : Nat) (h : strchr p c = some i) :
    c ∈ p ∧ i = p.indexOf c := by
  unfold strchr at h
  split at h
  · rename_i hm
    exact ⟨hm, (Option.some.inj h).symm⟩
  · simp at h

theorem strchr_eq_none (p : List Nat) (c : Nat) (h : strchr p c = none) : c ∉ p := by
  unfold strchr at h
  split at h
  · simp at h
  · assumption

theorem strrchr_eq_none (p : List Nat) (c : Nat) (h : strrchr p c = none) : c ∉ p := by
  unfold strrchr at h
  split at h
  · simp at h
  · assumption

theorem Load_key_ok (p : List Nat) (hl : noLeadingSpace p = true) (h0 : 0 ∉ p)
    (h10 : 10 ∉ p.dropLast) (h93 : p.headD 0 = 91 → 93 ∉ p) :
    KeyOK (PROFILE_Load_key p) := by
  have hsub := trimTail_sublist PROFILE_isspace p
  have hp0 : 0 ∉ trimTail PROFILE_isspace p := fun h => h0 (hsub.subset h)
  have hp10 := trimTail_no_newline p hl h10
  have hpl := trimTail_noLeading p hl
  have hpt := trimTail_noTrailing p hl
  have hp93 : (trimTail PROFILE_isspace p).headD 0 = 91 → 93 ∉ trimTail PROFILE_isspace p := by
    intro h hm
    rw [headD_trimTail] at h
    exact h93 h (hsub.subset hm)
  simp only [PROFILE_Load_key, isspace_line_eq]
  generalize trimTail PROFILE_isspace p = q at hp0 hp10 hpl hpt hp93
  clear hsub
  cases hs : strchr q 61 with
  | none =>
    have h61 := strchr_eq_none q 61 hs
    refine ⟨hp0, hp10, h61, hpl, hpt, ?_, ?_⟩
    · intro v hv; simp at hv
    · intro h
      exact ⟨hp93 h, fun v hv => by simp at hv⟩
  | some i =>
    obtain ⟨hm, hi⟩ := strchr_some q 61 i hs
    have hts : (trimTail PROFILE_isspace (q.take i)).Sublist q :=
      (trimTail_sublist _ _).trans (List.take_sublist _ _)
    have hvs : ((q.drop (i + 1)).dropWhile PROFILE_isspace) <:+ q :=
      (List.dropWhile_suffix _).trans (List.drop_suffix _ _)
    refine ⟨fun h => hp0 (hts.subset h), fun h => hp10 (hts.subset h), ?_,
      trimTail_noLeading _ (noLeadingSpace_take q i hpl),
      trimTail_noTrailing _ (noLeadingSpace_take q i hpl), ?_, ?_⟩
    · intro h
      have := (trimTail_sublist PROFILE_isspace (q.take i)).subset h
      rw [hi] at this
      exact not_mem_take_indexOf q 61 this
    · intro v hv
      simp only [Option.some.injEq] at hv
      subst hv
      exact ⟨fun h => hp0 (hvs.subset h), fun h => hp10 (hvs.subset h),
        noLeadingSpace_dropWhile _, noTrailingSpace_suffix _ q hvs hpt⟩
    · intro h
      rw [headD_trimTail] at h
      have h93q := hp93 (headD_take q i h)
      refine ⟨fun hm => h93q (hts.subset hm), ?_⟩
      intro v hv
      simp only [Option.some.injEq] at hv
      subst hv
      exact fun hm => h93q (hvs.subset hm)

theorem take_subset_dropLast (l : List Nat) (i : Nat) (hi : i ≤ l.length - 1) :
    l.take i ⊆ l.dropLast := by
  rw [List.dropLast_eq_take]
  intro x hx
  have : l.take i = (l.take (l.length - 1)).take i := by
    rw [List.take_take, Nat.min_eq_left hi]
  rw [this] at hx
  exact (List.take_subset _ _) hx

theorem dropLast_subset_of_prefix (x l : List Nat) (h : x <+: l) : x.dropLast ⊆ l.dropLast := by
  have hx : x = l.take x.length := List.prefix_iff_eq_take.mp h
  have hle := h.length_le
  rw [List.dropLast_eq_take]
  intro c hc
  rw [hx, List.take_take] at hc
  exact take_subset_dropLast l _ (by
    simp only [List.length_take]
    omega) hc

theorem dropLast_subset_of_suffix (x l : List Nat) (h : x <:+ l) : x.dropLast ⊆ l.dropLast := by
  obtain ⟨pre, rfl⟩ := h
  by_cases hx : x = []
  · subst hx; simp
  · rw [List.dropLast_append_of_ne_nil _ hx]
    exact List.subset_append_right _ _

theorem strrchr_le (p : List Nat) (c i : Nat) (h : strrchr p c = some i) : i ≤ p.length - 1 := by
  unfold strrchr at h
  split at h
  · have := Option.some.inj h
    omega
  · simp at h

theorem Load_line_inv (st : LoadState) (b : List Nat) (hinv : LoadInv st) (h0 : 0 ∉ b)
    (h10 : 10 ∉ b.dropLast) : LoadInv (PROFILE_Load_line st b) := by
  obtain ⟨hdone, hcur, hprev, hfirst⟩ := hinv
  have hp0 : 0 ∉ b.dropWhile PROFILE_isspace := not_mem_dropWhile b h0 _
  have hp10 : 10 ∉ (b.dropWhile PROFILE_isspace).dropLast := fun h =>
    h10 (dropLast_subset_of_suffix _ _ (List.dropWhile_suffix _) h)
  have hpl := noLeadingSpace_dropWhile b
  unfold PROFILE_Load_line
  generalize b.dropWhile PROFILE_isspace = p at hp0 hp10 hpl
  split
  · rename_i i hi
    have hi' : strrchr p 93 = some i := by
      split at hi
      · exact hi
      · simp at hi
    have hle := strrchr_le p 93 i hi'
    have hsub : (List.drop 1 (List.take i p)) ⊆ p.dropLast := fun x hx =>
      take_subset_dropLast p i hle ((List.drop_sublist _ _).subset hx)
    refine ⟨?_, ?_, rfl, ?_⟩
    · intro s hs
      simp only [List.mem_append, List.mem_singleton] at hs
      rcases hs with hs | rfl
      · exact hdone s hs
      · exact hcur
    · refine ⟨fun h => hp0 ((List.dropLast_subset _) (hsub h)), fun h => hp10 (hsub h), ?_, ?_⟩
      · intro k hk; simp at hk
      · exact List.chain'_nil
    · simp only [List.append_assoc]
      cases hd : st.done with
      | nil => rw [hd] at hfirst; simpa using hfirst
      | cons s0 r => rw [hd] at hfirst; simpa using hfirst
  · rename_i hi
    have h93 : p.headD 0 = 91 → 93 ∉ p := by
      intro h
      rw [if_pos h] at hi
      exact strrchr_eq_none p 93 hi
    have hkey := Load_key_ok p hpl hp0 hp10 h93
    split
    · rename_i hkeep
      refine ⟨hdone, ⟨hcur.1, hcur.2.1, ?_, ?_⟩, by simp, ?_⟩
      · intro k hk
        simp only [List.mem_append, List.mem_singleton] at hk
        rcases hk with hk | rfl
        · exact hcur.2.2.1 k hk
        · exact hkey
      · unfold NoDoubleBlank
        rw [List.chain'_append]
        refine ⟨hcur.2.2.2, List.chain'_singleton _, ?_⟩
        intro a ha y hy
        simp only [List.head?_cons, Option.mem_def, Option.some.injEq] at hy
        subst hy
        rw [hprev] at hkeep
        rw [Option.mem_def] at ha
        simp only [PROFILE_Load_keep, ha, Bool.or_eq_true, bne_iff_ne, ne_eq] at hkeep
        intro hboth
        rcases hkeep with h | h
        · exact h hboth.2
        · exact h hboth.1
      · cases hd : st.done with
        | nil => rw [hd] at hfirst; simpa using hfirst
        | cons s0 r => rw [hd] at hfirst; simpa using hfirst
    · exact ⟨hdone, hcur, hprev, hfirst⟩

theorem fgets_read_newline : ∀ (k : Nat) (file : List Nat),
    10 ∉ (fgets_read k file).1.dropLast := by
  intro k
  induction k with
  | zero => intro file; simp [fgets_read]
  | succ k ih =>
    intro file
    cases file with
    | nil => simp [fgets_read]
    | cons c rest =>
      by_cases hc : c = 10
      · simp [fgets_read, hc]
      · simp only [fgets_read, hc, if_false, List.cons_eq_cons]
        intro hm
        have hsub : ((fgets_read k rest).1.cons c).dropLast ⊆ c :: (fgets_read k rest).1.dropLast := by
          cases h : (fgets_read k rest).1 with
          | nil => simp
          | cons d r => simp [List.dropLast_cons₂]
        have := hsub hm
        simp only [List.mem_cons] at this
        rcases this with h | h
        · exact hc h.symm
        · exact ih rest h

theorem fgets_read_length : ∀ (k : Nat) (file : List Nat),
    file ≠ [] → 0 < k → (fgets_read k file).2.length < file.length := by
  intro k
  induction k with
  | zero => intro file _ hk; omega
  | succ k ih =>
    intro file hne _
    cases file with
    | nil => exact absurd rfl hne
    | cons c rest =>
      by_cases hc : c = 10
      · simp [fgets_read, hc]
      · simp only [fgets_read, hc, if_false, List.length_cons]
        cases k with
        | zero => simp [fgets_read]
        | succ k =>
          cases rest with
          | nil => simp [fgets_read]
          | cons d r =>
            have := ih (d :: r) (by simp) (by omega)
            simp only [List.length_cons] at this ⊢
            omega

theorem Load_loop_inv : ∀ (fuel : Nat) (file : List Nat) (st : LoadState),
    LoadInv st → LoadInv (PROFILE_Load_loop fuel file st) := by
  intro fuel
  induction fuel with
  | zero => intro file st h; exact h
  | succ fuel ih =>
    intro file st h
    unfold PROFILE_Load_loop
    cases hf : fgets 1024 file with
    | none => exact h
    | some r =>
      simp only
      apply ih
      apply Load_line_inv st _ h
      · intro hm
        have := List.mem_takeWhile_imp hm
        simp at this
      · intro hm
        have h1 := dropLast_subset_of_prefix _ _ (List.takeWhile_prefix (· ≠ 0) (l := r.1)) hm
        have hr : r = fgets_read 1023 file := by
          unfold fgets at hf
          split at hf
          · simp at hf
          · exact (Option.some.inj hf).symm
        rw [hr] at h1
        exact fgets_read_newline _ _ h1

theorem Load_ok (t : List Nat) : DocOK (PROFILE_Load t) := by
  have hinit : LoadInv { done := [], cur := { name := [], key := [] }, prev_key := none } := by
    refine ⟨by simp, ⟨by simp, by simp, by simp, List.chain'_nil⟩, rfl, rfl⟩
  obtain ⟨hdone, hcur, _, hfirst⟩ := Load_loop_inv t.length t _ hinit
  simp only [PROFILE_Load]
  generalize PROFILE_Load_loop t.length t
    { done := [], cur := { name := [], key := [] }, prev_key := none } = st at hdone hcur hfirst
  cases hd : st.done with
  | nil =>
    rw [hd] at hfirst
    simp only [List.nil_append, List.head?_cons, Option.map_some', Option.some.injEq] at hfirst
    exact ⟨st.cur, [], by simp, hfirst, hcur, by simp⟩
  | cons s0 r =>
    rw [hd] at hfirst hdone
    simp only [List.cons_append, List.head?_cons, Option.map_some', Option.some.injEq] at hfirst
    refine ⟨s0, r ++ [st.cur], by simp, hfirst, hdone s0 (List.mem_cons_self _ _), ?_⟩
    intro s hs
    simp only [List.mem_append, List.mem_singleton] at hs
    rcases hs with hs | rfl
    · exact hdone s (List.mem_cons_of_mem _ hs)
    · exact hcur

theorem keyText_not_mem (k : PROFILEKEY) (hk : KeyOK k) : 0 ∉ keyText k ∧ 10 ∉ keyText k := by
  obtain ⟨h0, h10, _, _, _, hv, _⟩ := hk
  cases hval : k.value with
  | none => simp [keyText, hval, h0, h10]
  | some v =>
    obtain ⟨hv0, hv10, _, _⟩ := hv v hval
    simp [keyText, hval, h0, h10, hv0, hv10]

theorem IsLine_keyLine (k : PROFILEKEY) (hk : KeyOK k) (hfit : (keyLine k).length ≤ 1023) :
    IsLine (keyLine k) := by
  have h := keyText_not_mem k hk
  refine ⟨keyText k ++ [13], by rw [keyLine_eq]; simp, ?_, ?_, hfit⟩
  · simp [h.2]
  · simp [h.1]

theorem IsLine_header (name : List Nat) (h0 : 0 ∉ name) (h10 : 10 ∉ name)
    (hfit : name.length + 4 ≤ 1023) : IsLine ([91] ++ name ++ [93, 13, 10]) := by
  refine ⟨[91] ++ name ++ [93, 13], by simp, ?_, ?_, by simp; omega⟩
  · simp [h10]
  · simp [h0]

theorem IsLine_sectionLines (sec : PROFILESECTION) (hok : SecOK sec)
    (hfit : sec.name.length + 4 ≤ 1023 ∧ ∀ k ∈ sec.key, (keyLine k).length ≤ 1023) :
    ∀ l ∈ sectionLines sec, IsLine l := by
  intro l hl
  simp only [sectionLines, List.mem_append, List.mem_map] at hl
  rcases hl with hl | ⟨k, hk, rfl⟩
  · split at hl
    · simp only [List.mem_cons, List.mem_singleton, List.not_mem_nil, or_false] at hl
      rcases hl with rfl | rfl
      · exact ⟨[13], rfl, by simp, by simp, by simp⟩
      · exact IsLine_header sec.name hok.1 hok.2.1 hfit.1
    · simp at hl
  · exact IsLine_keyLine k (hok.2.2.1 k hk) (hfit.2 k hk)

theorem IsLine_saveLines (d : List PROFILESECTION) (hok : ∀ s ∈ d, SecOK s)
    (hfit : fitsLineBuffer d = true) : ∀ l ∈ saveLines d, IsLine l := by
  induction d with
  | nil => intro l hl; simp [saveLines] at hl
  | cons sec rest ih =>
    intro l hl
    simp only [fitsLineBuffer, List.all_cons, Bool.and_eq_true, decide_eq_true_eq,
      List.all_eq_true] at hfit
    simp only [saveLines, List.mem_append] at hl
    rcases hl with hl | hl
    · exact IsLine_sectionLines sec (hok sec (List.mem_cons_self _ _))
        ⟨hfit.1.1, hfit.1.2⟩ l hl
    · apply ih (fun s hs => hok s (List.mem_cons_of_mem _ hs)) _ l hl
      simp only [fitsLineBuffer, List.all_eq_true, Bool.and_eq_true, decide_eq_true_eq]
      exact hfit.2

theorem reload_eq (d : List PROFILESECTION) (hd : DocOK d)
    (h1 : laterNamesNonEmpty d = true) (h2 : fitsLineBuffer d = true) :
    PROFILE_Load (PROFILE_Save d) = padBlank d := by
  obtain ⟨s0, rest, rfl, hname, hs0, hrest⟩ := hd
  have hall : ∀ s ∈ s0 :: rest, SecOK s := by
    intro s hs
    simp only [List.mem_cons] at hs
    rcases hs with rfl | hs
    · exact hs0
    · exact hrest s hs
  rw [Save_eq, Load_lines _ (IsLine_saveLines _ hall h2)]
  have hs0eq : s0 = { name := [], key := s0.key } := by
    cases s0; simp at hname; simp [hname]
  have hl0 : sectionLines s0 = s0.key.map keyLine := by
    simp [sectionLines, hname]
  simp only [saveLines, hl0, List.foldl_append]
  rw [show ({ done := [], cur := { name := [], key := [] }, prev_key := none } : LoadState) =
    { done := [], cur := { name := [], key := [] },
      prev_key := ([] : List PROFILEKEY).getLast? } from rfl,
    fold_keys [] [] s0.key [] hs0.2.2.1 (by simpa using hs0.2.2.2)]
  simp only [List.nil_append, ← hs0eq]
  have := fold_sections rest [] s0 (by
    intro s hs
    simp only [laterNamesNonEmpty, List.tail_cons, List.all_eq_true, bne_iff_ne, ne_eq] at h1
    exact ⟨h1 s hs, hrest s hs⟩)
  simpa using this

theorem Load_loop_nil (fuel : Nat) (st : LoadState) : PROFILE_Load_loop fuel [] st = st := by
  cases fuel <;> simp [PROFILE_Load_loop, fgets]

/-- The loop of `PROFILE_Load` never runs out of fuel: any fuel of at least the length of
the file gives the same result. -/
theorem Load_loop_fuel : ∀ (fuel1 fuel2 : Nat) (file : List Nat) (st : LoadState),
    file.length ≤ fuel1 → file.length ≤ fuel2 →
    PROFILE_Load_loop fuel1 file st = PROFILE_Load_loop fuel2 file st := by
  intro fuel1
  induction fuel1 with
  | zero =>
    intro fuel2 file st h1 _
    have : file = [] := List.length_eq_zero.mp (by omega)
    subst this
    rw [Load_loop_nil, Load_loop_nil]
  | succ fuel1 ih =>
    intro fuel2 file st h1 h2
    cases fuel2 with
    | zero =>
      have : file = [] := List.length_eq_zero.mp (by omega)
      subst this
      rw [Load_loop_nil, Load_loop_nil]
    | succ fuel2 =>
      unfold PROFILE_Load_loop
      cases hf : fgets 1024 file with
      | none => rfl
      | some r =>
        simp only
        have hr : file ≠ [] ∧ r = fgets_read 1023 file := by
          unfold fgets at hf
          split at hf
          · simp at hf
          · rename_i hne
            exact ⟨hne, (Option.some.inj hf).symm⟩
        have hlt := fgets_read_length 1023 file hr.1 (by omega)
        rw [← hr.2] at hlt
        exact ih fuel2 r.2 _ (by omega) (by omega)

/-- The restriction of the round trip to named sections is needed: a header
`[]` opens a section with an empty name, which `PROFILE_Save` prints without
a header, so its keys move into the section before it. -/
theorem round_trip_needs_named_sections :
    laterNamesNonEmpty (PROFILE_Load (cs "[a]\n[]\nx=1\n")) = false ∧
    PROFILE_Load (PROFILE_Save (PROFILE_Load (cs "[a]\n[]\nx=1\n"))) ≠
      padBlank (PROFILE_Load (cs "[a]\n[]\nx=1\n")) := by
  decide

set_option maxRecDepth 100000 in
/-- The restriction of the round trip to lines that fit the line buffer is
needed: a section name of 1021 characters is saved as a header line of 1025
characters, which `fgets` splits, and the split-off line end is read as a
blank line. -/
theorem round_trip_needs_short_lines :
    fitsLineBuffer (PROFILE_Load (91 :: (List.replicate 1021 97 ++ [93, 120, 61, 49, 10])))
      = false ∧
    PROFILE_Load (PROFILE_Save
        (PROFILE_Load (91 :: (List.replicate 1021 97 ++ [93, 120, 61, 49, 10])))) ≠
      padBlank (PROFILE_Load (91 :: (List.replicate 1021 97 ++ [93, 120, 61, 49, 10]))) := by
  decide

/-! ### Section deletion: lemmas -/

theorem strcasecmp_iff : ∀ (name q : List Nat), 0 ∉ name → 0 ∉ q →
    (strcasecmp name q = 0 ↔ name.map tolower = q.map tolower) := by
  intro name
  induction name with
  | nil =>
    intro q _ hq
    cases q with
    | nil => simp [strcasecmp]
    | cons b q =>
      have hb : b ≠ 0 := fun h => hq (by rw [h]; exact List.mem_cons_self _ _)
      have := tolower_ne_zero b hb
      have h0 : tolower 0 = 0 := by decide
      simp only [strcasecmp, List.headD_cons, h0, List.map_nil, List.map_cons]
      constructor
      · intro h; omega
      · intro h; cases h
  | cons a name ih =>
    intro q hn hq
    have ha : a ≠ 0 := fun h => hn (by rw [h]; exact List.mem_cons_self _ _)
    have hn' : 0 ∉ name := fun h => hn (List.mem_cons_of_mem _ h)
    cases q with
    | nil =>
      have := tolower_ne_zero a ha
      have h0 : tolower 0 = 0 := by decide
      simp only [strcasecmp, List.headD_nil, h0, List.map_nil, List.map_cons]
      rw [if_pos this]
      constructor
      · intro h; omega
      · intro h; cases h
    | cons b q =>
      have hq' : 0 ∉ q := fun h => hq (List.mem_cons_of_mem _ h)
      simp only [strcasecmp, List.headD_cons, List.tail_cons, List.map_cons, List.cons.injEq]
      by_cases hab : tolower a = tolower b
      · rw [if_neg (by simpa using hab), if_neg ha, ih q hn' hq']
        simp [hab]
      · rw [if_pos hab]
        constructor
        · intro h; exact absurd (by omega) hab
        · intro h; exact absurd h.1 hab

/-- The section test of `PROFILE_DeleteSection` and `PROFILE_GetSection`. -/
theorem section_test_iff (name S : List Nat) (hn : 0 ∉ name) (hS : 0 ∉ S) :
    (name.headD 0 ≠ 0 ∧ strcasecmp name S = 0) ↔
      (name != [] && eqIgnoreCase name S) = true := by
  rw [strcasecmp_iff name S hn hS]
  cases name with
  | nil => simp
  | cons a t =>
    have ha : a ≠ 0 := fun h => hn (by rw [h]; exact List.mem_cons_self _ _)
    simp [ha, eqIgnoreCase]

theorem DeleteSection_filter (S : List Nat) (hS : 0 ∉ S) :
    ∀ d : List PROFILESECTION, (∀ sec ∈ d, 0 ∉ sec.name) →
    (d.filter (fun sec => sec.name != [] && eqIgnoreCase sec.name S)).length ≤ 1 →
    (PROFILE_DeleteSection d S).1.filter (fun sec => sec.name != [] && eqIgnoreCase sec.name S)
      = [] := by
  intro d
  induction d with
  | nil => intro _ _; simp [PROFILE_DeleteSection]
  | cons sec rest ih =>
    intro hc hu
    have ht := section_test_iff sec.name S (hc sec (List.mem_cons_self _ _)) hS
    have hrest : ∀ s ∈ rest, 0 ∉ s.name := fun s hs => hc s (List.mem_cons_of_mem _ hs)
    simp only [PROFILE_DeleteSection]
    cases hm : (sec.name != [] && eqIgnoreCase sec.name S) with
    | true =>
      rw [if_pos (ht.2 hm)]
      simp only [List.filter_cons, hm, if_true, List.length_cons] at hu
      show List.filter _ rest = []
      exact List.length_eq_zero.1 (by omega)
    | false =>
      rw [if_neg (fun h => by rw [ht.1 h] at hm; cases hm)]
      simp only [List.filter_cons, hm] at hu
      show List.filter _ (sec :: (PROFILE_DeleteSection rest S).1) = []
      simp only [List.filter_cons, hm]
      exact ih hrest hu

theorem DeleteSection_names (S : List Nat) :
    ∀ d : List PROFILESECTION, (∀ sec ∈ d, 0 ∉ sec.name) →
    ∀ sec ∈ (PROFILE_DeleteSection d S).1, 0 ∉ sec.name := by
  intro d
  induction d with
  | nil => intro _ sec hs; simp [PROFILE_DeleteSection] at hs
  | cons x rest ih =>
    intro hc sec hs
    have hrest : ∀ s ∈ rest, 0 ∉ s.name := fun s hs => hc s (List.mem_cons_of_mem _ hs)
    simp only [PROFILE_DeleteSection] at hs
    split at hs
    · exact hrest sec hs
    · rcases List.mem_cons.1 hs with h | h
      · rw [h]; exact hc x (List.mem_cons_self _ _)
      · exact ih hrest sec h

theorem Find_loop_none (S qK : List Nat) (nK : Nat) (ca : Bool) (hS : 0 ∉ S) :
    ∀ d : List PROFILESECTION, (∀ sec ∈ d, 0 ∉ sec.name) →
    d.filter (fun sec => sec.name != [] && eqIgnoreCase sec.name (trim S)) = [] →
    (PROFILE_Find_loop (S.dropWhile PROFILE_isspace) (trim S).length qK nK false ca d).2
      = none := by
  intro d
  induction d with
  | nil => intro _ _; simp [PROFILE_Find_loop]
  | cons sec rest ih =>
    intro hc hf
    have hn := hc sec (List.mem_cons_self _ _)
    have hrest : ∀ s ∈ rest, 0 ∉ s.name := fun s hs => hc s (List.mem_cons_of_mem _ hs)
    have hm : (sec.name != [] && eqIgnoreCase sec.name (trim S)) = false := by
      cases h : (sec.name != [] && eqIgnoreCase sec.name (trim S)) with
      | false => rfl
      | true => simp only [List.filter_cons, h, if_true] at hf; cases hf
    simp only [List.filter_cons, hm] at hf
    have hno : ¬ (sec.name.headD 0 ≠ 0 ∧
        PROFILE_Find_match sec.name (S.dropWhile PROFILE_isspace) (trim S).length = true) := by
      rw [Find_match_trim sec.name S hn hS]
      intro h
      have : (sec.name != []) = true := by
        cases hnm : sec.name with
        | nil => rw [hnm] at h; simp at h
        | cons a t => simp
      rw [this, h.2] at hm
      cases hm
    simp only [PROFILE_Find_loop]
    rw [if_neg hno]
    simp [ih hrest hf]

theorem GetString_after_delete (getenv : List Nat → Option (List Nat)) (cur : PROFILE)
    (S K d buffer : List Nat) (len : Nat)
    (hc : ∀ sec ∈ cur.«section», 0 ∉ sec.name) (hS : 0 ∉ S) (htrim : trim S = S)
    (hK : K.headD 0 ≠ 0)
    (hu : (cur.«section».filter
      (fun sec => sec.name != [] && eqIgnoreCase sec.name S)).length ≤ 1) :
    PROFILE_GetString getenv (PROFILE_SetString cur S none none false).1 (some S) (some K)
        (some d) buffer len =
      some (strlen (PROFILE_CopyEntry getenv buffer d len false),
        PROFILE_CopyEntry getenv buffer d len false) := by
  have h1 := DeleteSection_filter S hS cur.«section» hc hu
  have h2 := DeleteSection_names S cur.«section» hc
  have h3 := Find_loop_none S (K.dropWhile PROFILE_isspace)
    (trimTail PROFILE_isspace (K.dropWhile PROFILE_isspace)).length false hS
    (PROFILE_DeleteSection cur.«section» S).1 h2 (by rw [htrim]; exact h1)
  simp only [PROFILE_GetString, PROFILE_SetString, hK, if_false, PROFILE_Find,
    trimTail_dropWhile, Option.getD_some]
  simp only [trimTail_dropWhile] at h3
  rw [h3]
  simp

/-! ### Section listings: lemmas -/

theorem usub_eq (a b : Nat) (hb : b ≤ a) (ha : a < 4294967296) : usub a b = a - b := by
  unfold usub
  have : b % 4294967296 = b := Nat.mod_eq_of_lt (by omega)
  rw [this]
  omega

theorem strlen_append_zero (t rest : List Nat) (h : 0 ∉ t) :
    strlen (t ++ 0 :: rest) = t.length := by
  unfold strlen
  induction t with
  | nil => simp
  | cons a t ih =>
    have ha : a ≠ 0 := fun e => h (by rw [e]; exact List.mem_cons_self _ _)
    have ht : 0 ∉ t := fun e => h (List.mem_cons_of_mem _ e)
    simpa [List.takeWhile_cons, ha] using ih ht

theorem lstrcpynA_eq (dst src : List Nat) (n : Nat) (hn : 1 ≤ n) :
    lstrcpynA dst src n = src.take (n - 1) ++ 0 :: dst.drop ((src.take (n - 1)).length + 1) := by
  unfold lstrcpynA
  rw [if_neg (by omega)]
  simp

theorem not_mem_take (s : List Nat) (n : Nat) (h : 0 ∉ s) : 0 ∉ s.take n :=
  fun e => h (List.mem_of_mem_take e)

theorem quote_tail (v : List Nat) (hq : (PROFILE_CopyEntry_quote v).1 ≠ 0) :
    (PROFILE_CopyEntry_quote v).2 = v.tail ∧ v.tail ≠ [] := by
  unfold PROFILE_CopyEntry_quote at hq ⊢
  split at hq
  · rename_i h
    rw [if_pos h]
    refine ⟨rfl, ?_⟩
    cases v with
    | nil => simp at h
    | cons a t =>
      cases t with
      | nil => simp at h
      | cons b t => simp
  · exact absurd rfl hq

theorem quote_none (v : List Nat) (hq : (PROFILE_CopyEntry_quote v).1 = 0) :
    (PROFILE_CopyEntry_quote v).2 = v := by
  unfold PROFILE_CopyEntry_quote at hq ⊢
  split
  · rename_i h
    rw [if_pos h] at hq
    simp only at hq
    rcases h.1 with h1 | h1 <;> omega
  · rfl

/-- The shape of the memory after `PROFILE_CopyEntry` without environment
handling: a text `t`, its NUL, at most one more NUL, and the memory beyond
untouched. -/
theorem CopyEntry_shape (getenv : List Nat → Option (List Nat)) (buffer v : List Nat) (L : Nat)
    (hv : 0 ∉ v) (hL : 1 ≤ L) :
    ∃ t x : List Nat,
      PROFILE_CopyEntry getenv buffer v L false =
        t ++ 0 :: (x ++ buffer.drop (t.length + 1 + x.length)) ∧
      0 ∉ t ∧ (x = [] ∨ x = [0]) ∧ t.length + 1 + x.length ≤ L ∧
      (t = unquote v ∨ L ≤ t.length + 2) ∧
      ((unquote v).length + 2 ≤ L → t = unquote v) ∧
      (PROFILE_CopyEntry_under buffer v L false = true → L = 1) := by
  by_cases hq : (PROFILE_CopyEntry_quote v).1 = 0
  · refine ⟨v.take (L - 1), [], ?_, not_mem_take v _ hv, Or.inl rfl, ?_, ?_, ?_, ?_⟩
    · simp only [PROFILE_CopyEntry, hq, quote_none v hq, Bool.not_false, if_true]
      rw [if_neg (by simp), lstrcpynA_eq _ _ _ hL]
      simp
    · simp only [List.length_take, List.length_nil]; omega
    · simp only [unquote, hq, ne_eq, not_true_eq_false, if_false, List.length_take]
      by_cases h : L - 1 ≤ v.length
      · by_cases h2 : L - 1 = v.length
        · left; rw [h2, List.take_length]
        · right; omega
      · left; exact List.take_of_length_le (by omega)
    · intro h
      simp only [unquote, hq, ne_eq, not_true_eq_false, if_false] at h ⊢
      exact List.take_of_length_le (by omega)
    · simp [PROFILE_CopyEntry_under, hq]
  · obtain ⟨htl, hne⟩ := quote_tail v hq
    have hv' : 0 ∉ v.tail := fun e => hv (List.mem_of_mem_tail e)
    have hu : unquote v = v.tail.dropLast := by simp [unquote, hq, htl]
    have hlen : v.tail.length ≥ 1 := List.length_pos.2 hne
    have hb0 : lstrcpynA buffer v.tail L =
        v.tail.take (L - 1) ++ 0 :: buffer.drop ((v.tail.take (L - 1)).length + 1) :=
      lstrcpynA_eq _ _ _ hL
    have hs0 : strlen (lstrcpynA buffer v.tail L) = (v.tail.take (L - 1)).length := by
      rw [hb0]; exact strlen_append_zero _ _ (not_mem_take _ _ hv')
    by_cases hc : L ≥ v.tail.length ∧ (v.tail.take (L - 1)).length ≠ 0
    · refine ⟨(v.tail.take (L - 1)).dropLast, [0], ?_, ?_, Or.inr rfl, ?_, ?_, ?_, ?_⟩
      · simp only [PROFILE_CopyEntry, htl, Bool.not_false, if_true, hs0]
        rw [if_pos ⟨hq, hc.1, hc.2⟩, hb0]
        have hne2 : v.tail.take (L - 1) ≠ [] := fun e => hc.2 (by rw [e]; rfl)
        obtain ⟨t, c, htc⟩ := (List.eq_nil_or_concat (v.tail.take (L - 1))).resolve_left hne2
        rw [List.concat_eq_append] at htc
        rw [htc]
        simp only [poke, List.length_append, List.length_singleton, Nat.add_sub_cancel,
          List.dropLast_concat, List.length_cons, List.length_nil]
        rw [List.append_assoc, List.set_append_right _ _ (Nat.le_refl _)]
        simp [Nat.add_assoc]
      · exact fun e => not_mem_take _ _ hv' (List.dropLast_subset _ e)
      · simp only [List.length_dropLast, List.length_take, List.length_singleton] at hc ⊢
        omega
      · rw [hu]
        simp only [List.length_dropLast, List.length_take] at hc ⊢
        by_cases h : v.tail.length ≤ L - 1
        · left; rw [List.take_of_length_le h]
        · right; omega
      · intro h
        rw [hu] at h ⊢
        simp only [List.length_dropLast] at h
        rw [List.take_of_length_le (by omega)]
      · intro h
        simp only [PROFILE_CopyEntry_under, htl, Bool.not_false, Bool.true_and, hs0,
          decide_eq_true_eq] at h
        exact absurd h.2.2 hc.2
    · refine ⟨v.tail.take (L - 1), [], ?_, not_mem_take _ _ hv', Or.inl rfl, ?_, ?_, ?_, ?_⟩
      · simp only [PROFILE_CopyEntry, htl, Bool.not_false, if_true, hs0]
        rw [if_neg (fun h => hc ⟨h.2.1, h.2.2⟩), hb0]
        simp
      · simp only [List.length_take, List.length_nil]; omega
      · right
        simp only [List.length_take] at hc ⊢
        omega
      · intro h
        rw [hu] at h
        simp only [List.length_dropLast] at h
        exfalso
        apply hc
        simp only [List.length_take]
        omega
      · intro h
        simp only [PROFILE_CopyEntry_under, htl, Bool.not_false, Bool.true_and, hs0,
          decide_eq_true_eq, List.length_take] at h
        omega


theorem listing_cons_not (rv : Bool) (k : PROFILEKEY) (rest : List PROFILEKEY)
    (h : isListed k = false) : listing rv (k :: rest) = listing rv rest := by
  simp [listing, h]

theorem listing_cons_listed (rv : Bool) (k : PROFILEKEY) (rest : List PROFILEKEY)
    (h : isListed k = true) :
    listing rv (k :: rest) = entryText rv k ++ [0] ++ listing rv rest := by
  simp [listing, h]

theorem drop_after_copy (x B : List Nat) (a j : Nat) (hx : x = [] ∨ x = [0]) :
    (x ++ B.drop (a + x.length)).drop (j + 1) = B.drop (a + j + 1) := by
  rcases hx with rfl | rfl
  · simp only [List.nil_append, List.length_nil, Nat.add_zero, List.drop_drop]
    rfl
  · simp only [List.singleton_append, List.drop_succ_cons, List.length_singleton, List.drop_drop]
    first | rfl | (congr 1; omega)

theorem LoopOK_stop (rv : Bool) (key : List PROFILEKEY) (len : Nat) (done buffer : List Nat)
    (h2 : len ≤ 2) : LoopOK rv key len done buffer (len, done, buffer) := by
  refine ⟨Nat.le_refl _, fun h => h, ⟨[], by simp, by simp, Or.inl rfl, ?_⟩, by simp,
    fun h => h, fun _ => h2⟩
  intro h
  exact (List.length_eq_zero.1 (by omega)).symm

theorem LoopOK_step (rv : Bool) (k : PROFILEKEY) (rest : List PROFILEKEY) (len : Nat)
    (done buffer : List Nat) (len1 : Nat) (s0 buffer1 : List Nat)
    (r : Nat × List Nat × List Nat) (hlisted : isListed k = true)
    (hlen1 : 1 ≤ len1) (hs0 : s0.length + len1 = len) (hlast : s0.getLast? = some 0)
    (hdrop : ∀ j, buffer1.drop (j + 1) = buffer.drop (len - len1 + j + 1))
    (hbuf : len ≤ buffer.length → len1 ≤ buffer1.length)
    (hcut : s0 = entryText rv k ++ [0] ∨ len1 ≤ 2)
    (hfit : (entryText rv k).length + 3 ≤ len → s0 = entryText rv k ++ [0])
    (hr : LoopOK rv rest len1 (done ++ s0) buffer1 r) :
    LoopOK rv (k :: rest) len done buffer r := by
  obtain ⟨h1, h2, ⟨s1, hs1, hl1, hlast1, hfit1⟩, h4, h5, h6⟩ := hr
  have hT : (listing rv (k :: rest)).length =
      (entryText rv k).length + 1 + (listing rv rest).length := by
    rw [listing_cons_listed rv k rest hlisted]
    simp only [List.length_append, List.length_singleton]
  refine ⟨by omega, fun _ => h2 hlen1, ⟨s0 ++ s1, ?_, ?_, ?_, ?_⟩, ?_, ?_, ?_⟩
  · rw [hs1, List.append_assoc]
  · rw [List.length_append]; omega
  · right
    rcases hlast1 with rfl | h
    · rw [List.append_nil]; exact hlast
    · have hne : s1 ≠ [] := by rintro rfl; simp at h
      rw [List.getLast?_append_of_ne_nil _ hne]; exact h
  · intro hf
    have e0 := hfit (by omega)
    have e1 := hfit1 (by rw [e0] at hs0; simp at hs0; omega)
    rw [e0, e1, listing_cons_listed rv k rest hlisted]
  · have := hdrop (len1 - r.1)
    rw [h4, this]
    congr 1
    omega
  · intro h; exact h5 (hbuf h)
  · intro h
    rcases hcut with e0 | hc
    · exact h6 (by rw [e0] at hs0; simp at hs0; omega)
    · omega

theorem pokeBack_append (d t : List Nat) (c c' : Nat) :
    pokeBack (d ++ (t ++ [c])) c' = d ++ (t ++ [c']) := by
  unfold pokeBack
  rw [if_neg (by simp), ← List.append_assoc, List.dropLast_concat, List.append_assoc]

theorem GetSection_loop_ok (getenv : List Nat → Option (List Nat)) (rv : Bool) :
    ∀ (key : List PROFILEKEY), keysAreCStrings key → ∀ (len : Nat) (done buffer : List Nat),
    len < 4294967296 →
    LoopOK rv key len done buffer (PROFILE_GetSection_loop getenv false rv key len done buffer) := by
  intro key
  induction key with
  | nil =>
    intro _ len done buffer _
    simp only [PROFILE_GetSection_loop, LoopOK, listing, List.length_nil]
    refine ⟨Nat.le_refl _, fun h => h, ⟨[], by simp, by simp, Or.inl rfl, fun _ => rfl⟩, by simp,
      fun h => h, fun h => by omega⟩
  | cons k rest ih =>
    intro hk len done buffer hlen
    have hk1 := hk k (List.mem_cons_self _ _)
    have hrest : keysAreCStrings rest := fun x hx => hk x (List.mem_cons_of_mem _ hx)
    simp only [PROFILE_GetSection_loop]
    by_cases h2 : len ≤ 2
    · rw [if_pos h2]
      exact LoopOK_stop rv _ len done buffer h2
    · rw [if_neg h2]
      by_cases hn0 : k.name.headD 0 = 0
      · rw [if_pos hn0]
        have hl : isListed k = false := by rw [isListed, hn0]; decide
        have := ih hrest len done buffer hlen
        unfold LoopOK at this ⊢
        rw [listing_cons_not rv k rest hl]
        exact this
      · rw [if_neg hn0]
        by_cases h59 : k.name.headD 0 = 59
        · rw [if_pos h59]
          have hl : isListed k = false := by rw [isListed, h59]; decide
          have := ih hrest len done buffer hlen
          unfold LoopOK at this ⊢
          rw [listing_cons_not rv k rest hl]
          exact this
        · rw [if_neg h59]
          have hl : isListed k = true := by
            simp only [isListed, bne_iff_ne, Bool.and_eq_true, ne_eq]; exact ⟨hn0, h59⟩
          obtain ⟨t1, x1, hb1, ht1, hx1, hL1, hcut1, hfit1, hund1⟩ :=
            CopyEntry_shape getenv buffer k.name (len - 1) hk1.1 (by omega)
          have hs1 : strlen (PROFILE_CopyEntry getenv buffer k.name (len - 1) false)
              = t1.length := by
            rw [hb1]; exact strlen_append_zero _ _ ht1
          have hu1 : PROFILE_CopyEntry_under buffer k.name (len - 1) false = false := by
            cases h : PROFILE_CopyEntry_under buffer k.name (len - 1) false with
            | false => rfl
            | true => have := hund1 h; omega
          have htake : (PROFILE_CopyEntry getenv buffer k.name (len - 1) false).take
              (t1.length + 1) = t1 ++ [0] := by
            rw [hb1]; simp [List.take_append_eq_append_take]
          have hdrop : (PROFILE_CopyEntry getenv buffer k.name (len - 1) false).drop
              (t1.length + 1) = x1 ++ buffer.drop (t1.length + 1 + x1.length) := by
            rw [hb1]; simp [List.drop_append_eq_append_drop]
          have hxl : x1.length ≤ 1 := by rcases hx1 with rfl | rfl <;> simp
          simp only [hs1, hu1, htake, hdrop, Bool.false_eq_true, if_false]
          rw [usub_eq len (t1.length + 1) (by omega) hlen]
          have hdrop1 : ∀ j, (x1 ++ buffer.drop (t1.length + 1 + x1.length)).drop (j + 1)
              = buffer.drop (t1.length + 1 + j + 1) :=
            fun j => drop_after_copy x1 buffer _ j hx1
          have hbuf1 : len ≤ buffer.length →
              len - (t1.length + 1) ≤ (x1 ++ buffer.drop (t1.length + 1 + x1.length)).length := by
            intro h
            simp only [List.length_append, List.length_drop]
            omega
          by_cases hl1 : len - (t1.length + 1) < 2
          · rw [if_pos hl1]
            refine LoopOK_step rv k rest len done buffer (len - (t1.length + 1)) (t1 ++ [0]) _ _ hl
              (by omega) (by simp only [List.length_append, List.length_singleton]; omega)
              (by simp) ?_ hbuf1 (Or.inr (by omega)) ?_ (LoopOK_stop rv _ _ _ _ (by omega))
            · intro j
              rw [hdrop1 j]
              congr 1
              omega
            · intro h
              exfalso
              have hge : (unquote k.name).length ≤ (entryText rv k).length := by
                unfold entryText
                split <;> simp
              have e := hfit1 (by omega)
              rw [e] at hl1
              omega
          · rw [if_neg hl1]
            cases hv : (if rv = true then k.value else none) with
            | none =>
              simp only []
              have e : entryText rv k = unquote k.name := by simp only [entryText, hv]
              refine LoopOK_step rv k rest len done buffer (len - (t1.length + 1)) (t1 ++ [0]) _ _
                hl (by omega) (by simp only [List.length_append, List.length_singleton]; omega)
                (by simp) ?_ hbuf1 ?_ ?_ (ih hrest _ _ _ (by omega))
              · intro j
                rw [hdrop1 j]
                congr 1
                omega
              · rcases hcut1 with h | h
                · left; rw [e, h]
                · right; omega
              · intro h
                rw [e] at h ⊢
                rw [hfit1 (by omega)]
            | some v =>
              simp only []
              have hv0 : 0 ∉ v := by
                apply hk1.2 v
                cases rv
                · simp at hv
                · simpa using hv
              have e : entryText rv k = unquote k.name ++ [61] ++ unquote v := by
                simp only [entryText, hv]
              obtain ⟨t2, x2, hb2, ht2, hx2, hL2, hcut2, hfit2, hund2⟩ :=
                CopyEntry_shape getenv (x1 ++ buffer.drop (t1.length + 1 + x1.length)) v
                  (len - (t1.length + 1) - 1) hv0 (by omega)
              have hs2 : strlen (PROFILE_CopyEntry getenv
                  (x1 ++ buffer.drop (t1.length + 1 + x1.length)) v
                  (len - (t1.length + 1) - 1) false) = t2.length := by
                rw [hb2]; exact strlen_append_zero _ _ ht2
              have htake2 : (PROFILE_CopyEntry getenv
                  (x1 ++ buffer.drop (t1.length + 1 + x1.length)) v
                  (len - (t1.length + 1) - 1) false).take (t2.length + 1) = t2 ++ [0] := by
                rw [hb2]; simp [List.take_append_eq_append_take]
              have hdrop2 : (PROFILE_CopyEntry getenv
                  (x1 ++ buffer.drop (t1.length + 1 + x1.length)) v
                  (len - (t1.length + 1) - 1) false).drop (t2.length + 1) =
                  x2 ++ (x1 ++ buffer.drop (t1.length + 1 + x1.length)).drop
                    (t2.length + 1 + x2.length) := by
                rw [hb2]; simp [List.drop_append_eq_append_drop]
              have hxl2 : x2.length ≤ 1 := by rcases hx2 with rfl | rfl <;> simp
              simp only [hs2, htake2, hdrop2, pokeBack_append]
              rw [usub_eq _ (t2.length + 1) (by omega) (by omega)]
              have hdone : ∀ c : Nat, done ++ (t1 ++ [c]) ++ (t2 ++ [0]) =
                  done ++ (t1 ++ [c] ++ (t2 ++ [0])) := fun c => by
                simp only [List.append_assoc]
              have hstep : ∀ c : Nat, (c = 61 ∨ (c = 0 ∧ len - (t1.length + 1) - 1 = 1)) →
                  LoopOK rv (k :: rest) len done buffer
                    (PROFILE_GetSection_loop getenv false rv rest
                      (len - (t1.length + 1) - (t2.length + 1))
                      (done ++ (t1 ++ [c]) ++ (t2 ++ [0]))
                      (x2 ++ (x1 ++ buffer.drop (t1.length + 1 + x1.length)).drop
                        (t2.length + 1 + x2.length))) := by
                intro c hc
                rw [hdone c]
                refine LoopOK_step rv k rest len done buffer
                  (len - (t1.length + 1) - (t2.length + 1)) (t1 ++ [c] ++ (t2 ++ [0])) _ _
                  hl (by omega)
                  (by simp only [List.length_append, List.length_singleton]; omega)
                  (by
                    rw [List.getLast?_append_of_ne_nil _ (by simp),
                      List.getLast?_append_of_ne_nil _ (by simp)]
                    rfl) ?_ ?_ ?_ ?_ (ih hrest _ _ _ (by omega))
                · intro j
                  rw [drop_after_copy x2 _ _ j hx2, hdrop1]
                  congr 1
                  omega
                · intro h
                  have := hbuf1 h
                  simp only [List.length_append, List.length_drop] at this ⊢
                  omega
                · rcases hc with rfl | ⟨rfl, hone⟩
                  · rcases hcut1 with h1 | h1
                    · rcases hcut2 with h2' | h2'
                      · left; rw [e, h1, h2']; simp only [List.append_assoc]
                      · right; omega
                    · right; omega
                  · right; omega
                · intro h
                  have hlen_e : (entryText rv k).length =
                      (unquote k.name).length + 1 + (unquote v).length := by
                    rw [e]; simp only [List.length_append, List.length_singleton]
                  have e1 := hfit1 (by omega)
                  have e2 := hfit2 (by rw [e1]; omega)
                  rcases hc with rfl | ⟨rfl, hone⟩
                  · rw [e, e1, e2]; simp only [List.append_assoc]
                  · exfalso; rw [e1] at hone; omega
              cases hu2 : PROFILE_CopyEntry_under (x1 ++ buffer.drop (t1.length + 1 + x1.length))
                  v (len - (t1.length + 1) - 1) false with
              | false =>
                simp only [Bool.false_eq_true, if_false]
                exact hstep 61 (Or.inl rfl)
              | true =>
                simp only [if_true]
                exact hstep 0 (Or.inr ⟨rfl, hund2 hu2⟩)


theorem poke_zero (b : List Nat) (c : Nat) (h : 1 ≤ b.length) : poke b 0 c = c :: b.drop 1 := by
  cases b with
  | nil => simp at h
  | cons a t => simp [poke]

theorem GetSection_first (getenv : List Nat → Option (List Nat)) (S buffer : List Nat)
    (len : Nat) (he rv : Bool) (sec : PROFILESECTION) :
    ∀ d : List PROFILESECTION, firstSection d S = some sec →
    PROFILE_GetSection getenv d S buffer len he rv =
      if (PROFILE_GetSection_loop getenv he rv sec.key len [] buffer).1 ≤ 1 then
        ((len : Int) - 2,
          pokeBack (PROFILE_GetSection_loop getenv he rv sec.key len [] buffer).2.1 0 ++
            poke (PROFILE_GetSection_loop getenv he rv sec.key len [] buffer).2.2 0 0)
      else
        ((len : Int) - ((PROFILE_GetSection_loop getenv he rv sec.key len [] buffer).1 : Int),
          (PROFILE_GetSection_loop getenv he rv sec.key len [] buffer).2.1 ++
            poke (PROFILE_GetSection_loop getenv he rv sec.key len [] buffer).2.2 0 0) := by
  intro d
  induction d with
  | nil => intro h; simp [firstSection] at h
  | cons x rest ih =>
    intro h
    simp only [firstSection, List.find?_cons] at h
    simp only [PROFILE_GetSection]
    by_cases hx : x.name.headD 0 ≠ 0 ∧ strcasecmp x.name S = 0
    · rw [if_pos hx]
      rw [decide_eq_true hx] at h
      simp only [Option.some.injEq] at h
      rw [h]
    · rw [if_neg hx]
      rw [decide_eq_false hx] at h
      exact ih h

theorem GetSection_cut (getenv : List Nat → Option (List Nat)) (d : List PROFILESECTION)
    (S buffer : List Nat) (len : Nat) (rv : Bool) (sec : PROFILESECTION)
    (hsec : firstSection d S = some sec) (hk : keysAreCStrings sec.key)
    (h3 : 3 ≤ len) (h32 : len < 4294967296) (hbuf : len ≤ buffer.length)
    (hneed : len < (listing rv sec.key).length + 1) :
    (PROFILE_GetSection getenv d S buffer len false rv).1 = (len : Int) - 2 ∧
    ∃ w, (PROFILE_GetSection getenv d S buffer len false rv).2 =
        w ++ [0, 0] ++ buffer.drop (w.length + 2) ∧
      (w.length + 2 = len ∨ w.length + 2 = len - 1) := by
  rw [GetSection_first getenv S buffer len false rv sec d hsec]
  obtain ⟨h1, h2, ⟨s, hs, hl, hlast, _⟩, h4, h5, h6⟩ :=
    GetSection_loop_ok getenv rv sec.key hk len [] buffer h32
  have hle := h6 (by omega)
  have hge := h2 (by omega)
  have hb := h5 hbuf
  rw [List.nil_append] at hs
  have hne : s ≠ [] := by rintro rfl; simp at hl; omega
  have hlast' : s.getLast? = some 0 := hlast.resolve_left hne
  obtain ⟨w, c, hw⟩ := (List.eq_nil_or_concat s).resolve_left hne
  rw [List.concat_eq_append] at hw
  have hc : c = 0 := by
    rw [hw] at hlast'
    simpa using hlast'
  subst hc
  have hwl : w.length + 1 = s.length := by rw [hw]; simp
  rw [poke_zero _ 0 (by omega), h4, hs]
  have hpb : pokeBack s 0 = w ++ [0] := by
    rw [hw]
    unfold pokeBack
    rw [if_neg (by simp), List.dropLast_concat]
  by_cases hr : (PROFILE_GetSection_loop getenv false rv sec.key len [] buffer).1 ≤ 1
  · rw [if_pos hr]
    have hidx : len - (PROFILE_GetSection_loop getenv false rv sec.key len [] buffer).1 + 1
        = w.length + 2 := by omega
    refine ⟨rfl, w, ?_, Or.inl (by omega)⟩
    simp only [hpb, hidx, List.append_assoc, List.singleton_append, List.cons_append,
      List.nil_append]
  · rw [if_neg hr]
    have h2' : (PROFILE_GetSection_loop getenv false rv sec.key len [] buffer).1 = 2 := by omega
    have hidx : len - (PROFILE_GetSection_loop getenv false rv sec.key len [] buffer).1 + 1
        = w.length + 2 := by omega
    refine ⟨by rw [h2']; rfl, w, ?_, Or.inr (by omega)⟩
    simp only [hw, hidx, List.append_assoc, List.singleton_append, List.cons_append,
      List.nil_append]

theorem GetSection_fit (getenv : List Nat → Option (List Nat)) (d : List PROFILESECTION)
    (S buffer : List Nat) (len : Nat) (rv : Bool) (sec : PROFILESECTION)
    (hsec : firstSection d S = some sec) (hk : keysAreCStrings sec.key)
    (h32 : len < 4294967296) (hbuf : len ≤ buffer.length)
    (hfit : (listing rv sec.key).length + 2 ≤ len) :
    PROFILE_GetSection getenv d S buffer len false rv =
      (((listing rv sec.key).length : Int),
        listing rv sec.key ++ 0 :: buffer.drop ((listing rv sec.key).length + 1)) := by
  rw [GetSection_first getenv S buffer len false rv sec d hsec]
  obtain ⟨h1, h2, ⟨s, hs, hl, hlast, hf⟩, h4, h5, h6⟩ :=
    GetSection_loop_ok getenv rv sec.key hk len [] buffer h32
  have hb := h5 hbuf
  have e := hf hfit
  subst e
  rw [List.nil_append] at hs
  have hr : ¬ (PROFILE_GetSection_loop getenv false rv sec.key len [] buffer).1 ≤ 1 := by omega
  rw [if_neg hr, poke_zero _ 0 (by omega), h4, hs]
  have hidx : len - (PROFILE_GetSection_loop getenv false rv sec.key len [] buffer).1 + 1
      = (listing rv sec.key).length + 1 := by omega
  have hint : (len : Int) - ((PROFILE_GetSection_loop getenv false rv sec.key len [] buffer).1 : Int)
      = ((listing rv sec.key).length : Int) := by omega
  rw [hidx, hint]

/-! ### Section names: lemmas -/

theorem strlen_of_not_mem (s : List Nat) (h : 0 ∉ s) : strlen s = s.length := by
  unfold strlen
  rw [List.takeWhile_eq_self_iff.2]
  intro x hx
  simp only [ne_eq, decide_eq_true_eq]
  rintro rfl
  exact h hx

theorem takeWhile_of_not_mem (s : List Nat) (h : 0 ∉ s) : s.takeWhile (· ≠ 0) = s := by
  rw [List.takeWhile_eq_self_iff]
  intro x hx
  simp only [ne_eq, decide_eq_true_eq]
  rintro rfl
  exact h hx

theorem headD_ne_zero_iff (s : List Nat) (h : 0 ∉ s) : s.headD 0 ≠ 0 ↔ s ≠ [] := by
  cases s with
  | nil => simp
  | cons a t =>
    have ha : a ≠ 0 := fun e => h (by rw [e]; exact List.mem_cons_self _ _)
    simp [ha]

theorem sectionNames_cons_pos (sec : PROFILESECTION) (rest : List PROFILESECTION)
    (h : sec.name ≠ []) : sectionNames (sec :: rest) = sec.name ++ 0 :: sectionNames rest := by
  simp [sectionNames, h]

theorem sectionNames_cons_neg (sec : PROFILESECTION) (rest : List PROFILESECTION)
    (h : ¬ sec.name ≠ []) : sectionNames (sec :: rest) = sectionNames rest := by
  simp only [sectionNames, if_neg h]

theorem strcpy_eq (buf name : List Nat) (hn : 0 ∉ name) :
    (strcpy buf name).take (name.length + 1) = name ++ [0] ∧
    (strcpy buf name).drop (name.length + 1) = buf.drop (name.length + 1) := by
  have hcp : strcpy buf name = name ++ 0 :: buf.drop (name.length + 1) := by
    unfold strcpy
    rw [takeWhile_of_not_mem _ hn, strlen_of_not_mem _ hn]
    simp
  rw [hcp]
  constructor
  · simp [List.take_append_eq_append_take]
  · simp [List.drop_append_eq_append_drop]

theorem GetSectionNames_loop_fit (len : Nat) :
    ∀ (d : List PROFILESECTION), (∀ sec ∈ d, 0 ∉ sec.name) → ∀ (f : Nat) (done buf : List Nat),
    (sectionNames d).length ≤ f → f + 1 ≤ buf.length →
    PROFILE_GetSectionNames_loop len d f done buf =
      (((done.length + (sectionNames d).length : Nat) : Int),
        done ++ sectionNames d ++ 0 :: buf.drop ((sectionNames d).length + 1)) := by
  intro d
  induction d with
  | nil =>
    intro _ f done buf _ hb
    simp only [PROFILE_GetSectionNames_loop, sectionNames, List.length_nil, Nat.add_zero,
      List.append_nil, Nat.zero_add]
    rw [poke_zero buf 0 (by omega)]
  | cons sec rest ih =>
    intro hc f done buf hT hb
    have hn := hc sec (List.mem_cons_self _ _)
    have hrest : ∀ s ∈ rest, 0 ∉ s.name := fun s hs => hc s (List.mem_cons_of_mem _ hs)
    simp only [PROFILE_GetSectionNames_loop, strlen_of_not_mem _ hn, headD_ne_zero_iff _ hn]
    by_cases hne : sec.name ≠ []
    · rw [sectionNames_cons_pos sec rest hne] at hT ⊢
      simp only [List.length_append, List.length_cons] at hT
      rw [if_pos hne, if_neg (by omega), (strcpy_eq buf sec.name hn).1,
        (strcpy_eq buf sec.name hn).2,
        ih hrest _ _ _ (by omega) (by rw [List.length_drop]; omega)]
      simp only [List.length_append, List.length_singleton, List.length_cons, List.append_assoc,
        List.drop_drop, List.singleton_append, List.cons_append]
      have e1 : done.length + (sec.name.length + (([] : List Nat).length + 1)) +
          (sectionNames rest).length =
          done.length + (sec.name.length + ((sectionNames rest).length + 1)) := by
        simp only [List.length_nil]; omega
      have e2 : sec.name.length + 1 + ((sectionNames rest).length + 1) =
          sec.name.length + ((sectionNames rest).length + 1) + 1 := by omega
      rw [e1, e2, List.nil_append]
    · rw [sectionNames_cons_neg sec rest hne] at hT ⊢
      rw [if_neg hne]
      exact ih hrest _ _ _ hT hb

theorem poke_poke_drop (t B : List Nat) (hB : t.length + 2 ≤ B.length) :
    poke (poke (t ++ B.drop t.length) t.length 0) (t.length + 1) 0 =
      t ++ [0, 0] ++ B.drop (t.length + 2) := by
  obtain ⟨a, b, rest, hr⟩ : ∃ a b rest, B.drop t.length = a :: b :: rest := by
    have hl : (B.drop t.length).length ≥ 2 := by rw [List.length_drop]; omega
    match hd : B.drop t.length, hl with
    | a :: b :: rest, _ => exact ⟨a, b, rest, rfl⟩
  have h2 : B.drop (t.length + 2) = rest := by
    have : B.drop (t.length + 2) = (B.drop t.length).drop 2 := by
      simp [List.drop_drop, Nat.add_comm]
    rw [this, hr]
    rfl
  rw [hr, h2]
  simp only [poke]
  rw [List.set_append_right _ _ (Nat.le_refl _), Nat.sub_self, List.set_cons_zero,
    List.set_append_right _ _ (by omega)]
  simp

theorem GetSectionNames_loop_cut (len : Nat) :
    ∀ (d : List PROFILESECTION), (∀ sec ∈ d, 0 ∉ sec.name) → ∀ (f : Nat) (done buf : List Nat),
    f < (sectionNames d).length → f + 1 ≤ buf.length →
    PROFILE_GetSectionNames_loop len d f done buf =
      ((len : Int) - 2, done ++ cutNames d f ++ buf.drop (f + 1)) := by
  intro d
  induction d with
  | nil => intro _ f done buf hT _; simp [sectionNames] at hT
  | cons sec rest ih =>
    intro hc f done buf hT hb
    have hn := hc sec (List.mem_cons_self _ _)
    have hrest : ∀ s ∈ rest, 0 ∉ s.name := fun s hs => hc s (List.mem_cons_of_mem _ hs)
    simp only [PROFILE_GetSectionNames_loop, strlen_of_not_mem _ hn, headD_ne_zero_iff _ hn]
    by_cases hne : sec.name ≠ []
    · rw [if_pos hne]
      have hnames := sectionNames_cons_pos sec rest hne
      rw [hnames] at hT
      simp only [List.length_append, List.length_cons] at hT
      by_cases hl : sec.name.length + 1 > f
      · rw [if_pos hl]
        by_cases hf : f > 0
        · rw [if_pos hf]
          have hcp : strncpy buf sec.name (f - 1) =
              sec.name.take (f - 1) ++ buf.drop (sec.name.take (f - 1)).length := by
            unfold strncpy
            rw [takeWhile_of_not_mem _ hn, strlen_of_not_mem _ hn,
              Nat.sub_eq_zero_of_le (show f - 1 ≤ sec.name.length by omega), List.length_take,
              Nat.min_eq_left (show f - 1 ≤ sec.name.length by omega)]
            simp
          have hlt : (sec.name.take (f - 1)).length = f - 1 := by
            rw [List.length_take, Nat.min_eq_left (by omega)]
          have hp := poke_poke_drop (sec.name.take (f - 1)) buf (by rw [hlt]; omega)
          rw [hlt] at hp
          rw [hcp, hlt]
          have hf1 : f - 1 + 1 = f := by omega
          have hf2 : f - 1 + 2 = f + 1 := by omega
          rw [hf1, hf2] at hp
          rw [hp]
          have hcut : cutNames (sec :: rest) f = sec.name.take (f - 1) ++ [0, 0] := by
            unfold cutNames
            rw [if_neg (by omega), hnames, List.take_append_of_le_length (by omega)]
          rw [hcut]
          simp only [List.append_assoc]
        · rw [if_neg hf]
          have hf0 : f = 0 := by omega
          subst hf0
          rw [poke_zero buf 0 (by omega)]
          simp [cutNames]
      · rw [if_neg hl, (strcpy_eq buf sec.name hn).1, (strcpy_eq buf sec.name hn).2,
          ih hrest _ _ _ (by omega) (by rw [List.length_drop]; omega)]
        have hcut : cutNames (sec :: rest) f =
            sec.name ++ [0] ++ cutNames rest (f - (sec.name.length + 1)) := by
          unfold cutNames
          rw [if_neg (by omega), hnames]
          by_cases hf' : f - (sec.name.length + 1) = 0
          · rw [if_pos hf']
            have : f - 1 = sec.name.length := by omega
            rw [this, List.take_left']
            · simp
            · rfl
          · rw [if_neg hf']
            have : f - 1 = sec.name.length + (f - (sec.name.length + 1) - 1 + 1) := by omega
            rw [this, List.take_append, List.take_succ_cons]
            simp
        rw [hcut, List.drop_drop]
        have : sec.name.length + 1 + (f - (sec.name.length + 1) + 1) = f + 1 := by omega
        rw [this]
        simp only [List.append_assoc]
    · rw [if_neg hne]
      have hnames := sectionNames_cons_neg sec rest hne
      have hcut : cutNames (sec :: rest) f = cutNames rest f := by
        unfold cutNames; rw [hnames]
      rw [hnames] at hT
      rw [hcut]
      exact ih hrest _ _ _ hT hb

theorem GetSectionNames_spec (cur : PROFILE) (buffer : List Nat) (len : Nat)
    (hc : ∀ sec ∈ cur.«section», 0 ∉ sec.name) (h2 : 2 ≤ len) (hbuf : len ≤ buffer.length) :
    ((sectionNames cur.«section»).length + 1 ≤ len →
      PROFILE_GetSectionNames cur buffer len =
        (((sectionNames cur.«section»).length : Int),
          sectionNames cur.«section» ++ 0 ::
            buffer.drop ((sectionNames cur.«section»).length + 1))) ∧
    (len < (sectionNames cur.«section»).length + 1 →
      PROFILE_GetSectionNames cur buffer len =
        ((len : Int) - 2,
          (sectionNames cur.«section»).take (len - 2) ++ [0, 0] ++ buffer.drop len)) := by
  constructor
  · intro h
    unfold PROFILE_GetSectionNames
    rw [if_neg (by omega), if_neg (by omega),
      GetSectionNames_loop_fit len _ hc (len - 1) [] buffer (by omega) (by omega)]
    simp
  · intro h
    unfold PROFILE_GetSectionNames
    rw [if_neg (by omega), if_neg (by omega),
      GetSectionNames_loop_cut len _ hc (len - 1) [] buffer (by omega) (by omega)]
    unfold cutNames
    rw [if_neg (by omega)]
    have e1 : len - 1 - 1 = len - 2 := by omega
    have e2 : len - 1 + 1 = len := by omega
    rw [e1, e2]
    simp

/-! ### The cache of profiles: lemmas -/

theorem FlushFile_clean (h : Host) (cur : PROFILE) (rest : List PROFILE) (fs : FileSystem)
    (hc : cur.changed = false ∨ cur.dos_name = none) :
    PROFILE_FlushFile h ⟨cur :: rest, fs⟩ = some (⟨cur :: rest, fs⟩, true) := by
  cases hd : cur.dos_name with
  | none => simp only [PROFILE_FlushFile, hd]
  | some d =>
    rcases hc with hc | hc
    · simp only [PROFILE_FlushFile, hd, hc, Bool.not_false, if_true]
    · rw [hd] at hc; cases hc

theorem FlushFile_write (h : Host) (cur : PROFILE) (rest : List PROFILE) (fs : FileSystem)
    (d path : List Nat) (hch : cur.changed = true) (hd : cur.dos_name = some d)
    (hp : (cur.unix_name = some path ∧ fs.writable path = true) ∨
      ((∀ u, cur.unix_name = some u → fs.writable u = false) ∧ configPath h d = some path ∧
        fs.writable path = true)) :
    PROFILE_FlushFile h ⟨cur :: rest, fs⟩ =
      some (⟨{ cur with changed := false, mtime := fs.now } :: rest,
        fs.store path (PROFILE_Save cur.«section»)⟩, true) := by
  simp only [PROFILE_FlushFile, hd, hch, Bool.not_true, Bool.false_eq_true, if_false]
  rcases hp with ⟨hu, hw⟩ | ⟨hu, hcp, hw⟩
  · simp [hu, hw, FileSystem.store]
  · cases hun : cur.unix_name with
    | none => simp [hcp, hw, FileSystem.store]
    | some u => simp [hu u hun, hcp, hw, FileSystem.store]

theorem FlushFile_fail (h : Host) (cur : PROFILE) (rest : List PROFILE) (fs : FileSystem)
    (d buffer : List Nat) (hch : cur.changed = true) (hd : cur.dos_name = some d)
    (hu : ∀ u, cur.unix_name = some u → fs.writable u = false)
    (hcp : configPath h d = some buffer) (hw : fs.writable buffer = false) :
    PROFILE_FlushFile h ⟨cur :: rest, fs⟩ = some (⟨cur :: rest, fs⟩, false) := by
  simp only [PROFILE_FlushFile, hd, hch, Bool.not_true, Bool.false_eq_true, if_false]
  cases hun : cur.unix_name with
  | none => simp [hcp, hw]
  | some u => simp [hu u hun, hcp, hw]

theorem configPath_some (h : Host) (d : List Nat) (hd : 92 ∈ d) :
    ∃ buffer, configPath h d = some buffer := by
  unfold configPath strrchr
  rw [if_pos hd]
  exact ⟨_, rfl⟩

theorem FlushFile_shape (h : Host) (cur : PROFILE) (rest : List PROFILE) (fs : FileSystem)
    (r : State × Bool) (hr : PROFILE_FlushFile h ⟨cur :: rest, fs⟩ = some r) :
    ∃ cur', r.1.MRUProfile = cur' :: rest ∧ cur'.«section» = cur.«section» ∧
      cur'.filename = cur.filename ∧ cur'.dos_name = cur.dos_name ∧
      cur'.unix_name = cur.unix_name ∧ r.1.fs.writable = fs.writable ∧
      (cur.changed = false → cur' = cur ∧ r.1.fs = fs) := by
  by_cases hc : cur.changed = false ∨ cur.dos_name = none
  · rw [FlushFile_clean h cur rest fs hc] at hr
    cases hr
    exact ⟨cur, rfl, rfl, rfl, rfl, rfl, rfl, fun _ => ⟨rfl, rfl⟩⟩
  · have hch : cur.changed = true := by
      cases hx : cur.changed with
      | true => rfl
      | false => exact absurd (Or.inl hx) hc
    obtain ⟨d, hd⟩ : ∃ d, cur.dos_name = some d := by
      cases hx : cur.dos_name with
      | none => exact absurd (Or.inr hx) hc
      | some d => exact ⟨d, rfl⟩
    have hno : cur.changed = false → False := by rw [hch]; intro e; cases e
    by_cases hu : ∃ u, cur.unix_name = some u ∧ fs.writable u = true
    · obtain ⟨u, hu1, hu2⟩ := hu
      rw [FlushFile_write h cur rest fs d u hch hd (Or.inl ⟨hu1, hu2⟩)] at hr
      cases hr
      exact ⟨_, rfl, rfl, rfl, rfl, rfl, rfl, fun e => (hno e).elim⟩
    · have hu' : ∀ u, cur.unix_name = some u → fs.writable u = false := by
        intro u hu1
        cases hw : fs.writable u with
        | false => rfl
        | true => exact absurd ⟨u, hu1, hw⟩ hu
      cases hcp : configPath h d with
      | none =>
        exfalso
        simp only [PROFILE_FlushFile, hd, hch, Bool.not_true, Bool.false_eq_true, if_false] at hr
        cases hun : cur.unix_name with
        | none => simp [hun, hcp] at hr
        | some u => simp [hun, hu' u hun, hcp] at hr
      | some buffer =>
        cases hw : fs.writable buffer with
        | true =>
          rw [FlushFile_write h cur rest fs d buffer hch hd (Or.inr ⟨hu', hcp, hw⟩)] at hr
          cases hr
          exact ⟨_, rfl, rfl, rfl, rfl, rfl, rfl, fun e => (hno e).elim⟩
        | false =>
          rw [FlushFile_fail h cur rest fs d buffer hch hd hu' hcp hw] at hr
          cases hr
          exact ⟨cur, rfl, rfl, rfl, rfl, rfl, rfl, fun e => (hno e).elim⟩

theorem FlushFile_nil (h : Host) (fs : FileSystem) :
    PROFILE_FlushFile h ⟨[], fs⟩ = some (⟨[], fs⟩, false) := rfl

theorem FlushFile_returns (h : Host) (cur : PROFILE) (rest : List PROFILE) (fs : FileSystem)
    (hbs : ∀ d, cur.dos_name = some d → 92 ∈ d) :
    ∃ r, PROFILE_FlushFile h ⟨cur :: rest, fs⟩ = some r := by
  by_cases hc : cur.changed = false ∨ cur.dos_name = none
  · exact ⟨_, FlushFile_clean h cur rest fs hc⟩
  · have hch : cur.changed = true := by
      cases hx : cur.changed with
      | true => rfl
      | false => exact absurd (Or.inl hx) hc
    obtain ⟨d, hd⟩ : ∃ d, cur.dos_name = some d := by
      cases hx : cur.dos_name with
      | none => exact absurd (Or.inr hx) hc
      | some d => exact ⟨d, rfl⟩
    by_cases hu : ∃ u, cur.unix_name = some u ∧ fs.writable u = true
    · obtain ⟨u, hu1, hu2⟩ := hu
      exact ⟨_, FlushFile_write h cur rest fs d u hch hd (Or.inl ⟨hu1, hu2⟩)⟩
    · have hu' : ∀ u, cur.unix_name = some u → fs.writable u = false := by
        intro u hu1
        cases hw : fs.writable u with
        | false => rfl
        | true => exact absurd ⟨u, hu1, hw⟩ hu
      obtain ⟨buffer, hcp⟩ := configPath_some h d (hbs d hd)
      cases hw : fs.writable buffer with
      | true => exact ⟨_, FlushFile_write h cur rest fs d buffer hch hd (Or.inr ⟨hu', hcp, hw⟩)⟩
      | false => exact ⟨_, FlushFile_fail h cur rest fs d buffer hch hd hu' hcp hw⟩

theorem promote_of_lt (l : List PROFILE) (i : Nat) (hi : i < l.length) :
    promote l i = l.get ⟨i, hi⟩ :: (l.take i ++ l.drop (i + 1)) := by
  unfold promote
  rw [List.get?_eq_get hi]

theorem promote_length (l : List PROFILE) (i : Nat) : (promote l i).length = l.length := by
  by_cases hi : i < l.length
  · rw [promote_of_lt l i hi]
    simp only [List.length_cons, List.length_append, List.length_take, List.length_drop]
    omega
  · unfold promote
    rw [List.get?_eq_none.2 (by omega)]

theorem promote_perm (l : List PROFILE) (i : Nat) : (promote l i).Perm l := by
  by_cases hi : i < l.length
  · rw [promote_of_lt l i hi]
    have h1 : l = l.take i ++ l.get ⟨i, hi⟩ :: l.drop (i + 1) := by
      conv_lhs => rw [← List.take_append_drop i l]
      congr 1
      exact List.drop_eq_getElem_cons hi
    conv_rhs => rw [h1]
    exact List.perm_middle.symm
  · unfold promote
    rw [List.get?_eq_none.2 (by omega)]

theorem promote_getElem? (l : List PROFILE) (i j : Nat) (hi : i < l.length) :
    (promote l i)[j]? = if j = 0 then l[i]? else if j ≤ i then l[j - 1]? else l[j]? := by
  rw [promote_of_lt l i hi]
  cases j with
  | zero => simp [List.getElem?_eq_getElem hi]
  | succ j =>
    simp only [List.getElem?_cons_succ, Nat.succ_ne_zero, if_false, Nat.add_sub_cancel]
    by_cases hj : j + 1 ≤ i
    · rw [if_pos hj, List.getElem?_append_left (by rw [List.length_take]; omega),
        List.getElem?_take_of_lt (by omega)]
    · rw [if_neg hj, List.getElem?_append_right (by rw [List.length_take]; omega),
        List.getElem?_drop, List.length_take, Nat.min_eq_left (by omega)]
      congr 1
      omega

theorem Open_of_hit_zero (h : Host) (filename : List Nat) (st : State)
    (full_name : DOS_FULL_NAME) (hfull : PROFILE_Open_full_name h filename = some full_name)
    (hhit : (st.MRUProfile.take N_CACHED_PROFILES).findIdx?
      (PROFILE_Open_match filename full_name.short_name) = some 0) :
    PROFILE_Open h filename st = some (st, true) := by
  have hne : st.MRUProfile ≠ [] := by
    intro e
    rw [e] at hhit
    simp at hhit
  simp only [PROFILE_Open, hne, if_false, hfull, hhit, ne_eq, not_true_eq_false]

theorem Open_of_hit_pos (h : Host) (filename : List Nat) (st : State)
    (full_name : DOS_FULL_NAME) (i : Nat) (r : State × Bool)
    (hfull : PROFILE_Open_full_name h filename = some full_name)
    (hhit : (st.MRUProfile.take N_CACHED_PROFILES).findIdx?
      (PROFILE_Open_match filename full_name.short_name) = some i) (hi : i ≠ 0)
    (hr : PROFILE_FlushFile h st = some r) :
    PROFILE_Open h filename st = some (⟨promote r.1.MRUProfile i, r.1.fs⟩, true) := by
  have hne : st.MRUProfile ≠ [] := by
    intro e
    rw [e] at hhit
    simp at hhit
  simp only [PROFILE_Open, hne, if_false, hfull, hhit, ne_eq, hi, not_false_eq_true, if_true, hr]

theorem Open_of_miss (h : Host) (filename : List Nat) (st : State) (full_name : DOS_FULL_NAME)
    (hne : st.MRUProfile ≠ [])
    (hfull : PROFILE_Open_full_name h filename = some full_name)
    (hmiss : (st.MRUProfile.take N_CACHED_PROFILES).findIdx?
      (PROFILE_Open_match filename full_name.short_name) = none) :
    PROFILE_Open h filename st = PROFILE_Open_miss h filename full_name st := by
  simp only [PROFILE_Open, hne, if_false, hfull, hmiss]

theorem promote_last (l : List PROFILE) (n : Nat) (hl : l.length = n + 1) :
    ∃ last, l.getLast? = some last ∧ promote l n = last :: l.take n := by
  have hi : n < l.length := by omega
  refine ⟨l.get ⟨n, hi⟩, ?_, ?_⟩
  · have e : l.length - 1 = n := by omega
    rw [List.getLast?_eq_getElem?, e, List.getElem?_eq_getElem hi]
    rfl
  · rw [promote_of_lt l n hi, List.drop_of_length_le (by omega), List.append_nil]

theorem Open_assign_names (filename : List Nat) (full_name : DOS_FULL_NAME)
    (buffer : List Nat) (fs : FileSystem) (cur : PROFILE) :
    (PROFILE_Open_assign filename full_name buffer fs cur).filename = some filename ∧
    (PROFILE_Open_assign filename full_name buffer fs cur).dos_name =
      some full_name.short_name ∧
    (PROFILE_Open_assign filename full_name buffer fs cur).changed = cur.changed ∧
    ∃ unix_name, (PROFILE_Open_assign filename full_name buffer fs cur).unix_name =
      some unix_name := by
  unfold PROFILE_Open_assign
  simp only
  split <;> exact ⟨rfl, rfl, rfl, _, rfl⟩

theorem Open_miss_shape (h : Host) (filename : List Nat) (full_name : DOS_FULL_NAME)
    (st : State) (hlen : st.MRUProfile.length = N_CACHED_PROFILES)
    (hbs : ∀ p ∈ st.MRUProfile, ∀ d, p.dos_name = some d → 92 ∈ d)
    (hbs' : 92 ∈ full_name.short_name) :
    ∃ r last buffer fs' cur0, PROFILE_FlushFile h st = some r ∧
      r.1.MRUProfile.getLast? = some last ∧
      configPath h full_name.short_name = some buffer ∧
      PROFILE_Open_miss h filename full_name st =
        some (⟨PROFILE_Open_assign filename full_name buffer fs' cur0 ::
          r.1.MRUProfile.take (N_CACHED_PROFILES - 1), fs'⟩, true) ∧
      fs'.writable = st.fs.writable ∧
      (last.filename = none → fs' = r.1.fs ∧ cur0 = last) ∧
      (last.filename ≠ none → cur0 = emptyProfile ∧
        ∀ d u, last.changed = true → last.dos_name = some d → last.unix_name = some u →
          r.1.fs.writable u = true → fs' = r.1.fs.store u (PROFILE_Save last.«section»)) := by
  obtain ⟨mru, fs⟩ := st
  cases mru with
  | nil => simp [N_CACHED_PROFILES] at hlen
  | cons cur rest =>
    simp only at hlen hbs
    obtain ⟨r, hr⟩ := FlushFile_returns h cur rest fs (hbs cur (List.mem_cons_self _ _))
    obtain ⟨cur', hmru, _, _, hdos, _, hw, _⟩ := FlushFile_shape h cur rest fs r hr
    obtain ⟨st1, b⟩ := r
    obtain ⟨mru1, fs1⟩ := st1
    simp only at hmru hw
    subst hmru
    have hl1 : (cur' :: rest).length = (N_CACHED_PROFILES - 1) + 1 := by
      simp only [List.length_cons] at hlen ⊢
      simp only [N_CACHED_PROFILES] at hlen ⊢
      omega
    obtain ⟨last, hlast, hprom⟩ := promote_last (cur' :: rest) (N_CACHED_PROFILES - 1) hl1
    have hlast_mem : last ∈ cur' :: rest := List.mem_of_getLast?_eq_some hlast
    have hlast_bs : ∀ d, last.dos_name = some d → 92 ∈ d := by
      intro d hd
      rcases List.mem_cons.1 hlast_mem with e | e
      · rw [e, hdos] at hd
        exact hbs cur (List.mem_cons_self _ _) d hd
      · exact hbs last (List.mem_cons_of_mem _ e) d hd
    obtain ⟨buffer, hcp⟩ := configPath_some h full_name.short_name hbs'
    refine ⟨(⟨cur' :: rest, fs1⟩, b), last, buffer, ?_⟩
    by_cases hfn : last.filename = none
    · refine ⟨fs1, last, hr, hlast, hcp, ?_, hw, fun _ => ⟨rfl, rfl⟩, fun e => absurd hfn e⟩
      simp only [PROFILE_Open_miss, hr, hprom, hfn, ne_eq, not_true_eq_false, if_false, hcp]
    · obtain ⟨r2, hr2⟩ := FlushFile_returns h last ((cur' :: rest).take (N_CACHED_PROFILES - 1))
        fs1 hlast_bs
      obtain ⟨last', hmru2, _, _, _, _, hw2, _⟩ := FlushFile_shape h last _ fs1 r2 hr2
      obtain ⟨st2, b2⟩ := r2
      obtain ⟨mru2, fs2⟩ := st2
      simp only at hmru2 hw2
      subst hmru2
      refine ⟨fs2, emptyProfile, hr, hlast, hcp, ?_, hw2.trans hw, fun e => absurd e hfn,
        fun _ => ⟨rfl, ?_⟩⟩
      · simp only [PROFILE_Open_miss, hr, hprom, hfn, ne_eq, not_false_eq_true, if_true,
          PROFILE_ReleaseFile, hr2, hcp]
      · intro d u hch hd hu hwu
        rw [FlushFile_write h last _ fs1 d u hch hd (Or.inl ⟨hu, hwu⟩)] at hr2
        cases hr2
        rfl

theorem ReleaseFile_result (h : Host) (cur : PROFILE) (rest : List PROFILE) (fs : FileSystem)
    (st3 : State) (hres : PROFILE_ReleaseFile h ⟨cur :: rest, fs⟩ = some st3) :
    ∃ r, PROFILE_FlushFile h ⟨cur :: rest, fs⟩ = some r ∧
      st3 = ⟨emptyProfile :: rest, r.1.fs⟩ := by
  unfold PROFILE_ReleaseFile at hres
  cases hf : PROFILE_FlushFile h ⟨cur :: rest, fs⟩ with
  | none => rw [hf] at hres; cases hres
  | some r =>
    obtain ⟨cur', hmru, _⟩ := FlushFile_shape h cur rest fs r hf
    obtain ⟨st1, b⟩ := r
    rw [hf] at hres
    simp only at hres hmru
    rw [hmru] at hres
    simp only [Option.some.injEq] at hres
    exact ⟨_, rfl, hres.symm⟩

theorem Open_miss_result (h : Host) (filename : List Nat) (full_name : DOS_FULL_NAME)
    (st : State) (res : State × Bool)
    (hres : PROFILE_Open_miss h filename full_name st = some res) :
    ∃ r cur0 buffer fs', PROFILE_FlushFile h st = some r ∧
      res = (⟨PROFILE_Open_assign filename full_name buffer fs' cur0 ::
        (promote r.1.MRUProfile (N_CACHED_PROFILES - 1)).tail, fs'⟩, true) := by
  unfold PROFILE_Open_miss at hres
  cases hf : PROFILE_FlushFile h st with
  | none => rw [hf] at hres; cases hres
  | some r =>
    obtain ⟨st1, b⟩ := r
    rw [hf] at hres
    simp only at hres
    cases hp : promote st1.MRUProfile (N_CACHED_PROFILES - 1) with
    | nil => rw [hp] at hres; cases hres
    | cons cur tl =>
      rw [hp] at hres
      simp only at hres
      cases hcp : configPath h full_name.short_name with
      | none =>
        rw [hcp] at hres
        exfalso
        split at hres
        · cases hres
        · split at hres <;> cases hres
      | some buffer =>
        rw [hcp] at hres
        by_cases hfn : cur.filename ≠ none
        · rw [if_pos hfn] at hres
          cases hrel : PROFILE_ReleaseFile h ⟨cur :: tl, st1.fs⟩ with
          | none => rw [hrel] at hres; cases hres
          | some st3 =>
            obtain ⟨r2, _, hst3⟩ := ReleaseFile_result h cur tl st1.fs st3 hrel
            rw [hrel, hst3] at hres
            simp only [Option.some.injEq] at hres
            exact ⟨_, emptyProfile, buffer, r2.1.fs, rfl, by rw [hp]; exact hres.symm⟩
        · rw [if_neg hfn] at hres
          simp only [Option.some.injEq] at hres
          exact ⟨_, cur, buffer, st1.fs, rfl, by rw [hp]; exact hres.symm⟩

theorem Open_nonempty (h : Host) (filename : List Nat) (st : State) (res : State × Bool)
    (hres : PROFILE_Open h filename st = some res) : res.1.MRUProfile ≠ [] := by
  unfold PROFILE_Open at hres
  have hne : (if st.MRUProfile = [] then
      ({ st with MRUProfile := List.replicate N_CACHED_PROFILES emptyProfile } : State)
      else st).MRUProfile ≠ [] := by
    split
    · simp [N_CACHED_PROFILES]
    · assumption
  generalize (if st.MRUProfile = [] then
      ({ st with MRUProfile := List.replicate N_CACHED_PROFILES emptyProfile } : State)
      else st) = st' at hres hne
  simp only at hres
  split at hres
  · cases hres; exact hne
  · split at hres
    · split at hres
      · split at hres
        · cases hres
        · rename_i st1 b hf
          cases hres
          obtain ⟨mru, fs⟩ := st'
          cases mru with
          | nil => exact absurd rfl hne
          | cons cur rest =>
            obtain ⟨cur', hmru, _⟩ := FlushFile_shape h cur rest fs _ hf
            simp only at hmru ⊢
            intro e
            have := promote_length st1.MRUProfile (by assumption)
            rw [e, hmru] at this
            simp at this
      · cases hres; exact hne
    · obtain ⟨r, cur0, buffer, fs', _, e⟩ := Open_miss_result h filename _ st' res hres
      rw [e]
      simp

theorem distinctNames_symm {p q : PROFILE} (hpq : distinctNames p q) : distinctNames q p := by
  constructor
  · intro hq e
    exact hpq.1 (by rw [← e]; exact hq) e.symm
  · intro hq e
    exact hpq.2 (by rw [← e]; exact hq) e.symm

theorem distinctNames_left (p p' q : PROFILE) (hf : p'.filename = p.filename)
    (hd : p'.dos_name = p.dos_name) (hpq : distinctNames p q) : distinctNames p' q := by
  unfold distinctNames at *
  rw [hf, hd]
  exact hpq

theorem distinctNames_empty (q : PROFILE) : distinctNames emptyProfile q :=
  ⟨fun hne => absurd rfl hne, fun hne => absurd rfl hne⟩

theorem pairwise_head (cur cur' : PROFILE) (rest : List PROFILE)
    (hf : cur'.filename = cur.filename) (hd : cur'.dos_name = cur.dos_name)
    (hp : (cur :: rest).Pairwise distinctNames) : (cur' :: rest).Pairwise distinctNames := by
  rw [List.pairwise_cons] at hp ⊢
  exact ⟨fun q hq => distinctNames_left cur cur' q hf hd (hp.1 q hq), hp.2⟩

theorem pairwise_empty_head (cur : PROFILE) (rest : List PROFILE)
    (hp : (cur :: rest).Pairwise distinctNames) :
    (emptyProfile :: rest).Pairwise distinctNames := by
  rw [List.pairwise_cons] at hp ⊢
  exact ⟨fun q _ => distinctNames_empty q, hp.2⟩

theorem pairwise_promote (l : List PROFILE) (i : Nat) (hp : l.Pairwise distinctNames) :
    (promote l i).Pairwise distinctNames :=
  (List.Perm.pairwise_iff (fun hxy => distinctNames_symm hxy) (promote_perm l i)).2 hp

theorem strcmp_self : ∀ a : List Nat, strcmp a a = 0
  | [] => by simp [strcmp]
  | c :: a => by
    simp only [strcmp, List.headD_cons, ne_eq, not_true_eq_false, if_false, List.tail_cons]
    split
    · rfl
    · exact strcmp_self a

theorem Open_match_names (filename short_name : List Nat) (p p' : PROFILE)
    (hf : p'.filename = p.filename) (hd : p'.dos_name = p.dos_name) :
    PROFILE_Open_match filename short_name p' = PROFILE_Open_match filename short_name p := by
  unfold PROFILE_Open_match
  rw [hf, hd]

theorem distinctNames_of_miss (filename short_name : List Nat) (new p : PROFILE)
    (hf : new.filename = some filename) (hd : new.dos_name = some short_name)
    (hm : PROFILE_Open_match filename short_name p = false) : distinctNames new p := by
  unfold PROFILE_Open_match at hm
  rw [Bool.or_eq_false_iff] at hm
  constructor
  · intro _ e
    rw [hf] at e
    rw [← e] at hm
    simp [strcmp_self] at hm
  · intro _ e
    rw [hd] at e
    rw [← e] at hm
    simp [strcmp_self] at hm

theorem CacheOK_init (fs : FileSystem) : CacheOK (State.init fs) :=
  ⟨Or.inl rfl, List.Pairwise.nil⟩

theorem SetString_names (cur : PROFILE) (section_name : List Nat)
    (key_name value : Option (List Nat)) (create_always : Bool) :
    (PROFILE_SetString cur section_name key_name value create_always).1.filename =
      cur.filename ∧
    (PROFILE_SetString cur section_name key_name value create_always).1.dos_name =
      cur.dos_name ∧
    (PROFILE_SetString cur section_name key_name value create_always).1.unix_name =
      cur.unix_name := by
  unfold PROFILE_SetString
  cases key_name with
  | none => exact ⟨rfl, rfl, rfl⟩
  | some key_name =>
    cases value with
    | none => exact ⟨rfl, rfl, rfl⟩
    | some value =>
      simp only
      split
      · exact ⟨rfl, rfl, rfl⟩
      · split
        · split <;> exact ⟨rfl, rfl, rfl⟩
        · exact ⟨rfl, rfl, rfl⟩

theorem Open_ok (h : Host) (filename : List Nat) (st : State) (res : State × Bool)
    (hres : PROFILE_Open h filename st = some res) (hok : CacheOK st) :
    res.1.MRUProfile.length = N_CACHED_PROFILES ∧ res.1.MRUProfile.Pairwise distinctNames := by
  unfold PROFILE_Open at hres
  have hst' : (if st.MRUProfile = [] then
      ({ st with MRUProfile := List.replicate N_CACHED_PROFILES emptyProfile } : State)
      else st).MRUProfile.length = N_CACHED_PROFILES ∧
      (if st.MRUProfile = [] then
      ({ st with MRUProfile := List.replicate N_CACHED_PROFILES emptyProfile } : State)
      else st).MRUProfile.Pairwise distinctNames := by
    split
    · refine ⟨List.length_replicate _ _, List.pairwise_replicate.2 (Or.inr ?_)⟩
      exact distinctNames_empty _
    · rename_i hne
      exact ⟨hok.1.resolve_left hne, hok.2⟩
  generalize (if st.MRUProfile = [] then
      ({ st with MRUProfile := List.replicate N_CACHED_PROFILES emptyProfile } : State)
      else st) = st' at hres hst'
  obtain ⟨mru, fs⟩ := st'
  cases mru with
  | nil => simp [N_CACHED_PROFILES] at hst'
  | cons cur rest =>
    simp only at hres hst'
    split at hres
    · cases hres; exact hst'
    · rename_i full_name _
      split at hres
      · split at hres
        · split at hres
          · cases hres
          · rename_i i _ _ st1 b hf
            cases hres
            obtain ⟨cur', hmru, _, hfn, hdn, _⟩ := FlushFile_shape h cur rest fs _ hf
            simp only at hmru ⊢
            rw [hmru, promote_length]
            exact ⟨hst'.1, pairwise_promote _ _ (pairwise_head cur cur' rest hfn hdn hst'.2)⟩
        · cases hres; exact hst'
      · rename_i hmiss
        rw [List.take_of_length_le (by rw [hst'.1]), List.findIdx?_eq_none_iff] at hmiss
        obtain ⟨r, cur0, buffer, fs', hf, e⟩ :=
          Open_miss_result h filename full_name ⟨cur :: rest, fs⟩ res hres
        obtain ⟨cur', hmru, _, hfn, hdn, _⟩ := FlushFile_shape h cur rest fs r hf
        rw [e]
        simp only
        rw [hmru]
        have hp1 : (cur' :: rest).Pairwise distinctNames :=
          pairwise_head cur cur' rest hfn hdn hst'.2
        have hmem : ∀ q ∈ cur' :: rest,
            PROFILE_Open_match filename full_name.short_name q = false := by
          intro q hq
          rcases List.mem_cons.1 hq with e1 | e1
          · rw [e1, Open_match_names _ _ cur cur' hfn hdn]
            exact hmiss cur (List.mem_cons_self _ _)
          · exact hmiss q (List.mem_cons_of_mem _ e1)
        obtain ⟨hn1, hn2, _⟩ := Open_assign_names filename full_name buffer fs' cur0
        refine ⟨?_, ?_⟩
        · simp only [List.length_cons, List.length_tail, promote_length]
          have := hst'.1
          simp only [List.length_cons] at this
          simp only [N_CACHED_PROFILES] at this ⊢
          omega
        · rw [List.pairwise_cons]
          refine ⟨?_, (pairwise_promote _ _ hp1).tail⟩
          intro q hq
          have hq' : q ∈ cur' :: rest :=
            (promote_perm (cur' :: rest) _).mem_iff.1 (List.mem_of_mem_tail hq)
          exact distinctNames_of_miss filename full_name.short_name _ q hn1 hn2 (hmem q hq')

theorem exec_ok (h : Host) (c : Call) (st st' : State) (hex : exec h c st = some st')
    (hok : CacheOK st) : CacheOK st' := by
  cases c with
  | Open filename =>
    simp only [exec, Option.map_eq_some'] at hex
    obtain ⟨res, hres, e⟩ := hex
    obtain ⟨h1, h2⟩ := Open_ok h filename st res hres hok
    rw [← e]
    exact ⟨Or.inr h1, h2⟩
  | SetString section_name key_name value create_always =>
    obtain ⟨mru, fs⟩ := st
    cases mru with
    | nil => simp [exec] at hex
    | cons cur rest =>
      simp only [exec, Option.some.injEq] at hex
      rw [← hex]
      obtain ⟨hf, hd, _⟩ := SetString_names cur section_name key_name value create_always
      refine ⟨?_, pairwise_head cur _ rest hf hd hok.2⟩
      exact hok.1.imp (fun e => by simp at e) (fun e => by simpa using e)
  | DeleteAllKeys section_name =>
    obtain ⟨mru, fs⟩ := st
    cases mru with
    | nil => simp [exec] at hex
    | cons cur rest =>
      simp only [exec, Option.some.injEq] at hex
      rw [← hex]
      refine ⟨?_, pairwise_head cur _ rest rfl rfl hok.2⟩
      exact hok.1.imp (fun e => by simp at e) (fun e => by simpa using e)
  | FlushFile =>
    simp only [exec, Option.map_eq_some'] at hex
    obtain ⟨res, hres, e⟩ := hex
    obtain ⟨mru, fs⟩ := st
    cases mru with
    | nil =>
      rw [FlushFile_nil] at hres
      cases hres
      rw [← e]
      exact hok
    | cons cur rest =>
      obtain ⟨cur', hmru, _, hf, hd, _⟩ := FlushFile_shape h cur rest fs res hres
      rw [← e]
      refine ⟨?_, by rw [hmru]; exact pairwise_head cur cur' rest hf hd hok.2⟩
      rw [hmru]
      exact hok.1.imp (fun e => by simp at e) (fun e => by simpa using e)
  | ReleaseFile =>
    simp only [exec] at hex
    obtain ⟨mru, fs⟩ := st
    cases mru with
    | nil =>
      simp [PROFILE_ReleaseFile, FlushFile_nil] at hex
    | cons cur rest =>
      obtain ⟨r, _, e⟩ := ReleaseFile_result h cur rest fs st' hex
      rw [e]
      refine ⟨?_, pairwise_empty_head cur rest hok.2⟩
      exact hok.1.imp (fun e => by simp at e) (fun e => by simpa using e)

theorem run_ok (h : Host) : ∀ (calls : List Call) (st st' : State),
    run h calls st = some st' → CacheOK st → CacheOK st' := by
  intro calls
  induction calls with
  | nil =>
    intro st st' hr hok
    simp only [run, Option.some.injEq] at hr
    rw [← hr]
    exact hok
  | cons c rest ih =>
    intro st st' hr hok
    simp only [run] at hr
    cases hex : exec h c st with
    | none => rw [hex] at hr; cases hr
    | some st1 =>
      rw [hex] at hr
      exact ih st1 st' hr (exec_ok h c st st1 hex hok)

theorem Open_hit_spec (h : Host) (filename : List Nat) (st : State) (full_name : DOS_FULL_NAME)
    (i : Nat) (hfull : PROFILE_Open_full_name h filename = some full_name)
    (hhit : (st.MRUProfile.take N_CACHED_PROFILES).findIdx?
      (PROFILE_Open_match filename full_name.short_name) = some i) :
    i < st.MRUProfile.length ∧
    (i = 0 → PROFILE_Open h filename st = some (st, true)) ∧
    (i ≠ 0 → ∀ r, PROFILE_FlushFile h st = some r →
      PROFILE_Open h filename st = some (⟨promote r.1.MRUProfile i, r.1.fs⟩, true) ∧
      r.1.MRUProfile.tail = st.MRUProfile.tail ∧
      r.1.MRUProfile.map (fun p => p.«section») = st.MRUProfile.map (fun p => p.«section») ∧
      r.1.MRUProfile.map identity = st.MRUProfile.map identity ∧
      ∀ j, (promote r.1.MRUProfile i)[j]? =
        if j = 0 then r.1.MRUProfile[i]? else if j ≤ i then r.1.MRUProfile[j - 1]?
        else r.1.MRUProfile[j]?) := by
  have hi : i < st.MRUProfile.length := by
    obtain ⟨hlt, _⟩ := List.findIdx?_eq_some_iff_getElem.1 hhit
    rw [List.length_take] at hlt
    omega
  refine ⟨hi, ?_, ?_⟩
  · intro e
    subst e
    exact Open_of_hit_zero h filename st full_name hfull hhit
  · intro hne r hr
    obtain ⟨mru, fs⟩ := st
    cases mru with
    | nil => simp at hi
    | cons cur rest =>
      obtain ⟨cur', hmru, hsec, hfn, hdn, _⟩ := FlushFile_shape h cur rest fs r hr
      refine ⟨Open_of_hit_pos h filename _ full_name i r hfull hhit hne hr, ?_, ?_, ?_, ?_⟩
      · rw [hmru]; rfl
      · rw [hmru]; simp [hsec]
      · rw [hmru]; simp [identity, hfn, hdn]
      · intro j
        exact promote_getElem? _ i j (by rw [hmru]; exact hi)

theorem Open_miss_spec (h : Host) (filename : List Nat) (st : State)
    (full_name : DOS_FULL_NAME) (hlen : st.MRUProfile.length = N_CACHED_PROFILES)
    (hfull : PROFILE_Open_full_name h filename = some full_name)
    (hmiss : (st.MRUProfile.take N_CACHED_PROFILES).findIdx?
      (PROFILE_Open_match filename full_name.short_name) = none)
    (hbs : ∀ p ∈ st.MRUProfile, ∀ d, p.dos_name = some d → 92 ∈ d)
    (hbs' : 92 ∈ full_name.short_name) :
    ∃ r new fs', PROFILE_FlushFile h st = some r ∧
      PROFILE_Open h filename st =
        some (⟨new :: r.1.MRUProfile.take (N_CACHED_PROFILES - 1), fs'⟩, true) ∧
      new.filename = some filename ∧ new.dos_name = some full_name.short_name ∧
      r.1.MRUProfile.tail = st.MRUProfile.tail ∧
      r.1.MRUProfile.map (fun p => p.«section») = st.MRUProfile.map (fun p => p.«section») ∧
      r.1.MRUProfile.map identity = st.MRUProfile.map identity := by
  have hne : st.MRUProfile ≠ [] := by
    intro e
    rw [e] at hlen
    simp [N_CACHED_PROFILES] at hlen
  obtain ⟨r, last, buffer, fs', cur0, hr, _, _, hopen, _⟩ :=
    Open_miss_shape h filename full_name st hlen hbs hbs'
  obtain ⟨hn1, hn2, _⟩ := Open_assign_names filename full_name buffer fs' cur0
  obtain ⟨mru, fs⟩ := st
  cases mru with
  | nil => exact absurd rfl hne
  | cons cur rest =>
    obtain ⟨cur', hmru, hsec, hfn, hdn, _⟩ := FlushFile_shape h cur rest fs r hr
    refine ⟨r, _, fs', hr, ?_, hn1, hn2, ?_, ?_, ?_⟩
    · rw [Open_of_miss h filename _ full_name hne hfull hmiss]
      exact hopen
    · rw [hmru]; rfl
    · rw [hmru]; simp [hsec]
    · rw [hmru]; simp [identity, hfn, hdn]

theorem flush_all_spec (h : Host) (filename : List Nat) (st st1 : State) (r : State × Bool)
    (hopen : PROFILE_Open h filename st = some (st1, true))
    (hflush : PROFILE_FlushFile h st1 = some r) :
    WritePrivateProfileStringA h none none none filename st =
      some (⟨{ changed := false, «section» := [], dos_name := none, unix_name := none,
               filename := none, mtime := 0 } :: st1.MRUProfile.tail, r.1.fs⟩, false) := by
  have hne := Open_nonempty h filename st _ hopen
  obtain ⟨mru, fs⟩ := st1
  cases mru with
  | nil => exact absurd rfl hne
  | cons cur rest =>
    obtain ⟨cur', hmru, _⟩ := FlushFile_shape h cur rest fs r hflush
    obtain ⟨st2, b⟩ := r
    simp only at hmru
    simp only [WritePrivateProfileStringA, hopen, and_self, if_true, PROFILE_ReleaseFile,
      hflush, hmru, Option.map_some', List.tail_cons]
    rfl

theorem dosNamesOK_spec (l : List PROFILE) (hl : dosNamesOK l = true) :
    ∀ p ∈ l, ∀ d, p.dos_name = some d → 92 ∈ d := by
  intro p hp d hd
  have := List.all_eq_true.1 hl p hp
  rw [hd] at this
  simpa using this

theorem strcmp_eq : ∀ (a b : List Nat), 0 ∉ a → 0 ∉ b → strcmp a b = 0 → a = b := by
  intro a
  induction a with
  | nil =>
    intro b _ hb h
    cases b with
    | nil => rfl
    | cons c b =>
      have hc : c ≠ 0 := fun e => hb (by rw [e]; exact List.mem_cons_self _ _)
      simp only [strcmp, List.headD_cons] at h
      omega
  | cons c a ih =>
    intro b ha hb h
    have hc : c ≠ 0 := fun e => ha (by rw [e]; exact List.mem_cons_self _ _)
    have ha' : 0 ∉ a := fun e => ha (List.mem_cons_of_mem _ e)
    cases b with
    | nil =>
      simp only [strcmp, List.headD_nil, ne_eq, hc, not_false_eq_true, if_true] at h
      omega
    | cons d b =>
      have hb' : 0 ∉ b := fun e => hb (List.mem_cons_of_mem _ e)
      simp only [strcmp, List.headD_cons, List.tail_cons] at h
      by_cases hcd : c = d
      · subst hcd
        rw [if_neg (by simp), if_neg hc] at h
        rw [ih b ha' hb' h]
      · rw [if_pos hcd] at h
        omega

theorem Open_init (h : Host) (filename : List Nat) (fs : FileSystem) :
    PROFILE_Open h filename (State.init fs) =
      PROFILE_Open h filename ⟨List.replicate N_CACHED_PROFILES emptyProfile, fs⟩ := by
  simp [PROFILE_Open, State.init, N_CACHED_PROFILES]

theorem run_append (h : Host) : ∀ (a b : List Call) (st : State),
    run h (a ++ b) st = (run h a st).bind (run h b) := by
  intro a
  induction a with
  | nil => intro b st; rfl
  | cons c a ih =>
    intro b st
    simp only [List.cons_append, run]
    cases exec h c st with
    | none => rfl
    | some st1 => exact ih b st1

theorem run_cons (h : Host) (c : Call) (rest : List Call) (st : State) :
    run h (c :: rest) st = (exec h c st).bind (run h rest) := by
  simp only [run]
  cases exec h c st <;> rfl

theorem edits_run (h : Host) : ∀ (es : List Call), (∀ c ∈ es, isEdit c = true) →
    ∀ (cur : PROFILE) (rest : List PROFILE) (fs : FileSystem),
    ∃ cur2, run h es ⟨cur :: rest, fs⟩ = some ⟨cur2 :: rest, fs⟩ ∧
      cur2.filename = cur.filename ∧ cur2.dos_name = cur.dos_name ∧
      cur2.unix_name = cur.unix_name := by
  intro es
  induction es with
  | nil => intro _ cur rest fs; exact ⟨cur, rfl, rfl, rfl, rfl⟩
  | cons c es ih =>
    intro hes cur rest fs
    have hc := hes c (List.mem_cons_self _ _)
    have hes' : ∀ c ∈ es, isEdit c = true := fun x hx => hes x (List.mem_cons_of_mem _ hx)
    cases c with
    | SetString section_name key_name value create_always =>
      obtain ⟨cur2, hrun, h1, h2, h3⟩ := ih hes'
        (PROFILE_SetString cur section_name key_name value create_always).1 rest fs
      obtain ⟨g1, g2, g3⟩ := SetString_names cur section_name key_name value create_always
      refine ⟨cur2, ?_, h1.trans g1, h2.trans g2, h3.trans g3⟩
      simp only [run, exec]
      exact hrun
    | DeleteAllKeys section_name =>
      obtain ⟨cur2, hrun, h1, h2, h3⟩ := ih hes' (PROFILE_DeleteAllKeys cur section_name) rest fs
      refine ⟨cur2, ?_, h1, h2, h3⟩
      simp only [run, exec]
      exact hrun
    | Open filename => simp [isEdit] at hc
    | FlushFile => simp [isEdit] at hc
    | ReleaseFile => simp [isEdit] at hc

theorem session_run (h : Host) (s : List Nat × List Call) (st : State)
    (full_name : DOS_FULL_NAME) (hlen : st.MRUProfile.length = N_CACHED_PROFILES)
    (hbs : ∀ p ∈ st.MRUProfile, ∀ d, p.dos_name = some d → 92 ∈ d)
    (hfull : PROFILE_Open_full_name h s.1 = some full_name)
    (hbs' : 92 ∈ full_name.short_name) (hedit : ∀ c ∈ s.2, isEdit c = true)
    (hmiss : ∀ p ∈ st.MRUProfile, PROFILE_Open_match s.1 full_name.short_name p = false) :
    ∃ r last st' new, PROFILE_FlushFile h st = some r ∧ r.1.MRUProfile.getLast? = some last ∧
      run h (Call.Open s.1 :: s.2) st = some st' ∧
      st'.MRUProfile = new :: r.1.MRUProfile.take (N_CACHED_PROFILES - 1) ∧
      new.filename = some s.1 ∧ new.dos_name = some full_name.short_name ∧
      (∃ u, new.unix_name = some u) ∧ st'.fs.writable = st.fs.writable ∧
      (last.filename = none → st'.fs = r.1.fs) := by
  have hne : st.MRUProfile ≠ [] := by
    intro e
    rw [e] at hlen
    simp [N_CACHED_PROFILES] at hlen
  have hfind : (st.MRUProfile.take N_CACHED_PROFILES).findIdx?
      (PROFILE_Open_match s.1 full_name.short_name) = none :=
    List.findIdx?_eq_none_iff.2 (fun p hp => hmiss p (List.mem_of_mem_take hp))
  obtain ⟨r, last, buffer, fs', cur0, hr, hlast, _, hopen, hw, hempty, _⟩ :=
    Open_miss_shape h s.1 full_name st hlen hbs hbs'
  obtain ⟨hn1, hn2, _, u, hn4⟩ := Open_assign_names s.1 full_name buffer fs' cur0
  obtain ⟨cur2, hrun, g1, g2, g3⟩ := edits_run h s.2 hedit
    (PROFILE_Open_assign s.1 full_name buffer fs' cur0)
    (r.1.MRUProfile.take (N_CACHED_PROFILES - 1)) fs'
  refine ⟨r, last, ⟨cur2 :: r.1.MRUProfile.take (N_CACHED_PROFILES - 1), fs'⟩, cur2, hr, hlast,
    ?_, rfl, g1.trans hn1, g2.trans hn2, ⟨u, g3.trans hn4⟩, hw, fun e => (hempty e).1⟩
  rw [run_cons]
  simp only [exec, Open_of_miss h s.1 st full_name hne hfull hfind, hopen, Option.map_some',
    Option.some_bind]
  exact hrun

theorem take_append_cons_take {α : Type} (A B : List α) (x : α) (n : Nat) :
    (A ++ x :: B.take (n - 1)).take n = (A ++ x :: B).take n := by
  rw [List.take_append_eq_append_take, List.take_append_eq_append_take]
  congr 1
  cases hk : n - A.length with
  | zero => rfl
  | succ k =>
    rw [List.take_succ_cons, List.take_succ_cons, List.take_take, Nat.min_eq_left (by omega)]

theorem sessions_run (h : Host) : ∀ (ss : List (List Nat × List Call)) (st : State),
    ss ≠ [] → st.MRUProfile.length = N_CACHED_PROFILES →
    (∀ p ∈ st.MRUProfile, ∀ d, p.dos_name = some d → 92 ∈ d) →
    (∀ s ∈ ss, ∃ full_name, PROFILE_Open_full_name h s.1 = some full_name ∧
      92 ∈ full_name.short_name ∧
      ∀ p ∈ st.MRUProfile, PROFILE_Open_match s.1 full_name.short_name p = false) →
    ss.Pairwise (fun a b => ∀ fa fb, PROFILE_Open_full_name h a.1 = some fa →
      PROFILE_Open_full_name h b.1 = some fb →
      strcmp b.1 a.1 ≠ 0 ∧ strcmp fb.short_name fa.short_name ≠ 0) →
    (∀ s ∈ ss, ∀ c ∈ s.2, isEdit c = true) →
    ∃ r st', PROFILE_FlushFile h st = some r ∧ run h (sessionCalls ss) st = some st' ∧
      st'.MRUProfile.length = N_CACHED_PROFILES ∧
      st'.MRUProfile.map (fun p => p.filename) =
        (ss.reverse.map (fun s => some s.1) ++ st.MRUProfile.map (fun p => p.filename)).take
          N_CACHED_PROFILES ∧
      st'.MRUProfile.drop ss.length = r.1.MRUProfile.take (N_CACHED_PROFILES - ss.length) ∧
      st'.fs.writable = st.fs.writable := by
  intro ss
  induction ss with
  | nil => intro st hne; exact absurd rfl hne
  | cons s rest ih =>
    intro st _ hlen hbs hss hpw hedit
    obtain ⟨full_name, hfull, hbs', hmiss⟩ := hss s (List.mem_cons_self _ _)
    obtain ⟨r, last, st1, new, hr, _, hrun1, hmru1, hn1, hn2, _, hw1, _⟩ :=
      session_run h s st full_name hlen hbs hfull hbs' (hedit s (List.mem_cons_self _ _)) hmiss
    obtain ⟨mru, fs⟩ := st
    cases mru with
    | nil => simp [N_CACHED_PROFILES] at hlen
    | cons cur tl =>
      obtain ⟨cur', hmru, _, hfn, hdn, _⟩ := FlushFile_shape h cur tl fs r hr
      have hrlen : r.1.MRUProfile.length = N_CACHED_PROFILES := by
        rw [hmru]; exact hlen
      have hrnames : r.1.MRUProfile.map (fun p => p.filename) =
          (cur :: tl).map (fun p => p.filename) := by
        rw [hmru]; simp [hfn]
      have hlen1 : st1.MRUProfile.length = N_CACHED_PROFILES := by
        rw [hmru1, List.length_cons, List.length_take, hrlen]
        simp [N_CACHED_PROFILES]
      have hnames1 : st1.MRUProfile.map (fun p => p.filename) =
          some s.1 :: ((cur :: tl).map (fun p => p.filename)).take (N_CACHED_PROFILES - 1) := by
        rw [hmru1, List.map_cons, hn1, List.map_take, hrnames]
      have hcalls : sessionCalls (s :: rest) = (Call.Open s.1 :: s.2) ++ sessionCalls rest := by
        simp [sessionCalls]
      by_cases hrest : rest = []
      · subst hrest
        refine ⟨r, st1, hr, ?_, hlen1, ?_, ?_, hw1⟩
        · simp only [sessionCalls, List.append_nil]
          exact hrun1
        · rw [hnames1]
          simp [N_CACHED_PROFILES]
        · rw [hmru1]
          rfl
      · have hbs1 : ∀ p ∈ st1.MRUProfile, ∀ d, p.dos_name = some d → 92 ∈ d := by
          intro p hp d hd
          rw [hmru1] at hp
          rcases List.mem_cons.1 hp with e | e
          · rw [e, hn2] at hd
            cases hd
            exact hbs'
          · have hp' := List.mem_of_mem_take e
            rw [hmru] at hp'
            rcases List.mem_cons.1 hp' with e1 | e1
            · rw [e1, hdn] at hd
              exact hbs cur (List.mem_cons_self _ _) d hd
            · exact hbs p (List.mem_cons_of_mem _ e1) d hd
        have hss1 : ∀ s' ∈ rest, ∃ full', PROFILE_Open_full_name h s'.1 = some full' ∧
            92 ∈ full'.short_name ∧
            ∀ p ∈ st1.MRUProfile, PROFILE_Open_match s'.1 full'.short_name p = false := by
          intro s' hs'
          obtain ⟨full', hfull', hb', hm'⟩ := hss s' (List.mem_cons_of_mem _ hs')
          refine ⟨full', hfull', hb', ?_⟩
          intro p hp
          rw [hmru1] at hp
          rcases List.mem_cons.1 hp with e | e
          · have hd := (List.pairwise_cons.1 hpw).1 s' hs' full_name full' hfull hfull'
            rw [e]
            unfold PROFILE_Open_match
            rw [hn1, hn2]
            simp [hd.1, hd.2]
          · have hp' := List.mem_of_mem_take e
            rw [hmru] at hp'
            rcases List.mem_cons.1 hp' with e1 | e1
            · rw [e1, Open_match_names _ _ cur cur' hfn hdn]
              exact hm' cur (List.mem_cons_self _ _)
            · exact hm' p (List.mem_cons_of_mem _ e1)
        obtain ⟨r1, st', hr1, hrun', hlen', hnames', hdrop', hw'⟩ :=
          ih st1 hrest hlen1 hbs1 hss1 (List.pairwise_cons.1 hpw).2
            (fun x hx => hedit x (List.mem_cons_of_mem _ hx))
        refine ⟨r, st', hr, ?_, hlen', ?_, ?_, hw'.trans hw1⟩
        · rw [hcalls, run_append, hrun1]
          exact hrun'
        · rw [hnames', hnames1, take_append_cons_take]
          simp only [List.reverse_cons, List.map_append, List.map_cons, List.map_nil,
            List.append_assoc, List.singleton_append]
        · obtain ⟨mru1, fs1⟩ := st1
          simp only at hmru1
          subst hmru1
          obtain ⟨new', hmr1, _⟩ := FlushFile_shape h new _ fs1 r1 hr1
          have e1 : st'.MRUProfile.drop (s :: rest).length =
              (st'.MRUProfile.drop rest.length).drop 1 := by
            rw [List.drop_drop, List.length_cons, Nat.add_comm]
          rw [e1, hdrop', hmr1, List.drop_take, List.drop_succ_cons, List.drop_zero,
            List.take_take, List.length_cons]
          congr 1
          simp only [N_CACHED_PROFILES]
          omega

theorem run_init (h : Host) (filename : List Nat) (rest : List Call) (fs : FileSystem) :
    run h (Call.Open filename :: rest) (State.init fs) =
      run h (Call.Open filename :: rest)
        ⟨List.replicate N_CACHED_PROFILES emptyProfile, fs⟩ := by
  rw [run_cons, run_cons]
  simp only [exec, Open_init]

theorem sessionCalls_append : ∀ (a b : List (List Nat × List Call)),
    sessionCalls (a ++ b) = sessionCalls a ++ sessionCalls b := by
  intro a
  induction a with
  | nil => intro b; rfl
  | cons s a ih =>
    intro b
    show Call.Open s.1 :: (s.2 ++ sessionCalls (a ++ b)) =
      Call.Open s.1 :: (s.2 ++ sessionCalls a) ++ sessionCalls b
    rw [ih b]
    simp only [List.cons_append, List.append_assoc]

theorem resolvesOK_spec (h : Host) (filename : List Nat) (hr : resolvesOK h filename = true) :
    ∃ full_name, PROFILE_Open_full_name h filename = some full_name ∧
      92 ∈ full_name.short_name ∧ 0 ∉ full_name.short_name ∧ 0 ∉ filename := by
  unfold resolvesOK at hr
  cases hf : PROFILE_Open_full_name h filename with
  | none => rw [hf] at hr; cases hr
  | some full_name =>
    rw [hf] at hr
    simp only [decide_eq_true_eq] at hr
    exact ⟨full_name, rfl, hr⟩

theorem Open_match_empty (filename short_name : List Nat) :
    PROFILE_Open_match filename short_name emptyProfile = false := rfl

theorem sessions_distinct (h : Host) (ss : List (List Nat × List Call))
    (hok : ∀ s ∈ ss, resolvesOK h s.1 = true)
    (hnames : (ss.map (fun s => s.1)).Nodup)
    (hshort : (ss.map (fun s =>
      (PROFILE_Open_full_name h s.1).map (fun f => f.short_name))).Nodup) :
    ss.Pairwise (fun a b => ∀ fa fb, PROFILE_Open_full_name h a.1 = some fa →
      PROFILE_Open_full_name h b.1 = some fb →
      strcmp b.1 a.1 ≠ 0 ∧ strcmp fb.short_name fa.short_name ≠ 0) := by
  have h1 := List.pairwise_map.1 hnames
  have h2 := List.pairwise_map.1 hshort
  refine (h1.and h2).imp_of_mem ?_
  intro a b ha hb hab fa fb hfa hfb
  obtain ⟨fa', hfa', _, ha0, han⟩ := resolvesOK_spec h a.1 (hok a ha)
  obtain ⟨fb', hfb', _, hb0, hbn⟩ := resolvesOK_spec h b.1 (hok b hb)
  rw [hfa] at hfa'
  rw [hfb] at hfb'
  cases hfa'
  cases hfb'
  constructor
  · intro e
    exact hab.1 (strcmp_eq _ _ hbn han e).symm
  · intro e
    apply hab.2
    rw [hfa, hfb]
    simp only [Option.map_some']
    rw [strcmp_eq _ _ hb0 ha0 e]

theorem run_single (h : Host) (c : Call) (st : State) : run h [c] st = exec h c st := by
  rw [run_cons]
  cases exec h c st <;> rfl

theorem getLast?_of_drop {α : Type} (l : List α) (k : Nat) (x : α) (hd : l.drop k = [x]) :
    l.getLast? = some x := by
  rw [← List.take_append_drop k l, hd, List.getLast?_append_of_ne_nil _ (by simp)]
  rfl

theorem cache_capacity_run (h : Host) (fs : FileSystem) (first second last : List Nat × List Call)
    (middle : List (List Nat × List Call))
    (hlen : middle.length + 3 = N_CACHED_PROFILES + 1)
    (hok : ∀ s ∈ first :: second :: (middle ++ [last]),
      resolvesOK h s.1 = true ∧ ∀ c ∈ s.2, isEdit c = true)
    (hnames : ((first :: second :: (middle ++ [last])).map (fun s => s.1)).Nodup)
    (hshort : ((first :: second :: (middle ++ [last])).map (fun s =>
      (PROFILE_Open_full_name h s.1).map (fun f => f.short_name))).Nodup)
    (hw : ∀ p, fs.writable p = true) :
    ∃ s1 s2 st_pre st d1 d1',
      run h (Call.Open first.1 :: first.2) (State.init fs) = some s1 ∧
      s1.MRUProfile.head? = some d1 ∧ d1.filename = some first.1 ∧
      exec h (Call.Open second.1) s1 = some s2 ∧
      (d1.changed = true → ∃ u, d1.unix_name = some u ∧
        s2.fs.content u = some (PROFILE_Save d1.«section»)) ∧
      run h (sessionCalls (first :: second :: middle)) (State.init fs) = some st_pre ∧
      st_pre.MRUProfile.getLast? = some d1' ∧ d1'.filename = some first.1 ∧
      d1'.«section» = d1.«section» ∧ d1'.changed = false ∧
      run h (Call.Open last.1 :: last.2) st_pre = some st ∧
      run h (sessionCalls (first :: second :: (middle ++ [last]))) (State.init fs) = some st ∧
      st.MRUProfile.map (fun p => p.filename) =
        (last :: (second :: middle).reverse).map (fun s => some s.1) ∧
      ∀ p ∈ st.MRUProfile, p.filename ≠ some first.1 := by
  have hpw := sessions_distinct h _ (fun s hs => (hok s hs).1) hnames hshort
  have hedit : ∀ s ∈ first :: second :: (middle ++ [last]), ∀ c ∈ s.2, isEdit c = true :=
    fun s hs => (hok s hs).2
  have hres : ∀ s ∈ first :: second :: (middle ++ [last]), ∃ full_name,
      PROFILE_Open_full_name h s.1 = some full_name ∧ 92 ∈ full_name.short_name := by
    intro s hs
    obtain ⟨f, hf, hb, _⟩ := resolvesOK_spec h s.1 (hok s hs).1
    exact ⟨f, hf, hb⟩
  have hmem0 : ∀ p ∈ List.replicate N_CACHED_PROFILES emptyProfile, p = emptyProfile :=
    fun p hp => (List.mem_replicate.1 hp).2
  have hlen0 : (List.replicate N_CACHED_PROFILES emptyProfile).length = N_CACHED_PROFILES :=
    List.length_replicate _ _
  have hbs0 : ∀ p ∈ List.replicate N_CACHED_PROFILES emptyProfile, ∀ d,
      p.dos_name = some d → 92 ∈ d := by
    intro p hp d hd
    rw [hmem0 p hp] at hd
    cases hd
  have hss0 : ∀ s ∈ first :: second :: (middle ++ [last]), ∃ full_name,
      PROFILE_Open_full_name h s.1 = some full_name ∧ 92 ∈ full_name.short_name ∧
      ∀ p ∈ (⟨List.replicate N_CACHED_PROFILES emptyProfile, fs⟩ : State).MRUProfile,
        PROFILE_Open_match s.1 full_name.short_name p = false := by
    intro s hs
    obtain ⟨f, hf, hb⟩ := hres s hs
    refine ⟨f, hf, hb, ?_⟩
    intro p hp
    rw [hmem0 p hp]
    rfl
  -- the whole run
  obtain ⟨_, st, _, hrun, _, hnamesSt, _, _⟩ := sessions_run h
    (first :: second :: (middle ++ [last])) ⟨List.replicate N_CACHED_PROFILES emptyProfile, fs⟩
    (by simp) hlen0 hbs0 hss0 hpw hedit
  -- the first session
  obtain ⟨full1, hfull1, hb1, hmiss1⟩ := hss0 first (List.mem_cons_self _ _)
  obtain ⟨r0, _, s1, d1, hr0, _, hrun1, hmru1, hd1f, hd1d, ⟨u, hd1u⟩, hw1, _⟩ :=
    session_run h first ⟨List.replicate N_CACHED_PROFILES emptyProfile, fs⟩ full1 hlen0 hbs0
      hfull1 hb1 (hedit first (List.mem_cons_self _ _)) hmiss1
  have hr0' : r0 = (⟨List.replicate N_CACHED_PROFILES emptyProfile, fs⟩, true) := by
    have := FlushFile_clean h emptyProfile (List.replicate 9 emptyProfile) fs (Or.inl rfl)
    have e : (⟨emptyProfile :: List.replicate 9 emptyProfile, fs⟩ : State) =
        ⟨List.replicate N_CACHED_PROFILES emptyProfile, fs⟩ := rfl
    rw [e] at this
    rw [this] at hr0
    cases hr0
    rfl
  subst hr0'
  have hmru1' : s1.MRUProfile = d1 :: List.replicate 9 emptyProfile := by
    rw [hmru1]
    rfl
  have hw1' : ∀ p, s1.fs.writable p = true := by
    intro p
    rw [hw1]
    exact hw p
  have hlen1 : s1.MRUProfile.length = N_CACHED_PROFILES := by
    rw [hmru1']
    rfl
  have hbs1 : ∀ p ∈ s1.MRUProfile, ∀ d, p.dos_name = some d → 92 ∈ d := by
    intro p hp d hd
    rw [hmru1'] at hp
    rcases List.mem_cons.1 hp with e | e
    · rw [e, hd1d] at hd
      cases hd
      exact hb1
    · rw [(List.mem_replicate.1 e).2] at hd
      cases hd
  have hss1 : ∀ s ∈ second :: (middle ++ [last]), ∃ full_name,
      PROFILE_Open_full_name h s.1 = some full_name ∧ 92 ∈ full_name.short_name ∧
      ∀ p ∈ s1.MRUProfile, PROFILE_Open_match s.1 full_name.short_name p = false := by
    intro s hs
    obtain ⟨f, hf, hb⟩ := hres s (List.mem_cons_of_mem _ hs)
    refine ⟨f, hf, hb, ?_⟩
    intro p hp
    rw [hmru1'] at hp
    rcases List.mem_cons.1 hp with e | e
    · have hd := (List.pairwise_cons.1 hpw).1 s hs full1 f hfull1 hf
      rw [e]
      unfold PROFILE_Open_match
      rw [hd1f, hd1d]
      simp [hd.1, hd.2]
    · rw [(List.mem_replicate.1 e).2]
      rfl
  -- the next open
  obtain ⟨full2, hfull2, hb2, hmiss2⟩ := hss1 second (List.mem_cons_self _ _)
  obtain ⟨r1, last1, s2, _, hr1, hlast1, hrun2, _, _, _, _, _, hfs2⟩ :=
    session_run h (second.1, []) s1 full2 hlen1 hbs1 hfull2 hb2
      (fun c hc => by simp at hc) hmiss2
  obtain ⟨mru1, fs1⟩ := s1
  simp only at hmru1' hw1' hlen1 hbs1 hss1 hmiss2 hr1 hrun2 hrun1
  subst hmru1'
  obtain ⟨d1', hmr1, hsec1, hfn1, _, _, _, hclean1⟩ :=
    FlushFile_shape h d1 (List.replicate 9 emptyProfile) fs1 r1 hr1
  have hlast1' : last1.filename = none := by
    rw [hmr1] at hlast1
    have : (d1' :: List.replicate 9 emptyProfile).getLast? = some emptyProfile := rfl
    rw [this] at hlast1
    cases hlast1
    rfl
  have hfs2' := hfs2 hlast1'
  have hchanged : d1'.changed = false ∧ (d1.changed = true →
      r1.1.fs.content u = some (PROFILE_Save d1.«section»)) := by
    cases hch : d1.changed with
    | false =>
      refine ⟨?_, fun e => by cases e⟩
      rw [(hclean1 hch).1]
      exact hch
    | true =>
      have hwr := FlushFile_write h d1 (List.replicate 9 emptyProfile) fs1 full1.short_name u
        hch hd1d (Or.inl ⟨hd1u, hw1' u⟩)
      rw [hwr] at hr1
      cases hr1
      simp only at hmr1
      cases hmr1
      exact ⟨rfl, fun _ => by simp [FileSystem.store]⟩
  -- the sessions up to the last open
  obtain ⟨r1', st_pre, hr1', hrunp, hlenp, _, hdropp, _⟩ := sessions_run h (second :: middle)
    ⟨d1 :: List.replicate 9 emptyProfile, fs1⟩ (by simp) hlen1 hbs1
    (fun s hs => hss1 s (by
      rcases List.mem_cons.1 hs with e | e
      · rw [e]; exact List.mem_cons_self _ _
      · exact List.mem_cons_of_mem _ (List.mem_append_left _ e)))
    ((List.pairwise_cons.1 hpw).2.sublist
      ((List.sublist_append_left middle [last]).cons₂ second))
    (fun s hs => hedit s (by
      rcases List.mem_cons.1 hs with e | e
      · rw [e]; exact List.mem_cons_of_mem _ (List.mem_cons_self _ _)
      · exact List.mem_cons_of_mem _ (List.mem_cons_of_mem _ (List.mem_append_left _ e))))
  rw [hr1] at hr1'
  cases hr1'
  have hk : (second :: middle).length = N_CACHED_PROFILES - 1 := by
    simp only [List.length_cons, N_CACHED_PROFILES] at hlen ⊢
    omega
  have hlastp : st_pre.MRUProfile.getLast? = some d1' := by
    apply getLast?_of_drop _ (second :: middle).length
    rw [hdropp, hk, hmr1]
    rfl
  have hrunp' : run h (sessionCalls (first :: second :: middle)) (State.init fs) =
      some st_pre := by
    have e : sessionCalls (first :: second :: middle) =
        (Call.Open first.1 :: first.2) ++ sessionCalls (second :: middle) := by
      simp [sessionCalls]
    rw [e, run_append, run_init, hrun1]
    exact hrunp
  have hrunAll : run h (sessionCalls (first :: second :: (middle ++ [last])))
      (State.init fs) = some st := by
    show run h (Call.Open first.1 :: _) (State.init fs) = some st
    rw [run_init]
    exact hrun
  have hrunLast : run h (Call.Open last.1 :: last.2) st_pre = some st := by
    have e : first :: second :: (middle ++ [last]) = (first :: second :: middle) ++ [last] := by
      simp
    rw [e, sessionCalls_append, run_append, hrunp'] at hrunAll
    simpa [sessionCalls] using hrunAll
  have hnamesSt' : st.MRUProfile.map (fun p => p.filename) =
      (last :: (second :: middle).reverse).map (fun s => some s.1) := by
    rw [hnamesSt]
    have e : (first :: second :: (middle ++ [last])).reverse =
        (last :: (second :: middle).reverse) ++ [first] := by
      simp
    rw [e, List.map_append, List.append_assoc, List.take_append_eq_append_take,
      List.take_of_length_le (by
        simp only [List.length_map, List.length_cons, List.length_reverse, N_CACHED_PROFILES]
          at hlen ⊢
        omega)]
    have hz : N_CACHED_PROFILES -
        (List.map (fun s : List Nat × List Call => some s.1)
          (last :: (second :: middle).reverse)).length = 0 := by
      simp only [List.length_map, List.length_cons, List.length_reverse, N_CACHED_PROFILES]
        at hlen ⊢
      omega
    rw [hz, List.take_zero, List.append_nil]
  refine ⟨⟨d1 :: List.replicate 9 emptyProfile, fs1⟩, s2, st_pre, st, d1, d1', ?_, rfl, hd1f,
    ?_, ?_, hrunp', hlastp, hfn1.trans hd1f, hsec1, hchanged.1, hrunLast, hrunAll, hnamesSt',
    ?_⟩
  · rw [run_init]
    exact hrun1
  · rw [← run_single]
    simpa using hrun2
  · intro hch
    refine ⟨u, hd1u, ?_⟩
    rw [hfs2']
    exact hchanged.2 hch
  · intro p hp e
    have hmem : p.filename ∈ st.MRUProfile.map (fun p => p.filename) :=
      List.mem_map_of_mem _ hp
    rw [hnamesSt', e] at hmem
    obtain ⟨s, hs, hs1⟩ := List.mem_map.1 hmem
    simp only [Option.some.injEq] at hs1
    have hnd := (List.nodup_cons.1 hnames).1
    apply hnd
    show first.1 ∈ List.map (fun s => s.1) (second :: (middle ++ [last]))
    rw [← hs1]
    apply List.mem_map_of_mem (fun s : List Nat × List Call => s.1)
    rcases List.mem_cons.1 hs with e1 | e1
    · rw [e1]
      exact List.mem_cons_of_mem _ (List.mem_append_right _ (List.mem_singleton_self _))
    · have := List.mem_reverse.1 e1
      rcases List.mem_cons.1 this with e2 | e2
      · rw [e2]; exact List.mem_cons_self _ _
      · exact List.mem_cons_of_mem _ (List.mem_append_left _ e2)

theorem resident_names (p p' : PROFILE) (hf : p'.filename = p.filename)
    (hd : p'.dos_name = p.dos_name) : resident p' = resident p := by
  unfold resident
  rw [hf, hd]

theorem residentFirst_head (cur cur' : PROFILE) (rest : List PROFILE)
    (hf : cur'.filename = cur.filename) (hd : cur'.dos_name = cur.dos_name)
    (hp : residentFirst (cur :: rest)) : residentFirst (cur' :: rest) := by
  unfold residentFirst at hp ⊢
  rw [List.pairwise_cons] at hp ⊢
  refine ⟨fun q hq hr => ?_, hp.2⟩
  rw [resident_names cur cur' hf hd]
  exact hp.1 q hq hr

theorem residentFirst_cons (new : PROFILE) (rest : List PROFILE) (hn : resident new = true)
    (hp : residentFirst rest) : residentFirst (new :: rest) := by
  unfold residentFirst at hp ⊢
  rw [List.pairwise_cons]
  exact ⟨fun _ _ _ => hn, hp⟩

theorem promote_tail_sublist (l : List PROFILE) (i : Nat) : (promote l i).tail.Sublist l := by
  by_cases hi : i < l.length
  · rw [promote_of_lt l i hi, List.tail_cons]
    have h1 : l = l.take i ++ l.get ⟨i, hi⟩ :: l.drop (i + 1) := by
      conv_lhs => rw [← List.take_append_drop i l]
      congr 1
      exact List.drop_eq_getElem_cons hi
    conv_rhs => rw [h1]
    exact (List.Sublist.refl _).append (List.sublist_cons_self _ _)
  · unfold promote
    rw [List.get?_eq_none.2 (by omega)]
    exact List.tail_sublist l

theorem resident_of_match (filename short_name : List Nat) (p : PROFILE)
    (hm : PROFILE_Open_match filename short_name p = true) : resident p = true := by
  unfold PROFILE_Open_match at hm
  unfold resident
  cases hf : p.filename with
  | some n => rfl
  | none =>
    cases hd : p.dos_name with
    | some n => rfl
    | none => rw [hf, hd] at hm; simp at hm

theorem residentFirst_promote (l : List PROFILE) (i : Nat) (p : PROFILE)
    (hi : l[i]? = some p) (hr : resident p = true) (hp : residentFirst l) :
    residentFirst (promote l i) := by
  obtain ⟨hlt, hpi⟩ := List.getElem?_eq_some_iff.1 hi
  have hsub := promote_tail_sublist l i
  rw [promote_of_lt l i hlt] at hsub ⊢
  have : l.get ⟨i, hlt⟩ = p := hpi
  rw [this]
  exact residentFirst_cons p _ hr (List.Pairwise.sublist hsub hp)

theorem Open_residentFirst (h : Host) (filename : List Nat) (st : State) (res : State × Bool)
    (hres : PROFILE_Open h filename st = some res) (hp : residentFirst st.MRUProfile) :
    residentFirst res.1.MRUProfile := by
  unfold PROFILE_Open at hres
  have hst' : residentFirst (if st.MRUProfile = [] then
      ({ st with MRUProfile := List.replicate N_CACHED_PROFILES emptyProfile } : State)
      else st).MRUProfile := by
    split
    · exact List.pairwise_replicate.2 (Or.inr (fun e => e))
    · exact hp
  generalize (if st.MRUProfile = [] then
      ({ st with MRUProfile := List.replicate N_CACHED_PROFILES emptyProfile } : State)
      else st) = st' at hres hst'
  obtain ⟨mru, fs⟩ := st'
  simp only at hres hst'
  split at hres
  · cases hres; exact hst'
  · rename_i full_name _
    split at hres
    · rename_i i hhit
      split at hres
      · split at hres
        · cases hres
        · rename_i st1 b hf
          cases hres
          obtain ⟨hlt, hm, _⟩ := List.findIdx?_eq_some_iff_getElem.1 hhit
          rw [List.length_take] at hlt
          cases mru with
          | nil => simp at hlt
          | cons cur rest =>
            obtain ⟨cur', hmru, _, hfn, hdn, _⟩ := FlushFile_shape h cur rest fs _ hf
            simp only at hmru ⊢
            rw [hmru]
            have hp1 : residentFirst (cur' :: rest) := residentFirst_head cur cur' rest hfn hdn hst'
            have hlt' : i < (cur' :: rest).length := by
              simp only [List.length_cons] at hlt ⊢
              omega
            refine residentFirst_promote _ i ((cur' :: rest)[i]) (List.getElem?_eq_getElem hlt')
              ?_ hp1
            have hm' := resident_of_match _ _ _ hm
            rw [List.getElem_take] at hm'
            cases i with
            | zero =>
              simp only [List.getElem_cons_zero] at hm' ⊢
              rw [resident_names cur cur' hfn hdn]
              exact hm'
            | succ k =>
              simp only [List.getElem_cons_succ] at hm' ⊢
              exact hm'
      · cases hres; exact hst'
    · cases mru with
      | nil =>
        obtain ⟨r, cur0, buffer, fs', hf, e⟩ :=
          Open_miss_result h filename full_name ⟨[], fs⟩ res hres
        rw [FlushFile_nil] at hf
        cases hf
        rw [e]
        exact List.pairwise_singleton _ _
      | cons cur rest =>
        obtain ⟨r, cur0, buffer, fs', hf, e⟩ :=
          Open_miss_result h filename full_name ⟨cur :: rest, fs⟩ res hres
        obtain ⟨cur', hmru, _, hfn, hdn, _⟩ := FlushFile_shape h cur rest fs r hf
        rw [e]
        simp only
        rw [hmru]
        obtain ⟨hn1, _⟩ := Open_assign_names filename full_name buffer fs' cur0
        refine residentFirst_cons _ _ (by unfold resident; rw [hn1]; rfl) ?_
        exact List.Pairwise.sublist (promote_tail_sublist _ _)
          (residentFirst_head cur cur' rest hfn hdn hst')

theorem exec_residentFirst (h : Host) (c : Call) (st st' : State) (hc : isRelease c = false)
    (hex : exec h c st = some st') (hp : residentFirst st.MRUProfile) :
    residentFirst st'.MRUProfile := by
  cases c with
  | Open filename =>
    simp only [exec, Option.map_eq_some'] at hex
    obtain ⟨res, hres, e⟩ := hex
    rw [← e]
    exact Open_residentFirst h filename st res hres hp
  | SetString section_name key_name value create_always =>
    obtain ⟨mru, fs⟩ := st
    cases mru with
    | nil => simp [exec] at hex
    | cons cur rest =>
      simp only [exec, Option.some.injEq] at hex
      rw [← hex]
      obtain ⟨hf, hd, _⟩ := SetString_names cur section_name key_name value create_always
      exact residentFirst_head cur _ rest hf hd hp
  | DeleteAllKeys section_name =>
    obtain ⟨mru, fs⟩ := st
    cases mru with
    | nil => simp [exec] at hex
    | cons cur rest =>
      simp only [exec, Option.some.injEq] at hex
      rw [← hex]
      exact residentFirst_head cur _ rest rfl rfl hp
  | FlushFile =>
    simp only [exec, Option.map_eq_some'] at hex
    obtain ⟨res, hres, e⟩ := hex
    obtain ⟨mru, fs⟩ := st
    cases mru with
    | nil =>
      rw [FlushFile_nil] at hres
      cases hres
      rw [← e]
      exact hp
    | cons cur rest =>
      obtain ⟨cur', hmru, _, hf, hd, _⟩ := FlushFile_shape h cur rest fs res hres
      rw [← e, hmru]
      exact residentFirst_head cur cur' rest hf hd hp
  | ReleaseFile => simp [isRelease] at hc

theorem run_residentFirst (h : Host) : ∀ (calls : List Call) (st st' : State),
    (∀ c ∈ calls, isRelease c = false) → run h calls st = some st' →
    residentFirst st.MRUProfile → residentFirst st'.MRUProfile := by
  intro calls
  induction calls with
  | nil =>
    intro st st' _ hr hp
    simp only [run, Option.some.injEq] at hr
    rw [← hr]
    exact hp
  | cons c rest ih =>
    intro st st' hc hr hp
    simp only [run] at hr
    cases hex : exec h c st with
    | none => rw [hex] at hr; cases hr
    | some st1 =>
      rw [hex] at hr
      exact ih st1 st' (fun x hx => hc x (List.mem_cons_of_mem _ hx)) hr
        (exec_residentFirst h c st st1 (hc c (List.mem_cons_self _ _)) hex hp)

theorem residentFirst_last (l : List PROFILE) (last : PROFILE) (hp : residentFirst l)
    (hl : l.getLast? = some last) (hr : resident last = true) : ∀ p ∈ l, resident p = true := by
  obtain ⟨ys, rfl⟩ := List.getLast?_eq_some_iff.1 hl
  intro p hm
  rcases List.mem_append.1 hm with e | e
  · exact (List.pairwise_append.1 hp).2.2 p e last (List.mem_singleton_self _) hr
  · rw [List.mem_singleton.1 e]
    exact hr

/-! ### PROFILE_CopyEntry: lemmas -/

theorem cstr_append_zero (t rest : List Nat) (h : 0 ∉ t) : cstr (t ++ 0 :: rest) = t := by
  unfold cstr
  induction t with
  | nil => simp
  | cons a t ih =>
    have ha : a ≠ 0 := fun e => h (by rw [e]; exact List.mem_cons_self _ _)
    have ht : 0 ∉ t := fun e => h (List.mem_cons_of_mem _ e)
    simpa [List.takeWhile_cons, ha] using ih ht

theorem quote_iff (raw : List Nat) (h0 : 0 ∉ raw) :
    (PROFILE_CopyEntry_quote raw).1 ≠ 0 ↔ isQuoteWrapped raw = true := by
  cases raw with
  | nil => simp [PROFILE_CopyEntry_quote, isQuoteWrapped]
  | cons a t =>
    cases t with
    | nil => simp [PROFILE_CopyEntry_quote, isQuoteWrapped]
    | cons b t =>
      have hb : b ≠ 0 := fun e => h0 (by rw [e]; simp)
      have hlast : (a :: b :: t).getD ((a :: b :: t).length - 1) 0 =
          ((a :: b :: t).getLast?).getD 0 := by
        rw [List.getLast?_eq_getElem?, List.getD_eq_getElem?_getD]
      have hsome : ∃ c, (a :: b :: t).getLast? = some c := by
        cases hl : (a :: b :: t).getLast? with
        | none => simp at hl
        | some c => exact ⟨c, rfl⟩
      obtain ⟨c, hc⟩ := hsome
      unfold PROFILE_CopyEntry_quote isQuoteWrapped
      rw [hlast, hc]
      simp only [List.headD_cons, List.getD_cons_succ, List.getD_cons_zero, Option.getD_some,
        List.length_cons, List.head?_cons]
      by_cases hq : a = 39 ∨ a = 34
      · by_cases hca : c = a
        · rw [if_pos ⟨hq, hb, hca⟩]
          rcases hq with e | e <;> simp [e, hca]
        · rw [if_neg (fun h => hca h.2.2)]
          simp [hca]
      · rw [if_neg (fun h => hq h.1)]
        simp only [ne_eq, not_true_eq_false, false_iff]
        intro h
        simp only [Bool.and_eq_true, Bool.or_eq_true, beq_iff_eq, Option.some.injEq] at h
        exact hq h.1.2

theorem stripQuotes_eq_unquote (raw : List Nat) (h0 : 0 ∉ raw) :
    stripQuotes raw = unquote raw := by
  unfold stripQuotes unquote
  by_cases hq : (PROFILE_CopyEntry_quote raw).1 ≠ 0
  · rw [if_pos ((quote_iff raw h0).1 hq), if_pos hq, (quote_tail raw hq).1]
  · rw [if_neg (fun h => hq ((quote_iff raw h0).2 h)), if_neg hq]

/-- The text `PROFILE_CopyEntry` leaves in the buffer without environment
handling: the first `len - 1` characters of the value past its opening quote,
less the last of them when the value is quoted and `len >= strlen(value)`. -/
theorem CopyEntry_noenv_text (getenv : List Nat → Option (List Nat)) (buffer raw : List Nat)
    (len : Nat) (h0 : 0 ∉ raw) (hlen : 1 ≤ len) :
    cstr (PROFILE_CopyEntry getenv buffer raw len false) =
      if (PROFILE_CopyEntry_quote raw).1 ≠ 0 ∧ len ≥ raw.tail.length ∧ 2 ≤ len then
        (raw.tail.take (len - 1)).dropLast
      else (PROFILE_CopyEntry_quote raw).2.take (len - 1) := by
  by_cases hq : (PROFILE_CopyEntry_quote raw).1 = 0
  · rw [if_neg (fun h => h.1 hq)]
    simp only [PROFILE_CopyEntry, hq, quote_none raw hq, Bool.not_false, if_true]
    rw [if_neg (by simp), lstrcpynA_eq _ _ _ hlen]
    exact cstr_append_zero _ _ (not_mem_take raw _ h0)
  · obtain ⟨htl, hne⟩ := quote_tail raw hq
    have hv : 0 ∉ raw.tail := fun e => h0 (List.mem_of_mem_tail e)
    have hpos : raw.tail.length ≥ 1 := List.length_pos.2 hne
    have hb0 : lstrcpynA buffer raw.tail len =
        raw.tail.take (len - 1) ++ 0 :: buffer.drop ((raw.tail.take (len - 1)).length + 1) :=
      lstrcpynA_eq _ _ _ hlen
    have hs0 : strlen (lstrcpynA buffer raw.tail len) = (raw.tail.take (len - 1)).length := by
      rw [hb0]; exact strlen_append_zero _ _ (not_mem_take _ _ hv)
    simp only [PROFILE_CopyEntry, htl, Bool.not_false, if_true, hs0]
    by_cases hc : len ≥ raw.tail.length ∧ 2 ≤ len
    · have hc2 : (raw.tail.take (len - 1)).length ≠ 0 := by
        rw [List.length_take]; omega
      rw [if_pos ⟨hq, hc.1, hc2⟩, if_pos ⟨hq, hc.1, hc.2⟩, hb0]
      have hne2 : raw.tail.take (len - 1) ≠ [] := fun e => hc2 (by rw [e]; rfl)
      obtain ⟨t, c, htc⟩ := (List.eq_nil_or_concat (raw.tail.take (len - 1))).resolve_left hne2
      rw [List.concat_eq_append] at htc
      have ht0 : 0 ∉ t := fun e =>
        not_mem_take raw.tail (len - 1) hv (by rw [htc]; exact List.mem_append_left _ e)
      rw [htc]
      simp only [poke, List.length_append, List.length_singleton, Nat.add_sub_cancel,
        List.dropLast_concat]
      rw [List.append_assoc, List.set_append_right _ _ (Nat.le_refl _)]
      simp only [Nat.sub_self, List.singleton_append, List.set_cons_zero]
      exact cstr_append_zero _ _ ht0
    · have hc3 : ¬ (len ≥ raw.tail.length ∧ (raw.tail.take (len - 1)).length ≠ 0) := by
        rw [List.length_take]
        intro h
        apply hc
        refine ⟨h.1, ?_⟩
        omega
      rw [if_neg (fun h => hc3 ⟨h.2.1, h.2.2⟩), if_neg (fun h => hc ⟨h.2.1, h.2.2⟩), hb0]
      exact cstr_append_zero _ _ (not_mem_take _ _ hv)

/-- Without environment handling the copy is the longest prefix of the
stripped value that fits, except for a quoted value whose content has exactly
`len - 1` characters. -/
theorem CopyEntry_prefix (getenv : List Nat → Option (List Nat)) (buffer raw : List Nat)
    (len : Nat) (h0 : 0 ∉ raw) (hlen : 1 ≤ len)
    (hx : ¬ (isQuoteWrapped raw = true ∧ len = (stripQuotes raw).length + 1)) :
    cstr (PROFILE_CopyEntry getenv buffer raw len false) = (stripQuotes raw).take (len - 1) := by
  rw [CopyEntry_noenv_text getenv buffer raw len h0 hlen]
  by_cases hq : (PROFILE_CopyEntry_quote raw).1 = 0
  · have hw : ¬ isQuoteWrapped raw = true := fun h => (quote_iff raw h0).2 h hq
    rw [if_neg (fun h => h.1 hq), quote_none raw hq, stripQuotes, if_neg hw]
  · obtain ⟨htl, hne⟩ := quote_tail raw hq
    have hw : isQuoteWrapped raw = true := (quote_iff raw h0).1 hq
    have hpos : raw.tail.length ≥ 1 := List.length_pos.2 hne
    have hs : stripQuotes raw = raw.tail.dropLast := by rw [stripQuotes, if_pos hw]
    rw [hs, List.length_dropLast] at hx
    rw [hs, htl]
    have hd : raw.tail.dropLast = raw.tail.take (raw.tail.length - 1) :=
      List.dropLast_eq_take _
    by_cases hc : len ≥ raw.tail.length ∧ 2 ≤ len
    · have hgt : raw.tail.length + 1 ≤ len := by
        rcases Nat.lt_or_ge raw.tail.length len with h | h
        · omega
        · exfalso; exact hx ⟨hw, by omega⟩
      rw [if_pos ⟨hq, hc.1, hc.2⟩, List.take_of_length_le (by omega),
        List.take_of_length_le (by rw [List.length_dropLast]; omega)]
    · rw [if_neg (fun h => hc ⟨h.2.1, h.2.2⟩), hd, List.take_take]
      congr 1
      have : ¬ (len ≥ raw.tail.length) := fun h => hc ⟨h, by
        rcases Nat.lt_or_ge len 2 with h2 | h2
        · exfalso; exact hx ⟨hw, by omega⟩
        · exact h2⟩
      omega

/-- The loop of `PROFILE_CopyEntry` copies a run of characters that holds
neither a NUL nor a `$`, one for each unit of fuel. -/
theorem CopyEntry_loop_copy (getenv : List Nat → Option (List Nat)) (rest : List Nat) (f : Nat) :
    ∀ (s : List Nat) (len : Nat) (done buffer : List Nat),
      (∀ c ∈ s, c ≠ 0 ∧ c ≠ 36) → s.length < len →
      PROFILE_CopyEntry_loop getenv (s.length + f) (s ++ rest) len done buffer =
        PROFILE_CopyEntry_loop getenv f rest (len - s.length) (done ++ s)
          (buffer.drop s.length) := by
  intro s
  induction s with
  | nil => intro len done buffer _ _; simp
  | cons c s ih =>
    intro len done buffer hs hlen
    have hc := hs c (List.mem_cons_self _ _)
    simp only [List.length_cons] at hlen
    have e : (c :: s).length + f = (s.length + f) + 1 := by
      simp only [List.length_cons]; omega
    have h0 : c ≠ 0 := hc.1
    have h36 : c ≠ 36 := hc.2
    have hl1 : 1 < len := by omega
    rw [e, List.cons_append, PROFILE_CopyEntry_loop]
    simp only [List.headD_cons, ne_eq, h0, not_false_eq_true, gt_iff_lt, hl1, and_self, if_true,
      h36, false_and, if_false, List.tail_cons, reduceCtorEq]
    rw [ih (len - 1) (done ++ [c]) buffer.tail
      (fun x hx => hs x (List.mem_cons_of_mem _ hx)) (by omega)]
    congr 1
    · simp only [List.length_cons]; omega
    · simp
    · simp

theorem CopyEntry_loop_nil (getenv : List Nat → Option (List Nat)) (f len : Nat)
    (done buffer : List Nat) :
    PROFILE_CopyEntry_loop getenv f [] len done buffer = (done, buffer, len, false) := by
  cases f with
  | zero => rfl
  | succ f => simp [PROFILE_CopyEntry_loop]

theorem strchr_reference (name post : List Nat) (hname : 125 ∉ name) :
    strchr (36 :: 123 :: (name ++ 125 :: post)) 125 = some (name.length + 2) := by
  unfold strchr
  rw [if_pos (by simp)]
  congr 1
  rw [List.indexOf_cons_ne _ (by decide), List.indexOf_cons_ne _ (by decide)]
  have : List.indexOf 125 (name ++ 125 :: post) = name.length := by
    rw [List.indexOf_append_of_not_mem hname]
    simp
  rw [this]

theorem take_name (name rest : List Nat) :
    (List.drop 2 (36 :: 123 :: (name ++ rest))).take
      (min 1024 (name.length + 2 - 1) - 1) = name.take 1023 := by
  simp only [List.drop_succ_cons, List.drop_zero]
  rw [List.take_append_eq_append_take]
  have h1 : min 1024 (name.length + 2 - 1) - 1 - name.length = 0 := by omega
  rw [h1, List.take_zero, List.append_nil]
  by_cases h : name.length ≤ 1023
  · have h2 : name.length ≤ min 1024 (name.length + 2 - 1) - 1 := by omega
    rw [List.take_of_length_le h2, List.take_of_length_le h]
  · congr 1; omega

theorem drop_reference (name rest : List Nat) :
    List.drop (name.length + 2 + 1) (36 :: 123 :: (name ++ 125 :: rest)) = rest := by
  simp only [List.drop_succ_cons]
  rw [List.drop_append]
  rfl

/-- The loop of `PROFILE_CopyEntry` at a reference `${name}` that is followed by a character:
the value of the variable named by the first 1023 characters of `name` is
copied when it is set, the reference is skipped either way, and the
character after it is copied without any test. -/
theorem CopyEntry_loop_reference (getenv : List Nat → Option (List Nat))
    (name post done buffer : List Nat) (c f len : Nat) (hname : 125 ∉ name)
    (hw0 : 0 ∉ (getenv (name.take 1023)).getD [])
    (hlen : ((getenv (name.take 1023)).getD []).length + 1 < len) :
    PROFILE_CopyEntry_loop getenv (f + 1) (36 :: 123 :: (name ++ 125 :: c :: post)) len done
        buffer =
      PROFILE_CopyEntry_loop getenv f post
        (len - ((getenv (name.take 1023)).getD []).length - 1)
        (done ++ (getenv (name.take 1023)).getD [] ++ [c])
        (buffer.drop (((getenv (name.take 1023)).getD []).length + 1)) := by
  have hl1 : 1 < len := by omega
  rw [PROFILE_CopyEntry_loop]
  simp only [List.headD_cons, List.getD_cons_succ, List.getD_cons_zero, ne_eq,
    OfNat.ofNat_ne_zero, not_false_eq_true, gt_iff_lt, hl1, and_self, if_true,
    strchr_reference name (c :: post) hname, take_name, drop_reference]
  cases hg : getenv (name.take 1023) with
  | none =>
    simp only [Option.getD_none, List.length_nil, List.append_nil, Nat.sub_zero, reduceCtorEq,
      if_false, List.headD_cons, List.tail_cons, Nat.zero_add, List.drop_one]
  | some env_p =>
    rw [hg] at hw0 hlen
    simp only [Option.getD_some] at hw0 hlen ⊢
    have hb : lstrcpynA buffer env_p len = env_p ++ 0 :: buffer.drop (env_p.length + 1) := by
      have h1 : env_p.length ≤ len - 1 := by omega
      rw [lstrcpynA_eq _ _ _ (by omega), List.take_of_length_le h1]
    have hs : strlen (env_p ++ 0 :: buffer.drop (env_p.length + 1)) = env_p.length :=
      strlen_append_zero _ _ hw0
    simp only [hb, hs, reduceCtorEq, if_false, List.headD_cons, List.tail_cons]
    congr 1
    · simp
    · rw [List.drop_left]
      rfl

theorem CopyEntry_loop_value (getenv : List Nat → Option (List Nat))
    (buffer pre name post : List Nat) (c f len : Nat)
    (hpre : ∀ x ∈ pre, x ≠ 0 ∧ x ≠ 36) (hpost : ∀ x ∈ post, x ≠ 0 ∧ x ≠ 36)
    (hname : 125 ∉ name) (hw0 : 0 ∉ (getenv (name.take 1023)).getD [])
    (hlen : pre.length + ((getenv (name.take 1023)).getD []).length + post.length + 1 < len) :
    PROFILE_CopyEntry_loop getenv (pre.length + ((post.length + f) + 1))
        (pre ++ 36 :: 123 :: (name ++ 125 :: c :: post)) len [] buffer =
      (pre ++ (getenv (name.take 1023)).getD [] ++ c :: post,
        buffer.drop (pre.length + ((getenv (name.take 1023)).getD []).length + post.length + 1),
        len - (pre.length + ((getenv (name.take 1023)).getD []).length + post.length + 1),
        false) := by
  rw [CopyEntry_loop_copy getenv _ _ pre len [] buffer hpre (by omega),
    CopyEntry_loop_reference getenv name post _ _ c _ _ hname hw0 (by omega)]
  have h := CopyEntry_loop_copy getenv [] f post
    (len - pre.length - ((getenv (name.take 1023)).getD []).length - 1)
    ([] ++ pre ++ (getenv (name.take 1023)).getD [] ++ [c])
    ((buffer.drop pre.length).drop (((getenv (name.take 1023)).getD []).length + 1))
    hpost (by omega)
  rw [List.append_nil] at h
  rw [h, CopyEntry_loop_nil]
  refine Prod.ext ?_ (Prod.ext ?_ (Prod.ext ?_ rfl))
  · simp
  · simp only [List.drop_drop]
    congr 1
    omega
  · simp only
    omega

/-- The result of `PROFILE_CopyEntry` with environment handling on a value `pre ++ "${" ++
name ++ "}" ++ c :: post` that is not quoted, when neither `pre` nor `post`
holds a `$` and `name` holds no closing brace: `w`, the value of the variable
named by the first 1023 characters of `name` (empty when it is not set),
takes the place of the reference, provided `len` has room for the whole
text.  The loop does not read past the end of the value. -/
theorem CopyEntry_reference (getenv : List Nat → Option (List Nat))
    (buffer pre name post : List Nat) (c len : Nat)
    (h0 : 0 ∉ pre ++ 36 :: 123 :: (name ++ 125 :: c :: post))
    (hq : isQuoteWrapped (pre ++ 36 :: 123 :: (name ++ 125 :: c :: post)) = false)
    (hpre : 36 ∉ pre) (hpost : 36 ∉ post) (hname : 125 ∉ name)
    (hw0 : 0 ∉ (getenv (name.take 1023)).getD [])
    (hlen : pre.length + ((getenv (name.take 1023)).getD []).length + post.length + 1 < len) :
    PROFILE_CopyEntry getenv buffer (pre ++ 36 :: 123 :: (name ++ 125 :: c :: post)) len true =
      pre ++ (getenv (name.take 1023)).getD [] ++ c :: post ++
        0 :: buffer.drop
          (pre.length + ((getenv (name.take 1023)).getD []).length + post.length + 2) ∧
    PROFILE_CopyEntry_over getenv buffer (pre ++ 36 :: 123 :: (name ++ 125 :: c :: post)) len =
      false := by
  have hq0 : (PROFILE_CopyEntry_quote (pre ++ 36 :: 123 :: (name ++ 125 :: c :: post))).1 = 0 := by
    by_contra h
    rw [(quote_iff _ h0).1 h] at hq
    exact Bool.noConfusion hq
  have hpre' : ∀ x ∈ pre, x ≠ 0 ∧ x ≠ 36 := fun x hx =>
    ⟨fun e => h0 (by rw [← e]; exact List.mem_append_left _ hx), fun e => hpre (by rw [← e]; exact hx)⟩
  have hpost' : ∀ x ∈ post, x ≠ 0 ∧ x ≠ 36 := fun x hx =>
    ⟨fun e => h0 (by rw [← e]; simp [hx]), fun e => hpost (by rw [← e]; exact hx)⟩
  obtain ⟨f, hf⟩ : ∃ f, len = pre.length + ((post.length + f) + 1) :=
    ⟨len - pre.length - post.length - 1, by omega⟩
  have hloop := CopyEntry_loop_value getenv buffer pre name post c f len hpre' hpost' hname hw0
    hlen
  rw [← hf] at hloop
  constructor
  · simp only [PROFILE_CopyEntry, hq0, quote_none _ hq0, Bool.not_true, Bool.false_eq_true,
      if_false, hloop, ne_eq, not_true_eq_false, false_and]
    simp only [List.append_assoc, List.singleton_append, List.tail_drop, List.cons_append,
      List.nil_append]
  · simp only [PROFILE_CopyEntry_over, quote_none _ hq0, hloop]

theorem stripQuotes_length_le (raw : List Nat) : (stripQuotes raw).length ≤ raw.length := by
  unfold stripQuotes
  split
  · simp only [List.length_dropLast, List.length_tail]; omega
  · exact Nat.le_refl _

theorem stripQuotes_length (raw : List Nat) (h : isQuoteWrapped raw = true) :
    (stripQuotes raw).length + 2 = raw.length := by
  have h2 : 2 ≤ raw.length := by
    simp only [isQuoteWrapped, Bool.and_eq_true, decide_eq_true_eq] at h
    exact h.1.1
  rw [stripQuotes, if_pos h]
  simp only [List.length_dropLast, List.length_tail]; omega

/-- After a reference that ends the value the loop of `PROFILE_CopyEntry` reads the byte
that follows the terminating NUL of the value. -/
theorem CopyEntry_over_at_end :
    PROFILE_CopyEntry_over exampleEnv (List.replicate 10 42) (cs "$\x7bA\x7d") 10 = true ∧
    PROFILE_CopyEntry_over exampleEnv (List.replicate 10 42) (cs "$\x7bX\x7d") 10 = true := by
  constructor <;> decide

theorem longEnv_take : longEnv (longName.take 1023) = none := by
  unfold longEnv
  rw [if_neg]
  intro h
  have := congrArg List.length h
  simp only [longName, List.length_take, List.length_replicate] at this
  omega

/-- The text `PROFILE_CopyEntry` leaves with environment handling on a value with one
reference, in the form used by the claims: `post` is not empty. -/
theorem CopyEntry_reference_text (getenv : List Nat → Option (List Nat))
    (buffer pre name post : List Nat) (len : Nat)
    (h0 : 0 ∉ pre ++ cs "$\x7b" ++ name ++ cs "\x7d" ++ post)
    (hq : isQuoteWrapped (pre ++ cs "$\x7b" ++ name ++ cs "\x7d" ++ post) = false)
    (hpre : 36 ∉ pre) (hpost : 36 ∉ post) (hname : 125 ∉ name) (hne : post ≠ [])
    (hw0 : 0 ∉ (getenv (name.take 1023)).getD [])
    (hlen : pre.length + ((getenv (name.take 1023)).getD []).length + post.length < len) :
    cstr (PROFILE_CopyEntry getenv buffer (pre ++ cs "$\x7b" ++ name ++ cs "\x7d" ++ post) len
        true) = pre ++ (getenv (name.take 1023)).getD [] ++ post ∧
    PROFILE_CopyEntry_over getenv buffer (pre ++ cs "$\x7b" ++ name ++ cs "\x7d" ++ post) len =
      false := by
  obtain ⟨c, post', rfl⟩ : ∃ c post', post = c :: post' := by
    cases post with
    | nil => exact absurd rfl hne
    | cons c t => exact ⟨c, t, rfl⟩
  have e : pre ++ cs "$\x7b" ++ name ++ cs "\x7d" ++ c :: post' =
      pre ++ 36 :: 123 :: (name ++ 125 :: c :: post') := by
    have e1 : cs "$\x7b" = [36, 123] := by decide
    have e2 : cs "\x7d" = [125] := by decide
    rw [e1, e2]
    simp
  rw [e] at h0 hq ⊢
  simp only [List.length_cons] at hlen
  have h := CopyEntry_reference getenv buffer pre name post' c len h0 hq hpre
    (fun h => hpost (List.mem_cons_of_mem _ h)) hname hw0 (by omega)
  refine ⟨?_, h.2⟩
  rw [h.1]
  have h0' : 0 ∉ pre ++ (getenv (name.take 1023)).getD [] ++ c :: post' := by
    intro hm
    rcases List.mem_append.1 hm with hm | hm
    · rcases List.mem_append.1 hm with hm | hm
      · exact h0 (List.mem_append_left _ hm)
      · exact hw0 hm
    · exact h0 (List.mem_append_right _ (by simp at hm ⊢; tauto))
  exact cstr_append_zero _ _ h0'

/-! ### Parsing of lines: lemmas -/

theorem trimTail_eq_rdropWhile (s : List Nat) (h : noLeadingSpace s = true) :
    trimTail PROFILE_isspace s = s.rdropWhile PROFILE_isspace := by
  cases s with
  | nil => simp [trimTail, List.rdropWhile]
  | cons c r =>
    simp only [noLeadingSpace, List.head?_cons, Bool.not_eq_true'] at h
    rw [rdropWhile_cons_neg _ c r h]
    rfl

theorem noLeadingSpace_trim (s : List Nat) : noLeadingSpace (trim s) = true := by
  rw [← trimTail_dropWhile]
  exact trimTail_noLeading _ (noLeadingSpace_dropWhile s)

theorem Load_key_eq_parse (line : List Nat) :
    PROFILE_Load_key (line.dropWhile PROFILE_isspace) = parseKeyLine line := by
  unfold PROFILE_Load_key parseKeyLine
  rw [isspace_line_eq, trimTail_dropWhile]
  by_cases h : 61 ∈ trim line
  · simp only [strchr, h, if_true]
    rw [trimTail_eq_rdropWhile _ (noLeadingSpace_take _ _ (noLeadingSpace_trim line))]
  · simp only [strchr, h, if_false]

theorem mem_dropWhile_of_neg (f : Nat → Bool) (x : Nat) (hx : f x = false) :
    ∀ l : List Nat, x ∈ l → x ∈ l.dropWhile f := by
  intro l
  induction l with
  | nil => intro h; exact h
  | cons a l ih =>
    intro h
    rw [List.dropWhile_cons]
    split
    · rename_i ha
      rcases List.mem_cons.1 h with e | e
      · rw [e] at hx; rw [hx] at ha; exact Bool.noConfusion ha
      · exact ih e
    · exact h

theorem header_test_iff (line : List Nat) :
    (∃ i, (if (line.dropWhile PROFILE_isspace).headD 0 = 91 then
        strrchr (line.dropWhile PROFILE_isspace) 93 else none) = some i) ↔
      isHeaderLine line = true := by
  unfold isHeaderLine
  simp only [Bool.and_eq_true, beq_iff_eq, decide_eq_true_eq]
  constructor
  · rintro ⟨i, hi⟩
    split at hi
    · rename_i h91
      have hm : 93 ∈ line.dropWhile PROFILE_isspace := by
        by_contra hn
        rw [strrchr_none _ _ hn] at hi
        cases hi
      refine ⟨?_, (List.dropWhile_sublist _).subset hm⟩
      cases hp : line.dropWhile PROFILE_isspace with
      | nil => rw [hp] at hm; cases hm
      | cons a t => rw [hp] at h91; simpa using h91
    · cases hi
  · rintro ⟨hh, hm⟩
    have hm' := mem_dropWhile_of_neg PROFILE_isspace 93 (by decide) line hm
    have h91 : (line.dropWhile PROFILE_isspace).headD 0 = 91 := by
      cases hp : line.dropWhile PROFILE_isspace with
      | nil => rw [hp] at hh; cases hh
      | cons a t => rw [hp] at hh; simpa using hh
    rw [if_pos h91]
    simp only [strrchr, hm', if_true]
    exact ⟨_, rfl⟩

/-- A line that is no section header is parsed as a key, which is stored
when `PROFILE_Load_keep` holds. -/
theorem Load_line_key (st : LoadState) (line : List Nat) (hh : isHeaderLine line = false) :
    PROFILE_Load_line st line =
      if PROFILE_Load_keep (parseKeyLine line).name st.prev_key then
        { done := st.done,
          cur := { name := st.cur.name, key := st.cur.key ++ [parseKeyLine line] },
          prev_key := some (parseKeyLine line) }
      else st := by
  have hnone : (if (line.dropWhile PROFILE_isspace).headD 0 = 91 then
      strrchr (line.dropWhile PROFILE_isspace) 93 else none) = none := by
    cases hc : (if (line.dropWhile PROFILE_isspace).headD 0 = 91 then
      strrchr (line.dropWhile PROFILE_isspace) 93 else none) with
    | none => rfl
    | some i =>
      rw [(header_test_iff line).1 ⟨i, hc⟩] at hh
      cases hh
  simp only [PROFILE_Load_line, hnone, Load_key_eq_parse]

/-- A section header opens a section named by the text between the `[` and
the last `]`. -/
theorem Load_line_section (st : LoadState) (blanks name tail : List Nat)
    (hb : ∀ c ∈ blanks, PROFILE_isspace c = true) (ht : 93 ∉ tail) :
    PROFILE_Load_line st (blanks ++ 91 :: (name ++ 93 :: tail)) =
      { done := st.done ++ [st.cur], cur := { name := name, key := [] }, prev_key := none } := by
  have hd : (blanks ++ 91 :: (name ++ 93 :: tail)).dropWhile PROFILE_isspace =
      91 :: (name ++ 93 :: tail) := by
    rw [dropWhile_append_pos _ _ _ hb]
    have h91 : PROFILE_isspace 91 = false := by decide
    simp [List.dropWhile_cons, h91]
  have hr : strrchr (91 :: (name ++ 93 :: tail)) 93 = some (name.length + 1) := by
    have hm : 93 ∈ 91 :: (name ++ 93 :: tail) := by simp
    have ht' : 93 ∉ tail.reverse := fun h => ht (List.mem_reverse.1 h)
    simp only [strrchr, hm, if_true, List.reverse_cons, List.reverse_append,
      List.append_assoc, List.singleton_append, List.length_cons, List.length_append]
    rw [List.indexOf_append_of_not_mem ht', List.cons_append, List.indexOf_cons_self,
      List.length_reverse]
    congr 1
    omega
  simp only [PROFILE_Load_line, hd, List.headD_cons, if_true, hr]
  congr 2
  simp [List.take_succ_cons, List.take_left']

theorem Load_line_of_header (st : LoadState) (line : List Nat) (h : isHeaderLine line = true) :
    ∃ nm, PROFILE_Load_line st line =
      { done := st.done ++ [st.cur], cur := { name := nm, key := [] }, prev_key := none } := by
  obtain ⟨i, hi⟩ := (header_test_iff line).2 h
  exact ⟨((line.dropWhile PROFILE_isspace).take i).drop 1, by simp only [PROFILE_Load_line, hi]⟩

theorem parse_name_no_nul (line : List Nat) (h0 : 0 ∉ line) : 0 ∉ (parseKeyLine line).name := by
  have ht : 0 ∉ trim line := not_mem_trim line h0
  unfold parseKeyLine
  split
  · exact fun h => ht (List.mem_of_mem_take ((List.rdropWhile_prefix _ _).subset h))
  · exact ht

theorem headD_eq_zero_iff (s : List Nat) (h0 : 0 ∉ s) : s.headD 0 = 0 ↔ s = [] := by
  cases s with
  | nil => simp
  | cons a t =>
    have ha : a ≠ 0 := fun e => h0 (by rw [e]; exact List.mem_cons_self _ _)
    simp [ha]

theorem Load_keep_false_iff (name : List Nat) (prev : Option PROFILEKEY) (hn : 0 ∉ name)
    (hp : ∀ p, prev = some p → 0 ∉ p.name) :
    PROFILE_Load_keep name prev = false ↔ name = [] ∧ ∃ p, prev = some p ∧ p.name = [] := by
  unfold PROFILE_Load_keep
  cases prev with
  | none => simp
  | some p =>
    have h1 := headD_eq_zero_iff name hn
    have h2 := headD_eq_zero_iff p.name (hp p rfl)
    simp only [Bool.or_eq_false_iff, bne_eq_false_iff_eq, h1, h2, Option.some.injEq,
      exists_eq_left']

/-- The key lines that follow in a section are stored in input order, less
the discarded ones. -/
theorem fold_key_lines : ∀ (keys : List (List Nat)) (st : LoadState),
    (∀ l ∈ keys, isHeaderLine l = false ∧ 0 ∉ l) → (∀ p, st.prev_key = some p → 0 ∉ p.name) →
    (keys.foldl PROFILE_Load_line st).done = st.done ∧
    (keys.foldl PROFILE_Load_line st).cur =
      { name := st.cur.name,
        key := st.cur.key ++ collapseFrom st.prev_key (keys.map parseKeyLine) } := by
  intro keys
  induction keys with
  | nil => intro st _ _; simp [collapseFrom]
  | cons l keys ih =>
    intro st hk hp
    have hl := hk l (List.mem_cons_self _ _)
    have hrest : ∀ x ∈ keys, isHeaderLine x = false ∧ 0 ∉ x :=
      fun x hx => hk x (List.mem_cons_of_mem _ hx)
    have hn := parse_name_no_nul l hl.2
    rw [List.foldl_cons, Load_line_key st l hl.1, List.map_cons, collapseFrom]
    cases hkeep : PROFILE_Load_keep (parseKeyLine l).name st.prev_key with
    | false =>
      rw [if_neg (by simp), if_pos ((Load_keep_false_iff _ _ hn hp).1 hkeep)]
      exact ih st hrest hp
    | true =>
      have hnot : ¬ ((parseKeyLine l).name = [] ∧ ∃ p, st.prev_key = some p ∧ p.name = []) :=
        fun h => by
          rw [(Load_keep_false_iff _ _ hn hp).2 h] at hkeep
          cases hkeep
      rw [if_pos rfl, if_neg hnot]
      have h := ih (LoadState.mk st.done
          (PROFILESECTION.mk st.cur.name (st.cur.key ++ [parseKeyLine l]))
          (some (parseKeyLine l))) hrest
        (fun p e => by rw [← Option.some.inj e]; exact hn)
      simp only [List.append_assoc, List.singleton_append] at h
      exact h

theorem Load_line_done (st : LoadState) (line : List Nat) :
    ∃ x, (PROFILE_Load_line st line).done = st.done ++ x := by
  cases hh : isHeaderLine line with
  | true =>
    obtain ⟨nm, e⟩ := Load_line_of_header st line hh
    exact ⟨[st.cur], by rw [e]⟩
  | false =>
    rw [Load_line_key st line hh]
    split
    · exact ⟨[], by simp⟩
    · exact ⟨[], by simp⟩

theorem fold_done_prefix : ∀ (lines : List (List Nat)) (st : LoadState),
    ∃ later, (lines.foldl PROFILE_Load_line st).done ++ [(lines.foldl PROFILE_Load_line st).cur] =
      st.done ++ later := by
  intro lines
  induction lines with
  | nil => intro st; exact ⟨[st.cur], rfl⟩
  | cons l lines ih =>
    intro st
    obtain ⟨later, h⟩ := ih (PROFILE_Load_line st l)
    obtain ⟨x, hx⟩ := Load_line_done st l
    exact ⟨x ++ later, by rw [List.foldl_cons, h, hx, List.append_assoc]⟩

/-- The invariant of the loop of `PROFILE_Load` that the blank-run test relies on:
`prev_key` is the last key of the current section, and its name holds no
NUL. -/
theorem fold_prev_key : ∀ (lines : List (List Nat)) (st : LoadState),
    (∀ l ∈ lines, 0 ∉ l) →
    (st.prev_key = st.cur.key.getLast? ∧ ∀ p, st.prev_key = some p → 0 ∉ p.name) →
    (lines.foldl PROFILE_Load_line st).prev_key =
        (lines.foldl PROFILE_Load_line st).cur.key.getLast? ∧
      ∀ p, (lines.foldl PROFILE_Load_line st).prev_key = some p → 0 ∉ p.name := by
  intro lines
  induction lines with
  | nil => intro st _ h; exact h
  | cons l lines ih =>
    intro st hl h
    rw [List.foldl_cons]
    apply ih _ (fun x hx => hl x (List.mem_cons_of_mem _ hx))
    cases hh : isHeaderLine l with
    | true =>
      obtain ⟨nm, e⟩ := Load_line_of_header st l hh
      rw [e]
      exact ⟨rfl, fun p hp => by cases hp⟩
    | false =>
      rw [Load_line_key st l hh]
      split
      · refine ⟨by simp, fun p hp => ?_⟩
        simp only [Option.some.injEq] at hp
        rw [← hp]
        exact parse_name_no_nul l (hl l (List.mem_cons_self _ _))
      · exact h

theorem Load_lines_state (ls : List (List Nat)) (hl : ∀ l ∈ ls, IsLine l) :
    PROFILE_Load ls.flatten = (loadedState ls).done ++ [(loadedState ls).cur] :=
  Load_lines ls hl

theorem IsLine_no_nul (l : List Nat) (h : IsLine l) : 0 ∉ l := by
  obtain ⟨body, rfl, _, h0, _⟩ := h
  intro hm
  rcases List.mem_append.1 hm with e | e
  · exact h0 e
  · simp at e

/-! ### PROFILE_Save and PROFILE_Find with creation: lemmas -/

theorem Save_keys_pieces (key : List PROFILEKEY) :
    PROFILE_Save_keys key = (key.map keyPiece).flatten := by
  induction key with
  | nil => rfl
  | cons k key ih =>
    rw [PROFILE_Save_keys, ih, List.map_cons, List.flatten_cons, keyPiece]
    have e1 : cs "=" = [61] := by decide
    have e2 : cs "\r\n" = [13, 10] := by decide
    rw [e1, e2]
    cases k.value <;> simp

theorem Find_section_test (S : List Nat) (sec : PROFILESECTION) (h0 : 0 ∉ sec.name)
    (hS : 0 ∉ S) :
    (sec.name.headD 0 ≠ 0 ∧
      PROFILE_Find_match sec.name (S.dropWhile PROFILE_isspace) (trim S).length = true) ↔
      sectionMatches S sec = true := by
  rw [Find_match_trim sec.name S h0 hS, headD_ne_zero_iff sec.name h0]
  simp [sectionMatches]

theorem Find_key_create (key : List PROFILEKEY) (K : List Nat) (hk : ∀ k ∈ key, 0 ∉ k.name)
    (hK : 0 ∉ K) :
    PROFILE_Find_key key (K.dropWhile PROFILE_isspace) (trim K).length true false =
      match key.findIdx? (keyMatches K) with
      | some j => (key, some j)
      | none => (key ++ [newKey K], some key.length) := by
  have hcongr := findIdx?_congr_mem
    (fun k : PROFILEKEY => PROFILE_Find_match k.name (K.dropWhile PROFILE_isspace)
      (trim K).length) (keyMatches K) key
    (fun k hkm => Find_match_trim k.name K (hk k hkm) hK)
  simp only [PROFILE_Find_key, Bool.false_eq_true, if_false, hcongr]
  cases key.findIdx? (keyMatches K) <;> simp [newKey]

theorem Find_loop_create_none (S K : List Nat) (hS : 0 ∉ S) :
    ∀ d : List PROFILESECTION, (∀ sec ∈ d, 0 ∉ sec.name) →
      d.findIdx? (sectionMatches S) = none →
      PROFILE_Find_loop (S.dropWhile PROFILE_isspace) (trim S).length
        (K.dropWhile PROFILE_isspace) (trim K).length true false d =
        (d ++ [{ name := S.dropWhile PROFILE_isspace, key := [newKey K] }],
          some (d.length, 0)) := by
  intro d
  induction d with
  | nil => intro _ _; simp [PROFILE_Find_loop, newKey]
  | cons sec rest ih =>
    intro hc hf
    rw [findIdx?_cons_zero] at hf
    have hm : ¬ sectionMatches S sec = true := by
      intro h
      rw [if_pos h] at hf
      cases hf
    rw [if_neg hm] at hf
    have hrest : rest.findIdx? (sectionMatches S) = none := by
      cases h : rest.findIdx? (sectionMatches S) with
      | none => rfl
      | some i => rw [h] at hf; cases hf
    have ht := (Find_section_test S sec (hc sec (List.mem_cons_self _ _)) hS).not.2 hm
    rw [PROFILE_Find_loop, if_neg ht,
      ih (fun x hx => hc x (List.mem_cons_of_mem _ hx)) hrest]
    simp

theorem Find_loop_create_some (S K : List Nat) (hS : 0 ∉ S) :
    ∀ (d : List PROFILESECTION) (i : Nat) (sec : PROFILESECTION),
      (∀ sec ∈ d, 0 ∉ sec.name) → d.findIdx? (sectionMatches S) = some i → d[i]? = some sec →
      PROFILE_Find_loop (S.dropWhile PROFILE_isspace) (trim S).length
        (K.dropWhile PROFILE_isspace) (trim K).length true false d =
        (d.set i { name := sec.name,
                   key := (PROFILE_Find_key sec.key (K.dropWhile PROFILE_isspace)
                     (trim K).length true false).1 },
          (PROFILE_Find_key sec.key (K.dropWhile PROFILE_isspace)
            (trim K).length true false).2.map (fun j => (i, j))) := by
  intro d
  induction d with
  | nil => intro i sec _ hf _; simp at hf
  | cons s rest ih =>
    intro i sec hc hf hi
    rw [findIdx?_cons_zero] at hf
    by_cases hm : sectionMatches S s = true
    · rw [if_pos hm] at hf
      have hi0 : i = 0 := (Option.some.inj hf).symm
      subst hi0
      simp only [List.getElem?_cons_zero, Option.some.injEq] at hi
      subst hi
      have ht := (Find_section_test S s (hc s (List.mem_cons_self _ _)) hS).2 hm
      rw [PROFILE_Find_loop, if_pos ht]
      simp
    · rw [if_neg hm] at hf
      cases h : rest.findIdx? (sectionMatches S) with
      | none => rw [h] at hf; cases hf
      | some i' =>
        rw [h] at hf
        simp only [Option.map_some', Option.some.injEq] at hf
        subst hf
        simp only [List.getElem?_cons_succ] at hi
        have ht := (Find_section_test S s (hc s (List.mem_cons_self _ _)) hS).not.2 hm
        rw [PROFILE_Find_loop, if_neg ht,
          ih i' sec (fun x hx => hc x (List.mem_cons_of_mem _ hx)) h hi]
        cases (PROFILE_Find_key sec.key (K.dropWhile PROFILE_isspace)
          (trim K).length true false).2 <;> simp

theorem set_getElem?_self {α : Type} : ∀ (l : List α) (i : Nat) (x : α),
    l[i]? = some x → l.set i x = l := by
  intro l
  induction l with
  | nil => intro i x h; simp at h
  | cons a l ih =>
    intro i x h
    cases i with
    | zero =>
      simp only [List.getElem?_cons_zero, Option.some.injEq] at h
      rw [h]; rfl
    | succ i =>
      simp only [List.getElem?_cons_succ] at h
      rw [List.set_cons_succ, ih i x h]

/-! ### PROFILE_Find, deletions and empty names: lemmas -/

theorem Find_loop_select (S K : List Nat) (create ca : Bool) (hS : 0 ∉ S) :
    ∀ (d : List PROFILESECTION) (i : Nat) (sec : PROFILESECTION),
      (∀ sec ∈ d, 0 ∉ sec.name) → d.findIdx? (sectionMatches S) = some i → d[i]? = some sec →
      PROFILE_Find_loop (S.dropWhile PROFILE_isspace) (trim S).length
        (K.dropWhile PROFILE_isspace) (trim K).length create ca d =
        (d.set i { name := sec.name,
                   key := (PROFILE_Find_key sec.key (K.dropWhile PROFILE_isspace)
                     (trim K).length create ca).1 },
          (PROFILE_Find_key sec.key (K.dropWhile PROFILE_isspace)
            (trim K).length create ca).2.map (fun j => (i, j))) := by
  intro d
  induction d with
  | nil => intro i sec _ hf _; simp at hf
  | cons s rest ih =>
    intro i sec hc hf hi
    rw [findIdx?_cons_zero] at hf
    by_cases hm : sectionMatches S s = true
    · rw [if_pos hm] at hf
      have hi0 : i = 0 := (Option.some.inj hf).symm
      subst hi0
      simp only [List.getElem?_cons_zero, Option.some.injEq] at hi
      subst hi
      have ht := (Find_section_test S s (hc s (List.mem_cons_self _ _)) hS).2 hm
      rw [PROFILE_Find_loop, if_pos ht]
      simp
    · rw [if_neg hm] at hf
      cases h : rest.findIdx? (sectionMatches S) with
      | none => rw [h] at hf; cases hf
      | some i' =>
        rw [h] at hf
        simp only [Option.map_some', Option.some.injEq] at hf
        subst hf
        simp only [List.getElem?_cons_succ] at hi
        have ht := (Find_section_test S s (hc s (List.mem_cons_self _ _)) hS).not.2 hm
        rw [PROFILE_Find_loop, if_neg ht,
          ih i' sec (fun x hx => hc x (List.mem_cons_of_mem _ hx)) h hi]
        cases (PROFILE_Find_key sec.key (K.dropWhile PROFILE_isspace)
          (trim K).length create ca).2 <;> simp

theorem Find_loop_named (qS qK : List Nat) (nS nK : Nat) (ca : Bool) :
    ∀ (d : List PROFILESECTION) (pos : Nat × Nat),
      (PROFILE_Find_loop qS nS qK nK false ca d).2 = some pos →
      ∃ sec, d[pos.1]? = some sec ∧ sec.name ≠ [] := by
  intro d
  induction d with
  | nil => intro pos h; simp [PROFILE_Find_loop] at h
  | cons s rest ih =>
    intro pos h
    rw [PROFILE_Find_loop] at h
    split at h
    · rename_i ht
      simp only [Option.map_eq_some'] at h
      obtain ⟨j, _, hj⟩ := h
      rw [← hj]
      refine ⟨s, by simp, ?_⟩
      intro e
      rw [e] at ht
      exact ht.1 rfl
    · simp only [Option.map_eq_some'] at h
      obtain ⟨ij, hij, e⟩ := h
      obtain ⟨sec, hsec, hne⟩ := ih ij hij
      rw [← e]
      exact ⟨sec, by simpa using hsec, hne⟩

theorem Find_loop_blank (qK : List Nat) (nK : Nat) (ca : Bool) :
    ∀ d : List PROFILESECTION, PROFILE_Find_loop [] 0 qK nK false ca d = (d, none) := by
  intro d
  induction d with
  | nil => simp [PROFILE_Find_loop]
  | cons s rest ih =>
    have ht : ¬ (s.name.headD 0 ≠ 0 ∧ PROFILE_Find_match s.name [] 0 = true) := by
      intro h
      have h2 := h.2
      simp only [PROFILE_Find_match, Bool.and_eq_true, beq_iff_eq] at h2
      apply h.1
      cases hn : s.name with
      | nil => rfl
      | cons a t => rw [hn] at h2; simpa using h2.2
    rw [PROFILE_Find_loop, if_neg ht, ih]
    rfl

theorem dropWhile_all (f : Nat → Bool) (s : List Nat) (h : ∀ c ∈ s, f c = true) :
    s.dropWhile f = [] := by
  have := dropWhile_append_pos f s [] h
  simpa using this

theorem strcasecmp_nil (name : List Nat) (h : name.headD 0 ≠ 0) : strcasecmp name [] ≠ 0 := by
  cases name with
  | nil => exact absurd rfl h
  | cons a t =>
    simp only [List.headD_cons] at h
    have := tolower_ne_zero a h
    simp only [strcasecmp, List.headD_nil]
    have h0 : tolower 0 = 0 := by decide
    rw [h0, if_pos this]
    omega

theorem DeleteSection_shape (name : List Nat) :
    ∀ d : List PROFILESECTION,
      ((PROFILE_DeleteSection d name).2 = true →
        ∃ pre sec post, d = pre ++ sec :: post ∧
          (sec.name.headD 0 ≠ 0 ∧ strcasecmp sec.name name = 0) ∧
          (∀ s ∈ pre, ¬ (s.name.headD 0 ≠ 0 ∧ strcasecmp s.name name = 0)) ∧
          (PROFILE_DeleteSection d name).1 = pre ++ post) ∧
      ((PROFILE_DeleteSection d name).2 = false →
        (PROFILE_DeleteSection d name).1 = d ∧
          ∀ s ∈ d, ¬ (s.name.headD 0 ≠ 0 ∧ strcasecmp s.name name = 0)) := by
  intro d
  induction d with
  | nil =>
    refine ⟨fun h => ?_, fun _ => ⟨rfl, (fun s hs => absurd hs (List.not_mem_nil s))⟩⟩
    simp [PROFILE_DeleteSection] at h
  | cons s rest ih =>
    by_cases ht : s.name.headD 0 ≠ 0 ∧ strcasecmp s.name name = 0
    · have e : PROFILE_DeleteSection (s :: rest) name = (rest, true) := by
        rw [PROFILE_DeleteSection, if_pos ht]
      rw [e]
      refine ⟨fun _ => ⟨[], s, rest, rfl, ht, (fun x hx => absurd hx (List.not_mem_nil x)), rfl⟩, (fun h => Bool.noConfusion h)⟩
    · have e : PROFILE_DeleteSection (s :: rest) name =
          ((PROFILE_DeleteSection rest name).1.cons s, (PROFILE_DeleteSection rest name).2) := by
        rw [PROFILE_DeleteSection, if_neg ht]
      rw [e]
      refine ⟨fun h => ?_, fun h => ?_⟩
      · obtain ⟨pre, sec, post, hd, hsec, hpre, hr⟩ := ih.1 h
        refine ⟨s :: pre, sec, post, by rw [hd]; rfl, hsec, ?_, by simp [hr]⟩
        intro x hx
        rcases List.mem_cons.1 hx with rfl | hx
        · exact ht
        · exact hpre x hx
      · obtain ⟨hr, hall⟩ := ih.2 h
        refine ⟨by simp [hr], ?_⟩
        intro x hx
        rcases List.mem_cons.1 hx with rfl | hx
        · exact ht
        · exact hall x hx

theorem DeleteKey_key_shape (K : List Nat) :
    ∀ key : List PROFILEKEY,
      (∀ key', PROFILE_DeleteKey_key key K = some key' →
        ∃ k1 k k2, key = k1 ++ k :: k2 ∧ strcasecmp k.name K = 0 ∧
          (∀ x ∈ k1, strcasecmp x.name K ≠ 0) ∧ key' = k1 ++ k2) ∧
      (PROFILE_DeleteKey_key key K = none → ∀ x ∈ key, strcasecmp x.name K ≠ 0) := by
  intro key
  induction key with
  | nil =>
    refine ⟨fun key' h => ?_, fun _ x hx => by cases hx⟩
    simp [PROFILE_DeleteKey_key] at h
  | cons a rest ih =>
    by_cases ht : strcasecmp a.name K = 0
    · have e : PROFILE_DeleteKey_key (a :: rest) K = some rest := by
        rw [PROFILE_DeleteKey_key, if_pos ht]
      rw [e]
      refine ⟨fun key' h => ?_, (fun h => Option.noConfusion h)⟩
      exact ⟨[], a, rest, rfl, ht, (fun x hx => absurd hx (List.not_mem_nil x)), (Option.some.inj h).symm⟩
    · have e : PROFILE_DeleteKey_key (a :: rest) K =
          (PROFILE_DeleteKey_key rest K).map (fun r => a :: r) := by
        rw [PROFILE_DeleteKey_key, if_neg ht]
      rw [e]
      refine ⟨fun key' h => ?_, fun h => ?_⟩
      · simp only [Option.map_eq_some'] at h
        obtain ⟨r, hr, e2⟩ := h
        obtain ⟨k1, k, k2, hk, hkm, hk1, hr2⟩ := ih.1 r hr
        refine ⟨a :: k1, k, k2, by rw [hk]; rfl, hkm, ?_, by rw [← e2, hr2]; rfl⟩
        intro x hx
        rcases List.mem_cons.1 hx with rfl | hx
        · exact ht
        · exact hk1 x hx
      · simp only [Option.map_eq_none'] at h
        intro x hx
        rcases List.mem_cons.1 hx with rfl | hx
        · exact ht
        · exact ih.2 h x hx

theorem DeleteKey_shape (S K : List Nat) :
    ∀ d : List PROFILESECTION,
      ((PROFILE_DeleteKey d S K).2 = true →
        ∃ pre sec post k1 k k2, d = pre ++ sec :: post ∧ sec.key = k1 ++ k :: k2 ∧
          (sec.name.headD 0 ≠ 0 ∧ strcasecmp sec.name S = 0) ∧ strcasecmp k.name K = 0 ∧
          (∀ s ∈ pre, (s.name.headD 0 ≠ 0 ∧ strcasecmp s.name S = 0) →
            ∀ x ∈ s.key, strcasecmp x.name K ≠ 0) ∧
          (∀ x ∈ k1, strcasecmp x.name K ≠ 0) ∧
          (PROFILE_DeleteKey d S K).1 = pre ++ { name := sec.name, key := k1 ++ k2 } :: post) ∧
      ((PROFILE_DeleteKey d S K).2 = false →
        (PROFILE_DeleteKey d S K).1 = d ∧
          ∀ s ∈ d, (s.name.headD 0 ≠ 0 ∧ strcasecmp s.name S = 0) →
            ∀ x ∈ s.key, strcasecmp x.name K ≠ 0) := by
  intro d
  induction d with
  | nil =>
    refine ⟨fun h => ?_, fun _ => ⟨rfl, (fun s hs => absurd hs (List.not_mem_nil s))⟩⟩
    simp [PROFILE_DeleteKey] at h
  | cons s rest ih =>
    cases hm : (if s.name.headD 0 ≠ 0 ∧ strcasecmp s.name S = 0 then
        PROFILE_DeleteKey_key s.key K else none) with
    | some key' =>
      have e : PROFILE_DeleteKey (s :: rest) S K = ({ name := s.name, key := key' } :: rest, true) := by
        rw [PROFILE_DeleteKey, hm]
      have ht : s.name.headD 0 ≠ 0 ∧ strcasecmp s.name S = 0 := by
        by_contra hn
        rw [if_neg hn] at hm
        cases hm
      rw [if_pos ht] at hm
      obtain ⟨k1, k, k2, hk, hkm, hk1, hr⟩ := (DeleteKey_key_shape K s.key).1 key' hm
      rw [e]
      refine ⟨fun _ => ⟨[], s, rest, k1, k, k2, rfl, hk, ht, hkm, (fun x hx => absurd hx (List.not_mem_nil x)), hk1,
        by rw [hr]; rfl⟩, (fun h => Bool.noConfusion h)⟩
    | none =>
      have e : PROFILE_DeleteKey (s :: rest) S K =
          ((PROFILE_DeleteKey rest S K).1.cons s, (PROFILE_DeleteKey rest S K).2) := by
        rw [PROFILE_DeleteKey, hm]
      have hs : (s.name.headD 0 ≠ 0 ∧ strcasecmp s.name S = 0) →
          ∀ x ∈ s.key, strcasecmp x.name K ≠ 0 := by
        intro ht
        rw [if_pos ht] at hm
        exact (DeleteKey_key_shape K s.key).2 hm
      rw [e]
      refine ⟨fun h => ?_, fun h => ?_⟩
      · obtain ⟨pre, sec, post, k1, k, k2, hd, hk, hsec, hkm, hpre, hk1, hr⟩ := ih.1 h
        refine ⟨s :: pre, sec, post, k1, k, k2, by rw [hd]; rfl, hk, hsec, hkm, ?_, hk1,
          by simp [hr]⟩
        intro x hx
        rcases List.mem_cons.1 hx with rfl | hx
        · exact hs
        · exact hpre x hx
      · obtain ⟨hr, hall⟩ := ih.2 h
        refine ⟨by simp [hr], ?_⟩
        intro x hx
        rcases List.mem_cons.1 hx with rfl | hx
        · exact hs
        · exact hall x hx

theorem GetSection_named (getenv : List Nat → Option (List Nat)) (S buffer : List Nat)
    (len : Nat) (he rv : Bool) :
    ∀ d : List PROFILESECTION,
      PROFILE_GetSection getenv d S buffer len he rv =
        PROFILE_GetSection getenv (d.filter (fun sec => sec.name != [])) S buffer len he rv := by
  intro d
  induction d with
  | nil => rfl
  | cons s rest ih =>
    by_cases hn : s.name = []
    · have hf : (s :: rest).filter (fun sec => sec.name != []) =
          rest.filter (fun sec => sec.name != []) := by
        rw [List.filter_cons, hn]
        rfl
      rw [hf, ← ih, PROFILE_GetSection, if_neg (by rw [hn]; simp)]
    · have hf : (s :: rest).filter (fun sec => sec.name != []) =
          s :: rest.filter (fun sec => sec.name != []) := by
        rw [List.filter_cons, if_pos (by simpa using hn)]
      rw [hf, PROFILE_GetSection, PROFILE_GetSection, ih]

theorem GetSection_nil_name (getenv : List Nat → Option (List Nat)) (buffer : List Nat)
    (len : Nat) (he rv : Bool) :
    ∀ d : List PROFILESECTION,
      PROFILE_GetSection getenv d [] buffer len he rv = (0, poke (poke buffer 1 0) 0 0) := by
  intro d
  induction d with
  | nil => rfl
  | cons s rest ih =>
    rw [PROFILE_GetSection, if_neg (fun h => strcasecmp_nil s.name h.1 h.2), ih]

theorem sectionIs_iff (name : List Nat) (sec : PROFILESECTION) (hn : 0 ∉ sec.name)
    (hq : 0 ∉ name) :
    (sec.name.headD 0 ≠ 0 ∧ strcasecmp sec.name name = 0) ↔ sectionIs name sec = true :=
  section_test_iff sec.name name hn hq

theorem keyIs_iff (K : List Nat) (k : PROFILEKEY) (hn : 0 ∉ k.name) (hq : 0 ∉ K) :
    strcasecmp k.name K = 0 ↔ keyIs K k = true := by
  rw [strcasecmp_iff k.name K hn hq]
  simp [keyIs, eqIgnoreCase]

theorem keyAt_set_append (d : List PROFILESECTION) (i : Nat) (sec : PROFILESECTION)
    (k : PROFILEKEY) (hi : d[i]? = some sec) :
    keyAt (d.set i { name := sec.name, key := sec.key ++ [k] }) (i, sec.key.length) = some k := by
  obtain ⟨hlt, _⟩ := List.getElem?_eq_some_iff.1 hi
  simp [keyAt, List.getElem?_set, hlt]

/-! ### Lookups after edits and defaults: lemmas -/

theorem Find_key_found (key : List PROFILEKEY) (qK : List Nat) (nK : Nat)
    (h : (PROFILE_Find_key key qK nK true false).1 = key) :
    PROFILE_Find_key key qK nK false false = PROFILE_Find_key key qK nK true false := by
  unfold PROFILE_Find_key at h ⊢
  simp only [Bool.false_eq_true, if_false] at h ⊢
  cases hf : key.findIdx? (fun k => PROFILE_Find_match k.name qK nK) with
  | some j => rfl
  | none =>
    rw [hf] at h
    simp only [Bool.not_true, Bool.false_eq_true, if_false] at h
    have := congrArg List.length h
    simp at this

theorem Find_loop_found (qS qK : List Nat) (nS nK : Nat) :
    ∀ d : List PROFILESECTION, (PROFILE_Find_loop qS nS qK nK true false d).1 = d →
      PROFILE_Find_loop qS nS qK nK false false d =
        PROFILE_Find_loop qS nS qK nK true false d := by
  intro d
  induction d with
  | nil =>
    intro h
    simp [PROFILE_Find_loop] at h
  | cons s rest ih =>
    intro h
    rw [PROFILE_Find_loop] at h
    rw [PROFILE_Find_loop, PROFILE_Find_loop]
    split
    · rename_i ht
      rw [if_pos ht] at h
      simp only [List.cons.injEq, and_true] at h
      have hk : (PROFILE_Find_key s.key qK nK true false).1 = s.key := by
        have := congrArg PROFILESECTION.key h
        exact this
      rw [Find_key_found s.key qK nK hk]
    · rename_i ht
      rw [if_neg ht] at h
      simp only [List.cons.injEq, true_and] at h
      rw [ih h]

theorem Find_found (d : List PROFILESECTION) (S K : List Nat) (pos : Nat × Nat)
    (h : PROFILE_Find d S K true false = (d, some pos)) :
    PROFILE_Find d S K false false = (d, some pos) := by
  unfold PROFILE_Find at h ⊢
  rw [Find_loop_found _ _ _ _ d (by rw [h]), h]

theorem headD_of_dropWhile (K : List Nat) (h : (K.dropWhile PROFILE_isspace).headD 0 ≠ 0) :
    K.headD 0 ≠ 0 := by
  cases K with
  | nil => exact absurd rfl h
  | cons a t =>
    simp only [List.headD_cons]
    intro e
    rw [e] at h
    have : PROFILE_isspace 0 = false := by decide
    simp [List.dropWhile_cons, this] at h

/-- After `PROFILE_SetString(S, K, V, FALSE)` with names that do not end in whitespace, the
lookup of `K` in `S` yields `V`. -/
theorem SetString_then_get (getenv : List Nat → Option (List Nat)) (cur : PROFILE)
    (S K V d buffer : List Nat) (len : Nat)
    (hS0 : (S.dropWhile PROFILE_isspace).headD 0 ≠ 0) (hS : noTrailingSpace S = true)
    (hK0 : (K.dropWhile PROFILE_isspace).headD 0 ≠ 0) (hK : noTrailingSpace K = true)
    (hV : noLeadingSpace V = true) (hV0 : 0 ∉ V) (hq : isQuoteWrapped V = false)
    (hlen : V.length < len) :
    (PROFILE_GetString getenv (PROFILE_SetString cur S (some K) (some V) false).1 (some S)
      (some K) (some d) buffer len).map (fun r => (r.1, cstr r.2)) = some (V.length, V) := by
  obtain ⟨pos, k, hF, hk, hv⟩ := SetString_first cur S K V hS0 hS hK hV
  have hF' := Find_found _ S K pos hF
  have hc : cstr (PROFILE_CopyEntry getenv buffer V len false) = V := by
    rw [ CopyEntry_prefix getenv buffer V len hV0 (by omega) (fun h => by rw [h.1] at hq; cases hq)]
    rw [stripQuotes, if_neg (by rw [hq]; simp)]
    exact List.take_of_length_le (by omega)
  have hs : strlen (PROFILE_CopyEntry getenv buffer V len false) = V.length := by
    have : strlen (PROFILE_CopyEntry getenv buffer V len false) =
        (cstr (PROFILE_CopyEntry getenv buffer V len false)).length := rfl
    rw [this, hc]
  simp only [PROFILE_GetString, if_neg (headD_of_dropWhile K hK0), hF', Option.some_bind, hk, hv,
    Option.getD_some, Option.map_some', hs, hc]

theorem strip_loop_zero (def_val : List Nat) :
    ∀ n, def_val.getD (PROFILE_GetPrivateProfileString_loop def_val n) 0 = 32 →
      PROFILE_GetPrivateProfileString_loop def_val n = 0 := by
  intro n
  induction n with
  | zero => intro _; rfl
  | succ n ih =>
    intro h
    rw [PROFILE_GetPrivateProfileString_loop] at h ⊢
    split
    · rename_i hne
      rw [if_pos hne] at h
      exact absurd h hne
    · rename_i hne
      rw [if_neg hne] at h
      exact ih h

theorem strip_loop_nonblank (def_val : List Nat) :
    ∀ n, (∃ i, i < n ∧ def_val.getD i 0 ≠ 32) →
      def_val.getD (PROFILE_GetPrivateProfileString_loop def_val n) 0 ≠ 32 := by
  intro n
  induction n with
  | zero => rintro ⟨i, hi, _⟩; omega
  | succ n ih =>
    rintro ⟨i, hi, hne⟩
    rw [PROFILE_GetPrivateProfileString_loop]
    split
    · assumption
    · rename_i h32
      apply ih
      refine ⟨i, ?_, hne⟩
      rcases Nat.lt_or_ge i n with h | h
      · exact h
      · have : i = n := by omega
        rw [this] at hne
        exact absurd hne h32

/-- The default is cut only when it consists of spaces alone: a default that holds
another character is passed on as it is, trailing spaces included. -/
theorem pDefVal_nonblank (d : List Nat) (h : ∃ c ∈ d, c ≠ 32) :
    PROFILE_GetPrivateProfileString_pDefVal (some d) = some d := by
  obtain ⟨c, hc, hne⟩ := h
  obtain ⟨i, hi, he⟩ := List.getElem_of_mem hc
  have hn := strip_loop_nonblank d d.length ⟨i, hi, by
    rw [List.getD_eq_getElem?_getD, List.getElem?_eq_getElem hi]
    simpa [he] using hne⟩
  simp only [PROFILE_GetPrivateProfileString_pDefVal]
  rw [if_neg hn]

theorem pDefVal_cases (d : List Nat) :
    PROFILE_GetPrivateProfileString_pDefVal (some d) = some d ∨
    PROFILE_GetPrivateProfileString_pDefVal (some d) = some [] := by
  simp only [PROFILE_GetPrivateProfileString_pDefVal]
  split
  · rename_i h
    right
    rw [strip_loop_zero d d.length h]
    rfl
  · left; rfl

/-! ### Dirty slots of the cache: lemmas -/

theorem FlushFile_named_clean (h : Host) (cur : PROFILE) (rest : List PROFILE) (fs : FileSystem)
    (r : State × Bool) (hw : ∀ p, fs.writable p = true)
    (hr : PROFILE_FlushFile h ⟨cur :: rest, fs⟩ = some r) :
    ∀ p ∈ r.1.MRUProfile.head?, p.dos_name ≠ none → p.changed = false := by
  by_cases hc : cur.changed = false ∨ cur.dos_name = none
  · rw [FlushFile_clean h cur rest fs hc] at hr
    cases hr
    intro p hp hn
    simp only [List.head?_cons, Option.mem_def, Option.some.injEq] at hp
    subst hp
    rcases hc with hc | hc
    · exact hc
    · exact absurd hc hn
  · have hch : cur.changed = true := by
      cases hx : cur.changed with
      | true => rfl
      | false => exact absurd (Or.inl hx) hc
    obtain ⟨d, hd⟩ : ∃ d, cur.dos_name = some d := by
      cases hx : cur.dos_name with
      | none => exact absurd (Or.inr hx) hc
      | some d => exact ⟨d, rfl⟩
    cases hun : cur.unix_name with
    | some u =>
      rw [FlushFile_write h cur rest fs d u hch hd (Or.inl ⟨hun, hw u⟩)] at hr
      cases hr
      intro p hp _
      simp only [List.head?_cons, Option.mem_def, Option.some.injEq] at hp
      subst hp
      rfl
    | none =>
      have hu' : ∀ u, cur.unix_name = some u → fs.writable u = false := by
        intro u hu1
        rw [hun] at hu1
        cases hu1
      cases hcp : configPath h d with
      | none =>
        exfalso
        simp only [PROFILE_FlushFile, hd, hch, Bool.not_true, Bool.false_eq_true, if_false] at hr
        simp [hun, hcp] at hr
      | some buffer =>
        rw [FlushFile_write h cur rest fs d buffer hch hd (Or.inr ⟨hu', hcp, hw buffer⟩)] at hr
        cases hr
        intro p hp _
        simp only [List.head?_cons, Option.mem_def, Option.some.injEq] at hp
        subst hp
        rfl

theorem FlushFile_all_named_clean (h : Host) (st : State) (r : State × Bool)
    (hw : ∀ p, st.fs.writable p = true)
    (ht : ∀ p ∈ st.MRUProfile.tail, p.dos_name ≠ none → p.changed = false)
    (hr : PROFILE_FlushFile h st = some r) :
    (∀ p, r.1.fs.writable p = true) ∧
      ∀ p ∈ r.1.MRUProfile, p.dos_name ≠ none → p.changed = false := by
  obtain ⟨mru, fs⟩ := st
  cases mru with
  | nil =>
    rw [FlushFile_nil] at hr
    cases hr
    exact ⟨hw, fun p hp => absurd hp (List.not_mem_nil p)⟩
  | cons cur rest =>
    obtain ⟨cur', hmru, _, _, _, _, hwr, _⟩ := FlushFile_shape h cur rest fs r hr
    have hhead := FlushFile_named_clean h cur rest fs r hw hr
    rw [hmru] at hhead ⊢
    refine ⟨fun p => by rw [hwr]; exact hw p, fun p hp => ?_⟩
    rcases List.mem_cons.1 hp with e | e
    · exact hhead p (by rw [e]; rfl)
    · exact ht p e

theorem FlushFile_unnamed_clean (h : Host) (st : State) (r : State × Bool)
    (hu : ∀ p ∈ st.MRUProfile, p.dos_name = none → p.changed = false)
    (hr : PROFILE_FlushFile h st = some r) :
    ∀ p ∈ r.1.MRUProfile, p.dos_name = none → p.changed = false := by
  obtain ⟨mru, fs⟩ := st
  cases mru with
  | nil =>
    rw [FlushFile_nil] at hr
    cases hr
    exact hu
  | cons cur rest =>
    obtain ⟨cur', hmru, _, _, hdn, _, _, hsame⟩ := FlushFile_shape h cur rest fs r hr
    rw [hmru]
    intro p hp hn
    rcases List.mem_cons.1 hp with e | e
    · subst e
      have hc : cur.changed = false := hu cur (List.mem_cons_self _ _) (by rw [← hdn]; exact hn)
      rw [(hsame hc).1]
      exact hc
    · exact hu p (List.mem_cons_of_mem _ e) hn

theorem promote_mem (l : List PROFILE) (i : Nat) : ∀ p ∈ promote l i, p ∈ l :=
  fun _ hp => (promote_perm l i).subset hp

theorem Open_miss_result_mem (h : Host) (filename : List Nat) (full_name : DOS_FULL_NAME)
    (st : State) (res : State × Bool)
    (hres : PROFILE_Open_miss h filename full_name st = some res) :
    ∃ r cur0 buffer fs', PROFILE_FlushFile h st = some r ∧
      res.1 = ⟨PROFILE_Open_assign filename full_name buffer fs' cur0 ::
        (promote r.1.MRUProfile (N_CACHED_PROFILES - 1)).tail, fs'⟩ ∧
      (cur0 = emptyProfile ∨ cur0 ∈ r.1.MRUProfile) ∧ fs'.writable = r.1.fs.writable := by
  unfold PROFILE_Open_miss at hres
  cases hf : PROFILE_FlushFile h st with
  | none => rw [hf] at hres; cases hres
  | some r =>
    obtain ⟨st1, b⟩ := r
    rw [hf] at hres
    simp only at hres
    cases hp : promote st1.MRUProfile (N_CACHED_PROFILES - 1) with
    | nil => rw [hp] at hres; cases hres
    | cons cur tl =>
      rw [hp] at hres
      simp only at hres
      cases hcp : configPath h full_name.short_name with
      | none =>
        rw [hcp] at hres
        exfalso
        split at hres
        · cases hres
        · split at hres <;> cases hres
      | some buffer =>
        rw [hcp] at hres
        by_cases hfn : cur.filename ≠ none
        · rw [if_pos hfn] at hres
          cases hrel : PROFILE_ReleaseFile h ⟨cur :: tl, st1.fs⟩ with
          | none => rw [hrel] at hres; cases hres
          | some st3 =>
            obtain ⟨r2, hf2, hst3⟩ := ReleaseFile_result h cur tl st1.fs st3 hrel
            obtain ⟨_, _, _, _, _, _, hwr, _⟩ := FlushFile_shape h cur tl st1.fs r2 hf2
            rw [hrel, hst3] at hres
            simp only [Option.some.injEq] at hres
            refine ⟨_, emptyProfile, buffer, r2.1.fs, rfl, ?_, Or.inl rfl, hwr⟩
            rw [hp, ← hres]
            rfl
        · rw [if_neg hfn] at hres
          simp only [Option.some.injEq] at hres
          refine ⟨_, cur, buffer, st1.fs, rfl, ?_, Or.inr ?_, rfl⟩
          · rw [hp, ← hres]
            rfl
          · exact promote_mem st1.MRUProfile (N_CACHED_PROFILES - 1) cur
              (by rw [hp]; exact List.mem_cons_self _ _)

theorem Open_cases (h : Host) (filename : List Nat) (st : State) (res : State × Bool)
    (hres : PROFILE_Open h filename st = some res) :
    ∃ st0 : State, st0.fs = st.fs ∧
      (st0.MRUProfile = st.MRUProfile ∨
        st0.MRUProfile = List.replicate N_CACHED_PROFILES emptyProfile) ∧
      (res.1 = st0 ∨
       (∃ r i, PROFILE_FlushFile h st0 = some r ∧ res.1 = ⟨promote r.1.MRUProfile i, r.1.fs⟩) ∨
       (∃ full_name r cur0 buffer fs', PROFILE_FlushFile h st0 = some r ∧
          res.1 = ⟨PROFILE_Open_assign filename full_name buffer fs' cur0 ::
            (promote r.1.MRUProfile (N_CACHED_PROFILES - 1)).tail, fs'⟩ ∧
          (cur0 = emptyProfile ∨ cur0 ∈ r.1.MRUProfile) ∧
          fs'.writable = r.1.fs.writable)) := by
  unfold PROFILE_Open at hres
  have hst' : (if st.MRUProfile = [] then
      ({ st with MRUProfile := List.replicate N_CACHED_PROFILES emptyProfile } : State)
      else st).fs = st.fs ∧
      ((if st.MRUProfile = [] then
      ({ st with MRUProfile := List.replicate N_CACHED_PROFILES emptyProfile } : State)
      else st).MRUProfile = st.MRUProfile ∨
      (if st.MRUProfile = [] then
      ({ st with MRUProfile := List.replicate N_CACHED_PROFILES emptyProfile } : State)
      else st).MRUProfile = List.replicate N_CACHED_PROFILES emptyProfile) := by
    split
    · exact ⟨rfl, Or.inr rfl⟩
    · exact ⟨rfl, Or.inl rfl⟩
  generalize (if st.MRUProfile = [] then
      ({ st with MRUProfile := List.replicate N_CACHED_PROFILES emptyProfile } : State)
      else st) = st' at hres hst'
  refine ⟨st', hst'.1, hst'.2, ?_⟩
  simp only at hres
  split at hres
  · cases hres; exact Or.inl rfl
  · rename_i full_name _
    split at hres
    · rename_i i hhit
      split at hres
      · split at hres
        · cases hres
        · rename_i st1 b hf
          cases hres
          exact Or.inr (Or.inl ⟨_, i, hf, rfl⟩)
      · cases hres; exact Or.inl rfl
    · obtain ⟨r, cur0, buffer, fs', hf, e, hc, hw⟩ :=
        Open_miss_result_mem h filename full_name st' res hres
      exact Or.inr (Or.inr ⟨full_name, r, cur0, buffer, fs', hf, e, hc, hw⟩)

theorem exec_named_clean (h : Host) (c : Call) (st st' : State)
    (hex : exec h c st = some st') (hw : ∀ p, st.fs.writable p = true)
    (ht : ∀ p ∈ st.MRUProfile.tail, p.dos_name ≠ none → p.changed = false) :
    (∀ p, st'.fs.writable p = true) ∧
      ∀ p ∈ st'.MRUProfile.tail, p.dos_name ≠ none → p.changed = false := by
  cases c with
  | Open filename =>
    simp only [exec, Option.map_eq_some'] at hex
    obtain ⟨res, hres, e⟩ := hex
    subst e
    obtain ⟨st0, hfs, hmru, hcase⟩ := Open_cases h filename st res hres
    have hw0 : ∀ p, st0.fs.writable p = true := by rw [hfs]; exact hw
    have ht0 : ∀ p ∈ st0.MRUProfile.tail, p.dos_name ≠ none → p.changed = false := by
      rcases hmru with e | e
      · rw [e]; exact ht
      · rw [e]
        intro p hp hn
        have hp' := List.eq_of_mem_replicate (List.mem_of_mem_tail hp)
        rw [hp']
        rfl
    rcases hcase with e | ⟨r, i, hf, e⟩ | ⟨full_name, r, cur0, buffer, fs', hf, e, _, hwr⟩
    · rw [e]; exact ⟨hw0, ht0⟩
    · obtain ⟨hw1, hall⟩ := FlushFile_all_named_clean h st0 r hw0 ht0 hf
      rw [e]
      exact ⟨hw1, fun p hp => hall p ((promote_tail_sublist _ _).subset hp)⟩
    · obtain ⟨hw1, hall⟩ := FlushFile_all_named_clean h st0 r hw0 ht0 hf
      rw [e]
      refine ⟨fun p => by rw [hwr]; exact hw1 p, fun p hp => ?_⟩
      exact hall p ((promote_tail_sublist _ _).subset hp)
  | SetString section_name key_name value create_always =>
    obtain ⟨mru, fs⟩ := st
    cases mru with
    | nil => simp [exec] at hex
    | cons cur rest =>
      simp only [exec, Option.some.injEq] at hex
      rw [← hex]
      exact ⟨hw, ht⟩
  | DeleteAllKeys section_name =>
    obtain ⟨mru, fs⟩ := st
    cases mru with
    | nil => simp [exec] at hex
    | cons cur rest =>
      simp only [exec, Option.some.injEq] at hex
      rw [← hex]
      exact ⟨hw, ht⟩
  | FlushFile =>
    simp only [exec, Option.map_eq_some'] at hex
    obtain ⟨res, hres, e⟩ := hex
    subst e
    obtain ⟨hw1, hall⟩ := FlushFile_all_named_clean h st res hw ht hres
    exact ⟨hw1, fun p hp => hall p (List.mem_of_mem_tail hp)⟩
  | ReleaseFile =>
    obtain ⟨mru, fs⟩ := st
    cases mru with
    | nil => simp [exec, PROFILE_ReleaseFile, PROFILE_FlushFile] at hex
    | cons cur rest =>
      simp only [exec] at hex
      obtain ⟨r, hf, e⟩ := ReleaseFile_result h cur rest fs st' hex
      obtain ⟨hw1, _⟩ := FlushFile_all_named_clean h ⟨cur :: rest, fs⟩ r hw ht hf
      rw [e]
      exact ⟨hw1, ht⟩

theorem exec_unnamed_clean (h : Host) (c : Call) (st st' : State)
    (hex : exec h c st = some st')
    (hed : isEdit c = true → ∀ cur ∈ st.MRUProfile.head?, cur.dos_name.isSome = true)
    (hu : ∀ p ∈ st.MRUProfile, p.dos_name = none → p.changed = false) :
    ∀ p ∈ st'.MRUProfile, p.dos_name = none → p.changed = false := by
  cases c with
  | Open filename =>
    simp only [exec, Option.map_eq_some'] at hex
    obtain ⟨res, hres, e⟩ := hex
    subst e
    obtain ⟨st0, hfs, hmru, hcase⟩ := Open_cases h filename st res hres
    have hu0 : ∀ p ∈ st0.MRUProfile, p.dos_name = none → p.changed = false := by
      rcases hmru with e | e
      · rw [e]; exact hu
      · rw [e]
        intro p hp _
        rw [List.eq_of_mem_replicate hp]
        rfl
    rcases hcase with e | ⟨r, i, hf, e⟩ | ⟨full_name, r, cur0, buffer, fs', hf, e, _, _⟩
    · rw [e]; exact hu0
    · have hall := FlushFile_unnamed_clean h st0 r hu0 hf
      rw [e]
      exact fun p hp => hall p (promote_mem _ _ p hp)
    · have hall := FlushFile_unnamed_clean h st0 r hu0 hf
      rw [e]
      intro p hp hn
      rcases List.mem_cons.1 hp with e1 | e1
      · rw [e1, (Open_assign_names filename full_name buffer fs' cur0).2.1] at hn
        cases hn
      · exact hall p ((promote_tail_sublist _ _).subset e1) hn
  | SetString section_name key_name value create_always =>
    obtain ⟨mru, fs⟩ := st
    cases mru with
    | nil => simp [exec] at hex
    | cons cur rest =>
      simp only [exec, Option.some.injEq] at hex
      rw [← hex]
      intro p hp hn
      rcases List.mem_cons.1 hp with e1 | e1
      · have hd := hed rfl cur rfl
        rw [e1, (SetString_names cur section_name key_name value create_always).2.1] at hn
        rw [hn] at hd
        cases hd
      · exact hu p (List.mem_cons_of_mem _ e1) hn
  | DeleteAllKeys section_name =>
    obtain ⟨mru, fs⟩ := st
    cases mru with
    | nil => simp [exec] at hex
    | cons cur rest =>
      simp only [exec, Option.some.injEq] at hex
      rw [← hex]
      intro p hp hn
      rcases List.mem_cons.1 hp with e1 | e1
      · have hd := hed rfl cur rfl
        have hn' : cur.dos_name = none := by rw [e1] at hn; exact hn
        rw [hn'] at hd
        cases hd
      · exact hu p (List.mem_cons_of_mem _ e1) hn
  | FlushFile =>
    simp only [exec, Option.map_eq_some'] at hex
    obtain ⟨res, hres, e⟩ := hex
    subst e
    exact FlushFile_unnamed_clean h st res hu hres
  | ReleaseFile =>
    obtain ⟨mru, fs⟩ := st
    cases mru with
    | nil => simp [exec, PROFILE_ReleaseFile, PROFILE_FlushFile] at hex
    | cons cur rest =>
      simp only [exec] at hex
      obtain ⟨r, hf, e⟩ := ReleaseFile_result h cur rest fs st' hex
      rw [e]
      intro p hp hn
      rcases List.mem_cons.1 hp with e1 | e1
      · rw [e1]; rfl
      · exact hu p (List.mem_cons_of_mem _ e1) hn

theorem run_named_clean (h : Host) : ∀ (calls : List Call) (st st' : State),
    run h calls st = some st' → (∀ p, st.fs.writable p = true) →
    (∀ p ∈ st.MRUProfile.tail, p.dos_name ≠ none → p.changed = false) →
    ∀ p ∈ st'.MRUProfile.tail, p.dos_name ≠ none → p.changed = false := by
  intro calls
  induction calls with
  | nil =>
    intro st st' hr _ ht
    simp only [run, Option.some.injEq] at hr
    rw [← hr]
    exact ht
  | cons c rest ih =>
    intro st st' hr hw ht
    simp only [run] at hr
    cases hex : exec h c st with
    | none => rw [hex] at hr; cases hr
    | some st1 =>
      rw [hex] at hr
      obtain ⟨hw1, ht1⟩ := exec_named_clean h c st st1 hex hw ht
      exact ih st1 st' hr hw1 ht1

theorem run_unnamed_clean (h : Host) : ∀ (calls : List Call) (st st' : State),
    run h calls st = some st' → editsNamed h calls st = true →
    (∀ p ∈ st.MRUProfile, p.dos_name = none → p.changed = false) →
    ∀ p ∈ st'.MRUProfile, p.dos_name = none → p.changed = false := by
  intro calls
  induction calls with
  | nil =>
    intro st st' hr _ hu
    simp only [run, Option.some.injEq] at hr
    rw [← hr]
    exact hu
  | cons c rest ih =>
    intro st st' hr hed hu
    simp only [run] at hr
    cases hex : exec h c st with
    | none => rw [hex] at hr; cases hr
    | some st1 =>
      rw [hex] at hr
      simp only [editsNamed, hex, Bool.and_eq_true, Bool.or_eq_true, Bool.not_eq_true'] at hed
      refine ih st1 st' hr hed.2 (exec_unnamed_clean h c st st1 hex ?_ hu)
      intro hc cur hcur
      rcases hed.1 with e | e
      · rw [hc] at e; cases e
      · cases hm : st.MRUProfile with
        | nil => rw [hm] at hcur; cases hcur
        | cons x xs =>
          rw [hm] at hcur e
          simp only [List.head?_cons, Option.mem_def, Option.some.injEq] at hcur
          rw [← hcur]
          exact e

/-! ### Save and load, item by item: lemmas -/

theorem Save_items (d : List PROFILESECTION) :
    PROFILE_Save d = ((items d).map itemText).flatten := by
  induction d with
  | nil => rfl
  | cons sec rest ih =>
    simp only [PROFILE_Save, items, ih, Save_keys_eq, List.map_append, List.flatten_append,
      List.map_map]
    have e : (List.map (itemText ∘ Item.key) sec.key) = sec.key.map keyLine := by
      apply List.map_congr_left
      intro k _
      rfl
    rw [e]
    split <;> simp [itemText]

theorem fgets_read_full (rest : List Nat) : ∀ (pre : List Nat), 10 ∉ pre →
    fgets_read pre.length (pre ++ rest) = (pre, rest) := by
  intro pre
  induction pre with
  | nil => intro _; cases rest <;> rfl
  | cons c pre ih =>
    intro h10
    have hc : c ≠ 10 := fun h => h10 (by rw [h]; exact List.mem_cons_self _ _)
    have hb : 10 ∉ pre := fun h => h10 (List.mem_cons_of_mem _ h)
    rw [List.length_cons, List.cons_append, fgets_read, if_neg hc, ih hb]

theorem Load_loop_chunk (c rest : List Nat) (st : LoadState) (fuel : Nat) (hc : c ≠ [])
    (hr : fgets_read 1023 (c ++ rest) = (c, rest)) (h0 : 0 ∉ c)
    (hf : (c ++ rest).length ≤ fuel) :
    PROFILE_Load_loop fuel (c ++ rest) st =
      PROFILE_Load_loop rest.length rest (PROFILE_Load_line st c) := by
  cases fuel with
  | zero =>
    exfalso
    have : c ++ rest = [] := List.length_eq_zero.mp (by omega)
    exact hc (List.append_eq_nil.1 this).1
  | succ fuel =>
    have hne : c ++ rest ≠ [] := fun h => hc (List.append_eq_nil.1 h).1
    have hfg : fgets 1024 (c ++ rest) = some (c, rest) := by
      simp only [fgets, hne, if_false]
      rw [hr]
    rw [PROFILE_Load_loop, hfg]
    simp only
    rw [takeWhile_of_not_mem c h0]
    have hl : c.length ≠ 0 := fun h => hc (List.length_eq_zero.mp h)
    rw [List.length_append] at hf
    exact Load_loop_fuel fuel rest.length rest _ (by omega) (Nat.le_refl _)

theorem strrchr_append_pad (T ws : List Nat) (c : Nat) (hT : T ≠ []) (hws : c ∉ ws) :
    strrchr (T ++ ws) c = strrchr T c := by
  unfold strrchr
  by_cases hm : c ∈ T
  · have hm' : c ∈ T ++ ws := List.mem_append_left _ hm
    rw [if_pos hm, if_pos hm', List.reverse_append,
      List.indexOf_append_of_not_mem (fun h => hws (List.mem_reverse.1 h))]
    have hl : 0 < T.length := List.length_pos.2 hT
    simp only [List.length_append, List.length_reverse, Option.some.injEq]
    omega
  · have hm' : c ∉ T ++ ws := fun h => (List.mem_append.1 h).elim hm hws
    rw [if_neg hm, if_neg hm']

theorem Load_line_pad (st : LoadState) (T ws : List Nat) (hT : T ≠ [])
    (hl : noLeadingSpace T = true) (hws : ∀ c ∈ ws, PROFILE_isspace c = true) :
    PROFILE_Load_line st (T ++ ws) = PROFILE_Load_line st T := by
  have hd := dropWhile_of_head T hl ws hT
  have hd' := dropWhile_of_noLeadingSpace T hl
  have h93 : 93 ∉ ws := fun h => by
    have := hws 93 h
    revert this
    decide
  have hhead : (T ++ ws).headD 0 = T.headD 0 := by
    cases T with
    | nil => exact absurd rfl hT
    | cons a t => rfl
  have hkey : PROFILE_Load_key (T ++ ws) = PROFILE_Load_key T := by
    simp only [PROFILE_Load_key, isspace_line_eq, trimTail_append_pos T ws hT hws]
  simp only [PROFILE_Load_line, hd, hd', hhead, strrchr_append_pad T ws 93 hT h93, hkey]
  by_cases h91 : T.headD 0 = 91
  · simp only [h91, if_true]
    cases hs : strrchr T 93 with
    | none => rfl
    | some i =>
      have hi := strrchr_le T 93 i hs
      simp only
      rw [List.take_append_of_le_length (by omega)]
  · simp only [h91, if_false]

theorem Load_line_nl (st : LoadState) : PROFILE_Load_line st [10] = keyStep st blankKey := rfl

theorem Load_line_crnl (st : LoadState) : PROFILE_Load_line st [13, 10] = keyStep st blankKey :=
  rfl

theorem Load_line_key_pad (st : LoadState) (k : PROFILEKEY) (hk : KeyOK k)
    (hne : keyText k ≠ []) (ws : List Nat) (hws : ∀ c ∈ ws, PROFILE_isspace c = true) :
    PROFILE_Load_line st (keyText k ++ ws) = keyStep st k := by
  have hp := keyText_props k hk
  rw [Load_line_pad st _ ws hne hp.1 hws,
    ← Load_line_pad st _ [13, 10] hne hp.1 (by decide), ← keyLine_eq,
    Load_line_keyLine st k hk]
  rfl

theorem Load_line_hdr_pad (st : LoadState) (name ws : List Nat)
    (hws : ∀ c ∈ ws, PROFILE_isspace c = true) :
    PROFILE_Load_line st (91 :: (name ++ [93]) ++ ws) = hdrStep st name := by
  rw [Load_line_pad st _ ws (by simp) (by rfl) hws,
    ← Load_line_pad st _ [13, 10] (by simp) (by rfl) (by decide)]
  have e : 91 :: (name ++ [93]) ++ [13, 10] = 91 :: (name ++ [93, 13, 10]) := by simp
  rw [e, Load_line_header]
  rfl

theorem Load_item_key (st : LoadState) (k : PROFILEKEY) (rest : List Nat) (fuel : Nat)
    (hk : KeyOK k) (hlen : (keyText k).length ≤ 1023)
    (hf : (keyLine k ++ rest).length ≤ fuel) :
    PROFILE_Load_loop fuel (keyLine k ++ rest) st =
      PROFILE_Load_loop rest.length rest (itemStep st (Item.key k)) := by
  obtain ⟨h0, h10⟩ := keyText_not_mem k hk
  by_cases hshort : (keyText k).length ≤ 1021
  · have hr : fgets_read 1023 (keyLine k ++ rest) = (keyLine k, rest) := by
      have e : keyLine k ++ rest = (keyText k ++ [13]) ++ 10 :: rest := by
        rw [keyLine_eq]; simp
      have e2 : keyLine k = (keyText k ++ [13]) ++ [10] := by rw [keyLine_eq]; simp
      rw [e, e2]
      exact fgets_read_line _ rest (by simp [h10]) 1023 (by simp; omega)
    rw [Load_loop_chunk (keyLine k) rest st fuel (by rw [keyLine_eq]; simp) hr
      (by rw [keyLine_eq]; simp [h0]) hf, Load_line_keyLine st k hk]
    simp only [itemStep, if_neg (show ¬ 1022 ≤ (keyText k).length by omega)]
    rfl
  · have hne : keyText k ≠ [] := fun h => by rw [h] at hshort; simp at hshort
    simp only [itemStep, if_pos (show 1022 ≤ (keyText k).length by omega)]
    by_cases h22 : (keyText k).length = 1022
    · have e : keyLine k ++ rest = (keyText k ++ [13]) ++ ([10] ++ rest) := by
        rw [keyLine_eq]; simp
      have hr : fgets_read 1023 ((keyText k ++ [13]) ++ ([10] ++ rest)) =
          (keyText k ++ [13], [10] ++ rest) := by
        have := fgets_read_full ([10] ++ rest) (keyText k ++ [13]) (by simp [h10])
        rw [List.length_append, h22] at this
        exact this
      rw [e] at hf ⊢
      rw [Load_loop_chunk _ _ st fuel (by simp) hr (by simp [h0]) hf,
        Load_loop_chunk [10] rest _ _ (by simp) (fgets_read_line [] rest (by simp) 1023 (by simp))
          (by simp) (Nat.le_refl _),
        Load_line_key_pad st k hk hne [13] (by decide), Load_line_nl]
    · have h23 : (keyText k).length = 1023 := by omega
      have e : keyLine k ++ rest = keyText k ++ ([13, 10] ++ rest) := by
        rw [keyLine_eq]; simp
      have hr : fgets_read 1023 (keyText k ++ ([13, 10] ++ rest)) =
          (keyText k, [13, 10] ++ rest) := by
        have := fgets_read_full ([13, 10] ++ rest) (keyText k) h10
        rw [h23] at this
        exact this
      have hr2 : fgets_read 1023 ([13, 10] ++ rest) = ([13, 10], rest) :=
        fgets_read_line [13] rest (by simp) 1023 (by simp)
      rw [e] at hf ⊢
      have hpad := Load_line_key_pad st k hk hne [] (by simp)
      rw [List.append_nil] at hpad
      rw [Load_loop_chunk _ _ st fuel hne hr h0 hf,
        Load_loop_chunk [13, 10] rest _ _ (by simp) hr2 (by simp) (Nat.le_refl _),
        hpad, Load_line_crnl]

theorem Load_item_hdr (st : LoadState) (name rest : List Nat) (fuel : Nat)
    (h0 : 0 ∉ name) (h10 : 10 ∉ name) (hlen : name.length ≤ 1021)
    (hf : ([13, 10, 91] ++ name ++ [93, 13, 10] ++ rest).length ≤ fuel) :
    PROFILE_Load_loop fuel ([13, 10, 91] ++ name ++ [93, 13, 10] ++ rest) st =
      PROFILE_Load_loop rest.length rest (itemStep st (Item.hdr name)) := by
  have e0 : [13, 10, 91] ++ name ++ [93, 13, 10] ++ rest =
      [13, 10] ++ (91 :: (name ++ [93]) ++ ([13, 10] ++ rest)) := by simp
  have hr0 : ∀ r, fgets_read 1023 ([13, 10] ++ r) = ([13, 10], r) :=
    fun r => fgets_read_line [13] r (by simp) 1023 (by simp)
  have hH0 : 0 ∉ 91 :: (name ++ [93]) := by simp [h0]
  have hH10 : 10 ∉ 91 :: (name ++ [93]) := by simp [h10]
  rw [e0] at hf ⊢
  rw [Load_loop_chunk [13, 10] _ st fuel (by simp) (hr0 _) (by simp) hf, Load_line_crnl]
  have hstep : itemStep st (Item.hdr name) =
      if 1020 ≤ name.length then keyStep (hdrStep (keyStep st blankKey) name) blankKey
      else hdrStep (keyStep st blankKey) name := rfl
  rw [hstep]
  generalize keyStep st blankKey = s1
  by_cases hshort : name.length ≤ 1019
  · have e : 91 :: (name ++ [93]) ++ ([13, 10] ++ rest) =
        (91 :: (name ++ [93]) ++ [13]) ++ 10 :: rest := by simp
    have hr : fgets_read 1023 ((91 :: (name ++ [93]) ++ [13]) ++ 10 :: rest) =
        ((91 :: (name ++ [93]) ++ [13]) ++ [10], rest) :=
      fgets_read_line _ rest (by simp [h10]) 1023 (by simp; omega)
    have e2 : (91 :: (name ++ [93]) ++ [13]) ++ 10 :: rest =
        ((91 :: (name ++ [93]) ++ [13]) ++ [10]) ++ rest := by simp
    rw [e2] at hr
    rw [e, e2, Load_loop_chunk _ rest s1 _ (by simp) hr (by simp [h0]) (Nat.le_refl _)]
    have e3 : (91 :: (name ++ [93]) ++ [13]) ++ [10] = 91 :: (name ++ [93]) ++ [13, 10] := by
      simp
    rw [e3, Load_line_hdr_pad s1 name [13, 10] (by decide)]
    rw [if_neg (show ¬ 1020 ≤ name.length by omega)]
  · rw [if_pos (show 1020 ≤ name.length by omega)]
    by_cases h20 : name.length = 1020
    · have e : 91 :: (name ++ [93]) ++ ([13, 10] ++ rest) =
          (91 :: (name ++ [93]) ++ [13]) ++ ([10] ++ rest) := by simp
      have hr : fgets_read 1023 ((91 :: (name ++ [93]) ++ [13]) ++ ([10] ++ rest)) =
          (91 :: (name ++ [93]) ++ [13], [10] ++ rest) := by
        have := fgets_read_full ([10] ++ rest) (91 :: (name ++ [93]) ++ [13]) (by simp [h10])
        have hl : (91 :: (name ++ [93]) ++ [13]).length = 1023 := by simp; omega
        rw [hl] at this
        exact this
      rw [e, Load_loop_chunk _ _ s1 _ (by simp) hr (by simp [h0]) (Nat.le_refl _),
        Load_loop_chunk [10] rest _ _ (by simp) (fgets_read_line [] rest (by simp) 1023 (by simp))
          (by simp) (Nat.le_refl _),
        Load_line_hdr_pad s1 name [13] (by decide), Load_line_nl]
    · have h21 : name.length = 1021 := by omega
      have hr : fgets_read 1023 (91 :: (name ++ [93]) ++ ([13, 10] ++ rest)) =
          (91 :: (name ++ [93]), [13, 10] ++ rest) := by
        have := fgets_read_full ([13, 10] ++ rest) (91 :: (name ++ [93])) hH10
        have hl : (91 :: (name ++ [93])).length = 1023 := by simp; omega
        rw [hl] at this
        exact this
      have hpad := Load_line_hdr_pad s1 name [] (by simp)
      rw [List.append_nil] at hpad
      rw [Load_loop_chunk _ _ s1 _ (by simp) hr hH0 (Nat.le_refl _),
        Load_loop_chunk [13, 10] rest _ _ (by simp) (hr0 rest) (by simp) (Nat.le_refl _),
        hpad, Load_line_crnl]

theorem Load_items : ∀ (J : List Item) (rest : List Nat) (fuel : Nat) (st : LoadState),
    (∀ x ∈ J, ItemOK x) → ((J.map itemText).flatten ++ rest).length ≤ fuel →
    PROFILE_Load_loop fuel ((J.map itemText).flatten ++ rest) st =
      PROFILE_Load_loop rest.length rest (J.foldl itemStep st) := by
  intro J
  induction J with
  | nil =>
    intro rest fuel st _ hf
    simp only [List.map_nil, List.flatten_nil, List.nil_append, List.foldl_nil] at hf ⊢
    exact Load_loop_fuel fuel rest.length rest st hf (Nat.le_refl _)
  | cons x J ih =>
    intro rest fuel st hok hf
    have hx := hok x (List.mem_cons_self _ _)
    have hJ : ∀ y ∈ J, ItemOK y := fun y hy => hok y (List.mem_cons_of_mem _ hy)
    simp only [List.map_cons, List.flatten_cons, List.append_assoc, List.foldl_cons] at hf ⊢
    have hstep : PROFILE_Load_loop fuel (itemText x ++ ((J.map itemText).flatten ++ rest)) st =
        PROFILE_Load_loop ((J.map itemText).flatten ++ rest).length
          ((J.map itemText).flatten ++ rest) (itemStep st x) := by
      cases x with
      | key k => exact Load_item_key st k _ fuel hx.1 hx.2 hf
      | hdr name =>
        have := Load_item_hdr st name ((J.map itemText).flatten ++ rest) fuel hx.1 hx.2.1
          hx.2.2 (by simpa [itemText] using hf)
        simpa [itemText] using this
    rw [hstep]
    exact ih rest _ (itemStep st x) hJ (Nat.le_refl _)

theorem items_ok (d : List PROFILESECTION) (hok : ∀ s ∈ d, SecOK s)
    (hb : ∀ s ∈ d, SecBounded s) : ∀ x ∈ items d, ItemOK x := by
  induction d with
  | nil => intro x hx; cases hx
  | cons sec rest ih =>
    intro x hx
    have hs := hok sec (List.mem_cons_self _ _)
    have hsb := hb sec (List.mem_cons_self _ _)
    simp only [items, List.mem_append, List.mem_map] at hx
    rcases hx with (hx | ⟨k, hk, rfl⟩) | hx
    · split at hx
      · rw [List.mem_singleton.1 hx]
        exact ⟨hs.1, hs.2.1, hsb.1⟩
      · cases hx
    · exact ⟨hs.2.2.1 k hk, hsb.2 k hk⟩
    · exact ih (fun s h => hok s (List.mem_cons_of_mem _ h))
        (fun s h => hb s (List.mem_cons_of_mem _ h)) x hx

theorem Load_Save_items (d : List PROFILESECTION) (hok : ∀ s ∈ d, SecOK s)
    (hb : ∀ s ∈ d, SecBounded s) :
    PROFILE_Load (PROFILE_Save d) =
      ((items d).foldl itemStep loadInit).done ++ [((items d).foldl itemStep loadInit).cur] := by
  have h := Load_items (items d) [] (PROFILE_Save d).length loadInit (items_ok d hok hb)
    (by rw [List.append_nil, Save_items])
  rw [List.append_nil, ← Save_items, Load_loop_nil] at h
  simp only [PROFILE_Load]
  rw [show ({ done := [], cur := { name := [], key := [] }, prev_key := none } : LoadState) =
    loadInit from rfl, h]

theorem fgets_read_le : ∀ (k : Nat) (file : List Nat), (fgets_read k file).1.length ≤ k := by
  intro k
  induction k with
  | zero => intro file; simp [fgets_read]
  | succ k ih =>
    intro file
    cases file with
    | nil => simp [fgets_read]
    | cons c rest =>
      by_cases hc : c = 10
      · simp [fgets_read, hc]
      · simp only [fgets_read, hc, if_false, List.length_cons]
        have := ih rest
        omega

theorem keyText_Load_key_length (p : List Nat) :
    (keyText (PROFILE_Load_key p)).length ≤ p.length := by
  have hq : (trimTail (fun c => c == 10 || PROFILE_isspace c) p).length ≤ p.length :=
    (trimTail_sublist _ p).length_le
  unfold PROFILE_Load_key
  generalize trimTail (fun c => c == 10 || PROFILE_isspace c) p = q at hq
  cases hs : strchr q 61 with
  | none =>
    simp only [keyText, List.append_nil]
    exact hq
  | some i =>
    obtain ⟨hm, hi⟩ := strchr_some q 61 i hs
    have hlt : i < q.length := by rw [hi]; exact List.indexOf_lt_length.2 hm
    have h1 : (trimTail PROFILE_isspace (q.take i)).length ≤ i := by
      have := (trimTail_sublist PROFILE_isspace (q.take i)).length_le
      rw [List.length_take] at this
      omega
    have h2 : ((q.drop (i + 1)).dropWhile PROFILE_isspace).length ≤ q.length - (i + 1) := by
      have := (List.dropWhile_suffix PROFILE_isspace (l := q.drop (i + 1))).sublist.length_le
      rw [List.length_drop] at this
      exact this
    simp only [keyText, List.length_append, List.length_cons]
    omega

theorem Load_line_bound (st : LoadState) (b : List Nat) (hb : b.length ≤ 1023)
    (hdone : ∀ s ∈ st.done, SecBounded s) (hcur : SecBounded st.cur) :
    (∀ s ∈ (PROFILE_Load_line st b).done, SecBounded s) ∧
      SecBounded (PROFILE_Load_line st b).cur := by
  have hp : (b.dropWhile PROFILE_isspace).length ≤ 1023 :=
    Nat.le_trans (List.dropWhile_suffix PROFILE_isspace (l := b)).sublist.length_le hb
  unfold PROFILE_Load_line
  generalize b.dropWhile PROFILE_isspace = p at hp
  split
  · rename_i i hi
    refine ⟨fun s hs => ?_, ?_, fun k hk => absurd hk (List.not_mem_nil k)⟩
    · simp only [List.mem_append, List.mem_singleton] at hs
      rcases hs with hs | rfl
      · exact hdone s hs
      · exact hcur
    · have hle : i ≤ p.length - 1 := by
        split at hi
        · exact strrchr_le p 93 i hi
        · cases hi
      simp only [List.length_drop, List.length_take]
      omega
  · split
    · refine ⟨hdone, hcur.1, fun k hk => ?_⟩
      simp only [List.mem_append, List.mem_singleton] at hk
      rcases hk with hk | rfl
      · exact hcur.2 k hk
      · exact Nat.le_trans (keyText_Load_key_length p) hp
    · exact ⟨hdone, hcur⟩

theorem Load_loop_bound : ∀ (fuel : Nat) (file : List Nat) (st : LoadState),
    (∀ s ∈ st.done, SecBounded s) → SecBounded st.cur →
    (∀ s ∈ (PROFILE_Load_loop fuel file st).done, SecBounded s) ∧
      SecBounded (PROFILE_Load_loop fuel file st).cur := by
  intro fuel
  induction fuel with
  | zero => intro file st h1 h2; exact ⟨h1, h2⟩
  | succ fuel ih =>
    intro file st h1 h2
    unfold PROFILE_Load_loop
    cases hf : fgets 1024 file with
    | none => exact ⟨h1, h2⟩
    | some r =>
      simp only
      have hr : r = fgets_read 1023 file := by
        unfold fgets at hf
        split at hf
        · simp at hf
        · exact (Option.some.inj hf).symm
      have hlen : (r.1.takeWhile (· ≠ 0)).length ≤ 1023 := by
        have h3 := (List.takeWhile_prefix (· ≠ 0) (l := r.1)).sublist.length_le
        have h4 := fgets_read_le 1023 file
        rw [← hr] at h4
        omega
      obtain ⟨h5, h6⟩ := Load_line_bound st _ hlen h1 h2
      exact ih r.2 _ h5 h6

theorem Load_bound (t : List Nat) : ∀ s ∈ PROFILE_Load t, SecBounded s := by
  obtain ⟨h1, h2⟩ := Load_loop_bound t.length t
    { done := [], cur := { name := [], key := [] }, prev_key := none }
    (fun s hs => absurd hs (List.not_mem_nil s))
    ⟨by simp, fun k hk => absurd hk (List.not_mem_nil k)⟩
  intro s hs
  simp only [PROFILE_Load, List.mem_append, List.mem_singleton] at hs
  rcases hs with hs | rfl
  · exact h1 s hs
  · exact h2

theorem Load_SecOK (t : List Nat) : ∀ s ∈ PROFILE_Load t, SecOK s := by
  obtain ⟨s0, rest, e, _, hs0, hrest⟩ := Load_ok t
  rw [e]
  intro s hs
  rcases List.mem_cons.1 hs with rfl | h
  · exact hs0
  · exact hrest s h

theorem keyStep_eq (st : LoadState) (k : PROFILEKEY) :
    keyStep st k = if emptyNamed k && blocked st.prev_key then st else place st (Item.key k) := by
  unfold keyStep PROFILE_Load_keep blocked emptyNamed place
  cases hp : st.prev_key with
  | none => simp
  | some a =>
    simp only [bne]
    rcases Bool.eq_false_or_eq_true (k.name.headD 0 == 0) with h1 | h1 <;>
      rcases Bool.eq_false_or_eq_true (a.name.headD 0 == 0) with h2 | h2 <;>
      simp only [h1, h2] <;> rfl

theorem keyStep_blocked (st : LoadState) (k : PROFILEKEY) :
    blocked (keyStep st k).prev_key = emptyNamed k := by
  rw [keyStep_eq]
  by_cases h : (emptyNamed k && blocked st.prev_key) = true
  · rw [if_pos h]
    simp only [Bool.and_eq_true] at h
    rw [h.2, h.1]
  · rw [if_neg h]
    rfl

theorem itemStep_place (st : LoadState) (x : Item) :
    itemStep st x = (storedOf (blocked st.prev_key) x).foldl place st := by
  have hb : emptyNamed blankKey = true := rfl
  cases x with
  | key k =>
    have h2 := keyStep_blocked st k
    by_cases hl : 1022 ≤ (keyText k).length
    · simp only [itemStep, if_pos hl, storedOf, hl, decide_True, Bool.true_and]
      rw [keyStep_eq (keyStep st k) blankKey, h2, hb, keyStep_eq st k]
      cases h1 : emptyNamed k <;> cases h3 : blocked st.prev_key <;> simp
    · simp only [itemStep, if_neg hl, storedOf, hl, decide_False, Bool.false_and]
      rw [keyStep_eq st k]
      cases h1 : emptyNamed k <;> cases h3 : blocked st.prev_key <;> simp
  | hdr name =>
    have h4 : blocked (hdrStep (keyStep st blankKey) name).prev_key = false := rfl
    by_cases hl : 1020 ≤ name.length
    · simp only [itemStep, if_pos hl, storedOf]
      rw [keyStep_eq (hdrStep (keyStep st blankKey) name) blankKey, h4, keyStep_eq st blankKey,
        hb]
      cases h3 : blocked st.prev_key <;> simp [place]
    · simp only [itemStep, if_neg hl, storedOf]
      rw [keyStep_eq st blankKey, hb]
      cases h3 : blocked st.prev_key <;> simp [place]

theorem itemStep_blocked (st : LoadState) (x : Item) :
    blocked (itemStep st x).prev_key = blockedAfter x := by
  have hb : emptyNamed blankKey = true := rfl
  cases x with
  | key k =>
    by_cases hl : 1022 ≤ (keyText k).length
    · simp only [itemStep, if_pos hl, blockedAfter, keyStep_blocked, hb, hl, decide_True,
        Bool.or_true, if_true]
    · simp only [itemStep, if_neg hl, blockedAfter, keyStep_blocked, hl, decide_False,
        Bool.or_false, if_false]
  | hdr name =>
    by_cases hl : 1020 ≤ name.length
    · simp only [itemStep, if_pos hl, blockedAfter, keyStep_blocked, hb, hl, decide_True,
        if_true]
    · simp only [itemStep, if_neg hl, blockedAfter, hl, decide_False, if_false]
      rfl

theorem fold_itemStep : ∀ (J : List Item) (st : LoadState),
    J.foldl itemStep st = (stored (blocked st.prev_key) J).foldl place st := by
  intro J
  induction J with
  | nil => intro st; rfl
  | cons x J ih =>
    intro st
    rw [List.foldl_cons, ih (itemStep st x), itemStep_blocked, stored, List.foldl_append,
      ← itemStep_place]

theorem items_append (a b : List PROFILESECTION) : items (a ++ b) = items a ++ items b := by
  induction a with
  | nil => rfl
  | cons s a ih =>
    rw [List.cons_append]
    simp only [items, ih, List.append_assoc]

theorem items_place (st : LoadState) (x : Item) (hx : hdrNamed x) :
    items ((place st x).done ++ [(place st x).cur]) = items (st.done ++ [st.cur]) ++ [x] := by
  cases x with
  | key k =>
    simp only [place, items_append, items, List.map_append, List.map_cons, List.map_nil,
      List.append_nil, List.append_assoc]
  | hdr name =>
    have hn : name.headD 0 ≠ 0 := hx
    simp only [place, hdrStep, items_append, items, List.map_nil, List.append_nil, hn, ne_eq,
      not_false_eq_true, if_true, List.append_assoc]

theorem items_fold_place : ∀ (K : List Item) (st : LoadState), (∀ x ∈ K, hdrNamed x) →
    items ((K.foldl place st).done ++ [(K.foldl place st).cur]) =
      items (st.done ++ [st.cur]) ++ K := by
  intro K
  induction K with
  | nil => intro st _; simp
  | cons x K ih =>
    intro st h
    rw [List.foldl_cons, ih (place st x) (fun y hy => h y (List.mem_cons_of_mem _ hy)),
      items_place st x (h x (List.mem_cons_self _ _)), List.append_assoc]
    rfl

theorem items_hdrNamed (d : List PROFILESECTION) : ∀ x ∈ items d, hdrNamed x := by
  induction d with
  | nil => intro x hx; cases hx
  | cons sec rest ih =>
    intro x hx
    simp only [items, List.mem_append, List.mem_map] at hx
    rcases hx with (hx | ⟨k, _, rfl⟩) | hx
    · split at hx
      · rename_i hn
        rw [List.mem_singleton.1 hx]
        exact hn
      · cases hx
    · trivial
    · exact ih x hx

theorem stored_hdrNamed : ∀ (J : List Item) (e : Bool), (∀ x ∈ J, hdrNamed x) →
    ∀ x ∈ stored e J, hdrNamed x := by
  intro J
  induction J with
  | nil => intro e _ x hx; cases hx
  | cons y J ih =>
    intro e h x hx
    simp only [stored, List.mem_append] at hx
    rcases hx with hx | hx
    · have hy := h y (List.mem_cons_self _ _)
      cases y with
      | key k =>
        simp only [storedOf, List.mem_append] at hx
        rcases hx with hx | hx
        · split at hx
          · cases hx
          · rw [List.mem_singleton.1 hx]; trivial
        · split at hx
          · rw [List.mem_singleton.1 hx]; trivial
          · cases hx
      | hdr name =>
        simp only [storedOf, List.mem_append, List.mem_singleton] at hx
        rcases hx with (hx | hx) | hx
        · split at hx
          · cases hx
          · rw [List.mem_singleton.1 hx]; trivial
        · rw [hx]; exact hy
        · split at hx
          · rw [List.mem_singleton.1 hx]; trivial
          · cases hx
    · exact ih _ (fun z hz => h z (List.mem_cons_of_mem _ hz)) x hx

theorem stored_idem : ∀ (J : List Item) (e : Bool), stored e (stored e J) = stored e J := by
  have hb : emptyNamed blankKey = true := rfl
  have ht : (keyText blankKey).length = 0 := rfl
  intro J
  induction J with
  | nil => intro e; rfl
  | cons x J ih =>
    intro e
    cases x with
    | key k =>
      by_cases hl : 1022 ≤ (keyText k).length <;> cases he : emptyNamed k <;> cases e <;>
        simp [stored, storedOf, blockedAfter, he, hl, ih, hb, ht]
    | hdr name =>
      by_cases hl : 1020 ≤ name.length <;> cases e <;>
        simp [stored, storedOf, blockedAfter, hl, ih, hb, ht]

theorem Load_Save_stored (d : List PROFILESECTION) (hok : ∀ s ∈ d, SecOK s)
    (hb : ∀ s ∈ d, SecBounded s) :
    PROFILE_Load (PROFILE_Save d) =
      ((stored false (items d)).foldl place loadInit).done ++
        [((stored false (items d)).foldl place loadInit).cur] := by
  rw [Load_Save_items d hok hb, fold_itemStep]
  rfl

/-! ## The claims -/

/-- C1. Struct round trip: for every byte buffer `buf` (bytes below 256, the
empty buffer included) whose encoded text fits the `bufsize*2 + 2 + 1` bytes
that `WritePrivateProfileStructA` allocates, decoding the text produced by
the encoder with the expected length `buf.length` succeeds and yields
exactly `buf`. -/
theorem struct_round_trip (buf : List Nat) (hb : ∀ x ∈ buf, x < 256)
    (hlen : 2 * buf.length + 3 ≤ 2 ^ 32) :
    GetPrivateProfileStructA_decode (WritePrivateProfileStructA_outstring buf) buf.length
      = (true, buf) :=
  decode_outstring buf hb hlen

theorem struct_round_trip_witness :
    (∀ x ∈ [0, 10, 255], x < 256) ∧ 2 * [0, 10, 255].length + 3 ≤ 2 ^ 32 ∧
    GetPrivateProfileStructA_decode (WritePrivateProfileStructA_outstring [0, 10, 255])
      [0, 10, 255].length = (true, [0, 10, 255]) :=
  ⟨by decide, by decide, struct_round_trip [0, 10, 255] (by decide) (by decide)⟩

/-- C2, as stated, fails: the document loaded from `[a]` has an empty
first section, but after `PROFILE_Save` and `PROFILE_Load` the first section
holds a key with an empty name and no value, the blank line that
`PROFILE_Save` prints before the header `[a]`. -/
theorem load_save_adds_blank_key :
    PROFILE_Load (cs "[a]\n") =
      [{ name := [], key := [] }, { name := cs "a", key := [] }] ∧
    PROFILE_Load (PROFILE_Save (PROFILE_Load (cs "[a]\n"))) =
      [{ name := [], key := [{ name := [], value := none }] }, { name := cs "a", key := [] }] ∧
    PROFILE_Load (PROFILE_Save (PROFILE_Load (cs "[a]\n"))) ≠ PROFILE_Load (cs "[a]\n") := by
  decide

/-- C2, amended. Text round trip up to the blank line before a header: for
every document produced by `PROFILE_Load` from some input text in which every
section after the first has a non-empty name and whose saved lines fit the
line buffer, `PROFILE_Load (PROFILE_Save d)` is `padBlank d`: the same
sections in the same order with the same names, in each section the same keys
in the same order with the same names and values (absent values staying
absent), except that every section followed by another one gains one trailing
key with an empty name and no value unless it already ends in a key with an
empty name. -/
theorem load_save_round_trip (t : List Nat)
    (h1 : laterNamesNonEmpty (PROFILE_Load t) = true)
    (h2 : fitsLineBuffer (PROFILE_Load t) = true) :
    PROFILE_Load (PROFILE_Save (PROFILE_Load t)) = padBlank (PROFILE_Load t) :=
  reload_eq _ (Load_ok t) h1 h2

theorem load_save_round_trip_witness :
    laterNamesNonEmpty (PROFILE_Load (cs "x=1\n[a]\ny = 2 \n\n[b]\n;c\n=v\n")) = true ∧
    fitsLineBuffer (PROFILE_Load (cs "x=1\n[a]\ny = 2 \n\n[b]\n;c\n=v\n")) = true ∧
    PROFILE_Load (PROFILE_Save (PROFILE_Load (cs "x=1\n[a]\ny = 2 \n\n[b]\n;c\n=v\n"))) =
      padBlank (PROFILE_Load (cs "x=1\n[a]\ny = 2 \n\n[b]\n;c\n=v\n")) :=
  ⟨by decide, by decide,
    load_save_round_trip (cs "x=1\n[a]\ny = 2 \n\n[b]\n;c\n=v\n") (by decide) (by decide)⟩

/-- C3. Lookup with default: for every profile, section name `S`, key name
`K` with a first character, default `d` and `len`, `PROFILE_GetString`
returns the buffer that `PROFILE_CopyEntry` (no environment expansion, limit
`len`) fills from the stored value when `PROFILE_Find(S, K, FALSE, FALSE)`
locates a key with a present value, and from the default `d` when the lookup
finds nothing or the key has no value; the reported length is the length of
the text in the buffer.  On the document `[set1]\n1=hello` with default `x`
and `len` 10, key `1` gives `hello` (length 5) and key `2` gives `x`
(length 1). -/
theorem getString_lookup_with_default (getenv : List Nat → Option (List Nat)) (cur : PROFILE)
    (S K d buffer : List Nat) (len : Nat) (hK : K.headD 0 ≠ 0) :
    (∀ pos k v, (PROFILE_Find cur.«section» S K false false).2 = some pos →
        keyAt cur.«section» pos = some k → k.value = some v →
        PROFILE_GetString getenv cur (some S) (some K) (some d) buffer len =
          some (strlen (PROFILE_CopyEntry getenv buffer v len false),
            PROFILE_CopyEntry getenv buffer v len false)) ∧
    (((PROFILE_Find cur.«section» S K false false).2 = none ∨
        ∃ pos, (PROFILE_Find cur.«section» S K false false).2 = some pos ∧
          (keyAt cur.«section» pos = none ∨
            ∃ k, keyAt cur.«section» pos = some k ∧ k.value = none)) →
        PROFILE_GetString getenv cur (some S) (some K) (some d) buffer len =
          some (strlen (PROFILE_CopyEntry getenv buffer d len false),
            PROFILE_CopyEntry getenv buffer d len false)) ∧
    (∀ n b, PROFILE_GetString getenv cur (some S) (some K) (some d) buffer len = some (n, b) →
        n = (b.takeWhile (· ≠ 0)).length) ∧
    PROFILE_GetString (fun _ => none)
        { changed := false, «section» := PROFILE_Load (cs "[set1]\n1=hello"),
          dos_name := none, unix_name := none, filename := none, mtime := 0 }
        (some (cs "set1")) (some (cs "1")) (some (cs "x")) (List.replicate 10 42) 10
      = some (5, cs "hello" ++ [0, 42, 42, 42, 42]) ∧
    PROFILE_GetString (fun _ => none)
        { changed := false, «section» := PROFILE_Load (cs "[set1]\n1=hello"),
          dos_name := none, unix_name := none, filename := none, mtime := 0 }
        (some (cs "set1")) (some (cs "2")) (some (cs "x")) (List.replicate 10 42) 10
      = some (1, cs "x" ++ [0, 42, 42, 42, 42, 42, 42, 42, 42]) := by
  refine ⟨?_, ?_, ?_, ?_, ?_⟩
  · intro pos k v hpos hk hv
    simp only [PROFILE_GetString, hK, if_false, hpos, Option.some_bind, hk, hv, Option.getD_some]
  · rintro (hnone | ⟨pos, hpos, hnone | ⟨k, hk, hv⟩⟩)
    · simp only [PROFILE_GetString, hK, if_false, hnone, Option.none_bind, Option.getD_some]
    · simp only [PROFILE_GetString, hK, if_false, hpos, Option.some_bind, hnone,
        Option.getD_some]
    · simp only [PROFILE_GetString, hK, if_false, hpos, Option.some_bind, hk, hv,
        Option.getD_some, Option.getD_none]
  · intro n b h
    simp only [PROFILE_GetString, hK, if_false, Option.some.injEq, Prod.mk.injEq] at h
    obtain ⟨hn, hb⟩ := h
    rw [← hn, ← hb]
    rfl
  · decide
  · decide

theorem getString_lookup_with_default_witness :
    (cs "1").headD 0 ≠ 0 ∧
    PROFILE_GetString (fun _ => none)
        { changed := false, «section» := PROFILE_Load (cs "[set1]\n1=hello"),
          dos_name := none, unix_name := none, filename := none, mtime := 0 }
        (some (cs "set1")) (some (cs "1")) (some (cs "x")) (List.replicate 10 42) 10
      = some (5, cs "hello" ++ [0, 42, 42, 42, 42]) :=
  ⟨by decide,
    (getString_lookup_with_default (fun _ => none)
      { changed := false, «section» := PROFILE_Load (cs "[set1]\n1=hello"),
        dos_name := none, unix_name := none, filename := none, mtime := 0 }
      (cs "set1") (cs "1") (cs "x") (List.replicate 10 42) 10 (by decide)).2.2.2.1⟩

/-- C4. Lookup characterisation: on a chain of sections whose names are C
strings, for all C strings `S`, `K`, `PROFILE_Find(S, K, FALSE, FALSE)` leaves
the chain alone and returns the first key whose name equals `trim K` ignoring
ASCII case, searched only inside the first section whose name is non-empty
and equals `trim S` ignoring case, and `NULL` when there is no such section
or that section has no such key.  The names of a hit agree with the trimmed
queries character by character up to case (so a proper prefix is no hit), and
padding the queries with whitespace does not change the result. -/
theorem find_characterisation (sections : List PROFILESECTION) (S K : List Nat)
    (hc : namesAreCStrings sections) (hS : 0 ∉ S) (hK : 0 ∉ K) :
    PROFILE_Find sections S K false false = (sections, findSpec sections S K) ∧
    (∀ pos, (PROFILE_Find sections S K false false).2 = some pos →
      ∃ sec k, sections.get? pos.1 = some sec ∧ sec.key.get? pos.2 = some k ∧
        sec.name ≠ [] ∧ sec.name.map tolower = (trim S).map tolower ∧
        k.name.map tolower = (trim K).map tolower) ∧
    (∀ pre post pre' post' : List Nat,
      (∀ c ∈ pre ++ post ++ pre' ++ post', PROFILE_isspace c = true) →
      PROFILE_Find sections (pre ++ S ++ post) (pre' ++ K ++ post') false false =
        PROFILE_Find sections S K false false) := by
  have h1 := Find_eq_findSpec sections S K hc hS hK
  refine ⟨h1, ?_, ?_⟩
  · intro pos hpos
    rw [h1] at hpos
    exact findSpec_some sections S K pos hpos
  · intro pre post pre' post' hws
    have hpre : ∀ c ∈ pre, PROFILE_isspace c = true := fun c hc => hws c (by simp [hc])
    have hpost : ∀ c ∈ post, PROFILE_isspace c = true := fun c hc => hws c (by simp [hc])
    have hpre' : ∀ c ∈ pre', PROFILE_isspace c = true := fun c hc => hws c (by simp [hc])
    have hpost' : ∀ c ∈ post', PROFILE_isspace c = true := fun c hc => hws c (by simp [hc])
    rw [h1, Find_eq_findSpec sections _ _ hc (not_mem_pad pre S post hpre hpost hS)
      (not_mem_pad pre' K post' hpre' hpost' hK)]
    rw [findSpec_congr sections _ S _ K (trim_pad pre S post hpre hpost)
      (trim_pad pre' K post' hpre' hpost')]

theorem find_characterisation_witness :
    namesAreCStrings (PROFILE_Load (cs "[set1]\n1=hello\n11=no\n")) ∧
    0 ∉ cs "set1" ∧ 0 ∉ cs "1" ∧
    PROFILE_Find (PROFILE_Load (cs "[set1]\n1=hello\n11=no\n")) (cs "set1") (cs "1") false false
      = (PROFILE_Load (cs "[set1]\n1=hello\n11=no\n"), some (1, 0)) ∧
    PROFILE_Find (PROFILE_Load (cs "[set1]\n1=hello\n11=no\n")) (cs "set1") (cs "1   ")
      false false = (PROFILE_Load (cs "[set1]\n1=hello\n11=no\n"), some (1, 0)) ∧
    PROFILE_Find (PROFILE_Load (cs "[set1]\n1=hello\n11=no\n")) (cs "set1") (cs "  1  ")
      false false = (PROFILE_Load (cs "[set1]\n1=hello\n11=no\n"), some (1, 0)) := by
  have hc : namesAreCStrings (PROFILE_Load (cs "[set1]\n1=hello\n11=no\n")) := by
    unfold namesAreCStrings
    decide
  have h := find_characterisation (PROFILE_Load (cs "[set1]\n1=hello\n11=no\n"))
    (cs "set1") (cs "1") hc (by decide) (by decide)
  have e : findSpec (PROFILE_Load (cs "[set1]\n1=hello\n11=no\n")) (cs "set1") (cs "1")
      = some (1, 0) := by decide
  refine ⟨hc, by decide, by decide, ?_, ?_, ?_⟩
  · rw [h.1, e]
  · have := h.2.2 [] [] [] (cs "   ") (by decide)
    rw [h.1, e] at this
    exact this
  · have := h.2.2 [] [] (cs "  ") (cs "  ") (by decide)
    rw [h.1, e] at this
    exact this

/-- C5. Case-insensitivity: for every chain of sections and all names `S`,
`S'`, `K`, `K'` such that `S'` differs from `S` and `K'` from `K` only in
ASCII letter case (they agree after `tolower`), `PROFILE_Find` without
creation returns the same key position for (`S`, `K`) and (`S'`, `K'`), or
`NULL` for both. -/
theorem find_case_insensitive (sections : List PROFILESECTION) (S S' K K' : List Nat)
    (hS : S.map tolower = S'.map tolower) (hK : K.map tolower = K'.map tolower) :
    PROFILE_Find sections S K false false = PROFILE_Find sections S' K' false false := by
  have hS1 := dropWhile_map_tolower S S' hS
  have hK1 := dropWhile_map_tolower K K' hK
  simp only [PROFILE_Find]
  rw [trimTail_length_map_tolower _ _ hS1, trimTail_length_map_tolower _ _ hK1]
  exact Find_loop_congr _ _ _ _ _ _
    (fun name => strncasecmp_map_tolower _ name _ _ hS1)
    (fun name => strncasecmp_map_tolower _ name _ _ hK1) sections

theorem find_case_insensitive_witness :
    (cs "Foo").map tolower = (cs "foo").map tolower ∧
    (cs "Bar").map tolower = (cs "bar").map tolower ∧
    PROFILE_Find (PROFILE_Load (cs "[FOO]\nx=1\nbAR=2\n")) (cs "Foo") (cs "Bar") false false
      = PROFILE_Find (PROFILE_Load (cs "[FOO]\nx=1\nbAR=2\n")) (cs "foo") (cs "bar")
          false false ∧
    (PROFILE_Find (PROFILE_Load (cs "[FOO]\nx=1\nbAR=2\n")) (cs "foo") (cs "bar")
          false false).2 = some (1, 1) :=
  ⟨by decide, by decide,
    find_case_insensitive (PROFILE_Load (cs "[FOO]\nx=1\nbAR=2\n")) (cs "Foo") (cs "foo")
      (cs "Bar") (cs "bar") (by decide) (by decide),
    by decide⟩

/-- C6, as stated, fails: in the encoding `0A0A` of the one-byte buffer `0x0A`
the digit `A` at position 1 can be replaced by the different character `a`,
and the decoder still succeeds. -/
theorem struct_corruption_lowercase_accepted :
    ¬ (∀ (buf : List Nat) (i c : Nat), (∀ x ∈ buf, x < 256) →
        i < (WritePrivateProfileStructA_outstring buf).length →
        c ≠ (WritePrivateProfileStructA_outstring buf).getD i 0 →
        (GetPrivateProfileStructA_decode ((WritePrivateProfileStructA_outstring buf).set i c)
          buf.length).1 = false) := by
  intro h
  have := h [10] 1 97 (by decide) (by decide) (by decide)
  revert this
  decide

/-- C6, amended. Struct corruption is detected up to letter case: for every
byte buffer `buf`, every position `i` of the encoded text and every character
`c` whose upper-case form differs from the character at `i`, the decoder
applied to the text with position `i` replaced by `c` and the expected length
`buf.length` fails. -/
theorem struct_corruption_detected (buf : List Nat) (hb : ∀ x ∈ buf, x < 256) (i c : Nat)
    (hi : i < (WritePrivateProfileStructA_outstring buf).length)
    (hne : toupper c ≠ (WritePrivateProfileStructA_outstring buf).getD i 0) :
    (GetPrivateProfileStructA_decode ((WritePrivateProfileStructA_outstring buf).set i c)
      buf.length).1 = false :=
  decode_corrupted buf hb i c hi hne

theorem struct_corruption_detected_witness :
    (∀ x ∈ [10], x < 256) ∧ 1 < (WritePrivateProfileStructA_outstring [10]).length ∧
    toupper 98 ≠ (WritePrivateProfileStructA_outstring [10]).getD 1 0 ∧
    (GetPrivateProfileStructA_decode ((WritePrivateProfileStructA_outstring [10]).set 1 98)
      [10].length).1 = false :=
  ⟨by decide, by decide, by decide,
    struct_corruption_detected [10] (by decide) 1 98 (by decide) (by decide)⟩

/-- C7 (code defect). The stored text `3` with the expected length
`0x7FFFFFFF`: `strlen - 2` wraps to `0xFFFFFFFF`, half of it equals the
expected length, and the decoder reports success with no byte decoded. -/
theorem struct_decode_short_text_accepted :
    GetPrivateProfileStructA_decode (cs "3") 2147483647 = (true, []) := by decide

/-- C8. Struct encoding format: for every byte buffer `buf` of length `n` the
encoded text has length `2n+2`, consists only of the characters `0-9` and
`A-F`, its characters `2i` and `2i+1` are the hex digits of the high and the
low nibble of `buf[i]`, and its last two characters are the hex digits of the
high and the low nibble of the sum of all bytes modulo 256. -/
theorem struct_encoding_format (buf : List Nat) (hb : ∀ x ∈ buf, x < 256) :
    (WritePrivateProfileStructA_outstring buf).length = 2 * buf.length + 2 ∧
    (∀ c ∈ WritePrivateProfileStructA_outstring buf, 48 ≤ c ∧ c ≤ 57 ∨ 65 ≤ c ∧ c ≤ 70) ∧
    (∀ i, i < buf.length →
      (WritePrivateProfileStructA_outstring buf).getD (2 * i) 0
        = hex.getD (buf.getD i 0 / 16) 0 ∧
      (WritePrivateProfileStructA_outstring buf).getD (2 * i + 1) 0
        = hex.getD (buf.getD i 0 % 16) 0) ∧
    (WritePrivateProfileStructA_outstring buf).getD (2 * buf.length) 0
      = hex.getD (buf.sum % 256 / 16) 0 ∧
    (WritePrivateProfileStructA_outstring buf).getD (2 * buf.length + 1) 0
      = hex.getD (buf.sum % 256 % 16) 0 := by
  have hl := hexDigits_length buf
  have hx := hexDigits_isxdigit buf hb
  have hs1 := hex_facts (buf.sum % 256 / 16) (by omega)
  have hs2 := hex_facts (buf.sum % 16) (by omega)
  have hg1 := getD_append_add (hexDigits buf)
    [hex.getD (buf.sum % 256 / 16) 0, hex.getD (buf.sum % 16) 0] 0
  have hg2 := getD_append_add (hexDigits buf)
    [hex.getD (buf.sum % 256 / 16) 0, hex.getD (buf.sum % 16) 0] 1
  rw [hl] at hg1 hg2
  rw [Nat.add_zero] at hg1
  have e16 : buf.sum % 256 % 16 = buf.sum % 16 := by omega
  rw [outstring_eq, e16]
  refine ⟨by simp [hl], ?_, ?_, ?_, ?_⟩
  · intro c hc
    simp only [List.mem_append, List.mem_cons, List.mem_singleton, List.not_mem_nil,
      or_false] at hc
    rcases hc with hc | rfl | rfl
    · exact (hx c hc).2
    · exact hs1.2.2.2
    · exact hs2.2.2.2
  · intro i hi
    have h := hexDigits_getD buf i hi
    rw [List.getD_append _ _ _ _ (by rw [hl]; omega),
      List.getD_append _ _ _ _ (by rw [hl]; omega)]
    exact h
  · rw [hg1]; rfl
  · rw [hg2]; rfl

theorem struct_encoding_format_witness :
    (∀ x ∈ [10, 255], x < 256) ∧
    (WritePrivateProfileStructA_outstring [10, 255]).length = 2 * [10, 255].length + 2 ∧
    (WritePrivateProfileStructA_outstring [10, 255]).getD (2 * [10, 255].length + 1) 0
      = hex.getD ([10, 255].sum % 256 % 16) 0 :=
  ⟨by decide, (struct_encoding_format [10, 255] (by decide)).1,
    (struct_encoding_format [10, 255] (by decide)).2.2.2.2⟩

/-- C9, as stated, fails.  On a clean profile that already holds the result
of the first call, the second call changes the tree and sets the dirty flag
when the section name is empty (a nameless section never matches, so a new
one is appended), when the key name ends in whitespace (the name is stored
untrimmed and no longer matches its own trimmed query), and when the value
starts with whitespace (a new key stores it as given, the second call stores
it stripped). -/
theorem setString_not_idempotent :
    ((PROFILE_SetString (afterSetFlushed (cs "") (cs "K") (cs "V")) (cs "") (some (cs "K"))
        (some (cs "V")) false).1.changed = true ∧
      (PROFILE_SetString (afterSetFlushed (cs "") (cs "K") (cs "V")) (cs "") (some (cs "K"))
        (some (cs "V")) false).1.«section» ≠
        (afterSetFlushed (cs "") (cs "K") (cs "V")).«section») ∧
    ((PROFILE_SetString (afterSetFlushed (cs "S") (cs "K ") (cs "V")) (cs "S") (some (cs "K "))
        (some (cs "V")) false).1.changed = true ∧
      (PROFILE_SetString (afterSetFlushed (cs "S") (cs "K ") (cs "V")) (cs "S") (some (cs "K "))
        (some (cs "V")) false).1.«section» ≠
        (afterSetFlushed (cs "S") (cs "K ") (cs "V")).«section») ∧
    ((PROFILE_SetString (afterSetFlushed (cs "S") (cs "K") (cs " V")) (cs "S") (some (cs "K"))
        (some (cs " V")) false).1.changed = true ∧
      (PROFILE_SetString (afterSetFlushed (cs "S") (cs "K") (cs " V")) (cs "S") (some (cs "K"))
        (some (cs " V")) false).1.«section» ≠
        (afterSetFlushed (cs "S") (cs "K") (cs " V")).«section») := by
  decide

/-- C9, amended. Idempotent set: for every profile, every section name `S`
that has a first character once leading whitespace is skipped and does not
end in whitespace, every key name `K` that does not end in whitespace and
every value `V` that does not start with whitespace, on any profile `c` whose
tree is the tree left by `PROFILE_SetString(S, K, V, FALSE)` a second call
with the same arguments succeeds and returns `c` itself: the tree is
unchanged and the dirty flag is what it was (clean stays clean). -/
theorem setString_idempotent (cur : PROFILE) (S K V : List Nat)
    (hS0 : (S.dropWhile PROFILE_isspace).headD 0 ≠ 0) (hS : noTrailingSpace S = true)
    (hK : noTrailingSpace K = true) (hV : noLeadingSpace V = true) (c : PROFILE)
    (hc : c.«section» = (PROFILE_SetString cur S (some K) (some V) false).1.«section») :
    PROFILE_SetString c S (some K) (some V) false = (c, true) :=
  SetString_idem cur S K V hS0 hS hK hV c hc

theorem setString_idempotent_witness :
    ((cs "S").dropWhile PROFILE_isspace).headD 0 ≠ 0 ∧ noTrailingSpace (cs "S") = true ∧
    noTrailingSpace (cs "K") = true ∧ noLeadingSpace (cs "V") = true ∧
    (afterSetFlushed (cs "S") (cs "K") (cs "V")).«section» =
      (PROFILE_SetString emptyProfile (cs "S") (some (cs "K")) (some (cs "V")) false).1.«section» ∧
    PROFILE_SetString (afterSetFlushed (cs "S") (cs "K") (cs "V")) (cs "S") (some (cs "K"))
      (some (cs "V")) false = (afterSetFlushed (cs "S") (cs "K") (cs "V"), true) :=
  ⟨by decide, by decide, by decide, by decide, rfl,
    setString_idempotent emptyProfile (cs "S") (cs "K") (cs "V") (by decide) (by decide)
      (by decide) (by decide) (afterSetFlushed (cs "S") (cs "K") (cs "V")) rfl⟩

/-- C10 (code defect). With the empty string as key `PROFILE_GetString`
reports length 0 and returns at once: the caller's buffer is left as it was,
so no empty text (and no default) is written to it.  On a buffer filled with
`*` the text in the buffer after the call is still the run of `*`. -/
theorem getString_empty_key_leaves_buffer (getenv : List Nat → Option (List Nat))
    (cur : PROFILE) (S d : Option (List Nat)) (buffer : List Nat) (len : Nat) :
    PROFILE_GetString getenv cur S (some []) d buffer len = some (0, buffer) ∧
    PROFILE_GetString (fun _ => none)
        { changed := false, «section» := PROFILE_Load (cs "[set1]\n1=hello"),
          dos_name := none, unix_name := none, filename := none, mtime := 0 }
        (some (cs "set1")) (some (cs "")) (some (cs "x")) (cs "*********" ++ [0]) 10
      = some (0, cs "*********" ++ [0]) := by
  refine ⟨?_, by decide⟩
  simp [PROFILE_GetString]

/-- C11 (counterexample). `PROFILE_DeleteSection` removes only the first
section whose name matches, and it compares the name as given: on a document
with two sections `[set1]` the lookup after `PROFILE_SetString("set1", NULL, NULL)`
finds the key of the second section and yields `b`, not the default `x`; and
after `PROFILE_SetString(" set1", NULL, NULL)` nothing is removed, while the lookup,
which trims the name, still yields `hello`. -/
theorem delete_section_lookup_not_default :
    PROFILE_GetString (fun _ => none)
        (PROFILE_SetString
          { changed := false, «section» := PROFILE_Load (cs "[set1]\n1=a\n[set1]\n1=b\n"),
            dos_name := none, unix_name := none, filename := none, mtime := 0 }
          (cs "set1") none none false).1
        (some (cs "set1")) (some (cs "1")) (some (cs "x")) (List.replicate 10 42) 10
      = some (1, cs "b" ++ [0, 42, 42, 42, 42, 42, 42, 42, 42]) ∧
    PROFILE_GetString (fun _ => none)
        (PROFILE_SetString
          { changed := false, «section» := PROFILE_Load (cs "[set1]\n1=hello\n"),
            dos_name := none, unix_name := none, filename := none, mtime := 0 }
          (cs " set1") none none false).1
        (some (cs " set1")) (some (cs "1")) (some (cs "x")) (List.replicate 10 42) 10
      = some (5, cs "hello" ++ [0, 42, 42, 42, 42]) := by
  constructor <;> decide

/-- C11 (amended). Section delete then lookup: for every profile whose
section names are C strings and in which at most one section has a non-empty
name equal to `S` ignoring case, every name `S` without NUL and without
surrounding whitespace, every key `K` with a first character, default `d`
and `len`: after `PROFILE_SetString(S, NULL, NULL)` the call
`PROFILE_GetString(S, K, d, buffer, len)` copies the default `d` through
`PROFILE_CopyEntry` (which cuts it to `len - 1` characters) and returns its
length. -/
theorem delete_section_then_default (getenv : List Nat → Option (List Nat)) (cur : PROFILE)
    (S K d buffer : List Nat) (len : Nat)
    (hc : ∀ sec ∈ cur.«section», 0 ∉ sec.name) (hS : 0 ∉ S) (htrim : trim S = S)
    (hK : K.headD 0 ≠ 0)
    (hu : (cur.«section».filter
      (fun sec => sec.name != [] && eqIgnoreCase sec.name S)).length ≤ 1) :
    PROFILE_GetString getenv (PROFILE_SetString cur S none none false).1 (some S) (some K)
        (some d) buffer len =
      some (strlen (PROFILE_CopyEntry getenv buffer d len false),
        PROFILE_CopyEntry getenv buffer d len false) :=
  GetString_after_delete getenv cur S K d buffer len hc hS htrim hK hu

theorem delete_section_then_default_witness :
    PROFILE_GetString (fun _ => none)
        (PROFILE_SetString
          { changed := false, «section» := PROFILE_Load (cs "[set1]\n1=hello\n[set2]\n1=b\n"),
            dos_name := none, unix_name := none, filename := none, mtime := 0 }
          (cs "set1") none none false).1
        (some (cs "set1")) (some (cs "1")) (some (cs "x")) (List.replicate 10 42) 10
      = some (1, cs "x" ++ [0, 42, 42, 42, 42, 42, 42, 42, 42]) := by
  have h := delete_section_then_default (fun _ => none)
    { changed := false, «section» := PROFILE_Load (cs "[set1]\n1=hello\n[set2]\n1=b\n"),
      dos_name := none, unix_name := none, filename := none, mtime := 0 }
    (cs "set1") (cs "1") (cs "x") (List.replicate 10 42) 10
    (by decide) (by decide) (by decide) (by decide) (by decide)
  rw [h]
  decide

/-- C12. Section dump truncation: for every chain of sections in which `S`
selects a section whose key names and values are C strings, every `len` of at
least 3 (a length an `INT` holds) and every buffer of at least `len` bytes, with or
without values, `handle_env` being `FALSE` as in every call of the function:
if the complete listing of the section (each listed entry
followed by a NUL, plus one final NUL) needs more than `len` bytes,
`PROFILE_GetSection` returns exactly `len - 2`, and the bytes it wrote are some
bytes `w` followed by two NULs, reaching the last or the last but one byte of
the `len` bytes, the memory beyond being untouched. -/
theorem getSection_truncation (getenv : List Nat → Option (List Nat))
    (d : List PROFILESECTION) (S buffer : List Nat) (len : Nat) (rv : Bool)
    (sec : PROFILESECTION) (hsec : firstSection d S = some sec)
    (hk : keysAreCStrings sec.key) (h3 : 3 ≤ len) (h31 : len < 2147483648)
    (hbuf : len ≤ buffer.length) (hneed : len < (listing rv sec.key).length + 1) :
    (PROFILE_GetSection getenv d S buffer len false rv).1 = (len : Int) - 2 ∧
    ∃ w, (PROFILE_GetSection getenv d S buffer len false rv).2 =
        w ++ [0, 0] ++ buffer.drop (w.length + 2) ∧
      (w.length + 2 = len ∨ w.length + 2 = len - 1) :=
  GetSection_cut getenv d S buffer len rv sec hsec hk h3 (by omega) hbuf hneed

theorem getSection_truncation_witness :
    firstSection (PROFILE_Load (cs "[S]\nA\nB\nC\n")) (cs "S") =
      some { name := cs "S", key := [⟨cs "A", none⟩, ⟨cs "B", none⟩, ⟨cs "C", none⟩] } ∧
    (listing false [⟨cs "A", none⟩, ⟨cs "B", none⟩, ⟨cs "C", none⟩]).length + 1 = 7 ∧
    PROFILE_GetSection (fun _ => none) (PROFILE_Load (cs "[S]\nA\nB\nC\n")) (cs "S")
      (List.replicate 3 42) 3 false false = (1, [65, 0, 0]) ∧
    ((PROFILE_GetSection (fun _ => none) (PROFILE_Load (cs "[S]\nA\nB\nC\n")) (cs "S")
      (List.replicate 3 42) 3 false false).1 = ((3 : Nat) : Int) - 2 ∧
    ∃ w, (PROFILE_GetSection (fun _ => none) (PROFILE_Load (cs "[S]\nA\nB\nC\n")) (cs "S")
        (List.replicate 3 42) 3 false false).2 =
        w ++ [0, 0] ++ (List.replicate 3 42).drop (w.length + 2) ∧
      (w.length + 2 = 3 ∨ w.length + 2 = 3 - 1)) :=
  ⟨by decide, by decide, by decide,
    getSection_truncation (fun _ => none) (PROFILE_Load (cs "[S]\nA\nB\nC\n")) (cs "S")
      (List.replicate 3 42) 3 false
      { name := cs "S", key := [⟨cs "A", none⟩, ⟨cs "B", none⟩, ⟨cs "C", none⟩] }
      (by decide) (by unfold keysAreCStrings; decide) (by decide) (by decide) (by decide)
      (by decide)⟩

/-- C13 (counterexample). The result `len - 2` does not tell a cut listing
from a complete one.  The keys `A`, `B`, `C` have a complete listing of 7
bytes; with `len` 8 it is written in full and the result is 6 = `len - 2`; the
keys `A`, `B`, `C`, `D`, whose listing of 9 bytes does not fit, give with
`len` 8 the same result 6 and the same bytes.  With `len` 7, where the 7
bytes fit exactly, the result is 5 = `len - 2` and not the content length
6. -/
theorem getSection_result_ambiguous :
    (listing false [⟨cs "A", none⟩, ⟨cs "B", none⟩, ⟨cs "C", none⟩] ++ [0]).length = 7 ∧
    PROFILE_GetSection (fun _ => none) (PROFILE_Load (cs "[S]\nA\nB\nC\n")) (cs "S")
      (List.replicate 8 42) 8 false false = (6, [65, 0, 66, 0, 67, 0, 0, 42]) ∧
    PROFILE_GetSection (fun _ => none) (PROFILE_Load (cs "[S]\nA\nB\nC\nD\n")) (cs "S")
      (List.replicate 8 42) 8 false false = (6, [65, 0, 66, 0, 67, 0, 0, 42]) ∧
    PROFILE_GetSection (fun _ => none) (PROFILE_Load (cs "[S]\nA\nB\nC\n")) (cs "S")
      (List.replicate 7 42) 7 false false = (5, [65, 0, 66, 0, 67, 0, 0]) := by
  refine ⟨by decide, by decide, by decide, by decide⟩

/-- C13 (amended). Complete listing: for every chain of sections in which `S`
selects a section whose key names and values are C strings, every `len` (a
length an `INT` holds) and every buffer of at least `len` bytes, with or without
values, `handle_env` being `FALSE` as in every call of the function: whenever
the complete listing of the section including its final NUL
fits in `len - 1` bytes, `PROFILE_GetSection` writes the complete listing and
its final NUL, leaves the memory beyond untouched, and returns the content
length (the sum over the listed entries of length + 1). -/
theorem getSection_complete_listing (getenv : List Nat → Option (List Nat))
    (d : List PROFILESECTION) (S buffer : List Nat) (len : Nat) (rv : Bool)
    (sec : PROFILESECTION) (hsec : firstSection d S = some sec)
    (hk : keysAreCStrings sec.key) (h31 : len < 2147483648) (hbuf : len ≤ buffer.length)
    (hfit : (listing rv sec.key).length + 2 ≤ len) :
    PROFILE_GetSection getenv d S buffer len false rv =
      (((listing rv sec.key).length : Int),
        listing rv sec.key ++ 0 :: buffer.drop ((listing rv sec.key).length + 1)) :=
  GetSection_fit getenv d S buffer len rv sec hsec hk (by omega) hbuf hfit

theorem getSection_complete_listing_witness :
    firstSection (PROFILE_Load (cs "[S]\nA=1\nB\n;c\nC='x y'\n")) (cs "S") =
      some { name := cs "S", key := [⟨cs "A", some (cs "1")⟩, ⟨cs "B", none⟩,
        ⟨cs ";c", none⟩, ⟨cs "C", some (cs "'x y'")⟩] } ∧
    PROFILE_GetSection (fun _ => none) (PROFILE_Load (cs "[S]\nA=1\nB\n;c\nC='x y'\n"))
      (cs "S") (List.replicate 16 42) 14 false true =
      (12, cs "A=1" ++ [0] ++ cs "B" ++ [0] ++ cs "C=x y" ++ [0, 0, 42, 42, 42]) := by
  have hsec : firstSection (PROFILE_Load (cs "[S]\nA=1\nB\n;c\nC='x y'\n")) (cs "S") =
      some { name := cs "S", key := [⟨cs "A", some (cs "1")⟩, ⟨cs "B", none⟩,
        ⟨cs ";c", none⟩, ⟨cs "C", some (cs "'x y'")⟩] } := by decide
  refine ⟨hsec, ?_⟩
  rw [getSection_complete_listing (fun _ => none) _ (cs "S") (List.replicate 16 42) 14 true _
    hsec (by unfold keysAreCStrings; decide) (by decide) (by decide) (by decide)]
  decide

/-- C14. Section-name enumeration: for every profile whose section names are C
strings, every `len` of at least 2 (a length an `INT` holds) and every buffer
of at least `len` bytes, let `T` be the sum over the sections with a non-empty
name of (name length + 1), the length of `sectionNames`.  If `T + 1 ≤ len`,
`PROFILE_GetSectionNames` writes every non-empty section name in document order,
each followed by a NUL, then a final NUL, and returns `T`.  Otherwise it
returns `len - 2` and writes exactly `len` bytes: the first `len - 2` bytes of
the complete listing, then two NULs.  The memory beyond is untouched. -/
theorem getSectionNames_enumeration (cur : PROFILE) (buffer : List Nat) (len : Nat)
    (hc : ∀ sec ∈ cur.«section», 0 ∉ sec.name) (h2 : 2 ≤ len) (_h31 : len < 2147483648)
    (hbuf : len ≤ buffer.length) :
    ((sectionNames cur.«section»).length + 1 ≤ len →
      PROFILE_GetSectionNames cur buffer len =
        (((sectionNames cur.«section»).length : Int),
          sectionNames cur.«section» ++ 0 ::
            buffer.drop ((sectionNames cur.«section»).length + 1))) ∧
    (len < (sectionNames cur.«section»).length + 1 →
      PROFILE_GetSectionNames cur buffer len =
        ((len : Int) - 2,
          (sectionNames cur.«section»).take (len - 2) ++ [0, 0] ++ buffer.drop len)) :=
  GetSectionNames_spec cur buffer len hc h2 hbuf

theorem getSectionNames_enumeration_witness :
    sectionNames (PROFILE_Load (cs "[a]\nx=1\n[bc]\n")) = cs "a" ++ [0] ++ cs "bc" ++ [0] ∧
    PROFILE_GetSectionNames
      { changed := false, «section» := PROFILE_Load (cs "[a]\nx=1\n[bc]\n"),
        dos_name := none, unix_name := none, filename := none, mtime := 0 }
      (List.replicate 8 42) 6 = (5, cs "a" ++ [0] ++ cs "bc" ++ [0, 0, 42, 42]) ∧
    PROFILE_GetSectionNames
      { changed := false, «section» := PROFILE_Load (cs "[a]\nx=1\n[bc]\n"),
        dos_name := none, unix_name := none, filename := none, mtime := 0 }
      (List.replicate 8 42) 5 = (3, cs "a" ++ [0] ++ cs "b" ++ [0, 0, 42, 42, 42]) := by
  have h6 := (getSectionNames_enumeration
    { changed := false, «section» := PROFILE_Load (cs "[a]\nx=1\n[bc]\n"),
      dos_name := none, unix_name := none, filename := none, mtime := 0 }
    (List.replicate 8 42) 6 (by decide) (by decide) (by decide) (by decide)).1 (by decide)
  have h5 := (getSectionNames_enumeration
    { changed := false, «section» := PROFILE_Load (cs "[a]\nx=1\n[bc]\n"),
      dos_name := none, unix_name := none, filename := none, mtime := 0 }
    (List.replicate 8 42) 5 (by decide) (by decide) (by decide) (by decide)).2 (by decide)
  refine ⟨by decide, ?_, ?_⟩
  · rw [h6]; decide
  · rw [h5]; decide

/-- C15. Cache capacity: start from the initial state (no slot allocated) on a
file system where every path can be opened for writing, and take
`N_CACHED_PROFILES + 1` sessions `first`, `second`, `middle`, `last`, each a
`PROFILE_Open` on a file name followed by `PROFILE_SetString` and
`PROFILE_DeleteAllKeys` calls, whose names and resolved `short_name`s are
pairwise distinct C strings (the `short_name`s with a backslash).  Then every
call returns; the profile `d1` of the first file, as its session leaves it,
is written by the next `PROFILE_Open` if it is dirty (the file at its
`unix_name` then holds `PROFILE_Save` of its tree); before the last
`PROFILE_Open` the last slot holds that profile with the same tree and not
dirty; and after the last session the slots hold, in order, the files of
`last`, of `middle` reversed and of `second`: the other `N_CACHED_PROFILES`
files are resident and the first file is not. -/
theorem cache_capacity (h : Host) (fs : FileSystem) (first second last : List Nat × List Call)
    (middle : List (List Nat × List Call))
    (hlen : middle.length + 3 = N_CACHED_PROFILES + 1)
    (hok : ∀ s ∈ first :: second :: (middle ++ [last]),
      resolvesOK h s.1 = true ∧ ∀ c ∈ s.2, isEdit c = true)
    (hnames : ((first :: second :: (middle ++ [last])).map (fun s => s.1)).Nodup)
    (hshort : ((first :: second :: (middle ++ [last])).map (fun s =>
      (PROFILE_Open_full_name h s.1).map (fun f => f.short_name))).Nodup)
    (hw : ∀ p, fs.writable p = true) :
    ∃ s1 s2 st_pre st d1 d1',
      run h (Call.Open first.1 :: first.2) (State.init fs) = some s1 ∧
      s1.MRUProfile.head? = some d1 ∧ d1.filename = some first.1 ∧
      exec h (Call.Open second.1) s1 = some s2 ∧
      (d1.changed = true → ∃ u, d1.unix_name = some u ∧
        s2.fs.content u = some (PROFILE_Save d1.«section»)) ∧
      run h (sessionCalls (first :: second :: middle)) (State.init fs) = some st_pre ∧
      st_pre.MRUProfile.getLast? = some d1' ∧ d1'.filename = some first.1 ∧
      d1'.«section» = d1.«section» ∧ d1'.changed = false ∧
      run h (Call.Open last.1 :: last.2) st_pre = some st ∧
      run h (sessionCalls (first :: second :: (middle ++ [last]))) (State.init fs) = some st ∧
      st.MRUProfile.map (fun p => p.filename) =
        (last :: (second :: middle).reverse).map (fun s => some s.1) ∧
      ∀ p ∈ st.MRUProfile, p.filename ≠ some first.1 :=
  cache_capacity_run h fs first second last middle hlen hok hnames hshort hw

theorem cache_capacity_witness :
    (run exampleHost
        (sessionCalls ((cs "a.ini", [Call.SetString (cs "s") (some (cs "k")) (some (cs "v")) false])
          :: (cs "b.ini", []) :: (exampleMiddle ++ [(cs "k.ini", [])])))
        (State.init exampleFs)).map
        (fun st => (st.MRUProfile.map (fun p => p.filename),
          st.fs.content (cs "/dos/c:/windows/a.ini"))) =
      some ([107, 106, 105, 104, 103, 102, 101, 100, 99, 98].map (fun c => some (c :: cs ".ini")),
        some (cs "\r\n[s]\r\nk=v\r\n")) ∧
    ∃ s1 s2 st_pre st d1 d1',
      run exampleHost (Call.Open (cs "a.ini") ::
        [Call.SetString (cs "s") (some (cs "k")) (some (cs "v")) false])
        (State.init exampleFs) = some s1 ∧
      s1.MRUProfile.head? = some d1 ∧ d1.filename = some (cs "a.ini") ∧
      exec exampleHost (Call.Open (cs "b.ini")) s1 = some s2 ∧
      (d1.changed = true → ∃ u, d1.unix_name = some u ∧
        s2.fs.content u = some (PROFILE_Save d1.«section»)) ∧
      run exampleHost (sessionCalls ((cs "a.ini",
        [Call.SetString (cs "s") (some (cs "k")) (some (cs "v")) false]) :: (cs "b.ini", []) ::
        exampleMiddle)) (State.init exampleFs) = some st_pre ∧
      st_pre.MRUProfile.getLast? = some d1' ∧ d1'.filename = some (cs "a.ini") ∧
      d1'.«section» = d1.«section» ∧ d1'.changed = false ∧
      run exampleHost (Call.Open (cs "k.ini") :: []) st_pre = some st ∧
      run exampleHost (sessionCalls ((cs "a.ini",
        [Call.SetString (cs "s") (some (cs "k")) (some (cs "v")) false]) :: (cs "b.ini", []) ::
        (exampleMiddle ++ [(cs "k.ini", [])]))) (State.init exampleFs) = some st ∧
      st.MRUProfile.map (fun p => p.filename) =
        ((cs "k.ini", ([] : List Call)) :: ((cs "b.ini", []) :: exampleMiddle).reverse).map
          (fun s => some s.1) ∧
      ∀ p ∈ st.MRUProfile, p.filename ≠ some (cs "a.ini") :=
  ⟨by decide,
    cache_capacity exampleHost exampleFs
      (cs "a.ini", [Call.SetString (cs "s") (some (cs "k")) (some (cs "v")) false])
      (cs "b.ini", []) (cs "k.ini", []) exampleMiddle (by decide) (by decide) (by decide)
      (by decide) (fun _ => rfl)⟩

/-- C16. Unique residency: in every cache state reached from the initial
state (no slot allocated) by any sequence of `PROFILE_Open`, `PROFILE_SetString`,
`PROFILE_DeleteAllKeys`, `PROFILE_FlushFile` and `PROFILE_ReleaseFile` calls, on every
host and file system, the cache has `N_CACHED_PROFILES` slots once allocated,
and for any two different slots `i` and `j` a `filename` that is set in slot
`i` differs from the `filename` of slot `j`, and a `dos_name` that is set in
slot `i` differs from the `dos_name` of slot `j`. -/
theorem unique_residency (h : Host) (fs : FileSystem) (calls : List Call) (st : State)
    (hrun : run h calls (State.init fs) = some st) :
    (st.MRUProfile = [] ∨ st.MRUProfile.length = N_CACHED_PROFILES) ∧
    ∀ (i j : Nat) (p q : PROFILE), i ≠ j → st.MRUProfile[i]? = some p →
      st.MRUProfile[j]? = some q →
      (p.filename ≠ none → p.filename ≠ q.filename) ∧
        (p.dos_name ≠ none → p.dos_name ≠ q.dos_name) := by
  have hok := run_ok h calls (State.init fs) st hrun (CacheOK_init fs)
  refine ⟨hok.1, ?_⟩
  intro i j p q hij hp hq
  have hpw := List.pairwise_iff_getElem.1 hok.2
  obtain ⟨hi, hpi⟩ := List.getElem?_eq_some_iff.1 hp
  obtain ⟨hj, hqj⟩ := List.getElem?_eq_some_iff.1 hq
  rcases Nat.lt_or_gt_of_ne hij with hlt | hgt
  · have := hpw i j hi hj hlt
    rw [hpi, hqj] at this
    exact this
  · have := distinctNames_symm (hpw j i hj hi hgt)
    rw [hpi, hqj] at this
    exact this

theorem unique_residency_witness :
    ∃ st, run exampleHost
        (exampleOpens ++ [Call.SetString (cs "s") (some (cs "k")) (some (cs "v")) false,
          Call.Open (cs "C:\\WINDOWS\\A.INI"), Call.FlushFile, Call.ReleaseFile,
          Call.Open (cs "k.ini")]) (State.init exampleFs) = some st ∧
      st.MRUProfile.map (fun p => p.filename) =
        some (cs "k.ini") :: none :: [106, 105, 104, 103, 102, 101, 100, 99].map
          (fun c => some (c :: cs ".ini")) ∧
      ((st.MRUProfile = [] ∨ st.MRUProfile.length = N_CACHED_PROFILES) ∧
        ∀ (i j : Nat) (p q : PROFILE), i ≠ j → st.MRUProfile[i]? = some p →
          st.MRUProfile[j]? = some q →
          (p.filename ≠ none → p.filename ≠ q.filename) ∧
            (p.dos_name ≠ none → p.dos_name ≠ q.dos_name)) := by
  have hs : (run exampleHost
      (exampleOpens ++ [Call.SetString (cs "s") (some (cs "k")) (some (cs "v")) false,
        Call.Open (cs "C:\\WINDOWS\\A.INI"), Call.FlushFile, Call.ReleaseFile,
        Call.Open (cs "k.ini")]) (State.init exampleFs)).map
      (fun st => st.MRUProfile.map (fun p => p.filename)) =
      some (some (cs "k.ini") :: none :: [106, 105, 104, 103, 102, 101, 100, 99].map
        (fun c => some (c :: cs ".ini"))) := by decide
  obtain ⟨st, hst, hmap⟩ := Option.map_eq_some'.1 hs
  exact ⟨st, hst, hmap, unique_residency exampleHost exampleFs _ st hst⟩

/-- C17. Cache hit promotion: when the search of `PROFILE_Open` finds the
requested file, by `filename` or by `dos_name`, first in slot `i`: if `i` is 0
the call returns `TRUE` and leaves the state unchanged (no flush, no reload,
whatever the modification time of the file); if `i > 0` and
`PROFILE_FlushFile` returns, the state is that after `PROFILE_FlushFile` (which
touches slot 0 only, and neither its tree nor its names) with the hit profile
moved to slot 0, the former slots `0..i-1` in slots `1..i` in the same order,
the slots beyond `i` unchanged, and every tree as before. -/
theorem open_hit_promotion (h : Host) (filename : List Nat) (st : State)
    (full_name : DOS_FULL_NAME) (i : Nat)
    (hfull : PROFILE_Open_full_name h filename = some full_name)
    (hhit : (st.MRUProfile.take N_CACHED_PROFILES).findIdx?
      (PROFILE_Open_match filename full_name.short_name) = some i) :
    i < st.MRUProfile.length ∧
    (i = 0 → PROFILE_Open h filename st = some (st, true)) ∧
    (i ≠ 0 → ∀ r, PROFILE_FlushFile h st = some r →
      PROFILE_Open h filename st = some (⟨promote r.1.MRUProfile i, r.1.fs⟩, true) ∧
      r.1.MRUProfile.tail = st.MRUProfile.tail ∧
      r.1.MRUProfile.map (fun p => p.«section») = st.MRUProfile.map (fun p => p.«section») ∧
      r.1.MRUProfile.map identity = st.MRUProfile.map identity ∧
      ∀ j, (promote r.1.MRUProfile i)[j]? =
        if j = 0 then r.1.MRUProfile[i]? else if j ≤ i then r.1.MRUProfile[j - 1]?
        else r.1.MRUProfile[j]?) :=
  Open_hit_spec h filename st full_name i hfull hhit

theorem open_hit_promotion_witness :
    (PROFILE_Open exampleHost (cs "a.ini") ⟨exampleCache, exampleFs⟩).map
        (fun r => (r.1.MRUProfile, r.2,
          r.1.fs.content (cs "/dos/c:/windows/c.ini"))) =
      some ([exampleDoc 97 false, { exampleDoc 99 false with mtime := 7 }, exampleDoc 98 false] ++
        List.replicate 7 emptyProfile, true, some (PROFILE_Save (exampleDoc 99 true).«section»)) ∧
    (PROFILE_Open exampleHost (cs "c.ini") ⟨exampleCache, exampleFs⟩).map
        (fun r => (r.1.MRUProfile, r.2, r.1.fs.mtime (cs "/dos/c:/windows/c.ini"))) =
      some (exampleCache, true, none) := by
  have ha := open_hit_promotion exampleHost (cs "a.ini") ⟨exampleCache, exampleFs⟩
    ⟨cs "/dos/c:/windows/a.ini", cs "C:\\WINDOWS\\A.INI"⟩ 2 (by decide) (by decide)
  have hc := open_hit_promotion exampleHost (cs "c.ini") ⟨exampleCache, exampleFs⟩
    ⟨cs "/dos/c:/windows/c.ini", cs "C:\\WINDOWS\\C.INI"⟩ 0 (by decide) (by decide)
  have hflush := FlushFile_write exampleHost (exampleDoc 99 true)
    ([exampleDoc 98 false, exampleDoc 97 false] ++ List.replicate 7 emptyProfile) exampleFs
    (cs "C:\\WINDOWS\\C.INI") (cs "/dos/c:/windows/c.ini") rfl (by decide)
    (Or.inl ⟨by decide, rfl⟩)
  constructor
  · rw [(ha.2.2 (by decide) _ hflush).1]
    simp only [Option.map_some', Option.some.injEq, Prod.mk.injEq]
    refine ⟨by decide, trivial, ?_⟩
    simp [FileSystem.store]
  · rw [hc.2.1 rfl]
    rfl

/-- C18 (counterexample). After `PROFILE_Open` on ten files and a
`PROFILE_ReleaseFile`, slot 0 is Empty and the other nine slots are resident,
`a.ini` in the last one.  A `PROFILE_Open` on an eleventh name then misses
and, although slot 0 was Empty, recycles the last slot: `a.ini` is no longer
resident and the Empty slot is still there, in slot 1. -/
theorem open_miss_evicts_despite_empty_slot :
    (run exampleHost (exampleOpens ++ [Call.ReleaseFile]) (State.init exampleFs)).map
        (fun st => st.MRUProfile.map (fun p => p.filename)) =
      some (none :: [105, 104, 103, 102, 101, 100, 99, 98, 97].map
        (fun c => some (c :: cs ".ini"))) ∧
    (run exampleHost (exampleOpens ++ [Call.ReleaseFile, Call.Open (cs "new.ini")])
        (State.init exampleFs)).map (fun st => st.MRUProfile.map (fun p => p.filename)) =
      some (some (cs "new.ini") :: none :: [105, 104, 103, 102, 101, 100, 99, 98].map
        (fun c => some (c :: cs ".ini"))) := by
  constructor <;> decide

/-- C18 (amended). A miss recycles the last slot, whether or not another slot
is Empty.  First part: in every cache state with `N_CACHED_PROFILES` slots
whose `dos_name`s hold a backslash, a `PROFILE_Open` that resolves the name (to
a `short_name` with a backslash) and finds no match returns `TRUE`; afterwards
slot 0 holds the new file, and slots `1..N_CACHED_PROFILES-1` hold the former
slots `0..N_CACHED_PROFILES-2`, of which `PROFILE_FlushFile` touched slot 0
only and neither its tree nor its names.  So the profile of the last slot is
the one released, when it is resident, and every other resident profile stays
resident.  Second part: in a state reached from the initial one by calls other
than `PROFILE_ReleaseFile`, no resident slot follows an Empty one, so when the
last slot is resident every slot is. -/
theorem open_miss_recycles_last_slot (h : Host) :
    (∀ (filename : List Nat) (st : State) (full_name : DOS_FULL_NAME),
      st.MRUProfile.length = N_CACHED_PROFILES →
      PROFILE_Open_full_name h filename = some full_name →
      (st.MRUProfile.take N_CACHED_PROFILES).findIdx?
        (PROFILE_Open_match filename full_name.short_name) = none →
      dosNamesOK st.MRUProfile = true → 92 ∈ full_name.short_name →
      ∃ r new fs', PROFILE_FlushFile h st = some r ∧
        PROFILE_Open h filename st =
          some (⟨new :: r.1.MRUProfile.take (N_CACHED_PROFILES - 1), fs'⟩, true) ∧
        new.filename = some filename ∧ new.dos_name = some full_name.short_name ∧
        r.1.MRUProfile.tail = st.MRUProfile.tail ∧
        r.1.MRUProfile.map (fun p => p.«section») = st.MRUProfile.map (fun p => p.«section») ∧
        r.1.MRUProfile.map identity = st.MRUProfile.map identity) ∧
    (∀ (fs : FileSystem) (calls : List Call) (st : State) (last : PROFILE),
      (∀ c ∈ calls, isRelease c = false) → run h calls (State.init fs) = some st →
      st.MRUProfile.getLast? = some last → resident last = true →
      ∀ p ∈ st.MRUProfile, resident p = true) :=
  ⟨fun filename st full_name hlen hfull hmiss hbs hbs' =>
      Open_miss_spec h filename st full_name hlen hfull hmiss (dosNamesOK_spec _ hbs) hbs',
    fun _ calls st last hc hrun hl hr =>
      residentFirst_last _ last (run_residentFirst h calls _ st hc hrun List.Pairwise.nil) hl hr⟩

theorem open_miss_recycles_last_slot_witness :
    (∃ r new fs', PROFILE_FlushFile exampleHost ⟨exampleCache, exampleFs⟩ = some r ∧
      PROFILE_Open exampleHost (cs "new.ini") ⟨exampleCache, exampleFs⟩ =
        some (⟨new :: r.1.MRUProfile.take (N_CACHED_PROFILES - 1), fs'⟩, true) ∧
      new.filename = some (cs "new.ini") ∧ new.dos_name = some (cs "C:\\WINDOWS\\NEW.INI") ∧
      r.1.MRUProfile.tail = exampleCache.tail ∧
      r.1.MRUProfile.map (fun p => p.«section») = exampleCache.map (fun p => p.«section») ∧
      r.1.MRUProfile.map identity = exampleCache.map identity) ∧
    (∃ st, run exampleHost exampleOpens (State.init exampleFs) = some st ∧
      st.MRUProfile.length = N_CACHED_PROFILES ∧ ∀ p ∈ st.MRUProfile, resident p = true) := by
  refine ⟨(open_miss_recycles_last_slot exampleHost).1 (cs "new.ini") ⟨exampleCache, exampleFs⟩
    ⟨cs "/dos/c:/windows/new.ini", cs "C:\\WINDOWS\\NEW.INI"⟩ (by decide) (by decide)
    (by decide) (by decide) (by decide), ?_⟩
  have hs : (run exampleHost exampleOpens (State.init exampleFs)).isSome = true := by decide
  obtain ⟨st, hst⟩ := Option.isSome_iff_exists.1 hs
  have hl : (run exampleHost exampleOpens (State.init exampleFs)).bind
      (fun st => st.MRUProfile.getLast?.map resident) = some true := by decide
  have hn : (run exampleHost exampleOpens (State.init exampleFs)).map
      (fun st => st.MRUProfile.length) = some N_CACHED_PROFILES := by decide
  rw [hst] at hl hn
  simp only [Option.some_bind, Option.map_eq_some', Option.map_some', Option.some.injEq] at hl hn
  obtain ⟨last, hlast, hres⟩ := hl
  exact ⟨st, hst, hn, (open_miss_recycles_last_slot exampleHost).2 exampleFs exampleOpens st last
    (by decide) hst hlast hres⟩

/-- C19. Flush postcondition: on a cache whose current profile is `cur`,
`PROFILE_FlushFile` changes nothing and returns `TRUE` when `cur` is not dirty
or has no `dos_name`.  When `cur` is dirty and named and a file can be opened
for writing at `path` (its `unix_name`, or, when that cannot be opened or is
`NULL`, the path in the configuration directory), the file at `path` holds
`PROFILE_Save` of the tree afterwards, the dirty flag is false, the
modification time is that of the written file, the tree and the names are
unchanged, and the result is `TRUE`.  When neither path can be opened the
result is `FALSE` and nothing changes. -/
theorem flushFile_postcondition (h : Host) (cur : PROFILE) (rest : List PROFILE)
    (fs : FileSystem) :
    ((cur.changed = false ∨ cur.dos_name = none) →
      PROFILE_FlushFile h ⟨cur :: rest, fs⟩ = some (⟨cur :: rest, fs⟩, true)) ∧
    (∀ d path, cur.changed = true → cur.dos_name = some d →
      ((cur.unix_name = some path ∧ fs.writable path = true) ∨
        ((∀ u, cur.unix_name = some u → fs.writable u = false) ∧ configPath h d = some path ∧
          fs.writable path = true)) →
      PROFILE_FlushFile h ⟨cur :: rest, fs⟩ =
          some (⟨{ cur with changed := false, mtime := fs.now } :: rest,
            fs.store path (PROFILE_Save cur.«section»)⟩, true) ∧
        (fs.store path (PROFILE_Save cur.«section»)).content path =
          some (PROFILE_Save cur.«section»)) ∧
    (∀ d buffer, cur.changed = true → cur.dos_name = some d →
      (∀ u, cur.unix_name = some u → fs.writable u = false) →
      configPath h d = some buffer → fs.writable buffer = false →
      PROFILE_FlushFile h ⟨cur :: rest, fs⟩ = some (⟨cur :: rest, fs⟩, false)) :=
  ⟨FlushFile_clean h cur rest fs,
    fun d path hch hd hp =>
      ⟨FlushFile_write h cur rest fs d path hch hd hp, by simp [FileSystem.store]⟩,
    fun d buffer hch hd hu hcp hw => FlushFile_fail h cur rest fs d buffer hch hd hu hcp hw⟩

theorem flushFile_postcondition_witness :
    (PROFILE_FlushFile exampleHost ⟨[exampleDoc 99 false], exampleFs⟩).map
        (fun r => (r.1.MRUProfile, r.2, r.1.fs.content (cs "/dos/c:/windows/c.ini"))) =
      some ([exampleDoc 99 false], true, none) ∧
    (PROFILE_FlushFile exampleHost ⟨[exampleDoc 99 true], exampleFs⟩).map
        (fun r => (r.1.MRUProfile, r.2, r.1.fs.content (cs "/dos/c:/windows/c.ini"))) =
      some ([{ exampleDoc 99 false with mtime := 7 }], true,
        some (cs "\r\n[c]\r\nk=v\r\n")) ∧
    (PROFILE_FlushFile exampleHost
        ⟨[exampleDoc 99 true], { exampleFs with writable := fun _ => false }⟩).map
        (fun r => (r.1.MRUProfile, r.2, r.1.fs.content (cs "/dos/c:/windows/c.ini"))) =
      some ([exampleDoc 99 true], false, none) := by
  have h1 := (flushFile_postcondition exampleHost (exampleDoc 99 false) [] exampleFs).1
    (Or.inl rfl)
  have h2 := (flushFile_postcondition exampleHost (exampleDoc 99 true) [] exampleFs).2.1
    (cs "C:\\WINDOWS\\C.INI") (cs "/dos/c:/windows/c.ini") rfl (by decide)
    (Or.inl ⟨by decide, rfl⟩)
  have h3 := (flushFile_postcondition exampleHost (exampleDoc 99 true) []
    { exampleFs with writable := fun _ => false }).2.2
    (cs "C:\\WINDOWS\\C.INI") (cs "/home/u/.wine/c.ini") rfl (by decide)
    (fun _ _ => rfl) (by decide) rfl
  refine ⟨?_, ?_, ?_⟩
  · rw [h1]; rfl
  · rw [h2.1]
    simp only [Option.map_some', Option.some.injEq, Prod.mk.injEq]
    refine ⟨by decide, trivial, ?_⟩
    rw [h2.2]
    decide
  · rw [h3]; rfl

/-- C20. Release / flush-all: when `PROFILE_Open(filename)` returns `TRUE` with
the state `st1` and `PROFILE_FlushFile` returns on it,
`WritePrivateProfileStringA(NULL, NULL, NULL, filename)` returns `FALSE`; the
file system is that after `PROFILE_FlushFile` on `st1`, slot 0 is Empty (no
tree, no `filename`, no `dos_name`, no `unix_name`, not dirty, modification
time 0) and the other slots are those of `st1`. -/
theorem flush_all_request (h : Host) (filename : List Nat) (st st1 : State)
    (r : State × Bool) (hopen : PROFILE_Open h filename st = some (st1, true))
    (hflush : PROFILE_FlushFile h st1 = some r) :
    WritePrivateProfileStringA h none none none filename st =
      some (⟨{ changed := false, «section» := [], dos_name := none, unix_name := none,
               filename := none, mtime := 0 } :: st1.MRUProfile.tail, r.1.fs⟩, false) :=
  flush_all_spec h filename st st1 r hopen hflush

theorem flush_all_request_witness :
    (WritePrivateProfileStringA exampleHost none none none (cs "c.ini")
        ⟨exampleCache, exampleFs⟩).map
        (fun r => (r.1.MRUProfile, r.2, r.1.fs.content (cs "/dos/c:/windows/c.ini"))) =
      some (emptyProfile :: [exampleDoc 98 false, exampleDoc 97 false] ++
        List.replicate 7 emptyProfile, false, some (cs "\r\n[c]\r\nk=v\r\n")) := by
  have hopen : PROFILE_Open exampleHost (cs "c.ini") ⟨exampleCache, exampleFs⟩ =
      some (⟨exampleCache, exampleFs⟩, true) :=
    Open_of_hit_zero exampleHost (cs "c.ini") ⟨exampleCache, exampleFs⟩
      ⟨cs "/dos/c:/windows/c.ini", cs "C:\\WINDOWS\\C.INI"⟩ (by decide) (by decide)
  have hflush := FlushFile_write exampleHost (exampleDoc 99 true)
    ([exampleDoc 98 false, exampleDoc 97 false] ++ List.replicate 7 emptyProfile) exampleFs
    (cs "C:\\WINDOWS\\C.INI") (cs "/dos/c:/windows/c.ini") rfl (by decide)
    (Or.inl ⟨by decide, rfl⟩)
  rw [flush_all_request exampleHost (cs "c.ini") ⟨exampleCache, exampleFs⟩
    ⟨exampleCache, exampleFs⟩ _ hopen hflush]
  simp only [Option.map_some', Option.some.injEq, Prod.mk.injEq]
  refine ⟨by decide, trivial, ?_⟩
  simp only [FileSystem.store, if_true]
  decide

/-- C21. Quote stripping: for every value `raw` (a C string) and every `len`
greater than its length, the text `PROFILE_CopyEntry` leaves in the buffer
without environment handling is `raw` without its first and last character
when `raw` has at least two characters and its first and last characters
are the same quote character (`'` or `"`), and `raw` unchanged otherwise. -/
theorem copyEntry_quote_stripping (getenv : List Nat → Option (List Nat))
    (buffer raw : List Nat) (len : Nat) (h0 : 0 ∉ raw) (hlen : raw.length < len) :
    cstr (PROFILE_CopyEntry getenv buffer raw len false) =
      if 2 ≤ raw.length ∧ (raw.head? = some 39 ∨ raw.head? = some 34) ∧
          raw.getLast? = raw.head? then raw.tail.dropLast
      else raw := by
  have hs : (if 2 ≤ raw.length ∧ (raw.head? = some 39 ∨ raw.head? = some 34) ∧
      raw.getLast? = raw.head? then raw.tail.dropLast else raw) = stripQuotes raw := by
    unfold stripQuotes isQuoteWrapped
    by_cases h : 2 ≤ raw.length ∧ (raw.head? = some 39 ∨ raw.head? = some 34) ∧
        raw.getLast? = raw.head?
    · rw [if_pos h, if_pos]
      simpa [and_assoc] using h
    · rw [if_neg h, if_neg]
      simpa [and_assoc] using h
  rw [hs, CopyEntry_prefix getenv buffer raw len h0 (by omega)
    (fun h => by have := stripQuotes_length raw h.1; omega)]
  exact List.take_of_length_le (by have := stripQuotes_length_le raw; omega)

theorem copyEntry_quote_stripping_witness :
    cstr (PROFILE_CopyEntry (fun _ => none) (List.replicate 8 42) (cs "\"hello\"") 8 false) =
      cs "hello" ∧
    cstr (PROFILE_CopyEntry (fun _ => none) (List.replicate 8 42) (cs "\"hello'") 8 false) =
      cs "\"hello'" := by
  constructor
  · rw [copyEntry_quote_stripping (fun _ => none) _ (cs "\"hello\"") 8 (by decide) (by decide)]
    decide
  · rw [copyEntry_quote_stripping (fun _ => none) _ (cs "\"hello'") 8 (by decide) (by decide)]
    decide

/-- C22 (code defect). With environment handling the bound is exceeded: on the
value `${A}x`, with `A` set to `hello` and `len` 3, `PROFILE_CopyEntry` writes
the four bytes `h`, `e`, `x`, NUL.  The text has three characters, and the
byte at index 3, which follows the `len` bytes of the destination, is
overwritten.  The loop stays inside the value. -/
theorem copyEntry_env_overrun :
    exampleEnv (cs "A") = some (cs "hello") ∧
    PROFILE_CopyEntry exampleEnv (List.replicate 5 42) (cs "$\x7bA\x7dx") 3 true =
      cs "hex" ++ [0, 42] ∧
    PROFILE_CopyEntry_over exampleEnv (List.replicate 5 42) (cs "$\x7bA\x7dx") 3 = false := by
  refine ⟨by decide, by decide, by decide⟩

/-- C23 (code defect). A quoted value whose content has exactly `len - 1`
characters loses its last character: on `"abc"` with `len` 4,
`PROFILE_CopyEntry` without environment handling leaves `ab` in the buffer,
while the content `abc` has `len - 1` = 3 characters. -/
theorem copyEntry_exact_fit_drops_character :
    stripQuotes (cs "\"abc\"") = cs "abc" ∧
    cstr (PROFILE_CopyEntry (fun _ => none) (List.replicate 6 42) (cs "\"abc\"") 4 false) =
      cs "ab" := by
  constructor <;> decide

/-- C24 (counterexample). A name of 1024 characters is looked up by its first
1023 characters only: in an environment that sets `longName` to `v` and
nothing else, the value `x${` ++ `longName` ++ `}y` with `len` 10 gives `xy`,
not `xvy`. -/
theorem copyEntry_long_name_not_substituted :
    longName.length = 1024 ∧ longEnv longName = some (cs "v") ∧
    cstr (PROFILE_CopyEntry longEnv (List.replicate 10 42)
      (cs "x" ++ cs "$\x7b" ++ longName ++ cs "\x7d" ++ cs "y") 10 true) = cs "xy" := by
  refine ⟨by simp only [longName, List.length_replicate], by simp only [longEnv, if_true], ?_⟩
  have hmem : ∀ x ∈ longName, x = 65 := fun x hx => (List.mem_replicate.1 hx).2
  have h0 : 0 ∉ cs "x" ++ cs "$\x7b" ++ longName ++ cs "\x7d" ++ cs "y" := by
    intro hm
    simp only [List.mem_append] at hm
    rcases hm with (((hm | hm) | hm) | hm) | hm
    · revert hm; decide
    · revert hm; decide
    · exact absurd (hmem 0 hm) (by decide)
    · revert hm; decide
    · revert hm; decide
  have hq : isQuoteWrapped (cs "x" ++ cs "$\x7b" ++ longName ++ cs "\x7d" ++ cs "y") = false := by
    have hh : (cs "x" ++ cs "$\x7b" ++ longName ++ cs "\x7d" ++ cs "y").head? = some 120 := rfl
    have hb : (some 120 == some 39 || some 120 == some 34) = false := by decide
    simp only [isQuoteWrapped, hh, hb, Bool.and_false, Bool.false_and]
  have h := (CopyEntry_reference_text longEnv (List.replicate 10 42) (cs "x") longName (cs "y") 10
    h0 hq (by decide) (by decide) (fun hm => absurd (hmem 125 hm) (by decide)) (by decide)
    (by rw [longEnv_take]; exact List.not_mem_nil 0)
    (by rw [longEnv_take]; decide)).1
  rw [h, longEnv_take]
  decide

/-- C24 (amended). Environment substitution: with environment handling, for
every value `pre ++ "${" ++ name ++ "}" ++ post` (a C string) that is not
wrapped in quotes, where `pre` and `post` hold no `$`, `post` is not empty,
`name` holds no closing brace and has at most 1023 characters, and the
environment maps `name` to the C string `v`, and for every `len` larger than
the lengths of `pre`, `v` and `post` together, `PROFILE_CopyEntry` leaves
`pre ++ v ++ post` in the buffer, and it reads no byte after the end of the
value. -/
theorem copyEntry_env_substitution (getenv : List Nat → Option (List Nat))
    (buffer pre name post v : List Nat) (len : Nat)
    (h0 : 0 ∉ pre ++ cs "$\x7b" ++ name ++ cs "\x7d" ++ post)
    (hq : isQuoteWrapped (pre ++ cs "$\x7b" ++ name ++ cs "\x7d" ++ post) = false)
    (hpre : 36 ∉ pre) (hpost : 36 ∉ post) (hne : post ≠ []) (hname : 125 ∉ name)
    (hn : name.length ≤ 1023) (hv : getenv name = some v) (hv0 : 0 ∉ v)
    (hlen : pre.length + v.length + post.length < len) :
    cstr (PROFILE_CopyEntry getenv buffer (pre ++ cs "$\x7b" ++ name ++ cs "\x7d" ++ post) len
        true) = pre ++ v ++ post ∧
    PROFILE_CopyEntry_over getenv buffer (pre ++ cs "$\x7b" ++ name ++ cs "\x7d" ++ post) len =
      false := by
  have hw : (getenv (name.take 1023)).getD [] = v := by
    rw [List.take_of_length_le hn, hv]
    rfl
  have h := CopyEntry_reference_text getenv buffer pre name post len h0 hq hpre hpost hname hne
    (by rw [hw]; exact hv0) (by rw [hw]; exact hlen)
  rw [hw] at h
  exact h

theorem copyEntry_env_substitution_witness :
    exampleEnv (cs "A") = some (cs "hello") ∧
    cstr (PROFILE_CopyEntry exampleEnv (List.replicate 12 42)
      (cs "<" ++ cs "$\x7b" ++ cs "A" ++ cs "\x7d" ++ cs ">") 8 true) = cs "<hello>" := by
  refine ⟨by decide, ?_⟩
  have h := (copyEntry_env_substitution exampleEnv (List.replicate 12 42) (cs "<") (cs "A")
    (cs ">") (cs "hello") 8 (by decide) (by decide) (by decide) (by decide) (by decide)
    (by decide) (by decide) (by decide) (by decide) (by decide)).1
  rw [h]
  decide

/-- C25 (counterexample). A reference to a variable that is not set is
dropped, not kept: on the value `a${X}b`, `X` not being set, and `len` 10,
`PROFILE_CopyEntry` with environment handling leaves `ab` in the buffer. -/
theorem copyEntry_unset_reference_dropped :
    exampleEnv (cs "X") = none ∧
    cstr (PROFILE_CopyEntry exampleEnv (List.replicate 10 42) (cs "a$\x7bX\x7db") 10 true) =
      cs "ab" ∧
    PROFILE_CopyEntry_over exampleEnv (List.replicate 10 42) (cs "a$\x7bX\x7db") 10 = false := by
  refine ⟨by decide, by decide, by decide⟩

/-- C25 (amended). A reference to an unset variable is removed: with
environment handling, for every value `pre ++ "${" ++ name ++ "}" ++ post`
(a C string) that is not wrapped in quotes, where `pre` and `post` hold no
`$`, `post` is not empty, `name` holds no closing brace, has at most 1023
characters and is not set in the environment, and for every `len` larger
than the lengths of `pre` and `post` together (so for every `len` larger than
the length of the value), `PROFILE_CopyEntry` leaves `pre ++ post` in the
buffer, and it reads no byte after the end of the value. -/
theorem copyEntry_unset_reference_removed (getenv : List Nat → Option (List Nat))
    (buffer pre name post : List Nat) (len : Nat)
    (h0 : 0 ∉ pre ++ cs "$\x7b" ++ name ++ cs "\x7d" ++ post)
    (hq : isQuoteWrapped (pre ++ cs "$\x7b" ++ name ++ cs "\x7d" ++ post) = false)
    (hpre : 36 ∉ pre) (hpost : 36 ∉ post) (hne : post ≠ []) (hname : 125 ∉ name)
    (hn : name.length ≤ 1023) (hv : getenv name = none)
    (hlen : pre.length + post.length < len) :
    cstr (PROFILE_CopyEntry getenv buffer (pre ++ cs "$\x7b" ++ name ++ cs "\x7d" ++ post) len
        true) = pre ++ post ∧
    PROFILE_CopyEntry_over getenv buffer (pre ++ cs "$\x7b" ++ name ++ cs "\x7d" ++ post) len =
      false := by
  have hw : (getenv (name.take 1023)).getD [] = [] := by
    rw [List.take_of_length_le hn, hv]
    rfl
  have h := CopyEntry_reference_text getenv buffer pre name post len h0 hq hpre hpost hname hne
    (by rw [hw]; exact List.not_mem_nil 0) (by rw [hw]; simpa using hlen)
  rw [hw, List.append_nil] at h
  exact h

theorem copyEntry_unset_reference_removed_witness :
    exampleEnv (cs "X") = none ∧
    cstr (PROFILE_CopyEntry exampleEnv (List.replicate 12 42)
      (cs "<" ++ cs "$\x7b" ++ cs "X" ++ cs "\x7d" ++ cs ">") 8 true) = cs "<>" := by
  refine ⟨by decide, ?_⟩
  exact (copyEntry_unset_reference_removed exampleEnv (List.replicate 12 42) (cs "<") (cs "X")
    (cs ">") 8 (by decide) (by decide) (by decide) (by decide) (by decide)
    (by decide) (by decide) (by decide) (by decide)).1

/-- C26. Key-line parsing: for every line that is not recognised as a section
header (its first non-blank character is not `[`, or it holds no `]`), the
key `PROFILE_Load` reads from it is `parseKeyLine`: with `c` the line without
leading and trailing whitespace (CR, LF and 0x1A included), the name is the
text before the first `=` of `c` without trailing whitespace and the value
the text after that `=` without leading whitespace, present even when empty;
without a `=` the name is `c` and the value is absent.  The loop stores this
key at the end of the current section when the blank-run test
`PROFILE_Load_keep` lets it through, and a file that consists of this line
alone loads as the unnamed section with this one key. -/
theorem load_key_line_parsing (st : LoadState) (line : List Nat)
    (hh : isHeaderLine line = false) :
    PROFILE_Load_line st line =
      (if PROFILE_Load_keep (parseKeyLine line).name st.prev_key then
        { done := st.done,
          cur := { name := st.cur.name, key := st.cur.key ++ [parseKeyLine line] },
          prev_key := some (parseKeyLine line) }
      else st) ∧
    (IsLine line → PROFILE_Load line = [{ name := [], key := [parseKeyLine line] }]) := by
  refine ⟨Load_line_key st line hh, fun hl => ?_⟩
  have h := Load_lines_state [line] (fun l hm => by rw [List.mem_singleton.1 hm]; exact hl)
  rw [List.flatten_singleton] at h
  have hkeep : PROFILE_Load_keep (parseKeyLine line).name loadInit.prev_key = true := by
    simp [PROFILE_Load_keep, loadInit]
  rw [h, loadedState, List.foldl_cons, List.foldl_nil, Load_line_key loadInit line hh,
    if_pos hkeep]
  rfl

theorem load_key_line_parsing_witness :
    isHeaderLine (cs "  Key Name =  some value \r\n") = false ∧
    PROFILE_Load (cs "  Key Name =  some value \r\n") =
      [{ name := [], key := [{ name := cs "Key Name", value := some (cs "some value") }] }] ∧
    PROFILE_Load (cs "[no header\n") =
      [{ name := [], key := [{ name := cs "[no header", value := none }] }] := by
  refine ⟨by decide, ?_, ?_⟩
  · rw [(load_key_line_parsing loadInit (cs "  Key Name =  some value \r\n") (by decide)).2
      ⟨cs "  Key Name =  some value \r", by decide, by decide, by decide, by decide⟩]
    decide
  · rw [(load_key_line_parsing loadInit (cs "[no header\n") (by decide)).2
      ⟨cs "[no header", by decide, by decide, by decide, by decide⟩]
    decide

/-- C27. Section header parsing: let a line consist of blanks, `[`, a text
`name`, `]` and a rest without `]`, so that its first non-blank character is
`[` and the `]` is the last one on the line, and let it be followed by lines
`keys` that are no section headers.  After these lines the loop of
`PROFILE_Load` has put the section that was current before the header behind
the sections before it, and the current section is named exactly `name`
(whatever follows the last `]` is ignored) and holds the keys of `keys` in
input order, less those that blank-run collapsing discards.  For a file of
such lines (each at most 1023 characters with its newline, and without NUL)
in which the end of the file or a section header comes next, `PROFILE_Load`
yields the sections of the lines before the header, then this section, then
the later sections. -/
theorem load_section_header (before keys after : List (List Nat)) (blanks name tail : List Nat)
    (hb : ∀ c ∈ blanks, PROFILE_isspace c = true) (ht : 93 ∉ tail)
    (hk : ∀ l ∈ keys, isHeaderLine l = false ∧ 0 ∉ l) :
    ((loadedState (before ++ (blanks ++ 91 :: (name ++ 93 :: tail)) :: keys)).done =
        (loadedState before).done ++ [(loadedState before).cur] ∧
      (loadedState (before ++ (blanks ++ 91 :: (name ++ 93 :: tail)) :: keys)).cur =
        { name := name, key := collapseFrom none (keys.map parseKeyLine) }) ∧
    ((∀ l ∈ before ++ (blanks ++ 91 :: (name ++ 93 :: tail)) :: (keys ++ after), IsLine l) →
      (∀ l, after.head? = some l → isHeaderLine l = true) →
      ∃ later,
        PROFILE_Load
            (before ++ (blanks ++ 91 :: (name ++ 93 :: tail)) :: (keys ++ after)).flatten =
          PROFILE_Load before.flatten ++
            { name := name, key := collapseFrom none (keys.map parseKeyLine) } :: later) := by
  have hf := fold_key_lines keys
    { done := (loadedState before).done ++ [(loadedState before).cur],
      cur := { name := name, key := [] }, prev_key := none } hk (fun p hp => by cases hp)
  simp only [List.nil_append] at hf
  have hstate : loadedState (before ++ (blanks ++ 91 :: (name ++ 93 :: tail)) :: keys) =
      keys.foldl PROFILE_Load_line
        { done := (loadedState before).done ++ [(loadedState before).cur],
          cur := { name := name, key := [] }, prev_key := none } := by
    simp only [loadedState, List.foldl_append, List.foldl_cons,
      Load_line_section _ blanks name tail hb ht]
  refine ⟨by rw [hstate]; exact hf, fun hl ha => ?_⟩
  have hbefore : ∀ l ∈ before, IsLine l := fun l hm => hl l (List.mem_append_left _ hm)
  have hsplit : loadedState (before ++ (blanks ++ 91 :: (name ++ 93 :: tail)) :: (keys ++ after)) =
      after.foldl PROFILE_Load_line
        (loadedState (before ++ (blanks ++ 91 :: (name ++ 93 :: tail)) :: keys)) := by
    simp only [loadedState, List.foldl_append, List.foldl_cons]
  rw [Load_lines_state _ hl, Load_lines_state _ hbefore, hsplit]
  generalize loadedState (before ++ (blanks ++ 91 :: (name ++ 93 :: tail)) :: keys) = st3
    at hstate ⊢
  rw [← hstate] at hf
  cases after with
  | nil =>
    refine ⟨[], ?_⟩
    rw [List.foldl_nil, hf.1, hf.2]
  | cons a rest =>
    obtain ⟨nm, e⟩ := Load_line_of_header st3 a (ha a rfl)
    obtain ⟨later, hlater⟩ := fold_done_prefix rest (PROFILE_Load_line st3 a)
    refine ⟨later, ?_⟩
    rw [List.foldl_cons, hlater, e, hf.1, hf.2]
    simp

theorem load_section_header_witness :
    (loadedState [cs "a=1\n", cs " [x]y] ; rest\r\n", cs "k=v\n", cs "\n", cs "\n",
        cs "last\n"]).cur =
      { name := cs "x]y",
        key := [{ name := cs "k", value := some (cs "v") }, { name := [], value := none },
                { name := cs "last", value := none }] } ∧
    ∃ later,
      PROFILE_Load (cs "a=1\n" ++ cs " [x]y] ; rest\r\n" ++ cs "k=v\n" ++ cs "\n" ++ cs "\n" ++
          cs "last\n" ++ cs "[next]\n") =
        [{ name := [], key := [{ name := cs "a", value := some (cs "1") }] },
         { name := cs "x]y",
           key := [{ name := cs "k", value := some (cs "v") }, { name := [], value := none },
                   { name := cs "last", value := none }] }] ++ later := by
  have h := load_section_header [cs "a=1\n"]
    [cs "k=v\n", cs "\n", cs "\n", cs "last\n"] [cs "[next]\n"] (cs " ") (cs "x]y")
    (cs " ; rest\r\n") (by decide) (by decide) (by decide)
  constructor
  · have e : [cs "a=1\n", cs " [x]y] ; rest\r\n", cs "k=v\n", cs "\n", cs "\n", cs "last\n"] =
        [cs "a=1\n"] ++ (cs " " ++ 91 :: (cs "x]y" ++ 93 :: cs " ; rest\r\n")) ::
          [cs "k=v\n", cs "\n", cs "\n", cs "last\n"] := by decide
    rw [e, h.1.2]
    decide
  · obtain ⟨later, h2⟩ := h.2
      (by
        intro l hm
        simp only [List.singleton_append, List.mem_cons, List.mem_append, List.mem_singleton,
          List.not_mem_nil, or_false] at hm
        rcases hm with rfl | rfl | (rfl | rfl | rfl | rfl) | rfl
        · exact ⟨cs "a=1", by decide, by decide, by decide, by decide⟩
        · exact ⟨cs " [x]y] ; rest\r", by decide, by decide, by decide, by decide⟩
        · exact ⟨cs "k=v", by decide, by decide, by decide, by decide⟩
        · exact ⟨[], by decide, by decide, by decide, by decide⟩
        · exact ⟨[], by decide, by decide, by decide, by decide⟩
        · exact ⟨cs "last", by decide, by decide, by decide, by decide⟩
        · exact ⟨cs "[next]", by decide, by decide, by decide, by decide⟩)
      (by intro l hl; rw [← Option.some.inj hl]; decide)
    refine ⟨later, ?_⟩
    have e : cs "a=1\n" ++ cs " [x]y] ; rest\r\n" ++ cs "k=v\n" ++ cs "\n" ++ cs "\n" ++
        cs "last\n" ++ cs "[next]\n" =
        ([cs "a=1\n"] ++ (cs " " ++ 91 :: (cs "x]y" ++ 93 :: cs " ; rest\r\n")) ::
          ([cs "k=v\n", cs "\n", cs "\n", cs "last\n"] ++ [cs "[next]\n"])).flatten := by decide
    have e2 : PROFILE_Load [cs "a=1\n"].flatten ++
        [{ name := cs "x]y",
           key := collapseFrom none
             ([cs "k=v\n", cs "\n", cs "\n", cs "last\n"].map parseKeyLine) }] =
        [{ name := [], key := [{ name := cs "a", value := some (cs "1") }] },
         { name := cs "x]y",
           key := [{ name := cs "k", value := some (cs "v") }, { name := [], value := none },
                   { name := cs "last", value := none }] }] := by decide
    rw [e, h2, ← e2]
    simp

/-- C28. Blank-run collapsing: in the state `PROFILE_Load` has reached after
any lines, a line that is no section header is discarded, the state staying
as it was, if and only if the name of its key is empty and the current
section has a last stored key whose name is empty too; every other such line
is stored: its key is appended to the current section and becomes the key
stored last. -/
theorem load_blank_run_collapsing (lines : List (List Nat)) (line : List Nat)
    (hl : ∀ l ∈ lines, 0 ∉ l) (h0 : 0 ∉ line) (hh : isHeaderLine line = false) :
    (PROFILE_Load_line (loadedState lines) line = loadedState lines ↔
      (parseKeyLine line).name = [] ∧
        ∃ p, (loadedState lines).cur.key.getLast? = some p ∧ p.name = []) ∧
    (PROFILE_Load_line (loadedState lines) line ≠ loadedState lines →
      PROFILE_Load_line (loadedState lines) line =
        { done := (loadedState lines).done,
          cur := { name := (loadedState lines).cur.name,
                   key := (loadedState lines).cur.key ++ [parseKeyLine line] },
          prev_key := some (parseKeyLine line) }) := by
  have hfp := fold_prev_key lines loadInit hl ⟨rfl, fun p hp => by cases hp⟩
  have hprev : (loadedState lines).prev_key = (loadedState lines).cur.key.getLast? := hfp.1
  have hnul : ∀ p, (loadedState lines).prev_key = some p → 0 ∉ p.name := hfp.2
  have hn := parse_name_no_nul line h0
  have hiff := Load_keep_false_iff _ (loadedState lines).prev_key hn hnul
  rw [hprev] at hiff
  rw [Load_line_key _ line hh]
  cases hkeep : PROFILE_Load_keep (parseKeyLine line).name (loadedState lines).prev_key with
  | false =>
    have hkeep' := hkeep
    rw [hprev] at hkeep'
    rw [if_neg (by simp)]
    exact ⟨⟨fun _ => hiff.1 hkeep', fun _ => rfl⟩, fun h => absurd rfl h⟩
  | true =>
    have hkeep' := hkeep
    rw [hprev] at hkeep'
    rw [if_pos rfl]
    refine ⟨⟨fun h => ?_, fun h => ?_⟩, fun _ => rfl⟩
    · exfalso
      have h2 := congrArg (fun s => s.cur.key.length) h
      simp at h2
    · rw [hiff.2 h] at hkeep'
      cases hkeep'

theorem load_blank_run_collapsing_witness :
    PROFILE_Load_line (loadedState [cs "a=1\n", cs "\n"]) (cs "=x\n") =
      loadedState [cs "a=1\n", cs "\n"] ∧
    (loadedState [cs "a=1\n", cs "\n"]).cur.key =
      [{ name := cs "a", value := some (cs "1") }, { name := [], value := none }] :=
  ⟨(load_blank_run_collapsing [cs "a=1\n", cs "\n"] (cs "=x\n") (by decide) (by decide)
    (by decide)).1.2 ⟨by decide, ⟨{ name := [], value := none }, by decide, rfl⟩⟩, by decide⟩

/-- C29. Save format: for every chain of sections whose names are C strings,
`PROFILE_Save` prints exactly the concatenation, for each section in order,
of CR LF `[` name `]` CR LF when the name is not empty (nothing when it is
empty), followed for each key in order by the name, then `=` and the value
when the value is present, also when it is the empty string (nothing when it
is absent), then CR LF. -/
theorem save_format (d : List PROFILESECTION) (hc : ∀ sec ∈ d, 0 ∉ sec.name) :
    PROFILE_Save d = (d.map sectionPiece).flatten := by
  induction d with
  | nil => rfl
  | cons sec rest ih =>
    have h0 := hc sec (List.mem_cons_self _ _)
    rw [PROFILE_Save, ih (fun x hx => hc x (List.mem_cons_of_mem _ hx)), Save_keys_pieces,
      List.map_cons, List.flatten_cons, sectionPiece]
    have e1 : cs "\r\n[" = [13, 10, 91] := by decide
    have e2 : cs "]\r\n" = [93, 13, 10] := by decide
    rw [e1, e2]
    by_cases hn : sec.name = []
    · rw [if_pos hn, if_neg (by rw [hn]; simp)]
    · rw [if_neg hn, if_pos ((headD_ne_zero_iff sec.name h0).2 hn)]

theorem save_format_witness :
    PROFILE_Save
      [{ name := [], key := [{ name := cs "a", value := some [] }] },
       { name := cs "S", key := [{ name := cs "k", value := none },
                                 { name := cs "x", value := some (cs "1") }] }] =
      cs "a=\r\n\r\n[S]\r\nk\r\nx=1\r\n" := by
  rw [save_format _ (by decide)]
  decide

/-- C30. Find with create: for every chain of sections whose names are C
strings and names `S`, `K`, with `create` true and `create_always` false:
when no section matches `S`, `PROFILE_Find` appends after all sections one
new section that holds exactly one key, without a value, and returns that
key; when `sec`, in slot `i`, is the first section that matches `S` and none
of its keys matches `K`, it appends one new key without a value at the end
of `sec` and returns it; in both cases every other section and key keeps
its content and position; and when a key of `sec` matches, the chain is
unchanged and the first such key is returned. -/
theorem find_with_create (d : List PROFILESECTION) (S K : List Nat)
    (hc : namesAreCStrings d) (hS : 0 ∉ S) (hK : 0 ∉ K) :
    (d.findIdx? (sectionMatches S) = none →
      PROFILE_Find d S K true false =
        (d ++ [{ name := S.dropWhile PROFILE_isspace, key := [newKey K] }],
          some (d.length, 0))) ∧
    (∀ i sec, d.findIdx? (sectionMatches S) = some i → d[i]? = some sec →
      (sec.key.findIdx? (keyMatches K) = none →
        PROFILE_Find d S K true false =
          (d.set i { name := sec.name, key := sec.key ++ [newKey K] },
            some (i, sec.key.length))) ∧
      (∀ j, sec.key.findIdx? (keyMatches K) = some j →
        PROFILE_Find d S K true false = (d, some (i, j)))) := by
  have hnames : ∀ sec ∈ d, 0 ∉ sec.name := fun sec hm => (hc sec hm).1
  refine ⟨fun hnone => ?_, fun i sec hi hsec => ?_⟩
  · simp only [PROFILE_Find, trimTail_dropWhile]
    exact Find_loop_create_none S K hS d hnames hnone
  · have hmem : sec ∈ d := by
      obtain ⟨hlt, he⟩ := List.getElem?_eq_some_iff.1 hsec
      rw [← he]
      exact List.getElem_mem hlt
    have hloop := Find_loop_create_some S K hS d i sec hnames hi hsec
    rw [Find_key_create sec.key K (hc sec hmem).2 hK] at hloop
    refine ⟨fun hk => ?_, fun j hk => ?_⟩
    · simp only [PROFILE_Find, trimTail_dropWhile]
      rw [hloop, hk]
      rfl
    · simp only [PROFILE_Find, trimTail_dropWhile]
      rw [hloop, hk]
      simp only [Option.map_some']
      rw [set_getElem?_self d i _ hsec]

theorem find_with_create_witness :
    PROFILE_Find (PROFILE_Load (cs "[a]\nx=1\n")) (cs " A ") (cs " y") true false =
      ([{ name := [], key := [] },
        { name := cs "a", key := [{ name := cs "x", value := some (cs "1") },
                                  { name := cs "y", value := none }] }], some (1, 1)) ∧
    PROFILE_Find (PROFILE_Load (cs "[a]\nx=1\n")) (cs "b ") (cs "y") true false =
      ([{ name := [], key := [] },
        { name := cs "a", key := [{ name := cs "x", value := some (cs "1") }] },
        { name := cs "b ", key := [{ name := cs "y", value := none }] }], some (2, 0)) := by
  have h1 := find_with_create (PROFILE_Load (cs "[a]\nx=1\n")) (cs " A ") (cs " y")
    (by unfold namesAreCStrings; decide) (by decide) (by decide)
  have h2 := find_with_create (PROFILE_Load (cs "[a]\nx=1\n")) (cs "b ") (cs "y")
    (by unfold namesAreCStrings; decide) (by decide) (by decide)
  constructor
  · rw [(h1.2 1 { name := cs "a", key := [{ name := cs "x", value := some (cs "1") }] }
      (by decide) (by decide)).1 (by decide)]
    decide
  · rw [h2.1 (by decide)]
    decide

/-- C31. The `create_always` flag: on a chain of sections whose names are C
strings, when `sec`, in slot `i`, is the first section that matches `S`,
`PROFILE_Find(S, K, TRUE, TRUE)` leaves every section but this one as it was,
leaves the keys of `sec` unchanged and in order and appends one new key
without a value behind them, whether or not a key of `sec` matches `K`; the
key returned is the new one. -/
theorem find_create_always_appends (d : List PROFILESECTION) (S K : List Nat)
    (hc : ∀ sec ∈ d, 0 ∉ sec.name) (hS : 0 ∉ S) (i : Nat) (sec : PROFILESECTION)
    (hi : d.findIdx? (sectionMatches S) = some i) (hsec : d[i]? = some sec) :
    PROFILE_Find d S K true true =
      (d.set i { name := sec.name, key := sec.key ++ [newKey K] }, some (i, sec.key.length)) ∧
    keyAt (PROFILE_Find d S K true true).1 (i, sec.key.length) = some (newKey K) := by
  have h : PROFILE_Find d S K true true =
      (d.set i { name := sec.name, key := sec.key ++ [newKey K] },
        some (i, sec.key.length)) := by
    simp only [PROFILE_Find, trimTail_dropWhile]
    rw [Find_loop_select S K true true hS d i sec hc hi hsec]
    simp [PROFILE_Find_key, newKey]
  refine ⟨h, ?_⟩
  rw [h]
  exact keyAt_set_append d i sec (newKey K) hsec

theorem find_create_always_appends_witness :
    PROFILE_Find (PROFILE_Load (cs "[a]\nx=1\n")) (cs " A ") (cs "x") true true =
      ([{ name := [], key := [] },
        { name := cs "a", key := [{ name := cs "x", value := some (cs "1") },
                                  { name := cs "x", value := none }] }], some (1, 1)) := by
  rw [(find_create_always_appends (PROFILE_Load (cs "[a]\nx=1\n")) (cs " A ") (cs "x")
    (by decide) (by decide) 1
    { name := cs "a", key := [{ name := cs "x", value := some (cs "1") }] }
    (by decide) (by decide)).1]
  decide

/-- C32. A section whose stored name is empty is never selected by name.  For
every chain of sections and all names: the key `PROFILE_Find` finds without
`create` lies in a section with a name; the section `PROFILE_DeleteSection`
removes, and the one `PROFILE_DeleteKey` removes a key from, has a name;
`PROFILE_GetSection` gives the same result when the sections without a name
are taken out of the chain.  In particular, for a section name that is empty
or holds only whitespace `PROFILE_Find` without `create` finds nothing and
leaves the chain as it is, and with the empty name `PROFILE_DeleteSection`
and `PROFILE_DeleteKey` return `FALSE` and change nothing and
`PROFILE_GetSection` returns 0. -/
theorem empty_named_section_unreachable :
    (∀ (d : List PROFILESECTION) (S K : List Nat) (pos : Nat × Nat),
      (PROFILE_Find d S K false false).2 = some pos →
      ∃ sec, d[pos.1]? = some sec ∧ sec.name ≠ []) ∧
    (∀ (d : List PROFILESECTION) (name : List Nat), (PROFILE_DeleteSection d name).2 = true →
      ∃ pre sec post, d = pre ++ sec :: post ∧ sec.name ≠ [] ∧
        (PROFILE_DeleteSection d name).1 = pre ++ post) ∧
    (∀ (d : List PROFILESECTION) (S K : List Nat), (PROFILE_DeleteKey d S K).2 = true →
      ∃ pre sec post key, d = pre ++ sec :: post ∧ sec.name ≠ [] ∧
        (PROFILE_DeleteKey d S K).1 = pre ++ { name := sec.name, key := key } :: post) ∧
    (∀ (getenv : List Nat → Option (List Nat)) (d : List PROFILESECTION)
        (S buffer : List Nat) (len : Nat) (handle_env return_values : Bool),
      PROFILE_GetSection getenv d S buffer len handle_env return_values =
        PROFILE_GetSection getenv (d.filter (fun sec => sec.name != [])) S buffer len
          handle_env return_values) ∧
    (∀ (d : List PROFILESECTION) (S K : List Nat), (∀ c ∈ S, PROFILE_isspace c = true) →
      PROFILE_Find d S K false false = (d, none)) ∧
    (∀ d : List PROFILESECTION, PROFILE_DeleteSection d [] = (d, false)) ∧
    (∀ (d : List PROFILESECTION) (K : List Nat), PROFILE_DeleteKey d [] K = (d, false)) ∧
    (∀ (getenv : List Nat → Option (List Nat)) (d : List PROFILESECTION) (buffer : List Nat)
        (len : Nat) (handle_env return_values : Bool),
      PROFILE_GetSection getenv d [] buffer len handle_env return_values =
        (0, poke (poke buffer 1 0) 0 0)) := by
  have hne : ∀ sec : PROFILESECTION, sec.name.headD 0 ≠ 0 → sec.name ≠ [] := by
    intro sec h e
    rw [e] at h
    exact h rfl
  refine ⟨?_, ?_, ?_, ?_, ?_, ?_, ?_, ?_⟩
  · intro d S K pos h
    exact Find_loop_named _ _ _ _ false d pos h
  · intro d name h
    obtain ⟨pre, sec, post, hd, hsec, _, hr⟩ := (DeleteSection_shape name d).1 h
    exact ⟨pre, sec, post, hd, hne sec hsec.1, hr⟩
  · intro d S K h
    obtain ⟨pre, sec, post, k1, k, k2, hd, _, hsec, _, _, _, hr⟩ := (DeleteKey_shape S K d).1 h
    exact ⟨pre, sec, post, k1 ++ k2, hd, hne sec hsec.1, hr⟩
  · intro getenv d S buffer len he rv
    exact GetSection_named getenv S buffer len he rv d
  · intro d S K hS
    simp only [PROFILE_Find, dropWhile_all PROFILE_isspace S hS, trimTail, List.length_nil]
    exact Find_loop_blank _ _ false d
  · intro d
    have hall : ∀ s : PROFILESECTION, ¬ (s.name.headD 0 ≠ 0 ∧ strcasecmp s.name [] = 0) :=
      fun s h => strcasecmp_nil s.name h.1 h.2
    cases hr : (PROFILE_DeleteSection d []).2 with
    | true =>
      obtain ⟨pre, sec, post, _, hsec, _, _⟩ := (DeleteSection_shape [] d).1 hr
      exact absurd hsec (hall sec)
    | false => exact Prod.ext ((DeleteSection_shape [] d).2 hr).1 hr
  · intro d K
    cases hr : (PROFILE_DeleteKey d [] K).2 with
    | true =>
      obtain ⟨pre, sec, post, k1, k, k2, _, _, hsec, _⟩ := (DeleteKey_shape [] K d).1 hr
      exact absurd hsec.2 (strcasecmp_nil sec.name hsec.1)
    | false => exact Prod.ext ((DeleteKey_shape [] K d).2 hr).1 hr
  · intro getenv d buffer len he rv
    exact GetSection_nil_name getenv buffer len he rv d

theorem empty_named_section_unreachable_witness :
    (∃ sec, (PROFILE_Load (cs "x=1\n[a]\nx=2\n"))[1]? = some sec ∧ sec.name ≠ []) ∧
    PROFILE_Find (PROFILE_Load (cs "x=1\n[a]\nx=2\n")) (cs " ") (cs "x") false false =
      (PROFILE_Load (cs "x=1\n[a]\nx=2\n"), none) ∧
    (PROFILE_Find (PROFILE_Load (cs "x=1\n[a]\nx=2\n")) [] (cs "x") false false).2 = none :=
  ⟨empty_named_section_unreachable.1 (PROFILE_Load (cs "x=1\n[a]\nx=2\n")) (cs "a") (cs "x")
      (1, 0) (by decide),
    empty_named_section_unreachable.2.2.2.2.1 (PROFILE_Load (cs "x=1\n[a]\nx=2\n")) (cs " ")
      (cs "x") (by decide),
    by decide⟩

/-- C33. Section deletion: on a chain of sections whose names are C strings
and for a name that is a C string, `PROFILE_DeleteSection` returns `TRUE` if
and only if some section has a non-empty name equal to the given name
ignoring case; then the chain afterwards is the chain without the first such
section, all others in their order; when it returns `FALSE` the chain is
unchanged. -/
theorem deleteSection_spec (d : List PROFILESECTION) (name : List Nat)
    (hc : ∀ sec ∈ d, 0 ∉ sec.name) (hq : 0 ∉ name) :
    ((PROFILE_DeleteSection d name).2 = true ↔ ∃ sec ∈ d, sectionIs name sec = true) ∧
    ((PROFILE_DeleteSection d name).2 = true →
      ∃ pre sec post, d = pre ++ sec :: post ∧ sectionIs name sec = true ∧
        (∀ s ∈ pre, sectionIs name s = false) ∧
        (PROFILE_DeleteSection d name).1 = pre ++ post) ∧
    ((PROFILE_DeleteSection d name).2 = false → (PROFILE_DeleteSection d name).1 = d) := by
  have htrue : (PROFILE_DeleteSection d name).2 = true →
      ∃ pre sec post, d = pre ++ sec :: post ∧ sectionIs name sec = true ∧
        (∀ s ∈ pre, sectionIs name s = false) ∧
        (PROFILE_DeleteSection d name).1 = pre ++ post := by
    intro h
    obtain ⟨pre, sec, post, hd, hsec, hpre, hr⟩ := (DeleteSection_shape name d).1 h
    have hmem : sec ∈ d := by rw [hd]; simp
    refine ⟨pre, sec, post, hd, (sectionIs_iff name sec (hc sec hmem) hq).1 hsec, ?_, hr⟩
    intro s hs
    have hsm : s ∈ d := by rw [hd]; exact List.mem_append_left _ hs
    cases hb : sectionIs name s with
    | false => rfl
    | true => exact absurd ((sectionIs_iff name s (hc s hsm) hq).2 hb) (hpre s hs)
  refine ⟨⟨fun h => ?_, fun h => ?_⟩, htrue, fun h => ((DeleteSection_shape name d).2 h).1⟩
  · obtain ⟨pre, sec, post, hd, hsec, _, _⟩ := htrue h
    exact ⟨sec, by rw [hd]; simp, hsec⟩
  · obtain ⟨sec, hmem, hsec⟩ := h
    cases hr : (PROFILE_DeleteSection d name).2 with
    | true => rfl
    | false =>
      exact absurd ((sectionIs_iff name sec (hc sec hmem) hq).2 hsec)
        (((DeleteSection_shape name d).2 hr).2 sec hmem)

theorem deleteSection_spec_witness :
    PROFILE_DeleteSection (PROFILE_Load (cs "k\n[a]\nx=1\n[b]\n[A]\ny=2\n")) (cs "A") =
      ([{ name := [], key := [{ name := cs "k", value := none }] },
        { name := cs "b", key := [] },
        { name := cs "A", key := [{ name := cs "y", value := some (cs "2") }] }], true) := by
  have h := deleteSection_spec (PROFILE_Load (cs "k\n[a]\nx=1\n[b]\n[A]\ny=2\n")) (cs "A")
    (by decide) (by decide)
  have h2 : (PROFILE_DeleteSection (PROFILE_Load (cs "k\n[a]\nx=1\n[b]\n[A]\ny=2\n"))
      (cs "A")).2 = true :=
    h.1.2 ⟨{ name := cs "a", key := [{ name := cs "x", value := some (cs "1") }] },
      by decide, by decide⟩
  exact Prod.ext (by decide) h2

/-- C34. Key deletion: on a chain of sections whose names are C strings and
for names `S`, `K` that are C strings, `PROFILE_DeleteKey` returns `TRUE` if
and only if some section with a non-empty name equal to `S` ignoring case
holds a key whose name equals `K` ignoring case; then exactly one key is
removed, the first such key of the first such section that holds one, and
every other key and section keeps its content and place; when it returns
`FALSE` the chain is unchanged.  `PROFILE_SetString(S, K, NULL)` returns
`TRUE` in every case, puts the chain of `PROFILE_DeleteKey` in place and sets
the dirty flag to the old flag or the result of `PROFILE_DeleteKey`. -/
theorem deleteKey_spec (d : List PROFILESECTION) (S K : List Nat)
    (hc : namesAreCStrings d) (hS : 0 ∉ S) (hK : 0 ∉ K) :
    ((PROFILE_DeleteKey d S K).2 = true ↔
      ∃ sec ∈ d, sectionIs S sec = true ∧ ∃ k ∈ sec.key, keyIs K k = true) ∧
    ((PROFILE_DeleteKey d S K).2 = true →
      ∃ pre sec post k1 k k2, d = pre ++ sec :: post ∧ sec.key = k1 ++ k :: k2 ∧
        sectionIs S sec = true ∧ keyIs K k = true ∧
        (∀ s ∈ pre, sectionIs S s = true → ∀ x ∈ s.key, keyIs K x = false) ∧
        (∀ x ∈ k1, keyIs K x = false) ∧
        (PROFILE_DeleteKey d S K).1 = pre ++ { name := sec.name, key := k1 ++ k2 } :: post) ∧
    ((PROFILE_DeleteKey d S K).2 = false → (PROFILE_DeleteKey d S K).1 = d) ∧
    (∀ (cur : PROFILE) (create_always : Bool), cur.«section» = d →
      PROFILE_SetString cur S (some K) none create_always =
        ({ cur with changed := cur.changed || (PROFILE_DeleteKey d S K).2,
                    «section» := (PROFILE_DeleteKey d S K).1 }, true)) := by
  have hkey : ∀ s ∈ d, ∀ x ∈ s.key, (strcasecmp x.name K ≠ 0 ↔ keyIs K x = false) := by
    intro s hs x hx
    rw [Ne, keyIs_iff K x ((hc s hs).2 x hx) hK]
    simp
  have htrue : (PROFILE_DeleteKey d S K).2 = true →
      ∃ pre sec post k1 k k2, d = pre ++ sec :: post ∧ sec.key = k1 ++ k :: k2 ∧
        sectionIs S sec = true ∧ keyIs K k = true ∧
        (∀ s ∈ pre, sectionIs S s = true → ∀ x ∈ s.key, keyIs K x = false) ∧
        (∀ x ∈ k1, keyIs K x = false) ∧
        (PROFILE_DeleteKey d S K).1 = pre ++ { name := sec.name, key := k1 ++ k2 } :: post := by
    intro h
    obtain ⟨pre, sec, post, k1, k, k2, hd, hk, hsec, hkm, hpre, hk1, hr⟩ :=
      (DeleteKey_shape S K d).1 h
    have hmem : sec ∈ d := by rw [hd]; simp
    have hkmem : k ∈ sec.key := by rw [hk]; simp
    refine ⟨pre, sec, post, k1, k, k2, hd, hk, (sectionIs_iff S sec (hc sec hmem).1 hS).1 hsec,
      (keyIs_iff K k ((hc sec hmem).2 k hkmem) hK).1 hkm, ?_, ?_, hr⟩
    · intro s hs hm x hx
      have hsm : s ∈ d := by rw [hd]; exact List.mem_append_left _ hs
      exact (hkey s hsm x hx).1 (hpre s hs ((sectionIs_iff S s (hc s hsm).1 hS).2 hm) x hx)
    · intro x hx
      exact (hkey sec hmem x (by rw [hk]; exact List.mem_append_left _ hx)).1 (hk1 x hx)
  refine ⟨⟨fun h => ?_, fun h => ?_⟩, htrue, fun h => ((DeleteKey_shape S K d).2 h).1, ?_⟩
  · obtain ⟨pre, sec, post, k1, k, k2, hd, hk, hsec, hkm, _⟩ := htrue h
    exact ⟨sec, by rw [hd]; simp, hsec, k, by rw [hk]; simp, hkm⟩
  · obtain ⟨sec, hmem, hsec, k, hkmem, hkm⟩ := h
    cases hr : (PROFILE_DeleteKey d S K).2 with
    | true => rfl
    | false =>
      have := ((DeleteKey_shape S K d).2 hr).2 sec hmem
        ((sectionIs_iff S sec (hc sec hmem).1 hS).2 hsec) k hkmem
      rw [(hkey sec hmem k hkmem), hkm] at this
      cases this
  · intro cur ca hcur
    subst hcur
    rfl

theorem deleteKey_spec_witness :
    PROFILE_SetString
        { changed := false, «section» := PROFILE_Load (cs "[a]\nx=1\n[A]\nk=2\nK=3\n"),
          dos_name := none, unix_name := none, filename := none, mtime := 0 }
        (cs "a") (some (cs "K")) none false =
      ({ changed := true,
         «section» := [{ name := [], key := [] },
           { name := cs "a", key := [{ name := cs "x", value := some (cs "1") }] },
           { name := cs "A", key := [{ name := cs "K", value := some (cs "3") }] }],
         dos_name := none, unix_name := none, filename := none, mtime := 0 }, true) := by
  rw [(deleteKey_spec (PROFILE_Load (cs "[a]\nx=1\n[A]\nk=2\nK=3\n")) (cs "a") (cs "K")
    (by unfold namesAreCStrings; decide) (by decide) (by decide)).2.2.2
    { changed := false, «section» := PROFILE_Load (cs "[a]\nx=1\n[A]\nk=2\nK=3\n"),
      dos_name := none, unix_name := none, filename := none, mtime := 0 } false rfl]
  decide

/-- C35 (code defect). With `key_name` `NULL`, `PROFILE_GetString` returns the
length of the first key only: on the section `set1` with the keys `1`, `2`,
`3` and `len` 10 the buffer holds `1`, NUL, `2`, NUL, `3`, NUL, NUL, the
listing whose length `PROFILE_GetSection` reports as 6, but the result is 1,
the `strlen` of the buffer. -/
theorem getString_key_listing_length :
    PROFILE_GetString (fun _ => none)
        { changed := false, «section» := PROFILE_Load (cs "[set1]\n1=a\n2=b\n3=c\n"),
          dos_name := none, unix_name := none, filename := none, mtime := 0 }
        (some (cs "set1")) none (some (cs "x")) (List.replicate 10 42) 10 =
      some (1, [49, 0, 50, 0, 51, 0, 0, 42, 42, 42]) ∧
    PROFILE_GetSection (fun _ => none) (PROFILE_Load (cs "[set1]\n1=a\n2=b\n3=c\n"))
        (cs "set1") (List.replicate 10 42) 10 false false =
      (6, [49, 0, 50, 0, 51, 0, 0, 42, 42, 42]) := by
  constructor <;> decide

/-- C36 (code defect). The trailing spaces of a default are not removed: for
the default `x` followed by three spaces the default passed on is the same
text, and the lookup of a key that is absent, in a file that does not exist,
copies all four characters and returns 4.  Only a default made of spaces
alone is cut, to the empty text. -/
theorem default_trailing_spaces_kept :
    PROFILE_GetPrivateProfileString_pDefVal (some (cs "x   ")) = some (cs "x   ") ∧
    (PROFILE_GetPrivateProfileString exampleHost (fun _ => none) (some (cs "set1"))
        (some (cs "2")) (some (cs "x   ")) (List.replicate 10 42) 10 (some (cs "a.ini")) false
        (State.init exampleFs)).map (fun r => r.2) =
      some (4, cs "x   " ++ [0, 42, 42, 42, 42, 42]) ∧
    PROFILE_GetPrivateProfileString_pDefVal (some (cs "   ")) = some [] := by
  refine ⟨by decide, by decide, by decide⟩

/-- C37 (code defect). A section created under a name that ends in
whitespace is not found again under that name: on the empty profile, after
`PROFILE_SetString` has stored `v` under the key `k` of the section named `s`
followed by a space (the section is created with the space in its name),
`PROFILE_GetString` with the same names returns the default `d`; so does the
lookup after a key name with a space at its end. -/
theorem setString_then_getString_default :
    (PROFILE_SetString emptyProfile (cs "s ") (some (cs "k")) (some (cs "v")) false).1.«section» =
      [{ name := cs "s ", key := [{ name := cs "k", value := some (cs "v") }] }] ∧
    (PROFILE_GetString (fun _ => none)
        (PROFILE_SetString emptyProfile (cs "s ") (some (cs "k")) (some (cs "v")) false).1
        (some (cs "s ")) (some (cs "k")) (some (cs "d")) (List.replicate 4 42) 4).map
        (fun r => (r.1, cstr r.2)) = some (1, cs "d") ∧
    (PROFILE_GetString (fun _ => none)
        (PROFILE_SetString emptyProfile (cs "s") (some (cs "k ")) (some (cs "v")) false).1
        (some (cs "s")) (some (cs "k ")) (some (cs "d")) (List.replicate 4 42) 4).map
        (fun r => (r.1, cstr r.2)) = some (1, cs "d") := by
  refine ⟨by decide, by decide, by decide⟩

/-- C38. Save and load reach a fixed point after one pass: for every input
text `t`, with `d = PROFILE_Load (PROFILE_Save (PROFILE_Load t))`, a further
pass changes nothing, `PROFILE_Load (PROFILE_Save d) = d`.  This holds for
every text, whatever the length of its lines. -/
theorem save_load_fixed_point (t : List Nat) :
    PROFILE_Load (PROFILE_Save (PROFILE_Load (PROFILE_Save (PROFILE_Load t)))) =
      PROFILE_Load (PROFILE_Save (PROFILE_Load t)) := by
  have h1 := Load_Save_stored (PROFILE_Load t) (Load_SecOK t) (Load_bound t)
  have h2 := Load_Save_stored (PROFILE_Load (PROFILE_Save (PROFILE_Load t)))
    (Load_SecOK _) (Load_bound _)
  have h3 : items (PROFILE_Load (PROFILE_Save (PROFILE_Load t))) =
      stored false (items (PROFILE_Load t)) := by
    rw [h1, items_fold_place _ loadInit
      (stored_hdrNamed _ false (items_hdrNamed (PROFILE_Load t)))]
    rfl
  rw [h2, h3, stored_idem, ← h1]

/-- C39 (code defect). A stored text of odd length is accepted: for the text
`000` and the expected length 0 the length test `(strlen - 2) / 2 == len`
holds by integer division, the translation loop reads one digit and writes
nothing, the checksum digits read are the second and third character, and
the decoder returns `TRUE`, although the text has 3 characters and not
2 * 0 + 2. -/
theorem struct_decode_odd_length_accepted :
    GetPrivateProfileStructA_decode (cs "000") 0 = (true, []) ∧ (cs "000").length = 3 := by
  constructor <;> decide

/-- C40 (counterexample). A dirty profile can sit behind slot 0: after
`PROFILE_Open` on `a.ini`, `PROFILE_ReleaseFile`, a `PROFILE_SetString` on the
released slot and `PROFILE_Open` on `b.ini`, with every path writable, slot 1
holds the edited profile, without names and with its dirty flag set. -/
theorem dirty_slot_behind_current :
    (∀ path, exampleFs.writable path = true) ∧
    (run exampleHost exampleStray (State.init exampleFs)).map
        (fun st => st.MRUProfile.map (fun p => (p.dos_name, p.changed))) =
      some ((some (cs "C:\\WINDOWS\\B.INI"), false) :: (none, true) ::
        List.replicate 8 (none, false)) := by
  refine ⟨fun _ => rfl, by decide⟩

/-- C40 (amended). In every cache state reached from the initial empty cache
by calls of `PROFILE_Open`, `PROFILE_SetString`, `PROFILE_DeleteAllKeys`,
`PROFILE_FlushFile` and `PROFILE_ReleaseFile` on a file system where every
path can be opened for writing, every slot other than slot 0 that holds a
file (its `dos_name` is set) has its dirty flag false; and when every edit
among the calls finds a current profile that holds a file, every slot other
than slot 0 has its dirty flag false. -/
theorem dirty_only_in_current_slot (h : Host) (fs : FileSystem) (calls : List Call) (st : State)
    (hw : ∀ path, fs.writable path = true) (hrun : run h calls (State.init fs) = some st) :
    (∀ p ∈ st.MRUProfile.tail, p.dos_name ≠ none → p.changed = false) ∧
    (editsNamed h calls (State.init fs) = true → ∀ p ∈ st.MRUProfile.tail, p.changed = false) := by
  have h1 := run_named_clean h calls (State.init fs) st hrun hw
    (fun p hp => absurd hp (List.not_mem_nil p))
  refine ⟨h1, fun hed p hp => ?_⟩
  have h2 := run_unnamed_clean h calls (State.init fs) st hrun hed
    (fun p hp => absurd hp (List.not_mem_nil p))
  cases hd : p.dos_name with
  | none => exact h2 p (List.mem_of_mem_tail hp) hd
  | some d => exact h1 p hp (by rw [hd]; exact Option.noConfusion)

theorem dirty_only_in_current_slot_witness :
    ∃ st, run exampleHost exampleEdits (State.init exampleFs) = some st ∧
      (st.MRUProfile.head?.map (fun p => p.changed) = some false) ∧
      st.MRUProfile.length = N_CACHED_PROFILES ∧
      ∀ p ∈ st.MRUProfile.tail, p.changed = false := by
  have hs : (run exampleHost exampleEdits (State.init exampleFs)).isSome = true := by decide
  obtain ⟨st, hst⟩ := Option.isSome_iff_exists.1 hs
  have hn : (run exampleHost exampleEdits (State.init exampleFs)).map
      (fun st => (st.MRUProfile.head?.map (fun p => p.changed), st.MRUProfile.length)) =
      some (some false, N_CACHED_PROFILES) := by decide
  rw [hst] at hn
  simp only [Option.map_some', Option.some.injEq, Prod.mk.injEq] at hn
  exact ⟨st, hst, hn.1, hn.2,
    (dirty_only_in_current_slot exampleHost exampleFs exampleEdits st (fun _ => rfl) hst).2
      (by decide)⟩

end Profile
